import Mathlib

/-!
Synaptics TCM core: message framing, reassembly and command/response engine

A shallow embedding of `drivers/input/touchscreen/synaptics/td4150/synaptics_tcm_core.c`
(`syna_tcm_raw_write`, `syna_tcm_write_message`, `syna_tcm_continued_read`,
`syna_tcm_read_message` and the dispatch routines) together with the properties proved
about it.

Conventions of the embedding

* `unsigned int` values are natural numbers; every C operation that can leave the
  32-bit range is written with `add32`, `sub32` or `mul32` (reduction modulo `2^32`).
* A byte buffer is a list of naturals; its capacity (`buf_size`) is the length of the list.
* A run is a value of `Option _`: `none` stands for a call without a result: undefined
  behaviour of the C program (an access outside a buffer or array, or a division by
  zero), or a thread that blocks for ever on a mutex it holds itself.
* The buffer mutexes are taken and released in pairs on every path of the embedded
  functions but one, the jump to `retry:` after `STATUS_INVALID` in
  `syna_tcm_read_message`; there the mutex of `in.buf` is explicit (`LOCK_BUFFER`).
  Waiting for a mutex held by another thread is not modelled.
* The bus, the allocator and the contexts running while a command sleeps are external:
  they are the fields of `Env`.
* `trace` is ghost state: the ordered log of externally visible actions.
-/

namespace SynaTcm

/-! ## Constants -/

/-- Lower bound of the predictive read length (`#define MIN_READ_LENGTH 9`). -/
def MIN_READ_LENGTH : Nat := 9

/-- Alignment unit of a rom-boot download chunk (`#define ROMBOOT_DOWNLOAD_UNIT 16`). -/
def ROMBOOT_DOWNLOAD_UNIT : Nat := 16

/-- Bounds of the retry back-off of a read (`READ_RETRY_US_MIN`, `READ_RETRY_US_MAX`). -/
def READ_RETRY_US_MIN : Nat := 5000

/-- Upper bound of the retry back-off. -/
def READ_RETRY_US_MAX : Nat := 10000

/-- Bounds of the delay between the chunks of a write (`WRITE_DELAY_US_MIN`). -/
def WRITE_DELAY_US_MIN : Nat := 500

/-- Upper bound of the delay between the chunks of a write. -/
def WRITE_DELAY_US_MAX : Nat := 1000

/-- Modelled from the spec: `MESSAGE_MARKER` is declared in the header
`synaptics_tcm_core.h`, which is not part of the sources; the spec fixes the marker
sentinel to `0xA5`. -/
def MESSAGE_MARKER : Nat := 0xa5

/-- Modelled from the spec: `MESSAGE_PADDING` is declared in the missing header; the spec
fixes the padding sentinel to `0x5A`. -/
def MESSAGE_PADDING : Nat := 0x5a

/-- Modelled from the spec: `MESSAGE_HEADER_SIZE` is declared in the missing header; the
spec describes a 4-byte header (marker, code, 16-bit length). -/
def MESSAGE_HEADER_SIZE : Nat := 4

/-- Linux errno `EIO`. -/
def EIO : Int := 5

/-- Linux errno `ENXIO`. -/
def ENXIO : Int := 6

/-- Linux errno `ENOMEM`. -/
def ENOMEM : Int := 12

/-- Linux errno `EINVAL`. -/
def EINVAL : Int := 22

/-- Linux errno `ETIME`. -/
def ETIME : Int := 62

/-- The enumerators and configuration macros of the missing header
`synaptics_tcm_core.h`, taken as parameters of the embedding. -/
structure tcm_defs where
  STATUS_IDLE : Nat
  STATUS_OK : Nat
  STATUS_BUSY : Nat
  STATUS_CONTINUED_READ : Nat
  STATUS_ERROR : Nat
  STATUS_INVALID : Nat
  REPORT_IDENTIFY : Nat
  REPORT_TOUCH : Nat
  CMD_NONE : Nat
  CMD_CONTINUE_WRITE : Nat
  CMD_RESET : Nat
  CMD_RUN_BOOTLOADER_FIRMWARE : Nat
  CMD_RUN_APPLICATION_FIRMWARE : Nat
  CMD_ENTER_PRODUCTION_TEST_MODE : Nat
  CMD_ROMBOOT_RUN_BOOTLOADER_FIRMWARE : Nat
  CMD_ROMBOOT_DOWNLOAD : Nat
  MODE_ROMBOOTLOADER : Nat
  IS_FW_MODE : Nat → Bool
  RD_CHUNK_SIZE : Nat
  WR_CHUNK_SIZE : Nat
  HDL_WR_CHUNK_SIZE : Nat
  /-- The value of `sizeof(tcm_hcd->id_info)`. -/
  id_info_size : Nat
  /-- Offset of `id_info.mode`. -/
  id_mode : Nat
  /-- Offset of `id_info.build_id` (4 bytes). -/
  id_build_id : Nat
  /-- Offset of `id_info.max_write_size` (2 bytes). -/
  id_max_write_size : Nat

/-- The case labels of the `switch` in `syna_tcm_read_message` are pairwise different
constants (C requires it), the labelled codes lie in the guarded range
`code <= STATUS_ERROR`, and `STATUS_INVALID` lies outside of it. -/
def tcm_defs.status_labels (k : tcm_defs) : Prop :=
  k.STATUS_OK ≠ k.STATUS_CONTINUED_READ ∧ k.STATUS_OK ≠ k.STATUS_IDLE ∧
  k.STATUS_OK ≠ k.STATUS_BUSY ∧ k.STATUS_OK ≠ k.STATUS_INVALID ∧
  k.STATUS_IDLE ≤ k.STATUS_ERROR ∧ k.STATUS_BUSY ≤ k.STATUS_ERROR ∧
  k.STATUS_CONTINUED_READ ≤ k.STATUS_ERROR ∧ k.STATUS_OK ≤ k.STATUS_ERROR ∧
  k.STATUS_ERROR < k.STATUS_INVALID ∧
  k.STATUS_INVALID ≠ k.STATUS_IDLE ∧ k.STATUS_INVALID ≠ k.STATUS_BUSY ∧
  k.STATUS_INVALID ≠ k.STATUS_CONTINUED_READ

instance (k : tcm_defs) : Decidable k.status_labels := by
  unfold tcm_defs.status_labels
  infer_instance

/-- The values of the Synaptics TCM protocol, used for the concrete scenarios. -/
def tcm : tcm_defs where
  STATUS_IDLE := 0x00
  STATUS_OK := 0x01
  STATUS_BUSY := 0x02
  STATUS_CONTINUED_READ := 0x03
  STATUS_ERROR := 0x0f
  STATUS_INVALID := 0xff
  REPORT_IDENTIFY := 0x10
  REPORT_TOUCH := 0x11
  CMD_NONE := 0x00
  CMD_CONTINUE_WRITE := 0x01
  CMD_RESET := 0x04
  CMD_RUN_BOOTLOADER_FIRMWARE := 0x1f
  CMD_RUN_APPLICATION_FIRMWARE := 0x14
  CMD_ENTER_PRODUCTION_TEST_MODE := 0x31
  CMD_ROMBOOT_RUN_BOOTLOADER_FIRMWARE := 0x40
  CMD_ROMBOOT_DOWNLOAD := 0x41
  MODE_ROMBOOTLOADER := 0x04
  IS_FW_MODE := fun m => m == 0x01 || m == 0x02
  RD_CHUNK_SIZE := 512
  WR_CHUNK_SIZE := 512
  HDL_WR_CHUNK_SIZE := 512
  id_info_size := 24
  id_mode := 1
  id_build_id := 18
  id_max_write_size := 22

/-! ## 32-bit unsigned arithmetic -/

/-- Sum of two `unsigned int`. -/
def add32 (a b : Nat) : Nat := (a + b) % 4294967296

/-- Difference of two `unsigned int` (wraps below zero). -/
def sub32 (a b : Nat) : Nat := (a % 4294967296 + 4294967296 - b % 4294967296) % 4294967296

/-- Product of two `unsigned int`. -/
def mul32 (a b : Nat) : Nat := (a * b) % 4294967296

/-- The cast `(unsigned char)x`. -/
def u8 (x : Nat) : Nat := x % 256

/-- Modelled from the spec: `ceil_div` is defined in the missing header; the spec gives
`chunks = ceil(remaining_length / chunk_space)`. A zero divisor is a division by zero
in C. -/
def ceil_div (dividend divisor : Nat) : Option Nat :=
  if divisor = 0 then none else some ((dividend + divisor - 1) / divisor)

/-- Modelled from the spec: `le2_to_uint` is defined in the missing header; the spec
describes the length as a little-endian 16-bit number. Reads `src[off]`, `src[off+1]`. -/
def le2_to_uint (src : List Nat) (off : Nat) : Option Nat :=
  if off + 2 ≤ src.length then some (src.getD off 0 + 256 * src.getD (off + 1) 0) else none

/-- The 4-byte little-endian counterpart `le4_to_uint` of `le2_to_uint`. -/
def le4_to_uint (src : List Nat) (off : Nat) : Option Nat :=
  if off + 4 ≤ src.length then
    some (src.getD off 0 + 256 * src.getD (off + 1) 0 + 65536 * src.getD (off + 2) 0
      + 16777216 * src.getD (off + 3) 0)
  else none

/-! ## State -/

/-- The enumeration `command_status` of the outstanding command. -/
inductive command_status where
  | CMD_IDLE
  | CMD_BUSY
  | CMD_ERROR
  deriving DecidableEq, Repr

/-- The closed enumeration of deferred helper tasks. -/
inductive helper_task where
  | HELP_NONE
  | HELP_RUN_APPLICATION_FIRMWARE
  | HELP_SEND_REINIT_NOTIFICATION
  | HELP_TOUCH_REINIT
  | HELP_SEND_ROMBOOT_HDL
  deriving DecidableEq, Repr

export command_status (CMD_IDLE CMD_BUSY CMD_ERROR)
export helper_task (HELP_NONE HELP_RUN_APPLICATION_FIRMWARE HELP_SEND_REINIT_NOTIFICATION
  HELP_TOUCH_REINIT HELP_SEND_ROMBOOT_HDL)

/-- A `struct syna_tcm_buffer`: `buf` holds `buf_size = buf.length` bytes. -/
structure syna_tcm_buffer where
  buf : List Nat
  data_length : Nat
  deriving DecidableEq, Repr

/-- Capacity of a buffer. -/
def syna_tcm_buffer.buf_size (b : syna_tcm_buffer) : Nat := b.buf.length

/-- An entry of the module pool; `syncbox` tells whether the callback is set. -/
structure syna_tcm_module_handler where
  insert : Bool
  detach : Bool
  syncbox : Bool
  deriving DecidableEq, Repr

/-- Externally visible actions, logged in order. -/
inductive Event where
  /-- One bus read transaction of `n` bytes. -/
  | bus_read (n : Nat)
  /-- One bus write transaction sending `data`. -/
  | bus_write (data : List Nat)
  /-- An `atomic_set(&tcm_hcd->command_status, v)`. -/
  | set_command_status (v : command_status)
  /-- The call `complete(&response_complete)`. -/
  | complete
  /-- The call `reinit_completion(&response_complete)`. -/
  | reinit_completion
  /-- The call `wait_for_completion_timeout(&response_complete, ..)`. -/
  | wait_for_completion
  /-- A `usleep_range(min, max)`. -/
  | usleep_range (min max : Nat)
  /-- The call `queue_work(tcm_hcd->helper.workqueue, ..)`. -/
  | queue_helper_work
  /-- Cancelling and flushing the polling work. -/
  | cancel_polling
  /-- The call `queue_delayed_work(.., polling_delay_ms)`. -/
  | queue_polling (delay_ms : Nat)
  /-- Entry of `syna_tcm_dispatch_response`. -/
  | dispatch_response
  /-- Entry of `syna_tcm_dispatch_report` with the report view it builds. -/
  | dispatch_report (id : Nat) (payload : List Nat)
  /-- The touch callback `tcm_hcd->report_touch()`. -/
  | report_touch
  /-- The `syncbox` callback of the pool entry at position `pos`. -/
  | syncbox (pos : Nat)
  deriving DecidableEq, Repr

/-- The fields of `struct syna_tcm_hcd` (and of the globals `mod_pool` and
`response_complete`) that the modelled functions use. `D` is the state of the device
behind the bus. -/
structure syna_tcm_hcd (D : Type) where
  /-- Holds when `lp_state == PWR_OFF`. -/
  pwr_off : Bool
  do_polling : Bool
  is_detected : Bool
  in_hdl_mode : Bool
  /-- Holds when `atomic_read(&host_downloading)` is non-zero. -/
  host_downloading : Bool
  command_status : command_status
  command : Nat
  helper_task : helper_task
  status_report_code : Nat
  payload_length : Nat
  response_code : Nat
  read_length : Nat
  rd_chunk_size : Nat
  wr_chunk_size : Nat
  async_report_id : Nat
  packrat_number : Nat
  /-- The bytes of `id_info`. -/
  id_info : List Nat
  /-- The buffer `tcm_hcd->in`. -/
  inb : syna_tcm_buffer
  out : syna_tcm_buffer
  resp : syna_tcm_buffer
  temp : syna_tcm_buffer
  report_id : Nat
  /-- Tells whether the callback `report_touch` is set. -/
  has_report_touch : Bool
  /-- The list `mod_pool.list`, in registration order. -/
  mod_pool : List syna_tcm_module_handler
  /-- The counter `response_complete.done`. -/
  completion_done : Nat
  /-- Number of `kmalloc` calls made so far. -/
  kmallocs : Nat
  dev : D
  trace : List Event
  deriving DecidableEq

/-- External collaborators: the bus driver, the allocator, and the other execution
contexts. -/
structure Env (D : Type) where
  /-- A bus read of `n` bytes: return value (negative on failure), data, next device
  state. -/
  bus_read : D → Nat → Int × List Nat × D
  /-- A bus write: return value (negative on failure) and next device state. -/
  bus_write : D → List Nat → Int × D
  /-- Whether the `i`-th `kmalloc` call, asking for `size` bytes, succeeds. -/
  kmalloc_ok : Nat → Nat → Bool
  /-- What the other contexts (the reader path) do to the shared state while the caller
  sleeps in `wait_for_completion_timeout`. -/
  concurrent : syna_tcm_hcd D → syna_tcm_hcd D

variable {D : Type}

/-- Append an event to the log. -/
def syna_tcm_hcd.log (s : syna_tcm_hcd D) (e : Event) : syna_tcm_hcd D :=
  { s with trace := s.trace ++ [e] }

/-- The call `atomic_set(&tcm_hcd->command_status, v)`. -/
def syna_tcm_hcd.set_status (s : syna_tcm_hcd D) (v : SynaTcm.command_status) :
    syna_tcm_hcd D :=
  { s with command_status := v, trace := s.trace ++ [Event.set_command_status v] }

/-- The call `complete(&response_complete)`. -/
def syna_tcm_hcd.complete (s : syna_tcm_hcd D) : syna_tcm_hcd D :=
  { s with completion_done := s.completion_done + 1, trace := s.trace ++ [Event.complete] }

/-- The bus writes of a log, in order. -/
def bus_writes : List Event → List (List Nat)
  | [] => []
  | Event.bus_write d :: t => d :: bus_writes t
  | _ :: t => bus_writes t

/-- The sizes of the bus reads of a log, in order. -/
def bus_reads : List Event → List Nat
  | [] => []
  | Event.bus_read n :: t => n :: bus_reads t
  | _ :: t => bus_reads t

/-! ## Memory helpers -/

/-- The assignment `b[i] = v`; outside the buffer it is undefined behaviour. -/
def buf_set (b : List Nat) (i v : Nat) : Option (List Nat) :=
  if i < b.length then some (b.set i v) else none

/-- The read `b[i]`; outside the buffer it is undefined behaviour. -/
def buf_get (b : List Nat) (i : Nat) : Option Nat :=
  if i < b.length then some (b.getD i 0) else none

/-- Replace `count` bytes of `dest` from offset `doff` by `data`. -/
def splice (dest : List Nat) (doff : Nat) (data : List Nat) : List Nat :=
  dest.take doff ++ data ++ dest.drop (doff + data.length)

/-- Modelled from the spec: `secure_memcpy` is defined in the missing header; the spec
only says that a copy can fail. The call `secure_memcpy(&dest[doff], dest_size,
&src[soff], src_size, count)` fails with `-EINVAL` on a null source or when `count`
exceeds one of the two sizes it is given, and copies `count` bytes otherwise. `src = none`
is the array of a null base pointer. The real arrays are not known to the function: a
copy that leaves them is undefined behaviour. -/
def secure_memcpy (dest : List Nat) (doff dest_size : Nat) (src : Option (List Nat))
    (soff src_size count : Nat) : Option (Int × List Nat) :=
  if src = none ∧ soff = 0 then some (-EINVAL, dest)
  else if count > dest_size ∨ count > src_size then some (-EINVAL, dest)
  else if count = 0 then some (0, dest)
  else match src with
    | none => none
    | some a =>
      if soff + count ≤ a.length ∧ doff + count ≤ dest.length then
        some (0, splice dest doff ((a.drop soff).take count))
      else none

/-- Modelled from the spec: `syna_tcm_alloc_mem` is defined in the missing header; the
spec describes growable regions that never shrink and an allocation that can fail. The
buffer is replaced by a fresh one when `size` exceeds its capacity (`fresh` tells
whether that `kmalloc` succeeds), its bytes are cleared and `data_length` reset. -/
def syna_tcm_alloc_mem (fresh : Bool) (b : syna_tcm_buffer) (size : Nat) :
    Int × syna_tcm_buffer :=
  if size > b.buf_size then
    if fresh then (0, ⟨List.replicate size 0, 0⟩) else (-ENOMEM, ⟨[], 0⟩)
  else (0, ⟨List.replicate b.buf_size 0, 0⟩)

/-- Modelled from the spec: `syna_tcm_realloc_mem` is defined in the missing header; the
spec says the inbound buffer is reallocated to fit when a message exceeds its capacity
and never shrinks. The contents are kept, the new bytes are cleared. -/
def syna_tcm_realloc_mem (fresh : Bool) (b : syna_tcm_buffer) (size : Nat) :
    Int × syna_tcm_buffer :=
  if size > b.buf_size then
    if fresh then (0, ⟨b.buf ++ List.replicate (size - b.buf_size) 0, b.data_length⟩)
    else (-ENOMEM, ⟨[], 0⟩)
  else (0, b)

/-- Consult the allocator when a buffer of capacity `cap` has to hold `size` bytes: no
`kmalloc` happens when it already fits. -/
def kmalloc (env : Env D) (s : syna_tcm_hcd D) (cap size : Nat) : Bool × syna_tcm_hcd D :=
  if size > cap then (env.kmalloc_ok s.kmallocs size, { s with kmallocs := s.kmallocs + 1 })
  else (true, s)

/-- Exactly `n` bytes of a bus answer. -/
def fill (data : List Nat) (n : Nat) : List Nat :=
  (data ++ List.replicate n 0).take n

/-- Modelled from the spec: `syna_tcm_read` is defined in the missing header; the spec
says it performs exactly one bus transaction of exactly `n` bytes and fails on a bus
failure. Returns the return value and the new contents of `dst`. -/
def syna_tcm_read (env : Env D) (s : syna_tcm_hcd D) (dst : List Nat) (n : Nat) :
    Option (Int × List Nat × syna_tcm_hcd D) :=
  let r := env.bus_read s.dev n
  let s1 := { s with dev := r.2.2, trace := s.trace ++ [Event.bus_read n] }
  if r.1 < 0 then some (r.1, dst, s1)
  else if n ≤ dst.length then some (r.1, fill r.2.1 n ++ dst.drop n, s1)
  else none

/-- Modelled from the spec: `syna_tcm_write` is defined in the missing header; the spec
says it performs exactly one bus transaction of exactly `n` bytes and fails on a bus
failure. Sends the first `n` bytes of `src`. -/
def syna_tcm_write (env : Env D) (s : syna_tcm_hcd D) (src : List Nat) (n : Nat) :
    Option (Int × syna_tcm_hcd D) :=
  if n ≤ src.length then
    let r := env.bus_write s.dev (src.take n)
    some (r.1, { s with dev := r.2, trace := s.trace ++ [Event.bus_write (src.take n)] })
  else none

/-- How a chunk loop ends: it runs to completion, or it is left at the failure of an
allocation, of a copy, of a bus transaction, or at a chunk with a wrong marker or code. -/
inductive loop_exit where
  | completed
  | alloc_failed
  | copy_failed
  | bus_failed
  | bad_chunk
  deriving DecidableEq, Repr

/-! ## Writing: `syna_tcm_raw_write` and `syna_tcm_write_message` -/

/-- The transfer length of a chunk: `chunk_space` when more than that remains, else what
remains. -/
def chunk_xfer_length (remaining_length chunk_space : Nat) : Nat :=
  if remaining_length > chunk_space then chunk_space else remaining_length

/-- The filling of `out.buf` for the chunk at index `idx` in `syna_tcm_raw_write` (lines
762 to 776): the command or `CMD_CONTINUE_WRITE`, then the data from
`data[idx * chunk_space]`. -/
def raw_write_fill (k : tcm_defs) (command : Nat) (data : Option (List Nat))
    (chunk_space idx remaining_length : Nat) (out_buf : List Nat) : Option (Int × List Nat) := do
  let xfer_length := chunk_xfer_length remaining_length chunk_space
  let b0 ← buf_set out_buf 0 (if idx = 0 then command else k.CMD_CONTINUE_WRITE)
  if xfer_length ≠ 0 then
    secure_memcpy b0 1 (sub32 b0.length 1) data (mul32 idx chunk_space)
      remaining_length xfer_length
  else some (0, b0)

/-- The body of the chunk loop of `syna_tcm_raw_write` at index `idx`: `completed` when
the iteration reaches its end, else the failure that leaves the function, with `retval`. -/
def raw_write_chunk (k : tcm_defs) (env : Env D) (command : Nat) (data : Option (List Nat))
    (chunk_space idx remaining_length : Nat) (s : syna_tcm_hcd D) :
    Option (loop_exit × Int × syna_tcm_hcd D) :=
  let xfer_length := chunk_xfer_length remaining_length chunk_space
  let a := kmalloc env s s.out.buf_size (add32 xfer_length 1)
  let m := syna_tcm_alloc_mem a.1 a.2.out (add32 xfer_length 1)
  let s1 := { a.2 with out := m.2 }
  if m.1 < 0 then some (loop_exit.alloc_failed, m.1, s1)
  else do
    let c ← raw_write_fill k command data chunk_space idx remaining_length s1.out.buf
    let s2 := { s1 with out := { s1.out with buf := c.2 } }
    if c.1 < 0 then some (loop_exit.copy_failed, c.1, s2)
    else do
      let w ← syna_tcm_write env s2 s2.out.buf (add32 xfer_length 1)
      if w.1 < 0 then some (loop_exit.bus_failed, w.1, w.2)
      else some (loop_exit.completed, w.1, w.2)

/-- The chunk loop of `syna_tcm_raw_write`, with `n` iterations left. The result tells
how the loop ended and gives `retval`. -/
def raw_write_loop (k : tcm_defs) (env : Env D) (command : Nat) (data : Option (List Nat))
    (chunk_space : Nat) :
    Nat → Nat → Nat → Int → syna_tcm_hcd D → Option (loop_exit × Int × syna_tcm_hcd D)
  | 0, _, _, retval, s => some (loop_exit.completed, retval, s)
  | n + 1, idx, remaining_length, _, s => do
    let r ← raw_write_chunk k env command data chunk_space idx remaining_length s
    if r.1 ≠ loop_exit.completed then some r
    else
      raw_write_loop k env command data chunk_space n (idx + 1)
        (sub32 remaining_length (chunk_xfer_length remaining_length chunk_space)) r.2.1 r.2.2

/-- The function `syna_tcm_raw_write(tcm_hcd, command, data, length)`. -/
def syna_tcm_raw_write (k : tcm_defs) (env : Env D) (s : syna_tcm_hcd D) (command : Nat)
    (data : Option (List Nat)) (length : Nat) : Option (Int × syna_tcm_hcd D) := do
  let remaining_length := length
  let chunk_space := if s.wr_chunk_size = 0 then remaining_length else sub32 s.wr_chunk_size 1
  let chunks ← ceil_div remaining_length chunk_space
  let chunks := if chunks = 0 then 1 else chunks
  let r ← raw_write_loop k env command data chunk_space chunks 0 remaining_length 0 s
  if r.1 = loop_exit.completed then some (0, r.2.2) else some (r.2.1, r.2.2)

/-- The filling of `out.buf` for the chunk at index `idx` in `syna_tcm_write_message`
(lines 1085 to 1113): the first chunk takes the command, the two length bytes and the
head of the payload, a later chunk takes `CMD_CONTINUE_WRITE` and the payload from
`payload[idx * chunk_space - 2]`. Gives the value returned by `secure_memcpy` (`0` when
no copy is made) and the new contents. -/
def write_message_fill (k : tcm_defs) (command : Nat) (payload : Option (List Nat))
    (length chunk_space idx remaining_length : Nat) (out_buf : List Nat) :
    Option (Int × List Nat) :=
  let xfer_length := chunk_xfer_length remaining_length chunk_space
  if idx = 0 then do
    let b0 ← buf_set out_buf 0 command
    let b1 ← buf_set b0 1 (u8 length)
    let b2 ← buf_set b1 2 (u8 (length / 256))
    if xfer_length > 2 then
      secure_memcpy b2 3 (sub32 b2.length 3) payload 0
        (sub32 remaining_length 2) (sub32 xfer_length 2)
    else some (0, b2)
  else do
    let b0 ← buf_set out_buf 0 k.CMD_CONTINUE_WRITE
    secure_memcpy b0 1 (sub32 b0.length 1) payload (sub32 (mul32 idx chunk_space) 2)
      remaining_length xfer_length

/-- The body of the chunk loop of `syna_tcm_write_message` at index `idx` (lines 1071 to
1126): `completed` when the iteration reaches its end, else the failure taken to `exit:`,
with `retval`. -/
def write_message_chunk (k : tcm_defs) (env : Env D) (command : Nat)
    (payload : Option (List Nat)) (length chunks chunk_space idx remaining_length : Nat)
    (s : syna_tcm_hcd D) : Option (loop_exit × Int × syna_tcm_hcd D) :=
  let xfer_length := chunk_xfer_length remaining_length chunk_space
  let a := kmalloc env s s.out.buf_size (add32 xfer_length 1)
  let m := syna_tcm_alloc_mem a.1 a.2.out (add32 xfer_length 1)
  let s1 := { a.2 with out := m.2 }
  if m.1 < 0 then some (loop_exit.alloc_failed, m.1, s1)
  else do
    let c ← write_message_fill k command payload length chunk_space idx remaining_length
      s1.out.buf
    let s2 := { s1 with out := { s1.out with buf := c.2 } }
    if c.1 < 0 then some (loop_exit.copy_failed, c.1, s2)
    else do
      let w ← syna_tcm_write env s2 s2.out.buf (add32 xfer_length 1)
      if w.1 < 0 then some (loop_exit.bus_failed, w.1, w.2)
      else
        some (loop_exit.completed, w.1,
          if chunks > 1 then w.2.log (Event.usleep_range WRITE_DELAY_US_MIN WRITE_DELAY_US_MAX)
          else w.2)

/-- The chunk loop of `syna_tcm_write_message`, with `n` iterations left. The result
tells how the loop ended (every failure is a `goto exit`) and gives `retval`. -/
def write_message_loop (k : tcm_defs) (env : Env D) (command : Nat)
    (payload : Option (List Nat)) (length chunks chunk_space : Nat) :
    Nat → Nat → Nat → Int → syna_tcm_hcd D → Option (loop_exit × Int × syna_tcm_hcd D)
  | 0, _, _, retval, s => some (loop_exit.completed, retval, s)
  | n + 1, idx, remaining_length, _, s => do
    let r ← write_message_chunk k env command payload length chunks chunk_space idx
      remaining_length s
    if r.1 ≠ loop_exit.completed then some r
    else
      write_message_loop k env command payload length chunks chunk_space n (idx + 1)
        (sub32 remaining_length (chunk_xfer_length remaining_length chunk_space)) r.2.1 r.2.2

/-- The caller-side outputs of `syna_tcm_write_message`: `*resp_buf` (with
`*resp_buf_size` its length), `*resp_length` and `*response_code`. `none` stands for a
null pointer argument. -/
structure wm_outputs where
  resp_buf : Option (List Nat)
  resp_length : Nat
  response_code : Option Nat
  deriving DecidableEq, Repr

/-- The label `exit:` of `syna_tcm_write_message`. -/
def write_message_exit (k : tcm_defs) (s : syna_tcm_hcd D) : syna_tcm_hcd D :=
  ({ s with command := k.CMD_NONE }).set_status CMD_IDLE

/-- The chunk space computed by `syna_tcm_write_message` (lines 1043 to 1060). -/
def write_message_chunk_space (k : tcm_defs) (wr_chunk_size command length : Nat) : Nat :=
  let remaining_length := add32 length 2
  let chunk_space := if wr_chunk_size = 0 then remaining_length else sub32 wr_chunk_size 1
  if command = k.CMD_ROMBOOT_DOWNLOAD then
    if k.HDL_WR_CHUNK_SIZE ≠ 0 then
      sub32 (sub32 k.HDL_WR_CHUNK_SIZE 1) (sub32 k.HDL_WR_CHUNK_SIZE 1 % ROMBOOT_DOWNLOAD_UNIT)
    else remaining_length
  else chunk_space

/-- The lines 1020 to 1041 of `syna_tcm_write_message`, for a non-null `resp_buf` pointing
to `rb`: the command becomes outstanding (`CMD_BUSY`), the completion is re-armed, the
command and the response slot are recorded. -/
def write_message_begin (s : syna_tcm_hcd D) (command : Nat) (rb : List Nat)
    (polling_delay_ms : Nat) : syna_tcm_hcd D :=
  let s1 := if s.do_polling && polling_delay_ms ≠ 0 then s.log Event.cancel_polling else s
  let s2 := s1.set_status CMD_BUSY
  let s3 := ({ s2 with completion_done := 0 }).log Event.reinit_completion
  { s3 with command := command, resp := ⟨rb, 0⟩ }

/-- The number of loop iterations `chunks` of `syna_tcm_write_message` (lines 1043 to
1064). -/
def write_message_chunks (k : tcm_defs) (wr_chunk_size command length : Nat) : Option Nat :=
  (ceil_div (add32 length 2) (write_message_chunk_space k wr_chunk_size command length)).map
    (fun chunks => if chunks = 0 then 1 else chunks)

/-- The part of `syna_tcm_write_message` from setting `CMD_BUSY` to the end of the chunk
loop (lines 1020 to 1131), for a non-null `resp_buf` pointing to `rb`. -/
def write_message_send (k : tcm_defs) (env : Env D) (s : syna_tcm_hcd D) (command : Nat)
    (payload : Option (List Nat)) (length : Nat) (rb : List Nat) (polling_delay_ms : Nat) :
    Option (loop_exit × Int × syna_tcm_hcd D) := do
  let chunks ← write_message_chunks k s.wr_chunk_size command length
  write_message_loop k env command payload length chunks
    (write_message_chunk_space k s.wr_chunk_size command length) chunks 0 (add32 length 2) 0
    (write_message_begin s command rb polling_delay_ms)

/-- The shared state found when `wait_for_completion_timeout` returns (lines 1136 to
1142): the polling work is queued if asked for, then the other contexts run while the
caller sleeps. -/
def wait_state (env : Env D) (s : syna_tcm_hcd D) (polling_delay_ms : Nat) : syna_tcm_hcd D :=
  let s1 := if s.do_polling && polling_delay_ms ≠ 0 then
      s.log (Event.queue_polling polling_delay_ms) else s
  env.concurrent (s1.log Event.wait_for_completion)

/-- The part of `syna_tcm_write_message` after the chunk loop (lines 1133 to 1178): the
wait for the completion and the hand-over of the response. The other contexts run while
the caller sleeps; the wait times out when the completion was not signalled. -/
def write_message_wait (k : tcm_defs) (env : Env D) (s : syna_tcm_hcd D)
    (polling_delay_ms : Nat) (o : wm_outputs) : Int × syna_tcm_hcd D × wm_outputs :=
  let s2 := wait_state env s polling_delay_ms
  if s2.completion_done = 0 then (-ETIME, write_message_exit k s2, o)
  else
    let s3 := { s2 with completion_done := s2.completion_done - 1 }
    if s3.command_status ≠ CMD_IDLE then (- EIO, write_message_exit k s3, o)
    else
      let retval : Int := if s3.response_code ≠ k.STATUS_OK then - EIO else 0
      (retval, write_message_exit k s3,
        ⟨some s3.resp.buf, s3.resp.data_length, o.response_code.map (fun _ => s3.response_code)⟩)

/-- The function `syna_tcm_write_message(tcm_hcd, command, payload, length, resp_buf,
resp_buf_size, resp_length, response_code, polling_delay_ms)`. `resp_buf = none` is the
null pointer, `some rb` points to the caller buffer `rb` of `*resp_buf_size = rb.length`
bytes; `in_isr` tells whether `current->pid == tcm_hcd->isr_pid`. -/
def syna_tcm_write_message (k : tcm_defs) (env : Env D) (s : syna_tcm_hcd D) (command : Nat)
    (payload : Option (List Nat)) (length : Nat) (resp_buf : Option (List Nat))
    (resp_length : Nat) (response_code : Option Nat) (polling_delay_ms : Nat)
    (in_isr : Bool) : Option (Int × syna_tcm_hcd D × wm_outputs) :=
  let is_hdl_reset := command = k.CMD_RESET ∧ s.in_hdl_mode = true
  if s.pwr_off then some (- EIO, s, ⟨resp_buf, resp_length, response_code⟩)
  else
    let o : wm_outputs := ⟨resp_buf, resp_length, response_code.map (fun _ => k.STATUS_INVALID)⟩
    if !s.do_polling && in_isr then some (-EINVAL, s, o)
    else match resp_buf with
      | none => do
        let r ← syna_tcm_raw_write k env s command payload length
        some (r.1, write_message_exit k r.2, o)
      | some rb => do
        let r ← write_message_send k env s command payload length rb polling_delay_ms
        if r.1 ≠ loop_exit.completed then some (r.2.1, write_message_exit k r.2.2, o)
        else if is_hdl_reset then some (r.2.1, write_message_exit k r.2.2, o)
        else some (write_message_wait k env r.2.2 polling_delay_ms o)

/-! ## Dispatch -/

/-- The walk over `mod_pool.list` in `syna_tcm_dispatch_report`: the `syncbox` of every
entry that is neither pending insertion nor detached is called, in list order. -/
def dispatch_syncbox : List syna_tcm_module_handler → Nat → List Event
  | [], _ => []
  | h :: t, pos =>
    if !h.insert && !h.detach && h.syncbox then Event.syncbox pos :: dispatch_syncbox t (pos + 1)
    else dispatch_syncbox t (pos + 1)

/-- The function `syna_tcm_dispatch_report(tcm_hcd)`. The report view it builds
(`report.id`, and `report.buffer` pointing at `in.buf[MESSAGE_HEADER_SIZE]` with
`data_length = payload_length`) is logged in the entry event. -/
def syna_tcm_dispatch_report (k : tcm_defs) (s : syna_tcm_hcd D) : syna_tcm_hcd D :=
  let s1 := { s with report_id := s.status_report_code }
  let s2 := s1.log (Event.dispatch_report s1.report_id
    ((s1.inb.buf.drop MESSAGE_HEADER_SIZE).take s1.payload_length))
  if s2.report_id = k.REPORT_TOUCH then
    if s2.has_report_touch then s2.log Event.report_touch else s2
  else
    let s3 :=
      if s2.report_id = k.REPORT_IDENTIFY ∧ k.IS_FW_MODE (s2.id_info.getD k.id_mode 0) = true then
        if s2.helper_task = HELP_NONE then
          ({ s2 with helper_task := HELP_TOUCH_REINIT }).log Event.queue_helper_work
        else s2
      else s2
    { s3 with trace := s3.trace ++ dispatch_syncbox s3.mod_pool 0,
              async_report_id := s3.status_report_code }

/-- The function `syna_tcm_dispatch_response(tcm_hcd)`. -/
def syna_tcm_dispatch_response (env : Env D) (s : syna_tcm_hcd D) : Option (syna_tcm_hcd D) :=
  let s0 := s.log Event.dispatch_response
  if s0.command_status ≠ CMD_BUSY then some s0
  else
    let s1 := { s0 with response_code := s0.status_report_code }
    if s1.payload_length = 0 then some (s1.set_status CMD_IDLE).complete
    else
      let a := kmalloc env s1 s1.resp.buf_size s1.payload_length
      let m := syna_tcm_alloc_mem a.1 a.2.resp s1.payload_length
      let s2 := { a.2 with resp := m.2 }
      if m.1 < 0 then some (s2.set_status CMD_ERROR).complete
      else do
        let c ← secure_memcpy s2.resp.buf 0 s2.resp.buf_size (some s2.inb.buf)
          MESSAGE_HEADER_SIZE (sub32 s2.inb.buf_size MESSAGE_HEADER_SIZE) s2.payload_length
        if c.1 < 0 then some (s2.set_status CMD_ERROR).complete
        else
          let s3 := { s2 with resp := ⟨c.2, s2.payload_length⟩ }
          some (s3.set_status CMD_IDLE).complete

/-- The handling of an identify report at the head of `syna_tcm_dispatch_message` (lines
395 to 471). The result tells whether the function returns there (`true`) or goes on to
the routing by code. -/
def dispatch_identify (k : tcm_defs) (s : syna_tcm_hcd D) : Option (Bool × syna_tcm_hcd D) := do
  let payload_length := s.payload_length
  let c ← secure_memcpy s.id_info 0 k.id_info_size (some s.inb.buf) MESSAGE_HEADER_SIZE
    (sub32 s.inb.buf_size MESSAGE_HEADER_SIZE) (min k.id_info_size payload_length)
  if c.1 < 0 then some (true, s)
  else do
    let s1 := { s with id_info := c.2 }
    let packrat_number ← le4_to_uint s1.id_info k.id_build_id
    let max_write_size ← le2_to_uint s1.id_info k.id_max_write_size
    let wr := min max_write_size k.WR_CHUNK_SIZE
    let s2 := { s1 with packrat_number := packrat_number,
                        wr_chunk_size := if wr = 0 then max_write_size else wr }
    if s2.command_status = CMD_BUSY then
      let s3 :=
        if s2.command = k.CMD_RESET ∨ s2.command = k.CMD_RUN_BOOTLOADER_FIRMWARE ∨
            s2.command = k.CMD_RUN_APPLICATION_FIRMWARE ∨
            s2.command = k.CMD_ENTER_PRODUCTION_TEST_MODE ∨
            s2.command = k.CMD_ROMBOOT_RUN_BOOTLOADER_FIRMWARE then
          (({ s2 with response_code := k.STATUS_OK }).set_status CMD_IDLE).complete
        else (s2.set_status CMD_ERROR).complete
      if s3.host_downloading then some (true, s3) else some (false, s3)
    else if s2.id_info.getD k.id_mode 0 = k.MODE_ROMBOOTLOADER ∧ s2.in_hdl_mode = true then
      if s2.helper_task = HELP_NONE then
        some (true, ({ s2 with helper_task := HELP_SEND_ROMBOOT_HDL }).log Event.queue_helper_work)
      else some (true, s2)
    else if s2.host_downloading then some (true, s2)
    else some (false, s2)

/-- The function `syna_tcm_dispatch_message(tcm_hcd)`. -/
def syna_tcm_dispatch_message (k : tcm_defs) (env : Env D) (s : syna_tcm_hcd D) :
    Option (syna_tcm_hcd D) := do
  let r ← if s.status_report_code = k.REPORT_IDENTIFY then dispatch_identify k s
    else some (false, s)
  if r.1 then some r.2
  else if r.2.status_report_code ≥ k.REPORT_IDENTIFY then some (syna_tcm_dispatch_report k r.2)
  else syna_tcm_dispatch_response env r.2

/-! ## Reading: `syna_tcm_continued_read`, `syna_tcm_raw_read`, `syna_tcm_read_message` -/

/-- The body of the chunk loop of `syna_tcm_continued_read` (lines 533 to 593) for the
current `offset` and `remaining_length`: `completed` when the iteration reaches its end
(or its `continue`), else the failure that leaves the function, with the value returned. -/
def continued_read_chunk (k : tcm_defs) (env : Env D) (chunk_space offset remaining_length : Nat)
    (s : syna_tcm_hcd D) : Option (loop_exit × Int × syna_tcm_hcd D) :=
  let xfer_length := chunk_xfer_length remaining_length chunk_space
  if xfer_length = 1 then do
    let b ← buf_set s.inb.buf offset MESSAGE_PADDING
    some (loop_exit.completed, 0, { s with inb := { s.inb with buf := b } })
  else
    let a := kmalloc env s s.temp.buf_size (add32 xfer_length 2)
    let m := syna_tcm_alloc_mem a.1 a.2.temp (add32 xfer_length 2)
    let s1 := { a.2 with temp := m.2 }
    if m.1 < 0 then some (loop_exit.alloc_failed, m.1, s1)
    else do
      let r ← syna_tcm_read env s1 s1.temp.buf (add32 xfer_length 2)
      let s2 := { r.2.2 with temp := { r.2.2.temp with buf := r.2.1 } }
      if r.1 < 0 then some (loop_exit.bus_failed, r.1, s2)
      else do
        let marker ← buf_get s2.temp.buf 0
        let code ← buf_get s2.temp.buf 1
        if marker ≠ MESSAGE_MARKER then some (loop_exit.bad_chunk, - EIO, s2)
        else if code ≠ k.STATUS_CONTINUED_READ then some (loop_exit.bad_chunk, - EIO, s2)
        else do
          let c ← secure_memcpy s2.inb.buf offset (sub32 s2.inb.buf_size offset)
            (some s2.temp.buf) 2 (sub32 s2.temp.buf_size 2) xfer_length
          let s3 := { s2 with inb := { s2.inb with buf := c.2 } }
          if c.1 < 0 then some (loop_exit.copy_failed, c.1, s3)
          else some (loop_exit.completed, 0, s3)

/-- The chunk loop of `syna_tcm_continued_read`, with `n` iterations left. The result
tells how the loop ended and gives the value returned. -/
def continued_read_loop (k : tcm_defs) (env : Env D) (chunk_space : Nat) :
    Nat → Nat → Nat → syna_tcm_hcd D → Option (loop_exit × Int × syna_tcm_hcd D)
  | 0, _, _, s => some (loop_exit.completed, 0, s)
  | n + 1, offset, remaining_length, s => do
    let r ← continued_read_chunk k env chunk_space offset remaining_length s
    if r.1 ≠ loop_exit.completed then some r
    else
      continued_read_loop k env chunk_space n
        (add32 offset (chunk_xfer_length remaining_length chunk_space))
        (sub32 remaining_length (chunk_xfer_length remaining_length chunk_space)) r.2.2

/-- The function `syna_tcm_continued_read(tcm_hcd)`. -/
def syna_tcm_continued_read (k : tcm_defs) (env : Env D) (s : syna_tcm_hcd D) :
    Option (Int × syna_tcm_hcd D) :=
  let total_length := add32 (add32 MESSAGE_HEADER_SIZE s.payload_length) 1
  let remaining_length := sub32 total_length s.read_length
  let a := kmalloc env s s.inb.buf_size (add32 total_length 1)
  let m := syna_tcm_realloc_mem a.1 a.2.inb (add32 total_length 1)
  let s1 := { a.2 with inb := m.2 }
  if m.1 < 0 then some (m.1, s1)
  else do
    let chunk_space := if s1.rd_chunk_size = 0 then remaining_length
      else sub32 s1.rd_chunk_size 2
    let chunks ← ceil_div remaining_length chunk_space
    let chunks := if chunks = 0 then 1 else chunks
    let r ← continued_read_loop k env chunk_space chunks s1.read_length remaining_length s1
    some (r.2.1, r.2.2)

/-- The body of the chunk loop of `syna_tcm_raw_read` (lines 648 to 704) at index `idx`;
`in_buf` is the caller array. The result also gives the next `offset`. -/
def raw_read_chunk (k : tcm_defs) (env : Env D) (length chunk_space idx offset
    remaining_length : Nat) (in_buf : List Nat) (s : syna_tcm_hcd D) :
    Option (loop_exit × Int × Nat × List Nat × syna_tcm_hcd D) :=
  let xfer_length := chunk_xfer_length remaining_length chunk_space
  if xfer_length = 1 then do
    let b ← buf_set in_buf offset MESSAGE_PADDING
    some (loop_exit.completed, 0, add32 offset xfer_length, b, s)
  else
    let a := kmalloc env s s.temp.buf_size (add32 xfer_length 2)
    let m := syna_tcm_alloc_mem a.1 a.2.temp (add32 xfer_length 2)
    let s1 := { a.2 with temp := m.2 }
    if m.1 < 0 then some (loop_exit.alloc_failed, m.1, offset, in_buf, s1)
    else do
      let r ← syna_tcm_read env s1 s1.temp.buf (add32 xfer_length 2)
      let s2 := { r.2.2 with temp := { r.2.2.temp with buf := r.2.1 } }
      if r.1 < 0 then some (loop_exit.bus_failed, r.1, offset, in_buf, s2)
      else do
        let code ← buf_get s2.temp.buf 1
        if idx ≠ 0 ∧ code ≠ k.STATUS_CONTINUED_READ then
          some (loop_exit.bad_chunk, - EIO, offset, in_buf, s2)
        else do
          let c ← if idx = 0 then
              secure_memcpy in_buf 0 length (some s2.temp.buf) 0 s2.temp.buf_size
                (add32 xfer_length 2)
            else
              secure_memcpy in_buf offset (sub32 length offset) (some s2.temp.buf) 2
                (sub32 s2.temp.buf_size 2) xfer_length
          if c.1 < 0 then some (loop_exit.copy_failed, c.1, offset, c.2, s2)
          else
            some (loop_exit.completed, 0,
              if idx = 0 then add32 offset (add32 xfer_length 2) else add32 offset xfer_length,
              c.2, s2)

/-- The chunk loop of `syna_tcm_raw_read`, with `n` iterations left. -/
def raw_read_loop (k : tcm_defs) (env : Env D) (length chunk_space : Nat) :
    Nat → Nat → Nat → Nat → List Nat → syna_tcm_hcd D →
      Option (loop_exit × Int × List Nat × syna_tcm_hcd D)
  | 0, _, _, _, in_buf, s => some (loop_exit.completed, 0, in_buf, s)
  | n + 1, idx, offset, remaining_length, in_buf, s => do
    let r ← raw_read_chunk k env length chunk_space idx offset remaining_length in_buf s
    if r.1 ≠ loop_exit.completed then some (r.1, r.2.1, r.2.2.2.1, r.2.2.2.2)
    else
      raw_read_loop k env length chunk_space n (idx + 1) r.2.2.1
        (sub32 remaining_length (chunk_xfer_length remaining_length chunk_space))
        r.2.2.2.1 r.2.2.2.2

/-- The function `syna_tcm_raw_read(tcm_hcd, in_buf, length)`. -/
def syna_tcm_raw_read (k : tcm_defs) (env : Env D) (s : syna_tcm_hcd D) (in_buf : List Nat)
    (length : Nat) : Option (Int × List Nat × syna_tcm_hcd D) :=
  if length < 2 then some (-EINVAL, in_buf, s)
  else do
    let remaining_length := sub32 length 2
    let chunk_space := if s.rd_chunk_size = 0 then remaining_length
      else sub32 s.rd_chunk_size 2
    let chunks ← ceil_div remaining_length chunk_space
    let chunks := if chunks = 0 then 1 else chunks
    let r ← raw_read_loop k env length chunk_space chunks 0 0 remaining_length in_buf s
    some (r.2.1, r.2.2.1, r.2.2.2)

/-- The tail of `syna_tcm_read_message` from the label `check_padding:` to the label
`exit:` (lines 929 to 949). -/
def read_message_check_padding (k : tcm_defs) (env : Env D) (total_length : Nat)
    (s : syna_tcm_hcd D) : Option (Int × syna_tcm_hcd D) := do
  let last ← buf_get s.inb.buf (sub32 total_length 1)
  if last ≠ MESSAGE_PADDING then some (- EIO, s)
  else do
    let total_length := max total_length MIN_READ_LENGTH
    let s1 := { s with read_length :=
      if s.rd_chunk_size = 0 then total_length else min total_length s.rd_chunk_size }
    let s2 ← if s1.is_detected then syna_tcm_dispatch_message k env s1 else some s1
    some (0, s2)

/-- Where the first part of `syna_tcm_read_message` ends: at the label `exit:` with a
value of `retval`, or at the label `check_padding:` with a value of `total_length`. -/
inductive receive_result (D : Type) where
  | exit (retval : Int) (s : syna_tcm_hcd D)
  | check_padding (total_length : Nat) (s : syna_tcm_hcd D)
  deriving DecidableEq

/-- The state in which the first part of `syna_tcm_read_message` ends. -/
def receive_result.state : receive_result D → syna_tcm_hcd D
  | receive_result.exit _ s => s
  | receive_result.check_padding _ s => s

/-- The lines 898 to 927 of `syna_tcm_read_message`: from the computation of
`total_length` to the label `check_padding:`, through the predictive shortcut or the
continued read. -/
def read_message_reassemble (k : tcm_defs) (env : Env D) (s : syna_tcm_hcd D) :
    Option (receive_result D) :=
  let total_length := add32 (add32 MESSAGE_HEADER_SIZE s.payload_length) 1
  if total_length ≤ s.read_length then some (receive_result.check_padding total_length s)
  else if sub32 total_length 1 = s.read_length then do
    let b ← buf_set s.inb.buf (sub32 total_length 1) MESSAGE_PADDING
    some (receive_result.check_padding total_length { s with inb := { s.inb with buf := b } })
  else do
    let c ← syna_tcm_continued_read k env s
    if c.1 < 0 then some (receive_result.exit c.1 c.2)
    else do
      let b0 ← buf_set c.2.inb.buf 0 MESSAGE_MARKER
      let b1 ← buf_set b0 1 c.2.status_report_code
      let b2 ← buf_set b1 2 (u8 c.2.payload_length)
      let b3 ← buf_set b2 3 (u8 (c.2.payload_length / 256))
      some (receive_result.check_padding total_length
        { c.2 with inb := { c.2.inb with buf := b3 } })

/-- Modelled from the spec: the macro `LOCK_BUFFER(buffer)` is defined in the missing
header; the spec says that a separate lock protects each buffer region. It is a
`mutex_lock`, and a kernel mutex is not recursive: reached by a thread that holds the
mutex of the buffer already (`held`), it blocks for ever, and the call has no result. -/
def LOCK_BUFFER (held : Bool) : Option Unit :=
  if held then none else some ()

/-- One pass of `syna_tcm_read_message` from the label `retry:` to the label
`check_padding:` (lines 826 to 927) with the current value of the flag `retry`; `again`
is the pass taken by `goto retry`. The flag `held` tells whether the thread holds the
mutex of `in.buf` when it arrives at `retry:`: the jumps after a failed read and after a
wrong marker are preceded by `UNLOCK_BUFFER(tcm_hcd->in)` (lines 832 and 846), the jump
after `STATUS_INVALID` (lines 886 to 890) is not. On every path that leaves the pass
without a jump the mutex is released before the function returns. -/
def read_message_receive (k : tcm_defs) (env : Env D) (retry : Bool)
    (again : Bool → syna_tcm_hcd D → Option (receive_result D)) (held : Bool)
    (s : syna_tcm_hcd D) : Option (receive_result D) := do
  LOCK_BUFFER held
  let r ← syna_tcm_read env s s.inb.buf s.read_length
  let s1 := { r.2.2 with inb := { r.2.2.inb with buf := r.2.1 } }
  let backoff := s1.log (Event.usleep_range READ_RETRY_US_MIN READ_RETRY_US_MAX)
  if r.1 < 0 then
    if retry then again false backoff else some (receive_result.exit r.1 s1)
  else do
    let marker ← buf_get s1.inb.buf 0
    if marker ≠ MESSAGE_MARKER then
      if retry then again false backoff else some (receive_result.exit (- ENXIO) s1)
    else do
      let code ← buf_get s1.inb.buf 1
      let len ← le2_to_uint s1.inb.buf 2
      let s2 := { s1 with status_report_code := code, payload_length := len }
      if code ≤ k.STATUS_ERROR ∨ code = k.STATUS_INVALID then
        if code = k.STATUS_OK then read_message_reassemble k env s2
        else if code = k.STATUS_CONTINUED_READ ∨ code = k.STATUS_IDLE ∨ code = k.STATUS_BUSY then
          some (receive_result.exit 0 { s2 with payload_length := 0 })
        else if code = k.STATUS_INVALID then
          if retry then
            again true (s2.log (Event.usleep_range READ_RETRY_US_MIN READ_RETRY_US_MAX))
          else read_message_reassemble k env { s2 with payload_length := 0 }
        else read_message_reassemble k env s2
      else read_message_reassemble k env s2

/-- The two passes of `syna_tcm_read_message`: `retry` is `true` in the first pass and
`false` in the pass after a `goto retry`, which cannot jump back again. The first pass
starts with the mutex of `in.buf` free. -/
def read_message_passes (k : tcm_defs) (env : Env D) (s : syna_tcm_hcd D) :
    Option (receive_result D) :=
  read_message_receive k env true (read_message_receive k env false (fun _ _ => none)) false s

/-- The label `exit:` of `syna_tcm_read_message`: an outstanding command is failed when
`retval` is negative. -/
def read_message_exit (retval : Int) (s : syna_tcm_hcd D) : syna_tcm_hcd D :=
  if retval < 0 then
    if s.command_status = CMD_BUSY then (s.set_status CMD_ERROR).complete else s
  else s

/-- The function `syna_tcm_read_message(tcm_hcd, in_buf, length)`; `in_buf = none` is the
null pointer (message mode), `some b` the caller array of the raw read mode. The result
carries the contents of the caller array. -/
def syna_tcm_read_message (k : tcm_defs) (env : Env D) (s : syna_tcm_hcd D)
    (in_buf : Option (List Nat)) (length : Nat) :
    Option (Int × syna_tcm_hcd D × Option (List Nat)) :=
  if s.pwr_off then some (- EIO, s, in_buf)
  else match in_buf with
    | some b => do
      let r ← syna_tcm_raw_read k env s b length
      some (r.1, read_message_exit r.1 r.2.2, some r.2.1)
    | none => do
      let r ← read_message_passes k env s
      let e ← match r with
        | receive_result.exit retval s1 => some (retval, s1)
        | receive_result.check_padding total_length s1 =>
          read_message_check_padding k env total_length s1
      some (e.1, read_message_exit e.1 e.2, none)

/-! ## Initial state and sample environments -/

/-- The state set up by `syna_tcm_probe` (lines 2900 to 2949): chunk sizes from the
configuration, `read_length = MIN_READ_LENGTH`, an inbound buffer of `read_length + 1`
bytes, no command outstanding, no helper task. -/
def probe_state (k : tcm_defs) (dev : D) : syna_tcm_hcd D where
  pwr_off := false
  do_polling := false
  is_detected := false
  in_hdl_mode := false
  host_downloading := false
  command_status := CMD_IDLE
  command := k.CMD_NONE
  helper_task := HELP_NONE
  status_report_code := 0
  payload_length := 0
  response_code := 0
  read_length := MIN_READ_LENGTH
  rd_chunk_size := k.RD_CHUNK_SIZE
  wr_chunk_size := k.WR_CHUNK_SIZE
  async_report_id := 0
  packrat_number := 0
  id_info := List.replicate k.id_info_size 0
  inb := ⟨List.replicate (MIN_READ_LENGTH + 1) 0, 0⟩
  out := ⟨[], 0⟩
  resp := ⟨[], 0⟩
  temp := ⟨[], 0⟩
  report_id := 0
  has_report_touch := false
  mod_pool := []
  completion_done := 0
  kmallocs := 0
  dev := dev
  trace := []

/-- A bus that accepts every write and answers every read with zeros, an allocator that
always succeeds, and no activity of other contexts. -/
def quiet_env : Env Unit where
  bus_read := fun _ _ => (0, [], ())
  bus_write := fun _ _ => (0, ())
  kmalloc_ok := fun _ _ => true
  concurrent := fun s => s

/-- A device that holds one message: `msg` are its bytes, `pos` counts the message
bytes delivered so far, `started` tells whether the first read took place. -/
structure msg_dev where
  msg : List Nat
  pos : Nat
  started : Bool
  deriving DecidableEq, Repr

/-- The inbound message `[MARKER, code, length low, length high, payload.., PADDING]`. -/
def message (code : Nat) (payload : List Nat) : List Nat :=
  [MESSAGE_MARKER, code, payload.length % 256, payload.length / 256] ++ payload ++
    [MESSAGE_PADDING]

/-- The device of the wire format: the first read of `n` bytes is answered with the
first `n` bytes of the message, and every later read of `n + 2` bytes with
`[MARKER, STATUS_CONTINUED_READ]` followed by the next `n` message bytes. -/
def msg_dev.read (k : tcm_defs) (d : msg_dev) (n : Nat) : Int × List Nat × msg_dev :=
  if d.started then
    (0, [MESSAGE_MARKER, k.STATUS_CONTINUED_READ] ++ (d.msg.drop d.pos).take (n - 2),
      { d with pos := d.pos + (n - 2) })
  else (0, d.msg.take n, { d with pos := n, started := true })

/-- The environment of a device holding one message; allocations succeed. -/
def msg_env (k : tcm_defs) : Env msg_dev where
  bus_read := msg_dev.read k
  bus_write := fun d _ => (0, d)
  kmalloc_ok := fun _ _ => true
  concurrent := fun s => s

/-- The state of Scenario E: the probe state with `wr_chunk_size = 5`. -/
def scenario_E_state : syna_tcm_hcd Unit :=
  { probe_state tcm () with wr_chunk_size := 5 }

/-- An environment whose device holds one message and whose reader context handles it
with `syna_tcm_read_message` while a command sleeps. -/
def reader_env : Env msg_dev :=
  { msg_env tcm with
    concurrent := fun s =>
      match syna_tcm_read_message tcm (msg_env tcm) s none 0 with
      | some r => r.2.1
      | none => s }

/-- A detected device that answers with the response `STATUS_OK` carrying two bytes. -/
def responding_state : syna_tcm_hcd msg_dev :=
  { probe_state tcm ⟨message tcm.STATUS_OK [7, 8], 0, false⟩ with is_detected := true }

/-- A detected device that answers a command with `STATUS_ERROR`. -/
def refusing_state : syna_tcm_hcd msg_dev :=
  { probe_state tcm ⟨message tcm.STATUS_ERROR [], 0, false⟩ with is_detected := true }

/-- The values assigned to `command_status` in a log, in order. -/
def status_sets : List Event → List command_status
  | [] => []
  | Event.set_command_status v :: t => v :: status_sets t
  | _ :: t => status_sets t

/-- The state after a successful first bus read of `syna_tcm_read_message` (line 829):
`read_length` bytes of the answer are in `in.buf`. -/
def first_read_state (env : Env D) (s : syna_tcm_hcd D) : syna_tcm_hcd D :=
  { s with
    dev := (env.bus_read s.dev s.read_length).2.2,
    trace := s.trace ++ [Event.bus_read s.read_length],
    inb := { s.inb with
      buf := fill (env.bus_read s.dev s.read_length).2.1 s.read_length ++
        s.inb.buf.drop s.read_length } }

/-- The state in which `goto retry` starts the second pass: the first read is done and
the back-off `usleep_range(READ_RETRY_US_MIN, READ_RETRY_US_MAX)` has elapsed. -/
def retry_state (env : Env D) (s : syna_tcm_hcd D) : syna_tcm_hcd D :=
  (first_read_state env s).log (Event.usleep_range READ_RETRY_US_MIN READ_RETRY_US_MAX)

/-- A device that answers every read with bytes that do not start with the marker. -/
def noise_env : Env Unit :=
  { quiet_env with bus_read := fun _ n => (0, List.replicate n 0x33, ()) }

/-- The probe state with a command outstanding. -/
def busy_state : syna_tcm_hcd Unit :=
  { probe_state tcm () with command_status := CMD_BUSY, command := 0x02 }

/-- The state after the header of the first read is parsed (lines 856 to 858):
`status_report_code` and `payload_length` hold the code and the little-endian length of
the bytes 1 to 3 of the answer. -/
def header_state (env : Env D) (s : syna_tcm_hcd D) : syna_tcm_hcd D :=
  { first_read_state env s with
    status_report_code := (env.bus_read s.dev s.read_length).2.1.getD 1 0,
    payload_length := (env.bus_read s.dev s.read_length).2.1.getD 2 0 +
      256 * (env.bus_read s.dev s.read_length).2.1.getD 3 0 }

/-- A device holding the response `STATUS_OK` with a payload of five bytes. -/
def ok_payload_state : syna_tcm_hcd msg_dev :=
  probe_state tcm ⟨message tcm.STATUS_OK [1, 2, 3, 4, 5], 0, false⟩

/-- A device holding a message with code `STATUS_BUSY` and a non-zero length field. -/
def busy_message_state : syna_tcm_hcd msg_dev :=
  probe_state tcm ⟨message tcm.STATUS_BUSY [1, 2, 3, 4, 5], 0, false⟩

/-- A device holding a message with code `STATUS_INVALID` and a non-zero length field. -/
def invalid_message_state : syna_tcm_hcd msg_dev :=
  probe_state tcm ⟨message tcm.STATUS_INVALID [1, 2, 3, 4, 5], 0, false⟩

/-- The fields that only `syna_tcm_read_message` itself assigns: the message being read
and the parameters of the read path. (`wr_chunk_size` is not among them: the dispatch of
an identify report renegotiates it.) -/
def same_message (s s1 : syna_tcm_hcd D) : Prop :=
  s1.read_length = s.read_length ∧ s1.rd_chunk_size = s.rd_chunk_size ∧
    s1.payload_length = s.payload_length ∧ s1.status_report_code = s.status_report_code ∧
    s1.is_detected = s.is_detected ∧ s1.pwr_off = s.pwr_off

/-- The state of Scenario B: `rd_chunk_size = 6`, `read_length = 6`, and a detected
device holding the message with code `0x10` and the six payload bytes `p`. -/
def scenario_B_state (p : List Nat) : syna_tcm_hcd msg_dev :=
  { probe_state tcm ⟨message 0x10 p, 0, false⟩ with
    rd_chunk_size := 6, read_length := 6, is_detected := true }

/-- What holds when a pass started in `s` reaches the padding check in `s1` with
`total_length`: the total is `MESSAGE_HEADER_SIZE + payload_length + 1` for the parsed
payload length, and the read parameters are those of `s`. -/
def reaches_padding_check (s : syna_tcm_hcd D) (total_length : Nat) (s1 : syna_tcm_hcd D) :
    Prop :=
  total_length = add32 (add32 MESSAGE_HEADER_SIZE s1.payload_length) 1 ∧
    s1.rd_chunk_size = s.rd_chunk_size ∧ s1.read_length = s.read_length ∧
    s1.is_detected = s.is_detected

/-- A state with `rd_chunk_size = 3`: the chunk space of the continued read is one byte. -/
def chunk3_state (p : List Nat) : syna_tcm_hcd msg_dev :=
  { probe_state tcm ⟨message 0x12 p, 0, false⟩ with rd_chunk_size := 3 }

/-- A state with `rd_chunk_size = 5` and `read_length = 5`, whose device holds a report of
thirteen payload bytes. -/
def chunk5_state : syna_tcm_hcd msg_dev :=
  { probe_state tcm ⟨message 0x12 [1, 2, 3, 4, 5, 6, 7, 8, 9, 10, 11, 12, 13], 0, false⟩ with
    rd_chunk_size := 5, read_length := 5 }

/-- The byte stream that `syna_tcm_write_message` splits into chunks: the two length
bytes followed by the payload ("adding two length bytes as part of payload"). -/
def command_stream (length : Nat) (payload : List Nat) : List Nat :=
  [u8 length, u8 (length / 256)] ++ payload

/-- The outbound frames of the wire format for the chunks `idx, idx + 1, ..` (`n` of
them): the chunk at index 0 starts with the command byte, every later one with the
continuation opcode, and each carries the next `chunk_space` bytes of the stream. -/
def wire_frames (command continue_write chunk_space : Nat) (stream : List Nat) :
    Nat → Nat → List (List Nat)
  | _, 0 => []
  | idx, n + 1 =>
    ((if idx = 0 then command else continue_write) ::
        (stream.drop (idx * chunk_space)).take chunk_space) ::
      wire_frames command continue_write chunk_space stream (idx + 1) n

/-- The sizes of the bus reads of the chunk loop of `syna_tcm_continued_read` with `n`
iterations left and `remaining_length` bytes to go: a chunk of one byte is the padding
byte and is stored without a bus read, any other chunk is read with its two header
bytes. -/
def chunk_reads (chunk_space : Nat) : Nat → Nat → List Nat
  | 0, _ => []
  | n + 1, remaining_length =>
    (if chunk_xfer_length remaining_length chunk_space = 1 then []
      else [add32 (chunk_xfer_length remaining_length chunk_space) 2]) ++
      chunk_reads chunk_space n
        (sub32 remaining_length (chunk_xfer_length remaining_length chunk_space))

/-- The fields of the state that the dispatch of a message reads or assigns and that the
receive part of `syna_tcm_read_message` leaves alone. -/
def command_context (s : syna_tcm_hcd D) :
    Bool × Bool × Bool × command_status × Nat × helper_task × List Nat × Nat ×
      syna_tcm_buffer × List syna_tcm_module_handler × Bool :=
  (s.is_detected, s.in_hdl_mode, s.host_downloading, s.command_status, s.command,
    s.helper_task, s.id_info, s.wr_chunk_size, s.resp, s.mod_pool, s.has_report_touch)

/-- The state of Scenario A when its message is dispatched: a command is outstanding and
the message `[MARKER, STATUS_OK, 0, 0, PADDING]` has been read into `in.buf`. -/
def scenario_A_state : syna_tcm_hcd Unit :=
  { busy_state with
    status_report_code := tcm.STATUS_OK, payload_length := 0,
    inb := ⟨message tcm.STATUS_OK [] ++ [0, 0, 0, 0, 0], 0⟩ }

/-- The payload of an identify report: version, firmware mode, part number, build number
and maximum write size, laid out as `id_info` is in `tcm`. -/
def identify_payload (mode : Nat) (build_id : List Nat) (max_write_size : List Nat) :
    List Nat :=
  [1, mode] ++ List.replicate 16 0 ++ build_id ++ max_write_size

/-- The state of Scenario C when its message is dispatched: `CMD_RESET` is outstanding
and an identify report of application firmware has been read into `in.buf`. -/
def scenario_C_state : syna_tcm_hcd Unit :=
  { probe_state tcm () with
    is_detected := true, command_status := CMD_BUSY, command := tcm.CMD_RESET,
    status_report_code := tcm.REPORT_IDENTIFY, payload_length := 24,
    inb := ⟨message tcm.REPORT_IDENTIFY (identify_payload 1 [0x31, 0xd4, 0, 0] [0, 1]) ++ [0],
      0⟩ }

/-- A state in a host-download session with no command outstanding in which an identify
report of the rom bootloader has been read into `in.buf`. -/
def romboot_identify_state : syna_tcm_hcd Unit :=
  { probe_state tcm () with
    is_detected := true, in_hdl_mode := true,
    status_report_code := tcm.REPORT_IDENTIFY, payload_length := 24,
    inb := ⟨message tcm.REPORT_IDENTIFY
      (identify_payload tcm.MODE_ROMBOOTLOADER [0x31, 0xd4, 0, 0] [0, 1]) ++ [0], 0⟩ }

/-- The number of entries into `syna_tcm_dispatch_report` in a log. -/
def report_dispatches : List Event → Nat
  | [] => 0
  | Event.dispatch_report _ _ :: t => report_dispatches t + 1
  | _ :: t => report_dispatches t

/-- The number of entries into `syna_tcm_dispatch_response` in a log. -/
def response_dispatches : List Event → Nat
  | [] => 0
  | Event.dispatch_response :: t => response_dispatches t + 1
  | _ :: t => response_dispatches t

/-- A detected device with a command outstanding that holds five bytes with a valid
header of an empty message and a last byte other than the padding byte. -/
def bad_padding_state : syna_tcm_hcd msg_dev :=
  { probe_state tcm ⟨[MESSAGE_MARKER, tcm.STATUS_OK, 0, 0, 0x33], 0, false⟩ with
    is_detected := true, command_status := CMD_BUSY, command := 0x02 }

/-- The probe state inside a host-download session (`in_hdl_mode` set). -/
def hdl_state : syna_tcm_hcd Unit :=
  { probe_state tcm () with in_hdl_mode := true }

/-- The value of `remaining_length` after `i` iterations of a chunk loop that ran to
their end. -/
def remaining_after (chunk_space : Nat) : Nat → Nat → Nat
  | 0, remaining_length => remaining_length
  | i + 1, remaining_length =>
    remaining_after chunk_space i
      (sub32 remaining_length (chunk_xfer_length remaining_length chunk_space))

/-- The value of `offset` after `i` iterations of the chunk loop of
`syna_tcm_continued_read` that ran to their end. -/
def offset_after (chunk_space : Nat) : Nat → Nat → Nat → Nat
  | 0, offset, _ => offset
  | i + 1, offset, remaining_length =>
    offset_after chunk_space i
      (add32 offset (chunk_xfer_length remaining_length chunk_space))
      (sub32 remaining_length (chunk_xfer_length remaining_length chunk_space))

/-- The state in which `syna_tcm_continued_read` enters its chunk loop: `in.buf` has been
reallocated to hold `total_length + 1` bytes (line 510). -/
def continued_read_entry (env : Env D) (s : syna_tcm_hcd D) : syna_tcm_hcd D :=
  let total_length := add32 (add32 MESSAGE_HEADER_SIZE s.payload_length) 1
  let a := kmalloc env s s.inb.buf_size (add32 total_length 1)
  { a.2 with inb := (syna_tcm_realloc_mem a.1 a.2.inb (add32 total_length 1)).2 }

/-- A device that counts its reads: the first is answered with the start of a response
announcing twelve payload bytes, the second with a well-formed continuation chunk, and
every later one with a chunk whose code is `STATUS_OK` instead of
`STATUS_CONTINUED_READ`. -/
def glitch_env : Env Nat where
  bus_read := fun d _ =>
    if d = 0 then (0, [MESSAGE_MARKER, tcm.STATUS_OK, 12, 0, 1, 2], 1)
    else if d = 1 then (0, [MESSAGE_MARKER, tcm.STATUS_CONTINUED_READ, 3, 4, 5, 6], 2)
    else (0, [MESSAGE_MARKER, tcm.STATUS_OK, 7, 8, 9, 10], d + 1)
  bus_write := fun d _ => (0, d)
  kmalloc_ok := fun _ _ => true
  concurrent := fun s => s

/-- A detected device with a command outstanding, read in chunks of six bytes. -/
def glitch_state : syna_tcm_hcd Nat :=
  { probe_state tcm 0 with
    rd_chunk_size := 6, read_length := 6, is_detected := true,
    command_status := CMD_BUSY, command := 0x02 }

/-- The divisor `chunk_space` that `syna_tcm_raw_write` passes to `ceil_div` (lines 733 to
742), with `remaining_length = length`. -/
def raw_write_chunk_space (wr_chunk_size length : Nat) : Nat :=
  if wr_chunk_size = 0 then length else sub32 wr_chunk_size 1

/-- The divisor `chunk_space` that `syna_tcm_raw_read` passes to `ceil_div` (lines 629 to
639), with `remaining_length = length - 2`. -/
def raw_read_chunk_space (rd_chunk_size length : Nat) : Nat :=
  if rd_chunk_size = 0 then sub32 length 2 else sub32 rd_chunk_size 2

/-- The divisor `chunk_space` that `syna_tcm_continued_read` passes to `ceil_div` (lines
519 to 524). -/
def continued_read_chunk_space (rd_chunk_size remaining_length : Nat) : Nat :=
  if rd_chunk_size = 0 then remaining_length else sub32 rd_chunk_size 2

/-- A device that counts its reads: the first is answered with the first nine bytes of a
touch report with five payload bytes, every later one with the first ten bytes of a touch
report with six payload bytes. -/
def two_report_env : Env Nat where
  bus_read := fun d _ =>
    if d = 0 then (0, [MESSAGE_MARKER, tcm.REPORT_TOUCH, 5, 0, 1, 2, 3, 4, 5], 1)
    else (0, [MESSAGE_MARKER, tcm.REPORT_TOUCH, 6, 0, 1, 2, 3, 4, 5, 6], d + 1)
  bus_write := fun d _ => (0, d)
  kmalloc_ok := fun _ _ => true
  concurrent := fun s => s

/-- The part of the state that belongs to the command in flight: its status, the response
code and the response slot, the completion counter, and the assignments of
`command_status` and the `complete()` calls logged so far. -/
def command_view (s : syna_tcm_hcd D) :
    command_status × Nat × syna_tcm_buffer × Nat × List command_status × Nat :=
  (s.command_status, s.response_code, s.resp, s.completion_done, status_sets s.trace,
    s.trace.count Event.complete)

/-- The one transition the reader path makes on the command in flight: from `CMD_BUSY` to
`CMD_IDLE` or `CMD_ERROR`, by one assignment, with the completion signalled once. -/
def command_completed (s s1 : syna_tcm_hcd D) : Prop :=
  s.command_status = CMD_BUSY ∧
    (s1.command_status = CMD_IDLE ∨ s1.command_status = CMD_ERROR) ∧
    status_sets s1.trace = status_sets s.trace ++ [s1.command_status] ∧
    s1.completion_done = s.completion_done + 1 ∧
    s1.trace.count Event.complete = s.trace.count Event.complete + 1

/-! # Properties -/

/-! ## Arithmetic helpers -/

theorem add32_eq {a b : Nat} (h : a + b < 4294967296) : add32 a b = a + b := by
  unfold add32; omega

theorem sub32_eq {a b : Nat} (hb : b ≤ a) (ha : a < 4294967296) : sub32 a b = a - b := by
  unfold sub32; omega

theorem mul32_eq {a b : Nat} (h : a * b < 4294967296) : mul32 a b = a * b := by
  unfold mul32; exact Nat.mod_eq_of_lt h

/-! ## The write path -/

/-- With the two guards passed and a response requested, `syna_tcm_write_message` is the
chunk phase followed by the exit label or by the wait. -/
theorem write_message_resp_eq (k : tcm_defs) (env : Env D) (s : syna_tcm_hcd D)
    (command : Nat) (payload : Option (List Nat)) (length : Nat) (rb : List Nat)
    (resp_length : Nat) (response_code : Option Nat) (polling_delay_ms : Nat) (in_isr : Bool)
    (hp : s.pwr_off = false) (hi : ¬ (s.do_polling = false ∧ in_isr = true)) :
    syna_tcm_write_message k env s command payload length (some rb) resp_length response_code
        polling_delay_ms in_isr =
      (write_message_send k env s command payload length rb polling_delay_ms).bind
        (fun r =>
          if r.1 ≠ loop_exit.completed ∨ (command = k.CMD_RESET ∧ s.in_hdl_mode = true) then
            some (r.2.1, write_message_exit k r.2.2,
              ⟨some rb, resp_length, response_code.map (fun _ => k.STATUS_INVALID)⟩)
          else
            some (write_message_wait k env r.2.2 polling_delay_ms
              ⟨some rb, resp_length, response_code.map (fun _ => k.STATUS_INVALID)⟩)) := by
  have hi2 : (!s.do_polling && in_isr) = false := by
    cases hd : s.do_polling <;> cases hc : in_isr <;> simp_all
  unfold syna_tcm_write_message
  simp only [hp, hi2, Bool.false_eq_true, if_false]
  cases write_message_send k env s command payload length rb polling_delay_ms with
  | none => rfl
  | some r =>
    by_cases h1 : r.1 = loop_exit.completed
    · by_cases h2 : command = k.CMD_RESET ∧ s.in_hdl_mode = true <;> simp [h1, h2]
    · simp [h1]

theorem write_message_exit_status (k : tcm_defs) (s : syna_tcm_hcd D) :
    (write_message_exit k s).command_status = CMD_IDLE ∧
      (write_message_exit k s).command = k.CMD_NONE := by
  simp [write_message_exit, syna_tcm_hcd.set_status]

theorem write_message_wait_status (k : tcm_defs) (env : Env D) (s : syna_tcm_hcd D)
    (d : Nat) (o : wm_outputs) :
    (write_message_wait k env s d o).2.1.command_status = CMD_IDLE ∧
      (write_message_wait k env s d o).2.1.command = k.CMD_NONE := by
  unfold write_message_wait
  simp only []
  split
  · exact write_message_exit_status k _
  · split <;> exact write_message_exit_status k _

/-- C5. Every return of `syna_tcm_write_message` with a response requested: the two
guard returns (power off, invalid execution context) leave the state, hence
`command_status`, unchanged; every other return (success, timeout, bus error, allocation
or copy failure, non-OK response, host-download reset) goes through `exit:` and leaves
`command_status = CMD_IDLE` and `command = CMD_NONE`. -/
theorem write_message_returns_idle (k : tcm_defs) (env : Env D) (s : syna_tcm_hcd D)
    (command : Nat) (payload : Option (List Nat)) (length : Nat) (rb : List Nat)
    (resp_length : Nat) (response_code : Option Nat) (polling_delay_ms : Nat) (in_isr : Bool)
    (r : Int × syna_tcm_hcd D × wm_outputs)
    (h : syna_tcm_write_message k env s command payload length (some rb) resp_length
      response_code polling_delay_ms in_isr = some r) :
    (s.pwr_off = true ∨ (s.do_polling = false ∧ in_isr = true) → r.2.1 = s) ∧
    (s.pwr_off = false → ¬ (s.do_polling = false ∧ in_isr = true) →
      r.2.1.command_status = CMD_IDLE ∧ r.2.1.command = k.CMD_NONE) := by
  constructor
  · intro hg
    unfold syna_tcm_write_message at h
    by_cases hp : s.pwr_off = true
    · simp [hp] at h
      rw [← h]
    · have hi : (!s.do_polling && in_isr) = true := by
        rcases hg with hg | ⟨h1, h2⟩
        · exact absurd hg hp
        · simp [h1, h2]
      simp [hp, hi] at h
      rw [← h]
  · intro hp hi
    rw [write_message_resp_eq k env s command payload length rb resp_length response_code
      polling_delay_ms in_isr hp hi] at h
    cases hs : write_message_send k env s command payload length rb polling_delay_ms with
    | none => simp [hs] at h
    | some x =>
      simp only [hs, Option.some_bind] at h
      split at h
      · simp only [Option.some.injEq] at h
        rw [← h]
        exact write_message_exit_status k _
      · simp only [Option.some.injEq] at h
        rw [← h]
        exact write_message_wait_status k env _ _ _

theorem write_message_returns_idle_witness :
    ∃ r, syna_tcm_write_message tcm quiet_env scenario_E_state 0x22
        (some [10, 11, 12, 13, 14, 15, 16, 17, 18, 19]) 10 (some []) 0 none 0 false = some r ∧
      r.1 = -ETIME ∧ r.2.1.command_status = CMD_IDLE ∧ r.2.1.command = tcm.CMD_NONE := by
  have hs : (syna_tcm_write_message tcm quiet_env scenario_E_state 0x22
      (some [10, 11, 12, 13, 14, 15, 16, 17, 18, 19]) 10 (some []) 0 none 0 false).isSome = true := by
    decide
  obtain ⟨r, hr⟩ := Option.isSome_iff_exists.mp hs
  have h1 : r.1 = -ETIME := by
    have : (syna_tcm_write_message tcm quiet_env scenario_E_state 0x22
      (some [10, 11, 12, 13, 14, 15, 16, 17, 18, 19]) 10 (some []) 0 none 0 false).map (·.1)
        = some (-ETIME) := by decide
    rw [hr] at this
    simpa using this
  exact ⟨r, hr, h1, (write_message_returns_idle tcm quiet_env scenario_E_state 0x22 _ 10 []
    0 none 0 false r hr).2 rfl (by decide)⟩

theorem write_message_wait_timeout (k : tcm_defs) (env : Env D) (s : syna_tcm_hcd D)
    (d : Nat) (o : wm_outputs) (h0 : (wait_state env s d).completion_done = 0) :
    write_message_wait k env s d o = (-ETIME, write_message_exit k (wait_state env s d), o) := by
  unfold write_message_wait
  simp only []
  rw [if_pos h0]

theorem write_message_wait_error (k : tcm_defs) (env : Env D) (s : syna_tcm_hcd D)
    (d : Nat) (o : wm_outputs) (h0 : (wait_state env s d).completion_done ≠ 0)
    (h1 : (wait_state env s d).command_status ≠ CMD_IDLE) :
    write_message_wait k env s d o =
      (- EIO, write_message_exit k
        { wait_state env s d with
          completion_done := (wait_state env s d).completion_done - 1 }, o) := by
  unfold write_message_wait
  simp only []
  rw [if_neg h0, if_pos h1]

theorem write_message_wait_response (k : tcm_defs) (env : Env D) (s : syna_tcm_hcd D)
    (d : Nat) (o : wm_outputs) (h0 : (wait_state env s d).completion_done ≠ 0)
    (h1 : (wait_state env s d).command_status = CMD_IDLE) :
    write_message_wait k env s d o =
      (if (wait_state env s d).response_code ≠ k.STATUS_OK then - EIO else 0,
        write_message_exit k
          { wait_state env s d with
            completion_done := (wait_state env s d).completion_done - 1 },
        ⟨some (wait_state env s d).resp.buf, (wait_state env s d).resp.data_length,
          o.response_code.map (fun _ => (wait_state env s d).response_code)⟩) := by
  unfold write_message_wait
  simp only []
  rw [if_neg h0, if_neg (not_not.mpr h1)]

/-- C7. After all chunks were written and the wait is reached (the command is not the
host-download reset): a timed-out wait returns `-ETIME` and a command status other than
`CMD_IDLE` after the wait returns `- EIO`, in both cases with the outputs as they were
before the wait; otherwise the response buffer (with its size), its data length and the
response code of the slot are handed to the caller. -/
theorem write_message_wait_outcome (k : tcm_defs) (env : Env D) (s : syna_tcm_hcd D)
    (command : Nat) (payload : Option (List Nat)) (length : Nat) (rb : List Nat)
    (resp_length : Nat) (response_code : Option Nat) (polling_delay_ms : Nat) (in_isr : Bool)
    (rv0 : Int) (s1 : syna_tcm_hcd D)
    (hp : s.pwr_off = false) (hi : ¬ (s.do_polling = false ∧ in_isr = true))
    (hr : ¬ (command = k.CMD_RESET ∧ s.in_hdl_mode = true))
    (hsend : write_message_send k env s command payload length rb polling_delay_ms =
      some (loop_exit.completed, rv0, s1)) :
    ∃ rv s2 o,
      syna_tcm_write_message k env s command payload length (some rb) resp_length response_code
        polling_delay_ms in_isr = some (rv, s2, o) ∧
      ((wait_state env s1 polling_delay_ms).completion_done = 0 →
        rv = -ETIME ∧ o = ⟨some rb, resp_length, response_code.map (fun _ => k.STATUS_INVALID)⟩) ∧
      ((wait_state env s1 polling_delay_ms).completion_done ≠ 0 →
        (wait_state env s1 polling_delay_ms).command_status ≠ CMD_IDLE →
        rv = - EIO ∧ o = ⟨some rb, resp_length, response_code.map (fun _ => k.STATUS_INVALID)⟩) ∧
      ((wait_state env s1 polling_delay_ms).completion_done ≠ 0 →
        (wait_state env s1 polling_delay_ms).command_status = CMD_IDLE →
        o = ⟨some (wait_state env s1 polling_delay_ms).resp.buf,
          (wait_state env s1 polling_delay_ms).resp.data_length,
          response_code.map (fun _ => (wait_state env s1 polling_delay_ms).response_code)⟩) := by
  rw [write_message_resp_eq k env s command payload length rb resp_length response_code
    polling_delay_ms in_isr hp hi, hsend]
  simp only [Option.some_bind, ne_eq, not_true_eq_false, hr, or_self, if_false]
  refine ⟨(write_message_wait k env s1 polling_delay_ms
      ⟨some rb, resp_length, response_code.map (fun _ => k.STATUS_INVALID)⟩).1,
    (write_message_wait k env s1 polling_delay_ms
      ⟨some rb, resp_length, response_code.map (fun _ => k.STATUS_INVALID)⟩).2.1,
    (write_message_wait k env s1 polling_delay_ms
      ⟨some rb, resp_length, response_code.map (fun _ => k.STATUS_INVALID)⟩).2.2, rfl, ?_, ?_, ?_⟩
  · intro h0
    rw [write_message_wait_timeout k env s1 polling_delay_ms _ h0]
    exact ⟨rfl, rfl⟩
  · intro h0 h1
    rw [write_message_wait_error k env s1 polling_delay_ms _ h0 h1]
    exact ⟨rfl, rfl⟩
  · intro h0 h1
    rw [write_message_wait_response k env s1 polling_delay_ms _ h0 h1]
    cases response_code <;> rfl

theorem write_message_wait_outcome_witness :
    ∃ rv s2 o, syna_tcm_write_message tcm reader_env responding_state 0x02 none 0 (some [])
        0 (some 0) 0 false = some (rv, s2, o) ∧
      o = ⟨some [7, 8], 2, some tcm.STATUS_OK⟩ := by
  have hsend : write_message_send tcm reader_env responding_state 0x02 none 0 [] 0 =
      some (loop_exit.completed, 0,
        ((write_message_send tcm reader_env responding_state 0x02 none 0 [] 0).get
          (by decide)).2.2) := by
    decide
  obtain ⟨rv, s2, o, h, _, _, h3⟩ := write_message_wait_outcome tcm reader_env responding_state
    0x02 none 0 [] 0 (some 0) 0 false 0 _ rfl (by decide) (by decide) hsend
  exact ⟨rv, s2, o, h, h3 (by decide) (by decide)⟩

theorem bus_writes_append (a b : List Event) :
    bus_writes (a ++ b) = bus_writes a ++ bus_writes b := by
  induction a with
  | nil => rfl
  | cons e t ih => cases e <;> simp [bus_writes, ih]

theorem chunk_space_of_ne (k : tcm_defs) (W cmd L : Nat) (h : cmd ≠ k.CMD_ROMBOOT_DOWNLOAD) :
    write_message_chunk_space k W cmd L = if W = 0 then add32 L 2 else sub32 W 1 := by
  simp [write_message_chunk_space, h]

theorem write_message_exit_trace (k : tcm_defs) (s : syna_tcm_hcd D) :
    (write_message_exit k s).trace = s.trace ++ [Event.set_command_status CMD_IDLE] := by
  simp [write_message_exit, syna_tcm_hcd.set_status]

theorem write_message_wait_trace (k : tcm_defs) (env : Env D) (s : syna_tcm_hcd D)
    (d : Nat) (o : wm_outputs) :
    (write_message_wait k env s d o).2.1.trace =
      (wait_state env s d).trace ++ [Event.set_command_status CMD_IDLE] := by
  unfold write_message_wait
  simp only []
  split
  · exact write_message_exit_trace k _
  · split <;> exact write_message_exit_trace k _

theorem status_sets_append (a b : List Event) :
    status_sets (a ++ b) = status_sets a ++ status_sets b := by
  induction a with
  | nil => rfl
  | cons e t ih => cases e <;> simp [status_sets, ih]

theorem kmalloc_trace (env : Env D) (s : syna_tcm_hcd D) (cap size : Nat) :
    (kmalloc env s cap size).2.trace = s.trace ∧
      (kmalloc env s cap size).2.command_status = s.command_status ∧
      (kmalloc env s cap size).2.command = s.command := by
  unfold kmalloc
  split <;> simp

theorem syna_tcm_write_trace (env : Env D) (s : syna_tcm_hcd D) (src : List Nat) (n : Nat)
    (w : Int × syna_tcm_hcd D) (h : syna_tcm_write env s src n = some w) :
    w.2.trace = s.trace ++ [Event.bus_write (src.take n)] ∧
      w.2.command_status = s.command_status ∧ w.2.command = s.command := by
  unfold syna_tcm_write at h
  split at h
  · simp only [Option.some.injEq] at h
    rw [← h]
    simp
  · simp at h

/-- One iteration of the chunk loop of `syna_tcm_write_message` never assigns
`command_status`, issues at most one bus write, and issues none when the preparation of
the chunk (allocation or copy) fails. -/
theorem write_message_chunk_frame (k : tcm_defs) (env : Env D) (command : Nat)
    (payload : Option (List Nat)) (length chunks chunk_space idx remaining_length : Nat)
    (s : syna_tcm_hcd D) (e : loop_exit) (rv : Int) (s1 : syna_tcm_hcd D)
    (h : write_message_chunk k env command payload length chunks chunk_space idx
      remaining_length s = some (e, rv, s1)) :
    s1.command_status = s.command_status ∧ s1.command = s.command ∧
      status_sets s1.trace = status_sets s.trace ∧
      (e ≠ loop_exit.completed → rv < 0) ∧
      ((e = loop_exit.alloc_failed ∨ e = loop_exit.copy_failed) → s1.trace = s.trace) ∧
      ((e = loop_exit.completed ∨ e = loop_exit.bus_failed) →
        ∃ d, bus_writes s1.trace = bus_writes s.trace ++ [d]) ∧
      e ≠ loop_exit.bad_chunk := by
  unfold write_message_chunk at h
  simp only [] at h
  obtain ⟨ht, hc, hm⟩ := kmalloc_trace env s s.out.buf_size
    (add32 (chunk_xfer_length remaining_length chunk_space) 1)
  generalize kmalloc env s s.out.buf_size
    (add32 (chunk_xfer_length remaining_length chunk_space) 1) = a at h ht hc hm
  generalize syna_tcm_alloc_mem a.1 a.2.out
    (add32 (chunk_xfer_length remaining_length chunk_space) 1) = m at h
  split at h
  · rename_i hneg
    simp only [Option.some.injEq, Prod.mk.injEq] at h
    obtain ⟨he, hrv, hs⟩ := h
    subst he hrv hs
    simp [ht, hc, hm, hneg]
  · simp only [Option.bind_eq_bind, Option.bind_eq_some] at h
    obtain ⟨c, _, h⟩ := h
    split at h
    · rename_i hneg
      simp only [Option.some.injEq, Prod.mk.injEq] at h
      obtain ⟨he, hrv, hs⟩ := h
      subst he hrv hs
      simp [ht, hc, hm, hneg]
    · simp only [Option.bind_eq_some] at h
      obtain ⟨w, hw, h⟩ := h
      obtain ⟨hwt, hwc, hwm⟩ := syna_tcm_write_trace env _ _ _ w hw
      simp only [] at hwt hwc hwm
      split at h
      · rename_i hneg
        simp only [Option.some.injEq, Prod.mk.injEq] at h
        obtain ⟨he, hrv, hs⟩ := h
        subst he hrv hs
        refine ⟨by rw [hwc, hc], by rw [hwm, hm], ?_, fun _ => hneg, ?_, ?_, by simp⟩
        · rw [hwt, status_sets_append, ht]; simp [status_sets]
        · intro h'; simp at h'
        · intro _
          exact ⟨List.take _ c.2, by rw [hwt, bus_writes_append, ht]; rfl⟩
      · simp only [Option.some.injEq, Prod.mk.injEq] at h
        obtain ⟨he, hrv, hs⟩ := h
        subst he hrv hs
        refine ⟨?_, ?_, ?_, fun h' => absurd rfl h', ?_, ?_, by simp⟩
        · split <;> simp [syna_tcm_hcd.log, hwc, hc]
        · split <;> simp [syna_tcm_hcd.log, hwm, hm]
        · split <;> simp [syna_tcm_hcd.log, hwt, ht, status_sets_append, status_sets]
        · intro h'; simp at h'
        · intro _
          refine ⟨List.take (add32 (chunk_xfer_length remaining_length chunk_space) 1) c.2, ?_⟩
          split <;> simp [syna_tcm_hcd.log, hwt, ht, bus_writes_append, bus_writes]

/-- The chunk loop of `syna_tcm_write_message` never assigns `command_status`, issues at
most one bus write per iteration, and strictly fewer writes than iterations when the
preparation of a chunk fails. -/
theorem write_message_loop_frame (k : tcm_defs) (env : Env D) (command : Nat)
    (payload : Option (List Nat)) (length chunks chunk_space : Nat) :
    ∀ (n idx remaining_length : Nat) (rv0 : Int) (s : syna_tcm_hcd D) (e : loop_exit) (rv : Int)
      (s1 : syna_tcm_hcd D),
      write_message_loop k env command payload length chunks chunk_space n idx remaining_length
        rv0 s = some (e, rv, s1) →
      s1.command_status = s.command_status ∧ s1.command = s.command ∧
        status_sets s1.trace = status_sets s.trace ∧
        (e ≠ loop_exit.completed → rv < 0) ∧
        (bus_writes s1.trace).length ≤ (bus_writes s.trace).length + n ∧
        ((e = loop_exit.alloc_failed ∨ e = loop_exit.copy_failed) →
          (bus_writes s1.trace).length < (bus_writes s.trace).length + n) := by
  intro n
  induction n with
  | zero =>
    intro idx rem rv0 s e rv s1 h
    simp only [write_message_loop, Option.some.injEq, Prod.mk.injEq] at h
    obtain ⟨he, _, hs⟩ := h
    subst he hs
    simp
  | succ n ih =>
    intro idx rem rv0 s e rv s1 h
    simp only [write_message_loop, Option.bind_eq_bind, Option.bind_eq_some] at h
    obtain ⟨r, hr, h⟩ := h
    obtain ⟨re, rrv, rs⟩ := r
    obtain ⟨f1, f2, f3, f4, f5, f6, f7⟩ := write_message_chunk_frame k env command payload length
      chunks chunk_space idx rem s re rrv rs hr
    by_cases hc : re = loop_exit.completed
    · simp only [hc, ne_eq, not_true_eq_false, if_false] at h
      obtain ⟨g1, g2, g3, g4, g5, g6⟩ := ih _ _ _ _ _ _ _ h
      obtain ⟨d, hd⟩ := f6 (Or.inl hc)
      have hlen : (bus_writes rs.trace).length = (bus_writes s.trace).length + 1 := by
        rw [hd]; simp
      refine ⟨by rw [g1, f1], by rw [g2, f2], by rw [g3, f3], g4, by omega, ?_⟩
      intro he
      have := g6 he
      omega
    · simp only [ne_eq, hc, not_false_eq_true, if_true, Option.some.injEq, Prod.mk.injEq] at h
      obtain ⟨he, hrv, hs⟩ := h
      subst he hrv hs
      refine ⟨f1, f2, f3, f4, ?_, ?_⟩
      · cases re with
        | completed => exact absurd rfl hc
        | alloc_failed => rw [f5 (Or.inl rfl)]; omega
        | copy_failed => rw [f5 (Or.inr rfl)]; omega
        | bus_failed =>
          obtain ⟨d, hd⟩ := f6 (Or.inr rfl)
          rw [hd]; simp
        | bad_chunk => exact absurd rfl f7
      · intro he
        rw [f5 he]; omega

theorem write_message_begin_trace (s : syna_tcm_hcd D) (command : Nat) (rb : List Nat)
    (d : Nat) :
    status_sets (write_message_begin s command rb d).trace = status_sets s.trace ++ [CMD_BUSY] ∧
      bus_writes (write_message_begin s command rb d).trace = bus_writes s.trace := by
  unfold write_message_begin
  simp only []
  split <;>
    simp [syna_tcm_hcd.log, syna_tcm_hcd.set_status, status_sets_append, bus_writes_append,
      status_sets, bus_writes]

theorem syna_tcm_read_ok (env : Env D) (s : syna_tcm_hcd D) (dst : List Nat) (n : Nat)
    (h0 : 0 ≤ (env.bus_read s.dev n).1) (hn : n ≤ dst.length) :
    syna_tcm_read env s dst n =
      some ((env.bus_read s.dev n).1, fill (env.bus_read s.dev n).2.1 n ++ dst.drop n,
        { s with dev := (env.bus_read s.dev n).2.2, trace := s.trace ++ [Event.bus_read n] }) := by
  unfold syna_tcm_read
  simp only []
  rw [if_neg (not_lt.mpr h0), if_pos hn]

theorem fill_length (data : List Nat) (n : Nat) : (fill data n).length = n := by
  simp [fill]

theorem fill_getD (data : List Nat) (n i : Nat) (hi : i < n) :
    (fill data n).getD i 0 = data.getD i 0 := by
  unfold fill
  rw [List.getD_eq_getElem?_getD, List.getD_eq_getElem?_getD, List.getElem?_take_of_lt hi]
  by_cases h : i < data.length
  · rw [List.getElem?_append_left h]
  · rw [List.getElem?_append_right (not_lt.mp h), List.getElem?_eq_none (not_lt.mp h)]
    rw [List.getElem?_replicate]
    split <;> rfl

theorem first_read_getD (env : Env D) (s : syna_tcm_hcd D) (i : Nat) (hi : i < s.read_length) :
    (first_read_state env s).inb.buf.getD i 0 =
      (env.bus_read s.dev s.read_length).2.1.getD i 0 := by
  unfold first_read_state
  simp only []
  rw [List.getD_eq_getElem?_getD, List.getElem?_append_left (by rw [fill_length]; exact hi),
    ← List.getD_eq_getElem?_getD, fill_getD _ _ _ hi]

theorem first_read_length (env : Env D) (s : syna_tcm_hcd D)
    (hn : s.read_length ≤ s.inb.buf_size) :
    (first_read_state env s).inb.buf.length = s.inb.buf.length := by
  unfold first_read_state
  simp only [List.length_append, fill_length, List.length_drop]
  unfold syna_tcm_buffer.buf_size at hn
  omega

/-- A pass of `syna_tcm_read_message` whose read succeeds with a first byte other than
the marker: the first pass jumps to `retry:`, the second one goes to `exit:` with
`- ENXIO`. -/
theorem read_message_receive_bad_marker (k : tcm_defs) (env : Env D) (retry : Bool)
    (again : Bool → syna_tcm_hcd D → Option (receive_result D)) (s : syna_tcm_hcd D)
    (h0 : 0 ≤ (env.bus_read s.dev s.read_length).1)
    (h1 : 1 ≤ s.read_length) (hn : s.read_length ≤ s.inb.buf_size)
    (hm : (env.bus_read s.dev s.read_length).2.1.getD 0 0 ≠ MESSAGE_MARKER) :
    read_message_receive k env retry again false s =
      if retry then again false (retry_state env s)
      else some (receive_result.exit (- ENXIO) (first_read_state env s)) := by
  unfold read_message_receive LOCK_BUFFER
  rw [if_neg Bool.false_ne_true, syna_tcm_read_ok env s s.inb.buf s.read_length h0 hn]
  simp only [Option.bind_eq_bind, Option.some_bind]
  rw [if_neg (not_lt.mpr h0)]
  have hlen := first_read_length env s hn
  have hg := first_read_getD env s 0 (by omega)
  unfold syna_tcm_buffer.buf_size at hn
  have hb : buf_get (first_read_state env s).inb.buf 0 =
      some ((env.bus_read s.dev s.read_length).2.1.getD 0 0) := by
    unfold buf_get
    rw [if_pos (by omega), hg]
  change (buf_get (first_read_state env s).inb.buf 0).bind _ = _
  rw [hb]
  simp only [Option.some_bind, ne_eq, hm, not_false_eq_true, if_true]
  rfl

theorem retry_state_fields (env : Env D) (s : syna_tcm_hcd D) :
    (retry_state env s).dev = (env.bus_read s.dev s.read_length).2.2 ∧
      (retry_state env s).read_length = s.read_length ∧
      (retry_state env s).inb.buf = (first_read_state env s).inb.buf ∧
      (retry_state env s).command_status = s.command_status ∧
      (retry_state env s).completion_done = s.completion_done ∧
      (retry_state env s).trace = s.trace ++ [Event.bus_read s.read_length,
        Event.usleep_range READ_RETRY_US_MIN READ_RETRY_US_MAX] := by
  simp [retry_state, first_read_state, syna_tcm_hcd.log]

/-- With the device powered and no raw buffer, `syna_tcm_read_message` is the two passes,
the padding check and the label `exit:`. -/
theorem read_message_eq (k : tcm_defs) (env : Env D) (s : syna_tcm_hcd D) (length : Nat)
    (hp : s.pwr_off = false) :
    syna_tcm_read_message k env s none length =
      (read_message_passes k env s).bind (fun r =>
        (match r with
          | receive_result.exit retval s1 => some (retval, s1)
          | receive_result.check_padding total_length s1 =>
            read_message_check_padding k env total_length s1).bind
          (fun e => some (e.1, read_message_exit e.1 e.2, none))) := by
  unfold syna_tcm_read_message
  simp only [hp, Bool.false_eq_true, if_false]
  cases read_message_passes k env s with
  | none => rfl
  | some r => cases r <;> rfl

/-- C8. Scenario D: when the first read and the read of the retry both succeed with a
first byte other than `MESSAGE_MARKER`, `syna_tcm_read_message` returns `- ENXIO` after
exactly two bus reads separated by one back-off; nothing is dispatched and `read_length`
is unchanged; a command that was outstanding (`CMD_BUSY`) is moved to `CMD_ERROR` and
the completion is signalled once, otherwise `command_status` and the completion are left
alone. -/
theorem read_message_marker_mismatch_twice (k : tcm_defs) (env : Env D) (s : syna_tcm_hcd D)
    (length : Nat) (hp : s.pwr_off = false)
    (h1 : 1 ≤ s.read_length) (hn : s.read_length ≤ s.inb.buf_size)
    (hr1 : 0 ≤ (env.bus_read s.dev s.read_length).1)
    (hm1 : (env.bus_read s.dev s.read_length).2.1.getD 0 0 ≠ MESSAGE_MARKER)
    (hr2 : 0 ≤ (env.bus_read (env.bus_read s.dev s.read_length).2.2 s.read_length).1)
    (hm2 : (env.bus_read (env.bus_read s.dev s.read_length).2.2 s.read_length).2.1.getD 0 0 ≠
      MESSAGE_MARKER) :
    ∃ s1, syna_tcm_read_message k env s none length = some (- ENXIO, s1, none) ∧
      s1.trace = s.trace ++ [Event.bus_read s.read_length,
          Event.usleep_range READ_RETRY_US_MIN READ_RETRY_US_MAX, Event.bus_read s.read_length] ++
        (if s.command_status = CMD_BUSY then [Event.set_command_status CMD_ERROR, Event.complete]
          else []) ∧
      s1.read_length = s.read_length ∧
      s1.command_status = (if s.command_status = CMD_BUSY then CMD_ERROR else s.command_status) ∧
      s1.completion_done =
        (if s.command_status = CMD_BUSY then s.completion_done + 1 else s.completion_done) := by
  obtain ⟨f1, f2, f3, f4, f5, f6⟩ := retry_state_fields env s
  have hlen := first_read_length env s hn
  have pass2 := read_message_receive_bad_marker k env false (fun _ _ => none)
    (retry_state env s)
    (by rw [f1, f2]; exact hr2) (by rw [f2]; exact h1)
    (by unfold syna_tcm_buffer.buf_size at hn ⊢; rw [f2, f3, hlen]; exact hn)
    (by rw [f1, f2]; exact hm2)
  have pass1 := read_message_receive_bad_marker k env true
    (read_message_receive k env false (fun _ _ => none)) s hr1 h1 hn hm1
  simp only [if_true] at pass1
  simp only [Bool.false_eq_true, if_false] at pass2
  rw [read_message_eq k env s length hp]
  unfold read_message_passes
  rw [pass1, pass2]
  simp only [Option.some_bind]
  refine ⟨_, rfl, ?_, ?_, ?_, ?_⟩
  · by_cases hb : s.command_status = CMD_BUSY <;>
      simp [read_message_exit, first_read_state, ENXIO, f2, f4, f6, hb,
        syna_tcm_hcd.set_status, syna_tcm_hcd.complete]
  · by_cases hb : s.command_status = CMD_BUSY <;>
      simp [read_message_exit, first_read_state, ENXIO, f2, f4, hb,
        syna_tcm_hcd.set_status, syna_tcm_hcd.complete]
  · by_cases hb : s.command_status = CMD_BUSY <;>
      simp [read_message_exit, first_read_state, ENXIO, f2, f4, hb,
        syna_tcm_hcd.set_status, syna_tcm_hcd.complete]
  · by_cases hb : s.command_status = CMD_BUSY <;>
      simp [read_message_exit, first_read_state, ENXIO, f2, f4, f5, hb,
        syna_tcm_hcd.set_status, syna_tcm_hcd.complete]

theorem read_message_marker_mismatch_twice_witness :
    ∃ s1, syna_tcm_read_message tcm noise_env busy_state none 0 = some (- ENXIO, s1, none) ∧
      s1.trace = [Event.bus_read 9, Event.usleep_range 5000 10000, Event.bus_read 9,
        Event.set_command_status CMD_ERROR, Event.complete] ∧
      s1.read_length = 9 ∧ s1.command_status = CMD_ERROR ∧ s1.completion_done = 1 :=
  read_message_marker_mismatch_twice tcm noise_env busy_state 0 rfl (by decide) (by decide)
    (by decide) (by decide) (by decide) (by decide)

theorem first_read_buf_get (env : Env D) (s : syna_tcm_hcd D) (i : Nat)
    (hi : i < s.read_length) (hn : s.read_length ≤ s.inb.buf_size) :
    buf_get (first_read_state env s).inb.buf i =
      some ((env.bus_read s.dev s.read_length).2.1.getD i 0) := by
  unfold buf_get
  have hlen := first_read_length env s hn
  unfold syna_tcm_buffer.buf_size at hn
  rw [if_pos (by omega), first_read_getD env s i hi]

theorem first_read_le2 (env : Env D) (s : syna_tcm_hcd D)
    (h4 : 4 ≤ s.read_length) (hn : s.read_length ≤ s.inb.buf_size) :
    le2_to_uint (first_read_state env s).inb.buf 2 =
      some ((env.bus_read s.dev s.read_length).2.1.getD 2 0 +
        256 * (env.bus_read s.dev s.read_length).2.1.getD 3 0) := by
  unfold le2_to_uint
  have hlen := first_read_length env s hn
  unfold syna_tcm_buffer.buf_size at hn
  rw [if_pos (by omega), first_read_getD env s 2 (by omega), first_read_getD env s 3 (by omega)]

/-- A pass of `syna_tcm_read_message` whose read succeeds with a valid marker: the header
is parsed and the status class of the code decides how the pass goes on. -/
theorem read_message_receive_header (k : tcm_defs) (env : Env D) (retry : Bool)
    (again : Bool → syna_tcm_hcd D → Option (receive_result D)) (s : syna_tcm_hcd D)
    (h0 : 0 ≤ (env.bus_read s.dev s.read_length).1)
    (h4 : 4 ≤ s.read_length) (hn : s.read_length ≤ s.inb.buf_size)
    (hm : (env.bus_read s.dev s.read_length).2.1.getD 0 0 = MESSAGE_MARKER) :
    read_message_receive k env retry again false s =
      if (header_state env s).status_report_code ≤ k.STATUS_ERROR ∨
          (header_state env s).status_report_code = k.STATUS_INVALID then
        if (header_state env s).status_report_code = k.STATUS_OK then
          read_message_reassemble k env (header_state env s)
        else if (header_state env s).status_report_code = k.STATUS_CONTINUED_READ ∨
            (header_state env s).status_report_code = k.STATUS_IDLE ∨
            (header_state env s).status_report_code = k.STATUS_BUSY then
          some (receive_result.exit 0 { header_state env s with payload_length := 0 })
        else if (header_state env s).status_report_code = k.STATUS_INVALID then
          if retry then
            again true ((header_state env s).log
              (Event.usleep_range READ_RETRY_US_MIN READ_RETRY_US_MAX))
          else read_message_reassemble k env { header_state env s with payload_length := 0 }
        else read_message_reassemble k env (header_state env s)
      else read_message_reassemble k env (header_state env s) := by
  unfold read_message_receive LOCK_BUFFER
  rw [if_neg Bool.false_ne_true, syna_tcm_read_ok env s s.inb.buf s.read_length h0 hn]
  simp only [Option.bind_eq_bind, Option.some_bind]
  rw [if_neg (not_lt.mpr h0)]
  change (buf_get (first_read_state env s).inb.buf 0).bind _ = _
  rw [first_read_buf_get env s 0 (by omega) hn]
  simp only [Option.some_bind, ne_eq, hm, not_true_eq_false, if_false]
  change (buf_get (first_read_state env s).inb.buf 1).bind _ = _
  rw [first_read_buf_get env s 1 (by omega) hn]
  simp only [Option.some_bind]
  change (le2_to_uint (first_read_state env s).inb.buf 2).bind _ = _
  rw [first_read_le2 env s h4 hn]
  rfl

theorem header_state_fields (env : Env D) (s : syna_tcm_hcd D) :
    (header_state env s).dev = (env.bus_read s.dev s.read_length).2.2 ∧
      (header_state env s).read_length = s.read_length ∧
      (header_state env s).inb.buf = (first_read_state env s).inb.buf ∧
      (header_state env s).trace = s.trace ++ [Event.bus_read s.read_length] ∧
      (header_state env s).status_report_code =
        (env.bus_read s.dev s.read_length).2.1.getD 1 0 ∧
      (header_state env s).payload_length =
        (env.bus_read s.dev s.read_length).2.1.getD 2 0 +
          256 * (env.bus_read s.dev s.read_length).2.1.getD 3 0 := by
  simp [header_state, first_read_state]

/-- A message with an empty payload needs no continued read when at least the four header
bytes were read and the inbound buffer has room for the padding byte: the pass reaches
the padding check with `total_length = 5`. -/
theorem read_message_reassemble_empty (k : tcm_defs) (env : Env D) (s : syna_tcm_hcd D)
    (hP : s.payload_length = 0) (h4 : 4 ≤ s.read_length)
    (hcap : s.read_length + 1 ≤ s.inb.buf.length) :
    ∃ s1, read_message_reassemble k env s = some (receive_result.check_padding 5 s1) ∧
      s1.payload_length = 0 ∧ s1.status_report_code = s.status_report_code ∧
      s1.trace = s.trace ∧ s1.read_length = s.read_length := by
  unfold read_message_reassemble
  have hT : add32 (add32 MESSAGE_HEADER_SIZE s.payload_length) 1 = 5 := by
    rw [hP]; rfl
  simp only [hT]
  by_cases h5 : 5 ≤ s.read_length
  · rw [if_pos h5]
    exact ⟨s, rfl, hP, rfl, rfl, rfl⟩
  · rw [if_neg h5]
    have hR : s.read_length = 4 := by omega
    have hs : sub32 5 1 = 4 := rfl
    rw [hs, if_pos hR.symm]
    have hb : buf_set s.inb.buf 4 MESSAGE_PADDING = some (s.inb.buf.set 4 MESSAGE_PADDING) := by
      unfold buf_set
      rw [if_pos (by omega)]
    rw [hb]
    exact ⟨_, rfl, hP, rfl, rfl, rfl⟩

/-- A first pass whose header has a valid marker and the code `STATUS_INVALID` jumps to
`retry:` without `UNLOCK_BUFFER(tcm_hcd->in)` (lines 886 to 890), and `LOCK_BUFFER` at
line 827 waits for the mutex the thread holds itself: the second read never takes place
and `syna_tcm_read_message` has no result, whatever the length field of the header. -/
theorem read_message_invalid_retry_blocks (k : tcm_defs) (env : Env D) (s : syna_tcm_hcd D)
    (length : Nat) (hk : k.status_labels) (hp : s.pwr_off = false)
    (h4 : 4 ≤ s.read_length) (hn : s.read_length ≤ s.inb.buf_size)
    (h0 : 0 ≤ (env.bus_read s.dev s.read_length).1)
    (hm : (env.bus_read s.dev s.read_length).2.1.getD 0 0 = MESSAGE_MARKER)
    (hc : (env.bus_read s.dev s.read_length).2.1.getD 1 0 = k.STATUS_INVALID) :
    read_message_passes k env s = none ∧ syna_tcm_read_message k env s none length = none := by
  obtain ⟨k1, k2, k3, k4, k5, k6, k7, k8, k9, k10, k11, k12⟩ := hk
  obtain ⟨f1, f2, f3, f4, f5, f6⟩ := header_state_fields env s
  have pass1 := read_message_receive_header k env true
    (read_message_receive k env false (fun _ _ => none)) s h0 h4 hn hm
  rw [f5] at pass1
  have hne : (env.bus_read s.dev s.read_length).2.1.getD 1 0 ≠ k.STATUS_OK := by
    rw [hc]; exact fun h => k4 h.symm
  have hc2 : ¬ ((env.bus_read s.dev s.read_length).2.1.getD 1 0 = k.STATUS_CONTINUED_READ ∨
      (env.bus_read s.dev s.read_length).2.1.getD 1 0 = k.STATUS_IDLE ∨
      (env.bus_read s.dev s.read_length).2.1.getD 1 0 = k.STATUS_BUSY) := by
    rw [hc]; simp [k10, k11, k12]
  rw [if_pos (Or.inr hc), if_neg hne, if_neg hc2, if_pos hc, if_pos rfl] at pass1
  have blocked : ∀ sr : syna_tcm_hcd D,
      read_message_receive k env false (fun _ _ => none) true sr = none := by
    intro sr
    unfold read_message_receive LOCK_BUFFER
    rfl
  rw [blocked] at pass1
  have hpass : read_message_passes k env s = none := by
    unfold read_message_passes; exact pass1
  refine ⟨hpass, ?_⟩
  rw [read_message_eq k env s length hp, hpass]
  rfl

/-- A closed instance of the blocked retry: a device that answers with a header of code
`STATUS_INVALID` and the length field 5. -/
theorem read_message_invalid_retry_blocks_instance :
    syna_tcm_read_message tcm (msg_env tcm) invalid_message_state none 0 = none :=
  (read_message_invalid_retry_blocks tcm (msg_env tcm) invalid_message_state 0 (by decide) rfl
    (by decide) (by decide) (by decide) (by decide) (by decide)).2

/-- C9 (as amended). For a first-read header with a valid marker and any length field:
with code `STATUS_IDLE`, `STATUS_BUSY` or `STATUS_CONTINUED_READ` the call returns `0` at
once with `payload_length` forced to `0`, after one bus read, without dispatch and
without touching `read_length`; with code `STATUS_OK` nothing is forced: the pass goes
on with the length field of the header. -/
theorem read_message_status_classes (k : tcm_defs) (env : Env D) (s : syna_tcm_hcd D)
    (length : Nat) (hk : k.status_labels) (hp : s.pwr_off = false)
    (h4 : 4 ≤ s.read_length) (hn : s.read_length ≤ s.inb.buf_size)
    (h0 : 0 ≤ (env.bus_read s.dev s.read_length).1)
    (hm : (env.bus_read s.dev s.read_length).2.1.getD 0 0 = MESSAGE_MARKER) :
    (((env.bus_read s.dev s.read_length).2.1.getD 1 0 = k.STATUS_IDLE ∨
        (env.bus_read s.dev s.read_length).2.1.getD 1 0 = k.STATUS_BUSY ∨
        (env.bus_read s.dev s.read_length).2.1.getD 1 0 = k.STATUS_CONTINUED_READ) →
      ∃ s1, syna_tcm_read_message k env s none length = some (0, s1, none) ∧
        s1.payload_length = 0 ∧
        s1.status_report_code = (env.bus_read s.dev s.read_length).2.1.getD 1 0 ∧
        s1.trace = s.trace ++ [Event.bus_read s.read_length] ∧
        s1.read_length = s.read_length) ∧
    ((env.bus_read s.dev s.read_length).2.1.getD 1 0 = k.STATUS_OK →
      read_message_passes k env s = read_message_reassemble k env (header_state env s) ∧
      (header_state env s).payload_length =
        (env.bus_read s.dev s.read_length).2.1.getD 2 0 +
          256 * (env.bus_read s.dev s.read_length).2.1.getD 3 0) := by
  obtain ⟨k1, k2, k3, k4, k5, k6, k7, k8, k9, k10, k11, k12⟩ := hk
  obtain ⟨f1, f2, f3, f4, f5, f6⟩ := header_state_fields env s
  have pass1 := read_message_receive_header k env true
    (read_message_receive k env false (fun _ _ => none)) s h0 h4 hn hm
  rw [f5] at pass1
  refine ⟨?_, ?_⟩
  · intro hc
    have hle : (env.bus_read s.dev s.read_length).2.1.getD 1 0 ≤ k.STATUS_ERROR := by
      rcases hc with hc | hc | hc <;> rw [hc] <;> assumption
    have hne : (env.bus_read s.dev s.read_length).2.1.getD 1 0 ≠ k.STATUS_OK := by
      rcases hc with hc | hc | hc <;> rw [hc] <;> exact fun h => by simp_all
    have hc2 : (env.bus_read s.dev s.read_length).2.1.getD 1 0 = k.STATUS_CONTINUED_READ ∨
        (env.bus_read s.dev s.read_length).2.1.getD 1 0 = k.STATUS_IDLE ∨
        (env.bus_read s.dev s.read_length).2.1.getD 1 0 = k.STATUS_BUSY := by
      rcases hc with hc | hc | hc
      · exact Or.inr (Or.inl hc)
      · exact Or.inr (Or.inr hc)
      · exact Or.inl hc
    rw [if_pos (Or.inl hle), if_neg hne, if_pos hc2] at pass1
    rw [read_message_eq k env s length hp]
    unfold read_message_passes
    rw [pass1]
    simp only [Option.some_bind]
    refine ⟨_, rfl, ?_, ?_, ?_, ?_⟩ <;> simp [read_message_exit, f2, f4, f5]
  · intro hc
    rw [if_pos (Or.inl (by rw [hc]; exact k8)), if_pos hc] at pass1
    exact ⟨by unfold read_message_passes; exact pass1, f6⟩

/-- C9 (counterexample). A header with code `STATUS_OK` and length field 5 is not
short-circuited: the call keeps `payload_length = 5`. -/
theorem read_message_status_ok_keeps_length :
    (syna_tcm_read_message tcm (msg_env tcm) ok_payload_state none 0).map
      (fun r => (r.1, r.2.1.status_report_code, r.2.1.payload_length)) =
      some (0, tcm.STATUS_OK, 5) := by
  decide

theorem read_message_status_classes_witness :
    ∃ s1, syna_tcm_read_message tcm (msg_env tcm) busy_message_state none 0 =
        some (0, s1, none) ∧
      s1.payload_length = 0 ∧ s1.status_report_code = tcm.STATUS_BUSY ∧
      s1.trace = [Event.bus_read 9] ∧ s1.read_length = 9 :=
  (read_message_status_classes tcm (msg_env tcm) busy_message_state 0 (by decide) rfl
    (by decide) (by decide) (by decide) (by decide)).1 (Or.inr (Or.inl (by decide)))

theorem same_message_refl (s : syna_tcm_hcd D) : same_message s s :=
  ⟨rfl, rfl, rfl, rfl, rfl, rfl⟩

theorem same_message_trans {s s1 s2 : syna_tcm_hcd D} (h1 : same_message s s1)
    (h2 : same_message s1 s2) : same_message s s2 := by
  obtain ⟨a1, a2, a3, a4, a5, a6⟩ := h1
  obtain ⟨b1, b2, b3, b4, b5, b6⟩ := h2
  exact ⟨by rw [b1, a1], by rw [b2, a2], by rw [b3, a3], by rw [b4, a4], by rw [b5, a5],
    by rw [b6, a6]⟩

theorem kmalloc_same (env : Env D) (s : syna_tcm_hcd D) (cap size : Nat) :
    same_message s (kmalloc env s cap size).2 ∧ (kmalloc env s cap size).2.inb = s.inb := by
  unfold kmalloc same_message
  split <;> simp

theorem dispatch_report_same (k : tcm_defs) (s : syna_tcm_hcd D) :
    same_message s (syna_tcm_dispatch_report k s) ∧ (syna_tcm_dispatch_report k s).inb = s.inb := by
  unfold syna_tcm_dispatch_report same_message
  simp only []
  split
  · split <;> simp [syna_tcm_hcd.log]
  · split
    · split <;> simp [syna_tcm_hcd.log]
    · simp [syna_tcm_hcd.log]

theorem dispatch_response_same (env : Env D) (s s1 : syna_tcm_hcd D)
    (h : syna_tcm_dispatch_response env s = some s1) :
    same_message s s1 ∧ s1.inb = s.inb := by
  unfold syna_tcm_dispatch_response at h
  simp only [] at h
  obtain ⟨ka, kb⟩ := kmalloc_same env
    { s.log Event.dispatch_response with
      response_code := (s.log Event.dispatch_response).status_report_code }
    ({ s.log Event.dispatch_response with
      response_code := (s.log Event.dispatch_response).status_report_code }).resp.buf_size
    (s.log Event.dispatch_response).payload_length
  generalize kmalloc env _ _ _ = a at h ka kb
  obtain ⟨a1, a2, a3, a4, a5, a6⟩ := ka
  simp only [syna_tcm_hcd.log] at a1 a2 a3 a4 a5 a6 kb
  split at h
  · simp only [Option.some.injEq] at h
    subst h
    simp [same_message, syna_tcm_hcd.log]
  · split at h
    · simp only [Option.some.injEq] at h
      subst h
      simp [same_message, syna_tcm_hcd.log, syna_tcm_hcd.set_status, syna_tcm_hcd.complete]
    · split at h
      · simp only [Option.some.injEq] at h
        subst h
        simp [same_message, syna_tcm_hcd.set_status, syna_tcm_hcd.complete, a1, a2, a3, a4, a5,
          a6, kb]
      · simp only [Option.bind_eq_bind, Option.bind_eq_some] at h
        obtain ⟨c, _, h⟩ := h
        split at h
        · simp only [Option.some.injEq] at h
          subst h
          simp [same_message, syna_tcm_hcd.set_status, syna_tcm_hcd.complete, a1, a2, a3, a4,
            a5, a6, kb]
        · simp only [Option.some.injEq] at h
          subst h
          simp [same_message, syna_tcm_hcd.set_status, syna_tcm_hcd.complete, a1, a2, a3, a4,
            a5, a6, kb]

theorem dispatch_identify_same (k : tcm_defs) (s : syna_tcm_hcd D) (r : Bool × syna_tcm_hcd D)
    (h : dispatch_identify k s = some r) : same_message s r.2 ∧ r.2.inb = s.inb := by
  unfold dispatch_identify at h
  simp only [Option.bind_eq_bind, Option.bind_eq_some] at h
  obtain ⟨c, _, h⟩ := h
  split at h
  · simp only [Option.some.injEq] at h
    subst h
    exact ⟨same_message_refl s, rfl⟩
  · simp only [Option.bind_eq_some] at h
    obtain ⟨pn, _, mws, _, h⟩ := h
    repeat' split at h
    all_goals
      simp only [Option.some.injEq] at h
      subst h
      simp [same_message, syna_tcm_hcd.log, syna_tcm_hcd.set_status, syna_tcm_hcd.complete]

/-- The dispatch of a message leaves the message fields, the read parameters and the
inbound buffer as they are. -/
theorem dispatch_message_same (k : tcm_defs) (env : Env D) (s s1 : syna_tcm_hcd D)
    (h : syna_tcm_dispatch_message k env s = some s1) : same_message s s1 ∧ s1.inb = s.inb := by
  unfold syna_tcm_dispatch_message at h
  have key : ∃ r : Bool × syna_tcm_hcd D, (same_message s r.2 ∧ r.2.inb = s.inb) ∧
      (if r.1 = true then some r.2
        else if r.2.status_report_code ≥ k.REPORT_IDENTIFY then
          some (syna_tcm_dispatch_report k r.2)
        else syna_tcm_dispatch_response env r.2) = some s1 := by
    simp only [] at h
    split at h
    · simp only [Option.bind_eq_bind, Option.bind_eq_some] at h
      obtain ⟨r, hr, h⟩ := h
      exact ⟨r, dispatch_identify_same k s r hr, h⟩
    · simp only [Option.bind_eq_bind, Option.some_bind] at h
      exact ⟨(false, s), ⟨same_message_refl s, rfl⟩, h⟩
  clear h
  obtain ⟨r, hr2, h⟩ := key
  split at h
  · simp only [Option.some.injEq] at h
    subst h
    exact hr2
  · split at h
    · simp only [Option.some.injEq] at h
      subst h
      obtain ⟨d1, d2⟩ := dispatch_report_same k r.2
      exact ⟨same_message_trans hr2.1 d1, by rw [d2, hr2.2]⟩
    · obtain ⟨d1, d2⟩ := dispatch_response_same env r.2 s1 h
      exact ⟨same_message_trans hr2.1 d1, by rw [d2, hr2.2]⟩

theorem syna_tcm_read_same (env : Env D) (s : syna_tcm_hcd D) (dst : List Nat) (n : Nat)
    (r : Int × List Nat × syna_tcm_hcd D) (h : syna_tcm_read env s dst n = some r) :
    same_message s r.2.2 := by
  unfold syna_tcm_read at h
  simp only [] at h
  repeat' split at h
  all_goals
    first
    | (simp only [Option.some.injEq] at h
       subst h
       simp [same_message])
    | simp at h

theorem continued_read_chunk_same (k : tcm_defs) (env : Env D)
    (chunk_space offset remaining_length : Nat) (s : syna_tcm_hcd D)
    (r : loop_exit × Int × syna_tcm_hcd D)
    (h : continued_read_chunk k env chunk_space offset remaining_length s = some r) :
    same_message s r.2.2 := by
  unfold continued_read_chunk at h
  simp only [] at h
  split at h
  · simp only [Option.bind_eq_bind, Option.bind_eq_some, Option.some.injEq] at h
    obtain ⟨b, _, h⟩ := h
    subst h
    simp [same_message]
  · obtain ⟨ka, _⟩ := kmalloc_same env s s.temp.buf_size
      (add32 (chunk_xfer_length remaining_length chunk_space) 2)
    generalize kmalloc env s s.temp.buf_size
      (add32 (chunk_xfer_length remaining_length chunk_space) 2) = a at h ka
    generalize syna_tcm_alloc_mem a.1 a.2.temp
      (add32 (chunk_xfer_length remaining_length chunk_space) 2) = m at h
    obtain ⟨a1, a2, a3, a4, a5, a6⟩ := ka
    split at h
    · simp only [Option.some.injEq] at h
      subst h
      simp [same_message, a1, a2, a3, a4, a5, a6]
    · simp only [Option.bind_eq_bind, Option.bind_eq_some] at h
      obtain ⟨rd, hrd, h⟩ := h
      obtain ⟨b1, b2, b3, b4, b5, b6⟩ := syna_tcm_read_same env _ _ _ rd hrd
      simp only [] at b1 b2 b3 b4 b5 b6
      split at h
      · simp only [Option.some.injEq] at h
        subst h
        simp [same_message, a1, a2, a3, a4, a5, a6, b1, b2, b3, b4, b5, b6]
      · simp only [Option.bind_eq_some] at h
        obtain ⟨mk, _, cd, _, h⟩ := h
        split at h
        · simp only [Option.some.injEq] at h
          subst h
          simp [same_message, a1, a2, a3, a4, a5, a6, b1, b2, b3, b4, b5, b6]
        · split at h
          · simp only [Option.some.injEq] at h
            subst h
            simp [same_message, a1, a2, a3, a4, a5, a6, b1, b2, b3, b4, b5, b6]
          · simp only [Option.bind_eq_some] at h
            obtain ⟨c, _, h⟩ := h
            split at h <;>
            · simp only [Option.some.injEq] at h
              subst h
              simp [same_message, a1, a2, a3, a4, a5, a6, b1, b2, b3, b4, b5, b6]

theorem continued_read_loop_same (k : tcm_defs) (env : Env D) (chunk_space : Nat) :
    ∀ (n offset remaining_length : Nat) (s : syna_tcm_hcd D)
      (r : loop_exit × Int × syna_tcm_hcd D),
      continued_read_loop k env chunk_space n offset remaining_length s = some r →
      same_message s r.2.2 := by
  intro n
  induction n with
  | zero =>
    intro offset rem s r h
    simp only [continued_read_loop, Option.some.injEq] at h
    subst h
    exact same_message_refl s
  | succ n ih =>
    intro offset rem s r h
    simp only [continued_read_loop, Option.bind_eq_bind, Option.bind_eq_some] at h
    obtain ⟨c, hc, h⟩ := h
    have hs := continued_read_chunk_same k env chunk_space offset rem s c hc
    split at h
    · simp only [Option.some.injEq] at h
      subst h
      exact hs
    · exact same_message_trans hs (ih _ _ _ _ h)

theorem continued_read_same (k : tcm_defs) (env : Env D) (s : syna_tcm_hcd D)
    (r : Int × syna_tcm_hcd D) (h : syna_tcm_continued_read k env s = some r) :
    same_message s r.2 := by
  unfold syna_tcm_continued_read at h
  simp only [] at h
  obtain ⟨ka, _⟩ := kmalloc_same env s s.inb.buf_size
    (add32 (add32 (add32 MESSAGE_HEADER_SIZE s.payload_length) 1) 1)
  generalize kmalloc env s s.inb.buf_size
    (add32 (add32 (add32 MESSAGE_HEADER_SIZE s.payload_length) 1) 1) = a at h ka
  generalize syna_tcm_realloc_mem a.1 a.2.inb
    (add32 (add32 (add32 MESSAGE_HEADER_SIZE s.payload_length) 1) 1) = m at h
  have hs1 : same_message s { a.2 with inb := m.2 } := by
    obtain ⟨a1, a2, a3, a4, a5, a6⟩ := ka
    exact ⟨a1, a2, a3, a4, a5, a6⟩
  split at h
  · simp only [Option.some.injEq] at h
    subst h
    exact hs1
  · simp only [Option.bind_eq_bind, Option.bind_eq_some, Option.some.injEq] at h
    obtain ⟨chunks, _, lr, hl, h⟩ := h
    subst h
    exact same_message_trans hs1 (continued_read_loop_same k env _ _ _ _ _ lr hl)

/-- The value of `total_length` with which a pass reaches the padding check is
`MESSAGE_HEADER_SIZE + payload_length + 1`, and the message fields are those the pass
started with. -/
theorem read_message_reassemble_total (k : tcm_defs) (env : Env D) (s : syna_tcm_hcd D)
    (total_length : Nat) (s1 : syna_tcm_hcd D)
    (h : read_message_reassemble k env s = some (receive_result.check_padding total_length s1)) :
    total_length = add32 (add32 MESSAGE_HEADER_SIZE s.payload_length) 1 ∧ same_message s s1 := by
  unfold read_message_reassemble at h
  simp only [] at h
  split at h
  · simp only [Option.some.injEq, receive_result.check_padding.injEq] at h
    obtain ⟨h1, h2⟩ := h
    subst h2
    exact ⟨h1.symm, same_message_refl s⟩
  · split at h
    · simp only [Option.bind_eq_bind, Option.bind_eq_some, Option.some.injEq,
        receive_result.check_padding.injEq] at h
      obtain ⟨b, _, h1, h2⟩ := h
      subst h2
      exact ⟨h1.symm, by simp [same_message]⟩
    · simp only [Option.bind_eq_bind, Option.bind_eq_some] at h
      obtain ⟨c, hc, h⟩ := h
      have hs := continued_read_same k env s c hc
      split at h
      · simp at h
      · simp only [Option.bind_eq_some, Option.some.injEq,
          receive_result.check_padding.injEq] at h
        obtain ⟨b0, _, b1, _, b2, _, b3, _, h1, h2⟩ := h
        subst h2
        obtain ⟨a1, a2, a3, a4, a5, a6⟩ := hs
        exact ⟨h1.symm, ⟨a1, a2, a3, a4, a5, a6⟩⟩

theorem reassemble_reaches (k : tcm_defs) (env : Env D) (s0 s : syna_tcm_hcd D)
    (total_length : Nat) (s1 : syna_tcm_hcd D)
    (h0 : s.rd_chunk_size = s0.rd_chunk_size ∧ s.read_length = s0.read_length ∧
      s.is_detected = s0.is_detected)
    (h : read_message_reassemble k env s = some (receive_result.check_padding total_length s1)) :
    reaches_padding_check s0 total_length s1 := by
  obtain ⟨ht, a1, a2, a3, _, a5, _⟩ := read_message_reassemble_total k env s total_length s1 h
  exact ⟨by rw [ht, a3], by rw [a2, h0.1], by rw [a1, h0.2.1], by rw [a5, h0.2.2]⟩

theorem read_message_receive_reaches (k : tcm_defs) (env : Env D) (retry : Bool)
    (again : Bool → syna_tcm_hcd D → Option (receive_result D))
    (hagain : ∀ hd sa t s1, again hd sa = some (receive_result.check_padding t s1) →
      reaches_padding_check sa t s1)
    (held : Bool) (s : syna_tcm_hcd D) (total_length : Nat) (s1 : syna_tcm_hcd D)
    (h : read_message_receive k env retry again held s =
      some (receive_result.check_padding total_length s1)) :
    reaches_padding_check s total_length s1 := by
  unfold read_message_receive at h
  obtain ⟨_, _, h⟩ := Option.bind_eq_some.mp h
  obtain ⟨r, hr, h⟩ := Option.bind_eq_some.mp h
  obtain ⟨b1, b2, _, _, b5, _⟩ := syna_tcm_read_same env s s.inb.buf s.read_length r hr
  simp only [] at h
  have viaAgain : ∀ (hd : Bool) (sa : syna_tcm_hcd D), sa.rd_chunk_size = s.rd_chunk_size →
      sa.read_length = s.read_length → sa.is_detected = s.is_detected →
      again hd sa = some (receive_result.check_padding total_length s1) →
      reaches_padding_check s total_length s1 := by
    intro hd sa e1 e2 e3 hsa
    obtain ⟨c1, c2, c3, c4⟩ := hagain hd sa total_length s1 hsa
    exact ⟨c1, by rw [c2, e1], by rw [c3, e2], by rw [c4, e3]⟩
  split at h
  · split at h
    · exact viaAgain _ _ (by simpa [syna_tcm_hcd.log] using b2)
        (by simpa [syna_tcm_hcd.log] using b1) (by simpa [syna_tcm_hcd.log] using b5) h
    · simp at h
  · obtain ⟨marker, _, h⟩ := Option.bind_eq_some.mp h
    split at h
    · split at h
      · exact viaAgain _ _ (by simpa [syna_tcm_hcd.log] using b2)
          (by simpa [syna_tcm_hcd.log] using b1) (by simpa [syna_tcm_hcd.log] using b5) h
      · simp at h
    · obtain ⟨code, _, h⟩ := Option.bind_eq_some.mp h
      obtain ⟨len, _, h⟩ := Option.bind_eq_some.mp h
      have viaRe : ∀ sa : syna_tcm_hcd D, sa.rd_chunk_size = s.rd_chunk_size →
          sa.read_length = s.read_length → sa.is_detected = s.is_detected →
          read_message_reassemble k env sa =
            some (receive_result.check_padding total_length s1) →
          reaches_padding_check s total_length s1 :=
        fun sa e1 e2 e3 hsa => reassemble_reaches k env s sa total_length s1 ⟨e1, e2, e3⟩ hsa
      repeat' split at h
      all_goals
        first
        | exact viaRe _ (by simpa using b2) (by simpa using b1) (by simpa using b5) h
        | exact viaAgain _ _ (by simpa [syna_tcm_hcd.log] using b2)
            (by simpa [syna_tcm_hcd.log] using b1) (by simpa [syna_tcm_hcd.log] using b5) h
        | simp at h

/-- Whenever the two passes of `syna_tcm_read_message` reach the padding check, they do so
with `total_length = MESSAGE_HEADER_SIZE + payload_length + 1` and with the read
parameters of the call. -/
theorem read_message_passes_reaches (k : tcm_defs) (env : Env D) (s : syna_tcm_hcd D)
    (total_length : Nat) (s1 : syna_tcm_hcd D)
    (h : read_message_passes k env s = some (receive_result.check_padding total_length s1)) :
    reaches_padding_check s total_length s1 := by
  unfold read_message_passes at h
  refine read_message_receive_reaches k env true _ ?_ false s total_length s1 h
  intro hd sa t s2 h2
  exact read_message_receive_reaches k env false _ (fun _ _ _ _ h3 => by simp at h3) hd sa t
    s2 h2

/-- C10 (as amended). After a `syna_tcm_read_message` call that completes a message (the
padding check passes, so the read-length update is reached), the call returns `0` and
`read_length = max(total_length, MIN_READ_LENGTH)` when `rd_chunk_size` is 0,
`read_length = min(max(total_length, MIN_READ_LENGTH), rd_chunk_size)` otherwise; it lies
in `[MIN_READ_LENGTH, rd_chunk_size]` whenever `rd_chunk_size ≥ MIN_READ_LENGTH`. Here
`total_length = MESSAGE_HEADER_SIZE + payload_length + 1`. -/
theorem read_length_update (k : tcm_defs) (env : Env D) (s : syna_tcm_hcd D) (length : Nat)
    (total_length : Nat) (s1 s2 : syna_tcm_hcd D) (hp : s.pwr_off = false)
    (hrecv : read_message_passes k env s =
      some (receive_result.check_padding total_length s1))
    (hpad : read_message_check_padding k env total_length s1 = some (0, s2)) :
    syna_tcm_read_message k env s none length = some (0, s2, none) ∧
      total_length = add32 (add32 MESSAGE_HEADER_SIZE s2.payload_length) 1 ∧
      s2.rd_chunk_size = s.rd_chunk_size ∧
      (s2.rd_chunk_size = 0 → s2.read_length = max total_length MIN_READ_LENGTH) ∧
      (s2.rd_chunk_size ≠ 0 →
        s2.read_length = min (max total_length MIN_READ_LENGTH) s2.rd_chunk_size) ∧
      (MIN_READ_LENGTH ≤ s2.rd_chunk_size →
        MIN_READ_LENGTH ≤ s2.read_length ∧ s2.read_length ≤ s2.rd_chunk_size) := by
  obtain ⟨r1, r2, r3, r4⟩ := read_message_passes_reaches k env s total_length s1 hrecv
  have hfull : syna_tcm_read_message k env s none length = some (0, s2, none) := by
    rw [read_message_eq k env s length hp, hrecv]
    simp only [Option.some_bind, hpad]
    rfl
  unfold read_message_check_padding at hpad
  simp only [Option.bind_eq_bind, Option.bind_eq_some] at hpad
  obtain ⟨last, _, hpad⟩ := hpad
  split at hpad
  · simp [ EIO] at hpad
  · have key : ∃ sd, same_message
        { s1 with read_length :=
          if s1.rd_chunk_size = 0 then max total_length MIN_READ_LENGTH
          else min (max total_length MIN_READ_LENGTH) s1.rd_chunk_size } sd ∧ sd = s2 := by
      split at hpad
      · obtain ⟨sd, hsd, hpad⟩ := Option.bind_eq_some.mp hpad
        simp only [Option.some.injEq, Prod.mk.injEq, true_and] at hpad
        exact ⟨sd, (dispatch_message_same k env _ _ hsd).1, hpad⟩
      · simp only [Option.some_bind, Option.some.injEq, Prod.mk.injEq, true_and] at hpad
        exact ⟨_, same_message_refl _, hpad⟩
    obtain ⟨sd, hs, hsd⟩ := key
    subst hsd
    obtain ⟨a1, a2, a3, _, _, _⟩ := hs
    replace a1 : sd.read_length =
        if s1.rd_chunk_size = 0 then max total_length MIN_READ_LENGTH
        else min (max total_length MIN_READ_LENGTH) s1.rd_chunk_size := a1
    replace a2 : sd.rd_chunk_size = s1.rd_chunk_size := a2
    replace a3 : sd.payload_length = s1.payload_length := a3
    have hrd : sd.rd_chunk_size = s.rd_chunk_size := by rw [a2, r2]
    refine ⟨hfull, by rw [r1, a3], hrd, ?_, ?_, ?_⟩
    · intro h0
      rw [a1, if_pos (by rw [← a2]; exact h0)]
    · intro h0
      rw [a1, if_neg (by rw [← a2]; exact h0), a2]
    · intro h9
      rw [a1, a2]
      rw [a2] at h9
      unfold MIN_READ_LENGTH at h9 ⊢
      split <;> omega

/-- C10 (counterexample). With `rd_chunk_size = 6` (the value of Scenario B) a completed
message leaves `read_length = 6`, below `MIN_READ_LENGTH = 9`: the interval
`[MIN_READ_LENGTH, rd_chunk_size]` of the claim is empty. -/
theorem read_length_below_min_read_length :
    (syna_tcm_read_message tcm (msg_env tcm) (scenario_B_state [1, 2, 3, 4, 5, 6]) none 0).map
      (fun r => (r.1, r.2.1.rd_chunk_size, r.2.1.read_length)) = some (0, 6, 6) ∧
    ¬ (MIN_READ_LENGTH ≤ 6) := by
  decide

theorem read_length_update_witness :
    ∃ s2, syna_tcm_read_message tcm (msg_env tcm) ok_payload_state none 0 = some (0, s2, none) ∧
      s2.rd_chunk_size = 512 ∧ s2.read_length = 10 ∧ s2.payload_length = 5 := by
  have hrecv : read_message_passes tcm (msg_env tcm) ok_payload_state =
      some (receive_result.check_padding 10
        ((read_message_passes tcm (msg_env tcm) ok_payload_state).get (by decide)).state) := by
    decide
  have hpad : read_message_check_padding tcm (msg_env tcm) 10
      ((read_message_passes tcm (msg_env tcm) ok_payload_state).get (by decide)).state =
      some (0, ((read_message_check_padding tcm (msg_env tcm) 10
        ((read_message_passes tcm (msg_env tcm) ok_payload_state).get
          (by decide)).state).get (by decide)).2) := by
    decide
  obtain ⟨h1, h2, h3, _, h5, _⟩ := read_length_update tcm (msg_env tcm) ok_payload_state 0 10 _ _
    rfl hrecv hpad
  refine ⟨_, h1, h3, ?_, ?_⟩
  · rw [h5 (by rw [h3]; decide), h3]
    decide
  · decide

/-! ## Lists as byte buffers -/

theorem getD_take (l : List Nat) (n i : Nat) (h : i < n) :
    (l.take n).getD i 0 = l.getD i 0 := by
  rw [List.getD_eq_getElem?_getD, List.getD_eq_getElem?_getD, List.getElem?_take_of_lt h]

theorem fill_of_le (data : List Nat) (n : Nat) (h : data.length ≤ n) :
    fill data n = data ++ List.replicate (n - data.length) 0 := by
  unfold fill
  rw [List.take_append_eq_append_take, List.take_of_length_le h, List.take_replicate]
  congr 2
  omega

theorem fill_eq_self (data : List Nat) (n : Nat) (h : data.length = n) : fill data n = data := by
  rw [fill_of_le data n (by omega)]
  simp [h]

theorem splice_length (dest : List Nat) (off : Nat) (data : List Nat)
    (h : off + data.length ≤ dest.length) : (splice dest off data).length = dest.length := by
  unfold splice
  simp only [List.length_append, List.length_take, List.length_drop]
  omega

theorem splice_take (dest : List Nat) (off : Nat) (data : List Nat)
    (h : off + data.length ≤ dest.length) :
    (splice dest off data).take (off + data.length) = dest.take off ++ data := by
  unfold splice
  have hl : (dest.take off ++ data).length = off + data.length := by
    simp only [List.length_append, List.length_take]
    omega
  rw [List.take_left' hl]

theorem buf_set_eq (b : List Nat) (i v : Nat) (h : i < b.length) :
    buf_set b i v = some (b.set i v) := by
  unfold buf_set
  rw [if_pos h]

theorem buf_get_eq (b : List Nat) (i : Nat) (h : i < b.length) :
    buf_get b i = some (b.getD i 0) := by
  unfold buf_get
  rw [if_pos h]

theorem message_length (code : Nat) (p : List Nat) : (message code p).length = p.length + 5 := by
  simp [message]

theorem message_header (code : Nat) (p : List Nat) :
    (message code p).getD 0 0 = MESSAGE_MARKER ∧ (message code p).getD 1 0 = code ∧
      (message code p).getD 2 0 = p.length % 256 ∧ (message code p).getD 3 0 = p.length / 256 := by
  simp [message]

theorem message_payload (code : Nat) (p : List Nat) :
    ((message code p).drop 4).take p.length = p := by
  simp [message]

theorem message_take_last (code : Nat) (p : List Nat) :
    (message code p).take (p.length + 4) ++ [MESSAGE_PADDING] = message code p := by
  have h : message code p = ([MESSAGE_MARKER, code, p.length % 256, p.length / 256] ++ p) ++
      [MESSAGE_PADDING] := rfl
  have hl : ([MESSAGE_MARKER, code, p.length % 256, p.length / 256] ++ p).length =
      p.length + 4 := by
    simp
  rw [h, List.take_left' hl]

theorem set_take_succ (b : List Nat) (i v : Nat) (h : i < b.length) :
    (b.set i v).take (i + 1) = b.take i ++ [v] := by
  rw [List.set_eq_take_append_cons_drop, if_pos h]
  have hl : (b.take i ++ [v]).length = i + 1 := by
    simp only [List.length_append, List.length_take, List.length_singleton]
    omega
  have : b.take i ++ v :: b.drop (i + 1) = (b.take i ++ [v]) ++ b.drop (i + 1) := by simp
  rw [this, List.take_left' hl]

theorem ceil_step (rem cs : Nat) (hcs : 0 < cs) (h : cs < rem) :
    (rem + cs - 1) / cs = (rem - cs + cs - 1) / cs + 1 := by
  have e : rem + cs - 1 = (rem - cs + cs - 1) + cs := by omega
  rw [e, Nat.add_div_right _ hcs]

theorem ceil_last (rem cs : Nat) (h0 : 0 < rem) (h : rem ≤ cs) : (rem + cs - 1) / cs = 1 := by
  have hcs : 0 < cs := by omega
  have e : rem + cs - 1 = (rem - 1) + cs := by omega
  rw [e, Nat.add_div_right _ hcs, Nat.div_eq_of_lt (by omega)]

theorem ceil_none (cs : Nat) (hcs : 0 < cs) : (0 + cs - 1) / cs = 0 := by
  rw [Nat.div_eq_of_lt (by omega)]

/-! ## Reassembly by the continued read -/

theorem kmalloc_fields (env : Env D) (s : syna_tcm_hcd D) (cap size : Nat) :
    (kmalloc env s cap size).2.dev = s.dev ∧ (kmalloc env s cap size).2.inb = s.inb ∧
      (kmalloc env s cap size).2.temp = s.temp ∧ (kmalloc env s cap size).2.out = s.out ∧
      (kmalloc env s cap size).2.trace = s.trace := by
  unfold kmalloc
  split <;> simp

theorem kmalloc_msg_env (k : tcm_defs) (s : syna_tcm_hcd msg_dev) (cap size : Nat) :
    (kmalloc (msg_env k) s cap size).1 = true := by
  unfold kmalloc
  split <;> rfl

theorem alloc_mem_ok (b : syna_tcm_buffer) (size : Nat) :
    syna_tcm_alloc_mem true b size = (0, ⟨List.replicate (max size b.buf_size) 0, 0⟩) := by
  unfold syna_tcm_alloc_mem
  split
  · rw [if_pos rfl, max_eq_left (by omega)]
  · rw [max_eq_right (by omega)]

theorem realloc_mem_ok (b : syna_tcm_buffer) (size : Nat) :
    syna_tcm_realloc_mem true b size =
      (0, ⟨b.buf ++ List.replicate (size - b.buf_size) 0, b.data_length⟩) := by
  unfold syna_tcm_realloc_mem
  split
  · rw [if_pos rfl]
  · have : size - b.buf_size = 0 := by omega
    rw [this]
    simp

theorem take_succ_getD (l : List Nat) (i : Nat) (h : i < l.length) :
    l.take (i + 1) = l.take i ++ [l.getD i 0] := by
  rw [List.take_succ, List.getD_eq_getElem?_getD, List.getElem?_eq_getElem h]
  rfl

theorem bus_reads_append (a b : List Event) :
    bus_reads (a ++ b) = bus_reads a ++ bus_reads b := by
  induction a with
  | nil => rfl
  | cons e t ih => cases e <;> simp [bus_reads, ih]

/-- One iteration of the continued read against the device of the wire format: the
chunk is accepted and the message bytes up to the new offset are in the inbound buffer. -/
theorem continued_read_chunk_msg (k : tcm_defs) (msg : List Nat) (cs offset rem : Nat)
    (s : syna_tcm_hcd msg_dev)
    (hdev : s.dev = ⟨msg, offset, true⟩)
    (hrem : offset + rem = msg.length) (hrem0 : 0 < rem) (hcs : 2 ≤ cs)
    (hbound : msg.length < 65600)
    (hcap : msg.length ≤ s.inb.buf.length) (hcap32 : s.inb.buf.length < 4294967296)
    (htemp32 : s.temp.buf.length < 4294967296)
    (hpre : s.inb.buf.take offset = msg.take offset)
    (hlast : msg.getD (msg.length - 1) 0 = MESSAGE_PADDING) :
    ∃ s1, continued_read_chunk k (msg_env k) cs offset rem s =
        some (loop_exit.completed, 0, s1) ∧
      s1.inb.buf.take (offset + chunk_xfer_length rem cs) =
        msg.take (offset + chunk_xfer_length rem cs) ∧
      s1.inb.buf.length = s.inb.buf.length ∧
      s1.temp.buf.length < 4294967296 ∧
      (chunk_xfer_length rem cs ≠ 1 →
        s1.dev = ⟨msg, offset + chunk_xfer_length rem cs, true⟩) ∧
      bus_reads s1.trace = bus_reads s.trace ++
        (if chunk_xfer_length rem cs = 1 then [] else [chunk_xfer_length rem cs + 2]) := by
  have hX : chunk_xfer_length rem cs ≤ rem ∧ 0 < chunk_xfer_length rem cs := by
    unfold chunk_xfer_length
    split <;> omega
  generalize hXd : chunk_xfer_length rem cs = X at hX
  unfold continued_read_chunk
  simp only [hXd]
  by_cases h1 : X = 1
  · rw [if_pos h1]
    subst h1
    have hoff : offset < s.inb.buf.length := by omega
    rw [buf_set_eq _ _ _ hoff]
    refine ⟨_, rfl, ?_, ?_, htemp32, fun h => absurd rfl h, ?_⟩
    · show (s.inb.buf.set offset MESSAGE_PADDING).take (offset + 1) = _
      have hrem1 : rem = 1 := by
        unfold chunk_xfer_length at hXd
        split at hXd <;> omega
      rw [set_take_succ _ _ _ hoff, hpre, take_succ_getD msg offset (by omega)]
      have : offset = msg.length - 1 := by omega
      rw [this, hlast]
    · show (s.inb.buf.set offset MESSAGE_PADDING).length = _
      simp
    · simp
  · rw [if_neg h1]
    have hX2 : 2 ≤ X := by omega
    have hsz : add32 X 2 = X + 2 := add32_eq (by omega)
    rw [hsz]
    obtain ⟨kd, ki, kt, _, ktr⟩ := kmalloc_fields (msg_env k) s s.temp.buf_size (X + 2)
    have kok := kmalloc_msg_env k s s.temp.buf_size (X + 2)
    generalize kmalloc (msg_env k) s s.temp.buf_size (X + 2) = a at kd ki kt ktr kok
    rw [kok, kt, alloc_mem_ok]
    simp only [lt_self_iff_false, if_false]
    -- the bus read
    have hread : (msg_env k).bus_read a.2.dev (X + 2) =
        (0, [MESSAGE_MARKER, k.STATUS_CONTINUED_READ] ++ (msg.drop offset).take X,
          ⟨msg, offset + X, true⟩) := by
      rw [kd, hdev]
      simp [msg_env, msg_dev.read]
    have hdl : ([MESSAGE_MARKER, k.STATUS_CONTINUED_READ] ++ (msg.drop offset).take X).length =
        X + 2 := by
      simp only [List.length_append, List.length_cons, List.length_nil, List.length_take,
        List.length_drop]
      omega
    have hzl : (List.replicate (max (X + 2) s.temp.buf_size) 0).length =
        max (X + 2) s.temp.buf_size := List.length_replicate _ _
    rw [syna_tcm_read_ok (msg_env k) _ _ (X + 2) (by
        show 0 ≤ ((msg_env k).bus_read a.2.dev (X + 2)).1
        rw [hread]) (by
        show X + 2 ≤ (List.replicate (max (X + 2) s.temp.buf_size) 0).length
        rw [hzl]; exact le_max_left _ _)]
    simp only [Option.bind_eq_bind, Option.some_bind]
    have hread' : (msg_env k).bus_read a.2.dev (X + 2) =
        (0, [MESSAGE_MARKER, k.STATUS_CONTINUED_READ] ++ (msg.drop offset).take X,
          ⟨msg, offset + X, true⟩) := hread
    simp only [hread', fill_eq_self _ _ hdl, lt_self_iff_false, if_false]
    have htl : (([MESSAGE_MARKER, k.STATUS_CONTINUED_READ] ++ (msg.drop offset).take X) ++
        (List.replicate (max (X + 2) s.temp.buf_size) 0).drop (X + 2)).length =
        max (X + 2) s.temp.buf_size := by
      rw [List.length_append, hdl, List.length_drop, hzl]
      have := le_max_left (X + 2) s.temp.buf_size
      omega
    generalize htmp : ([MESSAGE_MARKER, k.STATUS_CONTINUED_READ] ++ (msg.drop offset).take X) ++
        (List.replicate (max (X + 2) s.temp.buf_size) 0).drop (X + 2) = tmp at htl
    have htmp2 : (tmp.drop 2).take X = (msg.drop offset).take X := by
      rw [← htmp]
      simp only [List.cons_append, List.nil_append, List.drop_succ_cons, List.drop_zero]
      rw [List.take_append_of_le_length (by
        simp only [List.length_take, List.length_drop]; omega)]
      rw [List.take_take]
      simp
    have hg0 : buf_get tmp 0 = some MESSAGE_MARKER := by
      have hlt : 0 < tmp.length := by
        rw [htl]; have := le_max_left (X + 2) s.temp.buf_size; omega
      rw [buf_get_eq _ _ hlt, ← htmp]
      rfl
    have hg1 : buf_get tmp 1 = some k.STATUS_CONTINUED_READ := by
      have hlt : 1 < tmp.length := by
        rw [htl]; have := le_max_left (X + 2) s.temp.buf_size; omega
      rw [buf_get_eq _ _ hlt, ← htmp]
      rfl
    rw [hg0]
    simp only [Option.some_bind]
    rw [hg1]
    simp only [Option.some_bind, ne_eq, not_true_eq_false, if_false]
    -- the copy into the inbound buffer
    have htsz : max (X + 2) s.temp.buf_size < 4294967296 := by
      unfold syna_tcm_buffer.buf_size
      exact max_lt (by omega) htemp32
    have htl2 : X + 2 ≤ tmp.length := by rw [htl]; exact le_max_left _ _
    have htl32 : tmp.length < 4294967296 := by rw [htl]; exact htsz
    have hcopy : secure_memcpy a.2.inb.buf offset (sub32 a.2.inb.buf.length offset) (some tmp) 2
        (sub32 tmp.length 2) X = some (0, splice s.inb.buf offset ((msg.drop offset).take X)) := by
      rw [ki]
      unfold secure_memcpy
      rw [if_neg (by simp), sub32_eq (by omega) hcap32, sub32_eq (by omega) htl32]
      rw [if_neg (by omega), if_neg (by omega)]
      simp only []
      rw [if_pos ⟨by omega, by omega⟩, htmp2]
    have hcopy' : secure_memcpy a.2.inb.buf offset (sub32 (syna_tcm_buffer.buf_size a.2.inb) offset)
        (some tmp) 2 (sub32 (syna_tcm_buffer.buf_size ⟨tmp, 0⟩) 2) X =
        some (0, splice s.inb.buf offset ((msg.drop offset).take X)) := hcopy
    simp only [hcopy', Option.some_bind, lt_self_iff_false, if_false]
    have hDl : ((msg.drop offset).take X).length = X := by
      simp only [List.length_take, List.length_drop]; omega
    refine ⟨_, rfl, ?_, ?_, ?_, fun _ => rfl, ?_⟩
    · show (splice s.inb.buf offset ((msg.drop offset).take X)).take (offset + X) = _
      have := splice_take s.inb.buf offset ((msg.drop offset).take X) (by rw [hDl]; omega)
      rw [hDl] at this
      rw [this, hpre, List.take_add]
    · show (splice s.inb.buf offset ((msg.drop offset).take X)).length = _
      exact splice_length _ _ _ (by rw [hDl]; omega)
    · exact htl32
    · show bus_reads (a.2.trace ++ [Event.bus_read (X + 2)]) = _
      rw [bus_reads_append, ktr, if_neg h1]
      rfl

/-- The chunk loop of the continued read against the device of the wire format, run for
`ceil(remaining_length / chunk_space)` iterations with `chunk_space ≥ 2`: it completes
and the whole message is in the inbound buffer. -/
theorem continued_read_loop_msg (k : tcm_defs) (msg : List Nat) (cs : Nat) (hcs : 2 ≤ cs)
    (hbound : msg.length < 65600)
    (hlast : msg.getD (msg.length - 1) 0 = MESSAGE_PADDING) :
    ∀ (n offset rem : Nat) (s : syna_tcm_hcd msg_dev),
      s.dev = ⟨msg, offset, true⟩ → offset + rem = msg.length → n = (rem + cs - 1) / cs →
      msg.length ≤ s.inb.buf.length → s.inb.buf.length < 4294967296 →
      s.temp.buf.length < 4294967296 → s.inb.buf.take offset = msg.take offset →
      ∃ s1, continued_read_loop k (msg_env k) cs n offset rem s =
          some (loop_exit.completed, 0, s1) ∧
        s1.inb.buf.take msg.length = msg ∧ s1.inb.buf.length = s.inb.buf.length := by
  intro n
  induction n with
  | zero =>
    intro offset rem s _ hrem hn _ _ _ hpre
    have hrem0 : rem = 0 := by
      by_contra hne
      have : 1 ≤ (rem + cs - 1) / cs := by
        rw [Nat.le_div_iff_mul_le (by omega)]
        omega
      omega
    refine ⟨s, rfl, ?_, rfl⟩
    have : offset = msg.length := by omega
    rw [← this, hpre, this, List.take_length]
  | succ n ih =>
    intro offset rem s hdev hrem hn hcap hcap32 htemp32 hpre
    have hrem0 : 0 < rem := by
      by_contra hne
      have h0 : rem = 0 := by omega
      rw [h0, ceil_none cs (by omega)] at hn
      omega
    obtain ⟨s1, hchunk, hbuf, hlen, htmp, hdev1, _⟩ := continued_read_chunk_msg k msg cs offset rem
      s hdev hrem hrem0 hcs hbound hcap hcap32 htemp32 hpre hlast
    simp only [continued_read_loop, Option.bind_eq_bind, hchunk, Option.some_bind, ne_eq,
      not_true_eq_false, if_false]
    by_cases hgt : cs < rem
    · have hX : chunk_xfer_length rem cs = cs := by
        unfold chunk_xfer_length
        rw [if_pos hgt]
      rw [hX] at hbuf hdev1 ⊢
      rw [add32_eq (by omega), sub32_eq (by omega) (by omega)]
      obtain ⟨s2, hloop, hb2, hl2⟩ := ih (offset + cs) (rem - cs) s1 (hdev1 (by omega))
        (by omega) (by
          have := ceil_step rem cs (by omega) hgt
          omega) (by omega) (by omega) htmp hbuf
      exact ⟨s2, hloop, hb2, by rw [hl2, hlen]⟩
    · have hX : chunk_xfer_length rem cs = rem := by
        unfold chunk_xfer_length
        rw [if_neg hgt]
      rw [hX] at hbuf ⊢
      have hn0 : n = 0 := by
        have := ceil_last rem cs hrem0 (by omega)
        omega
      subst hn0
      rw [sub32_eq (le_refl _) (by omega)]
      refine ⟨s1, by simp [continued_read_loop], ?_, hlen⟩
      rw [← hrem, hbuf, hrem, List.take_length]

theorem set_getD_self (l : List Nat) (i v : Nat) (h : i < l.length) (hv : l.getD i 0 = v) :
    l.set i v = l := by
  rw [List.getD_eq_getElem?_getD, List.getElem?_eq_getElem h] at hv
  simp only [Option.getD_some] at hv
  apply List.ext_getElem (by simp)
  intro j h1 h2
  rw [List.getElem_set]
  split
  · rename_i hij
    subst hij
    exact hv.symm
  · rfl

theorem getD_of_take_eq (b msg : List Nat) (n i : Nat) (h : b.take n = msg.take n) (hi : i < n) :
    b.getD i 0 = msg.getD i 0 := by
  rw [← getD_take b n i hi, ← getD_take msg n i hi, h]

/-- The continued read against the device of the wire format: when the first read
delivered `read_length` bytes of a message that is longer by at least two bytes, and the
chunk space is at least 2 (`rd_chunk_size` is 0 or at least 4), the function returns 0
with the whole message in the inbound buffer. -/
theorem continued_read_msg (k : tcm_defs) (msg : List Nat) (s : syna_tcm_hcd msg_dev)
    (hdev : s.dev = ⟨msg, s.read_length, true⟩)
    (hT : msg.length = s.payload_length + 5) (hP : s.payload_length ≤ 65535)
    (hR : s.read_length + 2 ≤ msg.length)
    (hC : s.rd_chunk_size = 0 ∨ 4 ≤ s.rd_chunk_size) (hC32 : s.rd_chunk_size < 4294967296)
    (hcap : s.read_length ≤ s.inb.buf.length) (hcap32 : s.inb.buf.length < 4294967296)
    (htemp32 : s.temp.buf.length < 4294967296)
    (hpre : s.inb.buf.take s.read_length = msg.take s.read_length)
    (hlast : msg.getD (msg.length - 1) 0 = MESSAGE_PADDING) :
    ∃ s1, syna_tcm_continued_read k (msg_env k) s = some (0, s1) ∧
      s1.inb.buf.take msg.length = msg ∧ msg.length + 1 ≤ s1.inb.buf.length := by
  unfold syna_tcm_continued_read
  have hT1 : add32 (add32 MESSAGE_HEADER_SIZE s.payload_length) 1 = msg.length := by
    have h4 : add32 MESSAGE_HEADER_SIZE s.payload_length = 4 + s.payload_length :=
      add32_eq (by unfold MESSAGE_HEADER_SIZE; omega)
    rw [h4, add32_eq (by omega)]
    omega
  have hT2 : add32 msg.length 1 = msg.length + 1 := add32_eq (by omega)
  have hrem : sub32 msg.length s.read_length = msg.length - s.read_length :=
    sub32_eq (by omega) (by omega)
  simp only [hT1, hT2, hrem]
  obtain ⟨kd, ki, kt, _, _⟩ := kmalloc_fields (msg_env k) s s.inb.buf_size (msg.length + 1)
  obtain ⟨⟨k1, k2, _, _, _, _⟩, _⟩ := kmalloc_same (msg_env k) s s.inb.buf_size (msg.length + 1)
  have kok := kmalloc_msg_env k s s.inb.buf_size (msg.length + 1)
  generalize kmalloc (msg_env k) s s.inb.buf_size (msg.length + 1) = a at kd ki kt k1 k2 kok
  rw [kok, ki, realloc_mem_ok]
  simp only [lt_self_iff_false, if_false, k1, k2]
  generalize hcsd : (if s.rd_chunk_size = 0 then msg.length - s.read_length
    else sub32 s.rd_chunk_size 2) = cs
  have hcs : 2 ≤ cs := by
    rw [← hcsd]
    split
    · omega
    · rw [sub32_eq (by omega) hC32]; omega
  have hceil : ceil_div (msg.length - s.read_length) cs =
      some ((msg.length - s.read_length + cs - 1) / cs) := by
    unfold ceil_div
    rw [if_neg (by omega)]
  have hpos : (msg.length - s.read_length + cs - 1) / cs ≠ 0 := by
    have : 1 ≤ (msg.length - s.read_length + cs - 1) / cs := by
      rw [Nat.le_div_iff_mul_le (by omega)]
      omega
    omega
  simp only [hceil, Option.bind_eq_bind, Option.some_bind, if_neg hpos]
  have hnl : (s.inb.buf ++ List.replicate (msg.length + 1 - s.inb.buf_size) 0).length =
      max s.inb.buf.length (msg.length + 1) := by
    unfold syna_tcm_buffer.buf_size
    rw [List.length_append, List.length_replicate]
    omega
  obtain ⟨s1, hloop, hb, hl⟩ := continued_read_loop_msg k msg cs hcs (by omega) hlast
    ((msg.length - s.read_length + cs - 1) / cs) s.read_length (msg.length - s.read_length)
    { a.2 with inb := ⟨s.inb.buf ++ List.replicate (msg.length + 1 - s.inb.buf_size) 0,
        s.inb.data_length⟩ }
    (by show a.2.dev = _; rw [kd, hdev]) (by omega) rfl
    (by
      show msg.length ≤ (s.inb.buf ++ List.replicate (msg.length + 1 - s.inb.buf_size) 0).length
      rw [hnl]; omega)
    (by
      show (s.inb.buf ++ List.replicate (msg.length + 1 - s.inb.buf_size) 0).length < 4294967296
      rw [hnl]; omega)
    (by show a.2.temp.buf.length < 4294967296; rw [kt]; exact htemp32)
    (by
      show (s.inb.buf ++ List.replicate (msg.length + 1 - s.inb.buf_size) 0).take s.read_length = _
      rw [List.take_append_of_le_length hcap, hpre])
  simp only [k1, k2] at hloop
  rw [hloop]
  refine ⟨s1, rfl, hb, ?_⟩
  rw [hl]
  show msg.length + 1 ≤ (s.inb.buf ++ List.replicate (msg.length + 1 - s.inb.buf_size) 0).length
  rw [hnl]
  omega

theorem message_last (code : Nat) (p : List Nat) :
    (message code p).getD ((message code p).length - 1) 0 = MESSAGE_PADDING := by
  have h := message_take_last code p
  have hl := message_length code p
  have e : (message code p).length - 1 = p.length + 4 := by omega
  rw [e]
  have hlt : p.length + 4 < (message code p).length := by omega
  have h2 := take_succ_getD (message code p) (p.length + 4) hlt
  have h3 : (message code p).take (p.length + 4 + 1) = message code p := by
    rw [List.take_of_length_le (by omega)]
  rw [h3] at h2
  have h4 : (message code p).take (p.length + 4) ++ [MESSAGE_PADDING] =
      (message code p).take (p.length + 4) ++ [(message code p).getD (p.length + 4) 0] := by
    rw [h, ← h2]
  have h5 := List.append_cancel_left h4
  simp only [List.cons.injEq, and_true] at h5
  exact h5.symm

/-- The lines 898 to 927 against the device of the wire format, after a first read of at
least the header: whichever of the three ways is taken (the message fits the first read,
it lacks only the padding byte, or the continued read runs), the padding check is
reached with the whole message in the inbound buffer. -/
theorem read_message_reassemble_msg (k : tcm_defs) (code : Nat) (p : List Nat)
    (s : syna_tcm_hcd msg_dev)
    (hdev : s.dev = ⟨message code p, s.read_length, true⟩)
    (hPl : s.payload_length = p.length) (hsc : s.status_report_code = code)
    (hP : p.length ≤ 65535)
    (hC : s.rd_chunk_size = 0 ∨ 4 ≤ s.rd_chunk_size) (hC32 : s.rd_chunk_size < 4294967296)
    (hcap : s.read_length + 1 ≤ s.inb.buf.length) (hcap32 : s.inb.buf.length < 4294967296)
    (htemp32 : s.temp.buf.length < 4294967296)
    (hpre : s.inb.buf.take (min s.read_length (p.length + 5)) =
      (message code p).take s.read_length) :
    ∃ s1, read_message_reassemble k (msg_env k) s =
        some (receive_result.check_padding (p.length + 5) s1) ∧
      s1.inb.buf.take (p.length + 5) = message code p ∧
      s1.payload_length = p.length ∧ s1.status_report_code = code := by
  have hml := message_length code p
  unfold read_message_reassemble
  have hT1 : add32 (add32 MESSAGE_HEADER_SIZE s.payload_length) 1 = p.length + 5 := by
    have h4' : add32 MESSAGE_HEADER_SIZE s.payload_length = 4 + s.payload_length :=
      add32_eq (by unfold MESSAGE_HEADER_SIZE; omega)
    rw [h4', add32_eq (by omega)]
    omega
  have hT2 : sub32 (p.length + 5) 1 = p.length + 4 := by
    rw [sub32_eq (by omega) (by omega)]
    omega
  simp only [hT1, hT2]
  by_cases hfit : p.length + 5 ≤ s.read_length
  · rw [if_pos hfit]
    refine ⟨s, rfl, ?_, hPl, hsc⟩
    have e : (message code p).take s.read_length = message code p :=
      List.take_of_length_le (by omega)
    rw [min_eq_right hfit, e] at hpre
    exact hpre
  · rw [if_neg hfit]
    rw [min_eq_left (by omega)] at hpre
    by_cases hone : p.length + 4 = s.read_length
    · rw [if_pos hone, buf_set_eq _ _ _ (by omega)]
      refine ⟨_, rfl, ?_, hPl, hsc⟩
      show (s.inb.buf.set (p.length + 4) MESSAGE_PADDING).take (p.length + 5) = _
      rw [set_take_succ _ _ _ (by omega), hone, hpre, ← hone, message_take_last]
    · rw [if_neg hone]
      obtain ⟨c, hc, hbuf, hlen⟩ := continued_read_msg k (message code p) s hdev
        (by omega) (by omega) (by omega) hC hC32 (by omega) hcap32 htemp32 hpre
        (message_last code p)
      obtain ⟨_, _, c3, c4, _, _⟩ := continued_read_same k (msg_env k) s (0, c) hc
      replace c3 : c.payload_length = s.payload_length := c3
      replace c4 : c.status_report_code = s.status_report_code := c4
      rw [hc]
      simp only [Option.bind_eq_bind, Option.some_bind, lt_self_iff_false, if_false]
      obtain ⟨m0, m1, m2, m3⟩ := message_header code p
      have g : ∀ i, i < 4 → c.inb.buf.getD i 0 = (message code p).getD i 0 := by
        intro i hi
        have : c.inb.buf.take (message code p).length =
            (message code p).take (message code p).length := by
          rw [hbuf, List.take_length]
        exact getD_of_take_eq _ _ _ i this (by omega)
      have e0 : c.inb.buf.set 0 MESSAGE_MARKER = c.inb.buf :=
        set_getD_self _ _ _ (by omega) (by rw [g 0 (by omega), m0])
      have e1 : c.inb.buf.set 1 c.status_report_code = c.inb.buf :=
        set_getD_self _ _ _ (by omega) (by rw [g 1 (by omega), m1, c4, hsc])
      have e2 : c.inb.buf.set 2 (u8 c.payload_length) = c.inb.buf :=
        set_getD_self _ _ _ (by omega) (by rw [g 2 (by omega), m2, c3, hPl]; rfl)
      have e3 : c.inb.buf.set 3 (u8 (c.payload_length / 256)) = c.inb.buf :=
        set_getD_self _ _ _ (by omega) (by
          rw [g 3 (by omega), m3, c3, hPl]
          unfold u8
          omega)
      rw [buf_set_eq _ _ _ (by omega), e0]
      simp only [Option.some_bind]
      rw [buf_set_eq _ _ _ (by omega), e1]
      simp only [Option.some_bind]
      rw [buf_set_eq _ _ _ (by omega), e2]
      simp only [Option.some_bind]
      rw [buf_set_eq _ _ _ (by omega), e3]
      simp only [Option.some_bind]
      refine ⟨_, rfl, ?_, by rw [← hPl, ← c3], by rw [← hsc, ← c4]⟩
      show c.inb.buf.take (p.length + 5) = _
      rw [← hml, hbuf]

theorem payload_of_message_prefix (b : List Nat) (code : Nat) (p : List Nat)
    (h : b.take (p.length + 5) = message code p) : (b.drop 4).take p.length = p := by
  rw [List.take_drop]
  have e : b.take (4 + p.length) = (message code p).take (4 + p.length) := by
    rw [← h, List.take_take, min_eq_left (by omega)]
  rw [e, ← List.take_drop, message_payload]

theorem check_padding_keeps_buffer (k : tcm_defs) (env : Env D) (total_length : Nat)
    (s : syna_tcm_hcd D) (e : Int × syna_tcm_hcd D)
    (hpad : buf_get s.inb.buf (sub32 total_length 1) = some MESSAGE_PADDING)
    (h : read_message_check_padding k env total_length s = some e) :
    e.1 = 0 ∧ e.2.inb = s.inb := by
  unfold read_message_check_padding at h
  rw [hpad] at h
  simp only [Option.bind_eq_bind, Option.some_bind, ne_eq, not_true_eq_false, if_false] at h
  split at h
  · obtain ⟨sd, hsd, h⟩ := Option.bind_eq_some.mp h
    simp only [Option.some.injEq] at h
    subst h
    exact ⟨rfl, (dispatch_message_same k env _ _ hsd).2⟩
  · simp only [Option.some_bind, Option.some.injEq] at h
    subst h
    exact ⟨rfl, rfl⟩

/-- The receive part of `syna_tcm_read_message` against the device of the wire format:
for a code that is not short-circuited the first pass parses the header and goes on to the
reassembly, which reaches the padding check with the whole message in the inbound
buffer. -/
theorem read_message_passes_msg (k : tcm_defs) (s : syna_tcm_hcd msg_dev) (code : Nat)
    (payload : List Nat)
    (hdev : s.dev = ⟨message code payload, 0, false⟩) (hP : payload.length ≤ 65535)
    (hC : s.rd_chunk_size = 0 ∨ 4 ≤ s.rd_chunk_size) (hC32 : s.rd_chunk_size < 4294967296)
    (hR : 4 ≤ s.read_length) (hcap : s.read_length + 1 ≤ s.inb.buf_size)
    (hcap32 : s.inb.buf_size < 4294967296) (htemp32 : s.temp.buf_size < 4294967296)
    (hcode : code ≠ k.STATUS_CONTINUED_READ ∧ code ≠ k.STATUS_IDLE ∧ code ≠ k.STATUS_BUSY ∧
      code ≠ k.STATUS_INVALID) :
    ∃ s1, read_message_passes k (msg_env k) s =
        some (receive_result.check_padding (payload.length + 5) s1) ∧
      read_message_reassemble k (msg_env k) (header_state (msg_env k) s) =
        some (receive_result.check_padding (payload.length + 5) s1) ∧
      (header_state (msg_env k) s).payload_length = payload.length ∧
      s1.inb.buf.take (payload.length + 5) = message code payload ∧
      (s1.inb.buf.drop 4).take payload.length = payload ∧
      s1.payload_length = payload.length ∧ s1.status_report_code = code := by
  unfold syna_tcm_buffer.buf_size at hcap hcap32 htemp32
  have hml := message_length code payload
  obtain ⟨m0, m1, m2, m3⟩ := message_header code payload
  have hread : (msg_env k).bus_read s.dev s.read_length =
      (0, (message code payload).take s.read_length,
        ⟨message code payload, s.read_length, true⟩) := by
    rw [hdev]
    simp [msg_env, msg_dev.read]
  obtain ⟨f1, f2, f3, f4, f5, f6⟩ := header_state_fields (msg_env k) s
  rw [hread] at f1 f5 f6
  simp only [] at f1 f5 f6
  rw [getD_take _ _ _ (by omega), m1] at f5
  rw [getD_take _ _ _ (by omega), getD_take _ _ _ (by omega), m2, m3] at f6
  have f6' : (header_state (msg_env k) s).payload_length = payload.length := by
    rw [f6]; omega
  have pass1 := read_message_receive_header k (msg_env k) true
    (read_message_receive k (msg_env k) false (fun _ _ => none)) s
    (by rw [hread]) hR (by unfold syna_tcm_buffer.buf_size; omega)
    (by rw [hread]; simp only []; rw [getD_take _ _ _ (by omega), m0])
  rw [f5] at pass1
  have hpass : read_message_passes k (msg_env k) s =
      read_message_reassemble k (msg_env k) (header_state (msg_env k) s) := by
    unfold read_message_passes
    rw [pass1]
    obtain ⟨c1, c2, c3, c4⟩ := hcode
    by_cases hA : code ≤ k.STATUS_ERROR ∨ code = k.STATUS_INVALID
    · rw [if_pos hA]
      by_cases hok : code = k.STATUS_OK
      · rw [if_pos hok]
      · rw [if_neg hok, if_neg (by simp [c1, c2, c3]), if_neg c4]
    · rw [if_neg hA]
  have hbufeq : (header_state (msg_env k) s).inb.buf =
      fill ((message code payload).take s.read_length) s.read_length ++
        s.inb.buf.drop s.read_length := by
    rw [f3]
    unfold first_read_state
    simp only [hread]
  have hflen : (header_state (msg_env k) s).inb.buf.length = s.inb.buf.length := by
    rw [f3]
    exact first_read_length (msg_env k) s (by unfold syna_tcm_buffer.buf_size; omega)
  have hpre : (header_state (msg_env k) s).inb.buf.take
      (min (header_state (msg_env k) s).read_length (payload.length + 5)) =
      (message code payload).take (header_state (msg_env k) s).read_length := by
    rw [f2, hbufeq]
    by_cases hle : s.read_length ≤ payload.length + 5
    · rw [min_eq_left hle, fill_eq_self _ _ (by
        simp only [List.length_take]; omega)]
      rw [List.take_append_of_le_length (by simp only [List.length_take]; omega),
        List.take_take, min_self]
    · have e : (message code payload).take s.read_length = message code payload :=
        List.take_of_length_le (by omega)
      rw [min_eq_right (by omega), e, fill_of_le _ _ (by omega), List.append_assoc,
        ← hml, List.take_left]
  obtain ⟨s1, hs1, hb1, hpl1, hsc1⟩ := read_message_reassemble_msg k code payload
    (header_state (msg_env k) s) (by rw [f1, f2]) f6' f5 hP hC hC32
    (by rw [f2, hflen]; exact hcap) (by rw [hflen]; exact hcap32)
    (by
      show (header_state (msg_env k) s).temp.buf.length < 4294967296
      have : (header_state (msg_env k) s).temp = s.temp := rfl
      rw [this]; exact htemp32)
    hpre
  have hpay := payload_of_message_prefix s1.inb.buf code payload hb1
  exact ⟨s1, by rw [hpass, hs1], hs1, f6', hb1, hpay, hpl1, hsc1⟩

/-- C3 (as amended). For every payload of length `P ≤ 65535` and every read chunk size
that leaves a chunk space of at least 2 (`rd_chunk_size ≥ 4`, or 0 for unbounded), with
at least the header in the first read (`read_length ≥ 4`), the inbound buffer one byte
larger than `read_length`, and a code that is not short-circuited: against the device of
the wire format, `syna_tcm_read_message` reaches the padding check with
`in.buf[0 .. P+5)` equal to the message, hence `in.buf[4 .. 4+P)` equal to the payload,
however the remaining bytes partition into chunks; and every return of the call gives 0
with that payload still in the buffer. -/
theorem continued_read_reassembles (k : tcm_defs) (s : syna_tcm_hcd msg_dev) (code : Nat)
    (payload : List Nat) (length : Nat)
    (hdev : s.dev = ⟨message code payload, 0, false⟩) (hP : payload.length ≤ 65535)
    (hC : s.rd_chunk_size = 0 ∨ 4 ≤ s.rd_chunk_size) (hC32 : s.rd_chunk_size < 4294967296)
    (hR : 4 ≤ s.read_length) (hcap : s.read_length + 1 ≤ s.inb.buf_size)
    (hcap32 : s.inb.buf_size < 4294967296) (htemp32 : s.temp.buf_size < 4294967296)
    (hcode : code ≠ k.STATUS_CONTINUED_READ ∧ code ≠ k.STATUS_IDLE ∧ code ≠ k.STATUS_BUSY ∧
      code ≠ k.STATUS_INVALID)
    (hp : s.pwr_off = false) :
    (∃ s1, read_message_passes k (msg_env k) s =
        some (receive_result.check_padding (payload.length + 5) s1) ∧
      s1.inb.buf.take (payload.length + 5) = message code payload ∧
      (s1.inb.buf.drop 4).take payload.length = payload ∧
      s1.payload_length = payload.length ∧ s1.status_report_code = code) ∧
    (∀ r, syna_tcm_read_message k (msg_env k) s none length = some r →
      r.1 = 0 ∧ (r.2.1.inb.buf.drop 4).take payload.length = payload) := by
  obtain ⟨s1, hp1, _, _, hb1, hpay, hpl1, hsc1⟩ := read_message_passes_msg k s code payload hdev
    hP hC hC32 hR hcap hcap32 htemp32 hcode
  have hml := message_length code payload
  refine ⟨⟨s1, hp1, hb1, hpay, hpl1, hsc1⟩, ?_⟩
  intro r hr
  rw [read_message_eq k (msg_env k) s length hp, hp1] at hr
  simp only [Option.some_bind] at hr
  obtain ⟨e, he, hr⟩ := Option.bind_eq_some.mp hr
  simp only [Option.some.injEq] at hr
  subst hr
  have hblen : payload.length + 5 ≤ s1.inb.buf.length := by
    have := congrArg List.length hb1
    rw [List.length_take, hml] at this
    omega
  have hpad : buf_get s1.inb.buf (sub32 (payload.length + 5) 1) = some MESSAGE_PADDING := by
    rw [sub32_eq (by omega) (by omega), buf_get_eq _ _ (by omega)]
    have h1 : s1.inb.buf.take (payload.length + 5) =
        (message code payload).take (payload.length + 5) := by
      rw [hb1, List.take_of_length_le (by omega)]
    rw [getD_of_take_eq _ _ _ _ h1 (by omega)]
    have := message_last code payload
    rw [hml] at this
    exact congrArg some this
  obtain ⟨e1, e2⟩ := check_padding_keeps_buffer k (msg_env k) _ s1 e hpad he
  refine ⟨e1, ?_⟩
  show ((read_message_exit e.1 e.2).inb.buf.drop 4).take payload.length = payload
  rw [e1]
  show (e.2.inb.buf.drop 4).take payload.length = payload
  rw [e2]
  exact hpay

/-- C3 (counterexample). With `rd_chunk_size = 3` the chunk space is one byte, every
chunk takes the one-byte branch and is replaced by the padding sentinel without a bus
read: the sixth payload byte of the device is lost although the call returns 0. -/
theorem continued_read_chunk_size_3_loses_payload :
    (syna_tcm_read_message tcm (msg_env tcm) (chunk3_state [1, 2, 3, 4, 5, 6]) none 0).map
      (fun r => (r.1, (r.2.1.inb.buf.drop 4).take 6, bus_reads r.2.1.trace)) =
      some (0, [1, 2, 3, 4, 5, MESSAGE_PADDING], [9]) := by
  decide

theorem continued_read_reassembles_witness :
    ∃ s1, read_message_passes tcm (msg_env tcm) chunk5_state =
        some (receive_result.check_padding 18 s1) ∧
      (s1.inb.buf.drop 4).take 13 = [1, 2, 3, 4, 5, 6, 7, 8, 9, 10, 11, 12, 13] := by
  obtain ⟨⟨s1, h1, _, h3, _, _⟩, _⟩ := continued_read_reassembles tcm chunk5_state 0x12
    [1, 2, 3, 4, 5, 6, 7, 8, 9, 10, 11, 12, 13] 0 rfl (by decide) (by decide) (by decide)
    (by decide) (by decide) (by decide) (by decide) (by decide) rfl
  exact ⟨s1, h1, h3⟩

/-! ## Chunking of a command by `syna_tcm_write_message` -/

theorem set_take_one (b : List Nat) (v : Nat) (h : 0 < b.length) : (b.set 0 v).take 1 = [v] := by
  have := set_take_succ b 0 v h
  simpa using this

theorem command_stream_length (L : Nat) (p : List Nat) :
    (command_stream L p).length = p.length + 2 := by
  simp [command_stream]

theorem command_stream_take (L : Nat) (p : List Nat) (X : Nat) (hX : 2 ≤ X) :
    (command_stream L p).take X = [u8 L, u8 (L / 256)] ++ p.take (X - 2) := by
  unfold command_stream
  rw [List.take_append_eq_append_take]
  simp only [List.length_cons, List.length_nil]
  rw [List.take_of_length_le (by simp; omega)]

theorem command_stream_drop (L : Nat) (p : List Nat) (m : Nat) (hm : 2 ≤ m) :
    (command_stream L p).drop m = p.drop (m - 2) := by
  unfold command_stream
  rw [List.drop_append_eq_append_drop]
  simp only [List.length_cons, List.length_nil]
  rw [List.drop_of_length_le (by simp; omega)]
  simp

/-- The filling of the outbound buffer for one chunk: when the chunk space is at least 2
and the buffer has room, no copy fails and the buffer starts with the frame of the wire
format for that chunk. -/
theorem write_message_fill_frame (k : tcm_defs) (command : Nat) (p : List Nat)
    (cs idx rem : Nat) (out : List Nat) (hcs : 2 ≤ cs) (hL : p.length ≤ 65535)
    (hm : idx * cs + rem = p.length + 2) (hrem : 0 < rem)
    (hout : chunk_xfer_length rem cs + 1 ≤ out.length) (hout32 : out.length < 4294967296) :
    ∃ b, write_message_fill k command (some p) p.length cs idx rem out = some (0, b) ∧
      b.length = out.length ∧
      b.take (chunk_xfer_length rem cs + 1) =
        (if idx = 0 then command else k.CMD_CONTINUE_WRITE) ::
          ((command_stream p.length p).drop (idx * cs)).take (chunk_xfer_length rem cs) := by
  have hX : chunk_xfer_length rem cs ≤ rem ∧ chunk_xfer_length rem cs ≤ cs ∧
      0 < chunk_xfer_length rem cs ∧ (2 ≤ rem → 2 ≤ chunk_xfer_length rem cs) := by
    unfold chunk_xfer_length
    split <;> omega
  generalize hXd : chunk_xfer_length rem cs = X at hX hout
  obtain ⟨hX1, hX2, hX3, hX4⟩ := hX
  unfold write_message_fill
  simp only [hXd]
  by_cases h0 : idx = 0
  · subst h0
    simp only [if_true]
    have hrem2 : rem = p.length + 2 := by omega
    have hXge : 2 ≤ X := hX4 (by omega)
    rw [buf_set_eq _ _ _ (by omega)]
    simp only [Option.bind_eq_bind, Option.some_bind]
    rw [buf_set_eq _ _ _ (by simp; omega)]
    simp only [Option.some_bind]
    rw [buf_set_eq _ _ _ (by simp; omega)]
    simp only [Option.some_bind]
    generalize hb2 : ((out.set 0 command).set 1 (u8 p.length)).set 2 (u8 (p.length / 256)) = b2
    have hb2l : b2.length = out.length := by rw [← hb2]; simp
    have hb2t : b2.take 3 = [command, u8 p.length, u8 (p.length / 256)] := by
      rw [← hb2, set_take_succ _ 2 _ (by simp; omega), set_take_succ _ 1 _ (by simp; omega),
        set_take_one _ _ (by omega)]
      rfl
    by_cases hgt : X > 2
    · rw [if_pos hgt]
      have hcopy : secure_memcpy b2 3 (sub32 b2.length 3) (some p) 0 (sub32 rem 2) (sub32 X 2) =
          some (0, splice b2 3 (p.take (X - 2))) := by
        unfold secure_memcpy
        rw [if_neg (by simp), sub32_eq (by omega) (by omega), sub32_eq (by omega) (by omega),
          sub32_eq (by omega) (by omega)]
        rw [if_neg (by omega), if_neg (by omega)]
        simp only []
        rw [if_pos ⟨by omega, by omega⟩]
        simp
      rw [hcopy]
      have hDl : (p.take (X - 2)).length = X - 2 := by
        rw [List.length_take]; omega
      refine ⟨_, rfl, ?_, ?_⟩
      · rw [splice_length _ _ _ (by rw [hDl]; omega), hb2l]
      · have := splice_take b2 3 (p.take (X - 2)) (by rw [hDl]; omega)
        rw [hDl] at this
        have e : 3 + (X - 2) = X + 1 := by omega
        rw [e] at this
        rw [this, hb2t, Nat.zero_mul, List.drop_zero, command_stream_take _ _ _ hXge]
        rfl
    · rw [if_neg hgt]
      have hX2' : X = 2 := by omega
      subst hX2'
      refine ⟨b2, rfl, hb2l, ?_⟩
      rw [hb2t, Nat.zero_mul, List.drop_zero, command_stream_take _ _ _ (le_refl _)]
      simp
  · simp only [if_neg h0]
    have hm2 : 2 ≤ idx * cs := by
      have : 1 ≤ idx := by omega
      calc 2 ≤ cs := hcs
        _ = 1 * cs := by omega
        _ ≤ idx * cs := Nat.mul_le_mul_right cs this
    generalize hmd : idx * cs = m at hm hm2
    rw [buf_set_eq _ _ _ (by omega)]
    simp only [Option.bind_eq_bind, Option.some_bind]
    have hmul : mul32 idx cs = m := by
      rw [mul32_eq (by rw [hmd]; omega), hmd]
    have hb0l : (out.set 0 k.CMD_CONTINUE_WRITE).length = out.length := by simp
    have hcopy : secure_memcpy (out.set 0 k.CMD_CONTINUE_WRITE) 1
        (sub32 (out.set 0 k.CMD_CONTINUE_WRITE).length 1) (some p) (sub32 (mul32 idx cs) 2) rem X =
        some (0, splice (out.set 0 k.CMD_CONTINUE_WRITE) 1 ((p.drop (m - 2)).take X)) := by
      unfold secure_memcpy
      rw [hmul, if_neg (by simp), hb0l, sub32_eq (by omega) (by omega),
        sub32_eq (by omega) (by omega)]
      rw [if_neg (by omega), if_neg (by omega)]
      simp only []
      rw [if_pos ⟨by omega, by omega⟩]
    rw [hcopy]
    have hDl : ((p.drop (m - 2)).take X).length = X := by
      rw [List.length_take, List.length_drop]; omega
    refine ⟨_, rfl, ?_, ?_⟩
    · rw [splice_length _ _ _ (by rw [hDl, hb0l]; omega), hb0l]
    · have := splice_take (out.set 0 k.CMD_CONTINUE_WRITE) 1 ((p.drop (m - 2)).take X)
        (by rw [hDl, hb0l]; omega)
      rw [hDl] at this
      have e : 1 + X = X + 1 := by omega
      rw [e] at this
      rw [this, set_take_one _ _ (by omega), command_stream_drop _ _ _ hm2]
      rfl

theorem kmalloc_ok_of (env : Env D) (h : ∀ i n, env.kmalloc_ok i n = true) (s : syna_tcm_hcd D)
    (cap size : Nat) : (kmalloc env s cap size).1 = true := by
  unfold kmalloc
  split
  · exact h _ _
  · rfl

theorem syna_tcm_write_ok (env : Env D) (s : syna_tcm_hcd D) (src : List Nat) (n : Nat)
    (hn : n ≤ src.length) :
    syna_tcm_write env s src n =
      some ((env.bus_write s.dev (src.take n)).1,
        { s with dev := (env.bus_write s.dev (src.take n)).2,
                 trace := s.trace ++ [Event.bus_write (src.take n)] }) := by
  unfold syna_tcm_write
  rw [if_pos hn]

/-- One iteration of the chunk loop of `syna_tcm_write_message` with an allocator and a
bus that do not fail, and a chunk space of at least 2: the iteration completes and
issues one bus write, the frame of the wire format for the chunk. -/
theorem write_message_chunk_ok (k : tcm_defs) (env : Env D)
    (ha : ∀ i n, env.kmalloc_ok i n = true) (hw : ∀ d b, 0 ≤ (env.bus_write d b).1)
    (command : Nat) (p : List Nat) (chunks cs idx rem : Nat) (s : syna_tcm_hcd D)
    (hcs : 2 ≤ cs) (hL : p.length ≤ 65535)
    (hm : idx * cs + rem = p.length + 2) (hrem : 0 < rem)
    (hout32 : s.out.buf.length < 4294967296) :
    ∃ rv s1, write_message_chunk k env command (some p) p.length chunks cs idx rem s =
        some (loop_exit.completed, rv, s1) ∧
      s1.out.buf.length < 4294967296 ∧
      bus_writes s1.trace = bus_writes s.trace ++
        [(if idx = 0 then command else k.CMD_CONTINUE_WRITE) ::
          ((command_stream p.length p).drop (idx * cs)).take (chunk_xfer_length rem cs)] := by
  have hX : chunk_xfer_length rem cs ≤ rem := by
    unfold chunk_xfer_length
    split <;> omega
  unfold write_message_chunk
  simp only []
  have hsz : add32 (chunk_xfer_length rem cs) 1 = chunk_xfer_length rem cs + 1 :=
    add32_eq (by omega)
  rw [hsz]
  obtain ⟨_, _, _, ko, ktr⟩ := kmalloc_fields env s s.out.buf_size (chunk_xfer_length rem cs + 1)
  have kok := kmalloc_ok_of env ha s s.out.buf_size (chunk_xfer_length rem cs + 1)
  generalize kmalloc env s s.out.buf_size (chunk_xfer_length rem cs + 1) = a at ko ktr kok
  rw [kok, ko, alloc_mem_ok]
  simp only [lt_self_iff_false, if_false]
  have hzl : (List.replicate (max (chunk_xfer_length rem cs + 1) s.out.buf_size) 0).length =
      max (chunk_xfer_length rem cs + 1) s.out.buf_size := List.length_replicate _ _
  have hz32 : max (chunk_xfer_length rem cs + 1) s.out.buf_size < 4294967296 := by
    unfold syna_tcm_buffer.buf_size
    exact max_lt (by omega) hout32
  obtain ⟨b, hfill, hbl, hbt⟩ := write_message_fill_frame k command p cs idx rem
    (List.replicate (max (chunk_xfer_length rem cs + 1) s.out.buf_size) 0) hcs hL hm hrem
    (by rw [hzl]; exact le_max_left _ _) (by rw [hzl]; exact hz32)
  rw [hfill]
  simp only [Option.bind_eq_bind, Option.some_bind, lt_self_iff_false, if_false]
  rw [syna_tcm_write_ok env _ b _ (by rw [hbl, hzl]; exact le_max_left _ _)]
  simp only [Option.some_bind]
  rw [if_neg (not_lt.mpr (hw _ _))]
  refine ⟨_, _, rfl, ?_, ?_⟩
  · split
    · show b.length < 4294967296
      rw [hbl, hzl]; exact hz32
    · show b.length < 4294967296
      rw [hbl, hzl]; exact hz32
  · split
    · show bus_writes ((a.2.trace ++ [Event.bus_write (b.take _)]) ++ [Event.usleep_range _ _]) = _
      rw [bus_writes_append, bus_writes_append, ktr, hbt]
      simp [bus_writes]
    · show bus_writes (a.2.trace ++ [Event.bus_write (b.take _)]) = _
      rw [bus_writes_append, ktr, hbt]
      simp [bus_writes]

/-- The chunk loop of `syna_tcm_write_message`, run for `ceil(remaining_length /
chunk_space)` iterations with an allocator and a bus that do not fail and a chunk space
of at least 2: it completes, and its bus writes are the frames of the wire format. -/
theorem write_message_loop_frames (k : tcm_defs) (env : Env D)
    (ha : ∀ i n, env.kmalloc_ok i n = true) (hw : ∀ d b, 0 ≤ (env.bus_write d b).1)
    (command : Nat) (p : List Nat) (chunks cs : Nat) (hcs : 2 ≤ cs) (hL : p.length ≤ 65535) :
    ∀ (n idx rem : Nat) (rv0 : Int) (s : syna_tcm_hcd D),
      idx * cs + rem = p.length + 2 → n = (rem + cs - 1) / cs →
      s.out.buf.length < 4294967296 →
      ∃ rv s1, write_message_loop k env command (some p) p.length chunks cs n idx rem rv0 s =
          some (loop_exit.completed, rv, s1) ∧
        bus_writes s1.trace = bus_writes s.trace ++
          wire_frames command k.CMD_CONTINUE_WRITE cs (command_stream p.length p) idx n := by
  intro n
  induction n with
  | zero =>
    intro idx rem rv0 s _ _ _
    exact ⟨rv0, s, rfl, by simp [wire_frames]⟩
  | succ n ih =>
    intro idx rem rv0 s hm hn hout32
    have hrem0 : 0 < rem := by
      by_contra hne
      have h0 : rem = 0 := by omega
      rw [h0, ceil_none cs (by omega)] at hn
      omega
    obtain ⟨rv1, s1, hchunk, ho1, hb1⟩ := write_message_chunk_ok k env ha hw command p chunks cs
      idx rem s hcs hL hm hrem0 hout32
    simp only [write_message_loop, Option.bind_eq_bind, hchunk, Option.some_bind, ne_eq,
      not_true_eq_false, if_false]
    have hsl := command_stream_length p.length p
    have htake : ((command_stream p.length p).drop (idx * cs)).take (chunk_xfer_length rem cs) =
        ((command_stream p.length p).drop (idx * cs)).take cs := by
      unfold chunk_xfer_length
      split
      · rfl
      · rw [List.take_of_length_le (by rw [List.length_drop]; omega),
          List.take_of_length_le (by rw [List.length_drop]; omega)]
    by_cases hgt : cs < rem
    · have hX : chunk_xfer_length rem cs = cs := by
        unfold chunk_xfer_length
        rw [if_pos hgt]
      rw [hX, sub32_eq (by omega) (by omega)]
      obtain ⟨rv2, s2, hloop, hb2⟩ := ih (idx + 1) (rem - cs) rv1 s1
        (by rw [Nat.add_mul, Nat.one_mul]; omega)
        (by
          have := ceil_step rem cs (by omega) hgt
          omega) ho1
      refine ⟨rv2, s2, hloop, ?_⟩
      rw [hb2, hb1, htake, List.append_assoc]
      rfl
    · have hX : chunk_xfer_length rem cs = rem := by
        unfold chunk_xfer_length
        rw [if_neg hgt]
      have hn0 : n = 0 := by
        have := ceil_last rem cs hrem0 (by omega)
        omega
      subst hn0
      refine ⟨rv1, s1, by simp [write_message_loop], ?_⟩
      rw [hb1, htake]
      rfl

theorem wire_frames_length (c w cs : Nat) (stream : List Nat) :
    ∀ (n idx : Nat), (wire_frames c w cs stream idx n).length = n := by
  intro n
  induction n with
  | zero => intro idx; rfl
  | succ n ih => intro idx; simp [wire_frames, ih]

theorem wire_frames_later_heads (c w cs : Nat) (stream : List Nat) :
    ∀ (n idx : Nat), idx ≠ 0 → ∀ f ∈ wire_frames c w cs stream idx n, f.head? = some w := by
  intro n
  induction n with
  | zero => intro idx _ f hf; simp [wire_frames] at hf
  | succ n ih =>
    intro idx hidx f hf
    simp only [wire_frames, List.mem_cons] at hf
    rcases hf with hf | hf
    · rw [hf, if_neg hidx]
      rfl
    · exact ih (idx + 1) (by omega) f hf

theorem wire_frames_join (c w cs : Nat) (stream : List Nat) :
    ∀ (n idx : Nat), ((wire_frames c w cs stream idx n).map List.tail).flatten =
      (stream.drop (idx * cs)).take (n * cs) := by
  intro n
  induction n with
  | zero => intro idx; simp [wire_frames]
  | succ n ih =>
    intro idx
    simp only [wire_frames, List.map_cons, List.tail_cons, List.flatten_cons, ih]
    have e : (n + 1) * cs = cs + n * cs := by rw [Nat.add_mul, Nat.one_mul, Nat.add_comm]
    have e2 : (idx + 1) * cs = idx * cs + cs := by rw [Nat.add_mul, Nat.one_mul]
    rw [e, List.take_add, List.drop_drop, e2]

theorem write_message_chunks_eq (k : tcm_defs) (W command L : Nat)
    (hcmd : command ≠ k.CMD_ROMBOOT_DOWNLOAD) (hL : L ≤ 65535)
    (hW : W = 0 ∨ 3 ≤ W) (hW32 : W < 4294967296) :
    write_message_chunk_space k W command L = (if W = 0 then L + 2 else W - 1) ∧
      2 ≤ (if W = 0 then L + 2 else W - 1) ∧
      write_message_chunks k W command L =
        some ((L + 2 + (if W = 0 then L + 2 else W - 1) - 1) / (if W = 0 then L + 2 else W - 1)) ∧
      0 < (L + 2 + (if W = 0 then L + 2 else W - 1) - 1) / (if W = 0 then L + 2 else W - 1) := by
  have hcs : write_message_chunk_space k W command L = (if W = 0 then L + 2 else W - 1) := by
    rw [chunk_space_of_ne k W command L hcmd, add32_eq (by omega)]
    split
    · rfl
    · rw [sub32_eq (by omega) hW32]
  have h2 : 2 ≤ (if W = 0 then L + 2 else W - 1) := by
    split <;> omega
  generalize (if W = 0 then L + 2 else W - 1) = cs at hcs h2
  have hpos : 0 < (L + 2 + cs - 1) / cs := by
    have : 1 ≤ (L + 2 + cs - 1) / cs := by
      rw [Nat.le_div_iff_mul_le (by omega)]
      omega
    omega
  refine ⟨hcs, h2, ?_, hpos⟩
  unfold write_message_chunks ceil_div
  rw [hcs, add32_eq (by omega), if_neg (by omega)]
  simp only [Option.map_some', Option.some.injEq]
  rw [if_neg (by omega)]

/-- The bus writes of `syna_tcm_write_message` when a response is requested, the command
is not the rom-boot download, `wr_chunk_size` is 0 or at least 3, and neither the
allocator nor the bus fails: they are the frames of the wire format for the stream
`[length low, length high] ++ payload`, cut every `chunk_space` bytes. -/
theorem write_message_frames (k : tcm_defs) (env : Env D) (s : syna_tcm_hcd D)
    (command : Nat) (p : List Nat) (rb : List Nat) (resp_length : Nat)
    (response_code : Option Nat) (polling_delay_ms : Nat) (in_isr : Bool)
    (ha : ∀ i n, env.kmalloc_ok i n = true) (hw : ∀ d b, 0 ≤ (env.bus_write d b).1)
    (hconc : ∀ s0, bus_writes (env.concurrent s0).trace = bus_writes s0.trace)
    (hp : s.pwr_off = false) (hi : ¬ (s.do_polling = false ∧ in_isr = true))
    (hcmd : command ≠ k.CMD_ROMBOOT_DOWNLOAD) (hL : p.length ≤ 65535)
    (hW : s.wr_chunk_size = 0 ∨ 3 ≤ s.wr_chunk_size) (hW32 : s.wr_chunk_size < 4294967296)
    (hout32 : s.out.buf_size < 4294967296) :
    ∃ r, syna_tcm_write_message k env s command (some p) p.length (some rb) resp_length
        response_code polling_delay_ms in_isr = some r ∧
      bus_writes r.2.1.trace = bus_writes s.trace ++
        wire_frames command k.CMD_CONTINUE_WRITE
          (if s.wr_chunk_size = 0 then p.length + 2 else s.wr_chunk_size - 1)
          (command_stream p.length p) 0
          ((p.length + 2 + (if s.wr_chunk_size = 0 then p.length + 2 else s.wr_chunk_size - 1) - 1) /
            (if s.wr_chunk_size = 0 then p.length + 2 else s.wr_chunk_size - 1)) := by
  obtain ⟨hcs, h2, hch, _⟩ := write_message_chunks_eq k s.wr_chunk_size command p.length hcmd hL
    hW hW32
  generalize (if s.wr_chunk_size = 0 then p.length + 2 else s.wr_chunk_size - 1) = cs
    at hcs h2 hch ⊢
  obtain ⟨rv, s1, hloop, hb⟩ := write_message_loop_frames k env ha hw command p
    ((p.length + 2 + cs - 1) / cs) cs h2 hL ((p.length + 2 + cs - 1) / cs) 0 (p.length + 2) 0
    (write_message_begin s command rb polling_delay_ms) (by omega) rfl
    (by
      have : (write_message_begin s command rb polling_delay_ms).out = s.out := by
        unfold write_message_begin
        simp only []
        split <;> rfl
      rw [this]
      exact hout32)
  have hsend : write_message_send k env s command (some p) p.length rb polling_delay_ms =
      some (loop_exit.completed, rv, s1) := by
    unfold write_message_send
    rw [hch, hcs, add32_eq (by omega)]
    exact hloop
  rw [(write_message_begin_trace s command rb polling_delay_ms).2] at hb
  rw [write_message_resp_eq k env s command (some p) p.length rb resp_length response_code
    polling_delay_ms in_isr hp hi, hsend]
  simp only [Option.some_bind, ne_eq, not_true_eq_false, false_or]
  split
  · refine ⟨_, rfl, ?_⟩
    show bus_writes (write_message_exit k s1).trace = _
    rw [write_message_exit_trace, bus_writes_append, hb]
    simp [bus_writes]
  · refine ⟨_, rfl, ?_⟩
    rw [write_message_wait_trace, bus_writes_append]
    have hws : bus_writes (wait_state env s1 polling_delay_ms).trace = bus_writes s1.trace := by
      unfold wait_state
      simp only []
      rw [hconc]
      split <;> simp [syna_tcm_hcd.log, bus_writes_append, bus_writes]
    rw [hws, hb]
    simp [bus_writes]

/-- The chunking contract of `syna_tcm_write_message` where the code meets it
(`wr_chunk_size` is 0 or at least 3): `ceil((L + 2) / chunk_space)` bus writes, the first
one starting with the command byte, every later one with `CMD_CONTINUE_WRITE`, and the
bytes after the opcodes, concatenated in order, are `[L & 0xff, L >> 8]` followed by the
payload. -/
theorem write_message_chunking (k : tcm_defs) (env : Env D) (s : syna_tcm_hcd D)
    (command : Nat) (p : List Nat) (rb : List Nat) (resp_length : Nat)
    (response_code : Option Nat) (polling_delay_ms : Nat) (in_isr : Bool)
    (ha : ∀ i n, env.kmalloc_ok i n = true) (hw : ∀ d b, 0 ≤ (env.bus_write d b).1)
    (hconc : ∀ s0, bus_writes (env.concurrent s0).trace = bus_writes s0.trace)
    (hp : s.pwr_off = false) (hi : ¬ (s.do_polling = false ∧ in_isr = true))
    (hcmd : command ≠ k.CMD_ROMBOOT_DOWNLOAD) (hL : p.length ≤ 65535)
    (hW : s.wr_chunk_size = 0 ∨ 3 ≤ s.wr_chunk_size) (hW32 : s.wr_chunk_size < 4294967296)
    (hout32 : s.out.buf_size < 4294967296) :
    ∃ r first rest, syna_tcm_write_message k env s command (some p) p.length (some rb)
        resp_length response_code polling_delay_ms in_isr = some r ∧
      bus_writes r.2.1.trace = bus_writes s.trace ++ first :: rest ∧
      (first :: rest).length =
        (p.length + 2 + (if s.wr_chunk_size = 0 then p.length + 2 else s.wr_chunk_size - 1) - 1) /
          (if s.wr_chunk_size = 0 then p.length + 2 else s.wr_chunk_size - 1) ∧
      first.head? = some command ∧
      (∀ f ∈ rest, f.head? = some k.CMD_CONTINUE_WRITE) ∧
      ((first :: rest).map List.tail).flatten =
        [p.length % 256, p.length / 256] ++ p := by
  obtain ⟨r, hr, hb⟩ := write_message_frames k env s command p rb resp_length response_code
    polling_delay_ms in_isr ha hw hconc hp hi hcmd hL hW hW32 hout32
  obtain ⟨_, h2, _, hpos⟩ := write_message_chunks_eq k s.wr_chunk_size command p.length hcmd hL
    hW hW32
  generalize (if s.wr_chunk_size = 0 then p.length + 2 else s.wr_chunk_size - 1) = cs
    at hb h2 hpos ⊢
  obtain ⟨n, hn⟩ : ∃ n, (p.length + 2 + cs - 1) / cs = n + 1 := ⟨_, (Nat.succ_pred_eq_of_pos hpos).symm⟩
  have hfl := wire_frames_join command k.CMD_CONTINUE_WRITE cs (command_stream p.length p)
    (n + 1) 0
  have hlen := wire_frames_length command k.CMD_CONTINUE_WRITE cs (command_stream p.length p)
    (n + 1) 0
  rw [hn] at hb
  rw [hn]
  simp only [wire_frames] at hb hfl hlen
  refine ⟨r, _, _, hr, hb, hlen, rfl, ?_, ?_⟩
  · exact wire_frames_later_heads command k.CMD_CONTINUE_WRITE cs _ n 1 (by decide)
  · rw [hfl]
    have hcover : (command_stream p.length p).length ≤ (n + 1) * cs := by
      rw [command_stream_length, ← hn]
      have := Nat.lt_div_mul_add (show 0 < cs by omega) (a := p.length + 2 + cs - 1)
      omega
    rw [Nat.zero_mul, List.drop_zero, List.take_of_length_le hcover]
    unfold command_stream u8
    have : p.length / 256 % 256 = p.length / 256 := Nat.mod_eq_of_lt (by omega)
    rw [this]

/-- C2 (as amended). Scenario E on the code: a 10-byte payload with `wr_chunk_size = 5`
and a response requested is sent in exactly 3 bus writes; each carries its opcode and
the next `chunk_space = 4` bytes of `[len_lo, len_hi, data0 .. data9]`, so the first
write already holds `data0` and `data1`. -/
theorem scenario_E_writes (cmd d0 d1 d2 d3 d4 d5 d6 d7 d8 d9 : Nat)
    (h : cmd ≠ tcm.CMD_ROMBOOT_DOWNLOAD) :
    (syna_tcm_write_message tcm quiet_env scenario_E_state cmd
      (some [d0, d1, d2, d3, d4, d5, d6, d7, d8, d9]) 10 (some []) 0 none 0 false).map
        (fun r => bus_writes r.2.1.trace) =
      some [[cmd, 10, 0, d0, d1], [tcm.CMD_CONTINUE_WRITE, d2, d3, d4, d5],
        [tcm.CMD_CONTINUE_WRITE, d6, d7, d8, d9]] := by
  obtain ⟨r, hr, hb⟩ := write_message_frames tcm quiet_env scenario_E_state cmd
    [d0, d1, d2, d3, d4, d5, d6, d7, d8, d9] [] 0 none 0 false (fun _ _ => rfl)
    (fun _ _ => Int.le_refl 0) (fun _ => rfl) rfl (by decide) h (by simp) (by decide)
    (by decide) (by decide)
  have e : ([d0, d1, d2, d3, d4, d5, d6, d7, d8, d9] : List Nat).length = 10 := rfl
  rw [e] at hr
  have hW : scenario_E_state.wr_chunk_size = 5 := rfl
  have ht : scenario_E_state.trace = [] := rfl
  rw [e, hW, ht] at hb
  rw [hr, Option.map_some', hb]
  simp [wire_frames, command_stream, u8, bus_writes]

/-- C2 (counterexample). The writes listed in Scenario E are not the ones issued: the
first write of the code has five bytes, not four, and the last has five, not six. -/
theorem scenario_E_as_stated_fails :
    (syna_tcm_write_message tcm quiet_env scenario_E_state 0x22
      (some [10, 11, 12, 13, 14, 15, 16, 17, 18, 19]) 10 (some []) 0 none 0 false).map
        (fun r => bus_writes r.2.1.trace) ≠
      some [[0x22, 10, 0, 10], [tcm.CMD_CONTINUE_WRITE, 11, 12, 13, 14],
        [tcm.CMD_CONTINUE_WRITE, 15, 16, 17, 18, 19]] := by
  decide

theorem scenario_E_writes_witness :
    (0x22 : Nat) ≠ tcm.CMD_ROMBOOT_DOWNLOAD ∧
    (syna_tcm_write_message tcm quiet_env scenario_E_state 0x22
      (some [10, 11, 12, 13, 14, 15, 16, 17, 18, 19]) 10 (some []) 0 none 0 false).map
        (fun r => bus_writes r.2.1.trace) =
      some [[0x22, 10, 0, 10, 11], [tcm.CMD_CONTINUE_WRITE, 12, 13, 14, 15],
        [tcm.CMD_CONTINUE_WRITE, 16, 17, 18, 19]] :=
  ⟨by decide, scenario_E_writes 0x22 10 11 12 13 14 15 16 17 18 19 (by decide)⟩

/-! ## What the receive part of `syna_tcm_read_message` reads and leaves alone -/

theorem kmalloc_context (env : Env D) (s : syna_tcm_hcd D) (cap size : Nat) :
    command_context (kmalloc env s cap size).2 = command_context s ∧
      (kmalloc env s cap size).2.trace = s.trace ∧
      (kmalloc env s cap size).2.inb = s.inb := by
  unfold kmalloc
  split <;> simp [command_context]

theorem syna_tcm_read_path (env : Env D) (s : syna_tcm_hcd D) (dst : List Nat) (n : Nat)
    (r : Int × List Nat × syna_tcm_hcd D) (h : syna_tcm_read env s dst n = some r) :
    command_context r.2.2 = command_context s ∧
      r.2.2.trace = s.trace ++ [Event.bus_read n] ∧ r.2.2.inb = s.inb := by
  unfold syna_tcm_read at h
  simp only [] at h
  repeat' split at h
  all_goals
    first
    | (simp only [Option.some.injEq] at h
       subst h
       simp [command_context])
    | simp at h

theorem buf_set_length (b : List Nat) (i v : Nat) (b1 : List Nat)
    (h : buf_set b i v = some b1) : b1.length = b.length := by
  unfold buf_set at h
  split at h
  · simp only [Option.some.injEq] at h
    subst h
    simp
  · simp at h

theorem secure_memcpy_length (dest : List Nat) (doff dest_size : Nat) (src : Option (List Nat))
    (soff src_size count : Nat) (c : Int × List Nat)
    (h : secure_memcpy dest doff dest_size src soff src_size count = some c) :
    c.2.length = dest.length := by
  unfold secure_memcpy at h
  repeat' split at h
  all_goals
    first
    | (simp only [Option.some.injEq] at h
       subst h
       rfl)
    | (simp only [Option.some.injEq] at h
       subst h
       rename_i hb
       refine splice_length _ _ _ ?_
       simp only [List.length_take, List.length_drop]
       omega)
    | simp at h

/-- One iteration of the chunk loop of `syna_tcm_continued_read`: it leaves the command
context alone, returns a negative value whenever it does not complete, and on completion
has issued the one bus read of its chunk (none for a chunk of one byte). -/
theorem continued_read_chunk_path (k : tcm_defs) (env : Env D)
    (chunk_space offset remaining_length : Nat) (s : syna_tcm_hcd D)
    (e : loop_exit) (rv : Int) (s1 : syna_tcm_hcd D)
    (h : continued_read_chunk k env chunk_space offset remaining_length s = some (e, rv, s1)) :
    command_context s1 = command_context s ∧
      (e ≠ loop_exit.completed → rv < 0) ∧
      (e = loop_exit.completed → bus_reads s1.trace = bus_reads s.trace ++
        (if chunk_xfer_length remaining_length chunk_space = 1 then []
          else [add32 (chunk_xfer_length remaining_length chunk_space) 2])) ∧
      s1.inb.buf.length = s.inb.buf.length := by
  unfold continued_read_chunk at h
  simp only [] at h
  split at h
  · rename_i h1
    obtain ⟨b, hb, h⟩ := Option.bind_eq_some.mp h
    simp only [Option.some.injEq, Prod.mk.injEq] at h
    obtain ⟨he, hrv, hs⟩ := h
    subst he hrv hs
    have := buf_set_length _ _ _ _ hb
    simp [command_context, h1, this]
  · rename_i h1
    obtain ⟨kc, kt, ki⟩ := kmalloc_context env s s.temp.buf_size
      (add32 (chunk_xfer_length remaining_length chunk_space) 2)
    generalize kmalloc env s s.temp.buf_size
      (add32 (chunk_xfer_length remaining_length chunk_space) 2) = a at h kc kt ki
    generalize syna_tcm_alloc_mem a.1 a.2.temp
      (add32 (chunk_xfer_length remaining_length chunk_space) 2) = m at h
    have kc1 : command_context { a.2 with temp := m.2 } = command_context s := kc
    split at h
    · rename_i hneg
      simp only [Option.some.injEq, Prod.mk.injEq] at h
      obtain ⟨he, hrv, hs⟩ := h
      subst he hrv hs
      exact ⟨kc1, fun _ => hneg, fun h' => by simp at h', by rw [← ki]⟩
    · obtain ⟨rd, hrd, h⟩ := Option.bind_eq_some.mp h
      obtain ⟨rc, rt, ri⟩ := syna_tcm_read_path env _ _ _ rd hrd
      replace ri : rd.2.2.inb.buf.length = s.inb.buf.length := by
        rw [ri]
        show a.2.inb.buf.length = _
        rw [ki]
      replace rt : rd.2.2.trace = a.2.trace ++
        [Event.bus_read (add32 (chunk_xfer_length remaining_length chunk_space) 2)] := rt
      have rc1 : command_context
          { rd.2.2 with temp := { rd.2.2.temp with buf := rd.2.1 } } = command_context s := by
        rw [← kc1, ← rc]
        rfl
      have rt1 : bus_reads
          ({ rd.2.2 with temp := { rd.2.2.temp with buf := rd.2.1 } }).trace =
          bus_reads s.trace ++
            [add32 (chunk_xfer_length remaining_length chunk_space) 2] := by
        show bus_reads rd.2.2.trace = _
        rw [rt, bus_reads_append, kt]
        rfl
      split at h
      · rename_i hneg
        simp only [Option.some.injEq, Prod.mk.injEq] at h
        obtain ⟨he, hrv, hs⟩ := h
        subst he hrv hs
        exact ⟨rc1, fun _ => hneg, fun h' => by simp at h', ri⟩
      · obtain ⟨mk, _, h⟩ := Option.bind_eq_some.mp h
        obtain ⟨cd, _, h⟩ := Option.bind_eq_some.mp h
        split at h
        · simp only [Option.some.injEq, Prod.mk.injEq] at h
          obtain ⟨he, hrv, hs⟩ := h
          subst he hrv hs
          exact ⟨rc1, fun _ => by decide, fun h' => by simp at h', ri⟩
        · split at h
          · simp only [Option.some.injEq, Prod.mk.injEq] at h
            obtain ⟨he, hrv, hs⟩ := h
            subst he hrv hs
            exact ⟨rc1, fun _ => by decide, fun h' => by simp at h', ri⟩
          · obtain ⟨c, hc, h⟩ := Option.bind_eq_some.mp h
            have cl : c.2.length = s.inb.buf.length := by
              rw [secure_memcpy_length _ _ _ _ _ _ _ c hc]
              exact ri
            split at h
            · rename_i hneg
              simp only [Option.some.injEq, Prod.mk.injEq] at h
              obtain ⟨he, hrv, hs⟩ := h
              subst he hrv hs
              exact ⟨rc1, fun _ => hneg, fun h' => by simp at h', cl⟩
            · simp only [Option.some.injEq, Prod.mk.injEq] at h
              obtain ⟨he, hrv, hs⟩ := h
              subst he hrv hs
              refine ⟨rc1, fun h' => absurd rfl h', fun _ => ?_, cl⟩
              rw [if_neg h1]
              exact rt1

/-- The chunk loop of `syna_tcm_continued_read`: it leaves the command context alone,
returns a negative value whenever it does not complete, and on completion has issued the
bus reads of its chunks. -/
theorem continued_read_loop_path (k : tcm_defs) (env : Env D) (chunk_space : Nat) :
    ∀ (n offset remaining_length : Nat) (s : syna_tcm_hcd D) (e : loop_exit) (rv : Int)
      (s1 : syna_tcm_hcd D),
      continued_read_loop k env chunk_space n offset remaining_length s = some (e, rv, s1) →
      command_context s1 = command_context s ∧
        (e ≠ loop_exit.completed → rv < 0) ∧
        (e = loop_exit.completed → bus_reads s1.trace = bus_reads s.trace ++
          chunk_reads chunk_space n remaining_length) ∧
        s1.inb.buf.length = s.inb.buf.length := by
  intro n
  induction n with
  | zero =>
    intro offset rem s e rv s1 h
    simp only [continued_read_loop, Option.some.injEq, Prod.mk.injEq] at h
    obtain ⟨he, hrv, hs⟩ := h
    subst he hrv hs
    exact ⟨rfl, fun h' => absurd rfl h', fun _ => by simp [chunk_reads], rfl⟩
  | succ n ih =>
    intro offset rem s e rv s1 h
    simp only [continued_read_loop] at h
    obtain ⟨c, hc, h⟩ := Option.bind_eq_some.mp h
    obtain ⟨c1, c2, c3, c4⟩ := continued_read_chunk_path k env chunk_space offset rem s c.1
      c.2.1 c.2.2 hc
    split at h
    · rename_i hne
      simp only [Option.some.injEq] at h
      subst h
      exact ⟨c1, c2, fun h' => absurd h' hne, c4⟩
    · rename_i hcomp
      have hcomp' : c.1 = loop_exit.completed := by
        by_contra hx
        exact hcomp hx
      obtain ⟨d1, d2, d3, d4⟩ := ih _ _ _ _ _ _ h
      refine ⟨by rw [d1, c1], d2, fun he => ?_, by rw [d4, c4]⟩
      rw [d3 he, c3 hcomp']
      simp only [chunk_reads, List.append_assoc]

/-- The function `syna_tcm_continued_read`: it leaves the command context and the read
parameters alone, and when it does not fail it has issued the bus reads of
`ceil(remaining_length / chunk_space)` chunks (at least one). -/
theorem continued_read_path (k : tcm_defs) (env : Env D) (s : syna_tcm_hcd D)
    (rv : Int) (s1 : syna_tcm_hcd D) (h : syna_tcm_continued_read k env s = some (rv, s1)) :
    command_context s1 = command_context s ∧
      (0 ≤ rv → ∃ chunks,
        ceil_div (sub32 (add32 (add32 MESSAGE_HEADER_SIZE s.payload_length) 1) s.read_length)
          (if s.rd_chunk_size = 0 then
            sub32 (add32 (add32 MESSAGE_HEADER_SIZE s.payload_length) 1) s.read_length
          else sub32 s.rd_chunk_size 2) = some chunks ∧
        bus_reads s1.trace = bus_reads s.trace ++
          chunk_reads
            (if s.rd_chunk_size = 0 then
              sub32 (add32 (add32 MESSAGE_HEADER_SIZE s.payload_length) 1) s.read_length
            else sub32 s.rd_chunk_size 2)
            (if chunks = 0 then 1 else chunks)
            (sub32 (add32 (add32 MESSAGE_HEADER_SIZE s.payload_length) 1) s.read_length)) ∧
      s1.inb.buf.length ≤ max s.inb.buf.length
        (add32 (add32 (add32 MESSAGE_HEADER_SIZE s.payload_length) 1) 1) := by
  unfold syna_tcm_continued_read at h
  simp only [] at h
  obtain ⟨kc, kt, ki⟩ := kmalloc_context env s s.inb.buf_size
    (add32 (add32 (add32 MESSAGE_HEADER_SIZE s.payload_length) 1) 1)
  obtain ⟨⟨k1, k2, _, _, _, _⟩, _⟩ := kmalloc_same env s s.inb.buf_size
    (add32 (add32 (add32 MESSAGE_HEADER_SIZE s.payload_length) 1) 1)
  generalize kmalloc env s s.inb.buf_size
    (add32 (add32 (add32 MESSAGE_HEADER_SIZE s.payload_length) 1) 1) = a at h kc kt k1 k2 ki
  have hm : (syna_tcm_realloc_mem a.1 a.2.inb
      (add32 (add32 (add32 MESSAGE_HEADER_SIZE s.payload_length) 1) 1)).2.buf.length ≤
      max s.inb.buf.length (add32 (add32 (add32 MESSAGE_HEADER_SIZE s.payload_length) 1) 1) := by
    rw [ki]
    unfold syna_tcm_realloc_mem syna_tcm_buffer.buf_size
    repeat' split
    all_goals simp only [List.length_append, List.length_replicate, List.length_nil]
    all_goals omega
  generalize syna_tcm_realloc_mem a.1 a.2.inb
    (add32 (add32 (add32 MESSAGE_HEADER_SIZE s.payload_length) 1) 1) = m at h hm
  have kc1 : command_context { a.2 with inb := m.2 } = command_context s := kc
  split at h
  · rename_i hneg
    simp only [Option.some.injEq, Prod.mk.injEq] at h
    obtain ⟨hrv, hs⟩ := h
    subst hrv hs
    exact ⟨kc1, fun h0 => absurd hneg (not_lt.mpr h0), hm⟩
  · obtain ⟨chunks, hch, h⟩ := Option.bind_eq_some.mp h
    obtain ⟨lr, hl, h⟩ := Option.bind_eq_some.mp h
    simp only [Option.some.injEq, Prod.mk.injEq] at h
    obtain ⟨hrv, hs⟩ := h
    subst hrv hs
    obtain ⟨l1, l2, l3, l4⟩ := continued_read_loop_path k env _ _ _ _ _ lr.1 lr.2.1 lr.2.2 hl
    simp only [k1, k2] at hch l3
    refine ⟨by rw [l1, kc1], fun h0 => ⟨chunks, hch, ?_⟩, by rw [l4]; exact hm⟩
    have hcomp : lr.1 = loop_exit.completed := by
      by_contra hx
      exact absurd (l2 hx) (not_lt.mpr h0)
    rw [l3 hcomp]
    show bus_reads a.2.trace ++ _ = _
    rw [kt]

/-! ## The dispatch of a message: when it is defined, and its bus traffic -/

/-- A copy within the arrays and within the two sizes passed to `secure_memcpy` returns 0
and keeps the length of the destination. -/
theorem secure_memcpy_ok (dest : List Nat) (doff dest_size : Nat) (src : List Nat)
    (soff src_size count : Nat) (h1 : count ≤ dest_size) (h2 : count ≤ src_size)
    (h3 : soff + count ≤ src.length) (h4 : doff + count ≤ dest.length) :
    ∃ b, secure_memcpy dest doff dest_size (some src) soff src_size count = some (0, b) ∧
      b.length = dest.length := by
  unfold secure_memcpy
  rw [if_neg (by simp), if_neg (by omega)]
  by_cases h0 : count = 0
  · rw [if_pos h0]
    exact ⟨dest, rfl, rfl⟩
  · rw [if_neg h0]
    simp only []
    rw [if_pos ⟨h3, h4⟩]
    refine ⟨_, rfl, splice_length _ _ _ ?_⟩
    simp only [List.length_take, List.length_drop]
    omega

theorem dispatch_syncbox_reads (l : List syna_tcm_module_handler) :
    ∀ pos, bus_reads (dispatch_syncbox l pos) = [] := by
  induction l with
  | nil => intro pos; rfl
  | cons h t ih =>
    intro pos
    simp only [dispatch_syncbox]
    split
    · simp only [bus_reads]
      exact ih _
    · exact ih _

theorem dispatch_report_reads (k : tcm_defs) (s : syna_tcm_hcd D) :
    bus_reads (syna_tcm_dispatch_report k s).trace = bus_reads s.trace := by
  unfold syna_tcm_dispatch_report
  simp only []
  split
  · split <;> simp [syna_tcm_hcd.log, bus_reads_append, bus_reads]
  · split
    · split <;>
        simp [syna_tcm_hcd.log, bus_reads_append, bus_reads, dispatch_syncbox_reads]
    · simp [syna_tcm_hcd.log, bus_reads_append, bus_reads, dispatch_syncbox_reads]

theorem dispatch_response_reads (env : Env D) (s s1 : syna_tcm_hcd D)
    (h : syna_tcm_dispatch_response env s = some s1) :
    bus_reads s1.trace = bus_reads s.trace := by
  unfold syna_tcm_dispatch_response at h
  simp only [] at h
  obtain ⟨_, kt, _⟩ := kmalloc_context env
    { s.log Event.dispatch_response with
      response_code := (s.log Event.dispatch_response).status_report_code }
    ({ s.log Event.dispatch_response with
      response_code := (s.log Event.dispatch_response).status_report_code }).resp.buf_size
    (s.log Event.dispatch_response).payload_length
  generalize kmalloc env _ _ _ = a at h kt
  simp only [syna_tcm_hcd.log] at kt
  split at h
  · simp only [Option.some.injEq] at h
    subst h
    simp [syna_tcm_hcd.log, bus_reads_append, bus_reads]
  · split at h
    · simp only [Option.some.injEq] at h
      subst h
      simp [syna_tcm_hcd.log, syna_tcm_hcd.set_status, syna_tcm_hcd.complete, bus_reads_append,
        bus_reads]
    · split at h
      · simp only [Option.some.injEq] at h
        subst h
        simp [syna_tcm_hcd.set_status, syna_tcm_hcd.complete, bus_reads_append, bus_reads, kt]
      · obtain ⟨c, _, h⟩ := Option.bind_eq_some.mp h
        split at h <;>
        · simp only [Option.some.injEq] at h
          subst h
          simp [syna_tcm_hcd.set_status, syna_tcm_hcd.complete, bus_reads_append, bus_reads, kt]

theorem dispatch_identify_reads (k : tcm_defs) (s : syna_tcm_hcd D) (r : Bool × syna_tcm_hcd D)
    (h : dispatch_identify k s = some r) : bus_reads r.2.trace = bus_reads s.trace := by
  unfold dispatch_identify at h
  simp only [Option.bind_eq_bind, Option.bind_eq_some] at h
  obtain ⟨c, _, h⟩ := h
  split at h
  · simp only [Option.some.injEq] at h
    subst h
    rfl
  · simp only [Option.bind_eq_some] at h
    obtain ⟨pn, _, mws, _, h⟩ := h
    repeat' split at h
    all_goals
      simp only [Option.some.injEq] at h
      subst h
      simp [syna_tcm_hcd.log, syna_tcm_hcd.set_status, syna_tcm_hcd.complete, bus_reads_append,
        bus_reads]

/-- The dispatch of a message issues no bus read. -/
theorem dispatch_message_reads (k : tcm_defs) (env : Env D) (s s1 : syna_tcm_hcd D)
    (h : syna_tcm_dispatch_message k env s = some s1) :
    bus_reads s1.trace = bus_reads s.trace := by
  unfold syna_tcm_dispatch_message at h
  have key : ∃ r : Bool × syna_tcm_hcd D, bus_reads r.2.trace = bus_reads s.trace ∧
      (if r.1 = true then some r.2
        else if r.2.status_report_code ≥ k.REPORT_IDENTIFY then
          some (syna_tcm_dispatch_report k r.2)
        else syna_tcm_dispatch_response env r.2) = some s1 := by
    simp only [] at h
    split at h
    · obtain ⟨r, hr, h⟩ := Option.bind_eq_some.mp h
      exact ⟨r, dispatch_identify_reads k s r hr, h⟩
    · simp only [Option.bind_eq_bind, Option.some_bind] at h
      exact ⟨(false, s), rfl, h⟩
  clear h
  obtain ⟨r, hr2, h⟩ := key
  split at h
  · simp only [Option.some.injEq] at h
    subst h
    exact hr2
  · split at h
    · simp only [Option.some.injEq] at h
      subst h
      rw [dispatch_report_reads, hr2]
    · rw [dispatch_response_reads env r.2 s1 h, hr2]

/-- The handling of an identify report is defined whenever the payload lies within the
inbound buffer and `id_info` has its declared size with room for the fields read. -/
theorem dispatch_identify_defined (k : tcm_defs) (s : syna_tcm_hcd D)
    (hid : s.id_info.length = k.id_info_size)
    (hb : k.id_build_id + 4 ≤ k.id_info_size) (hm : k.id_max_write_size + 2 ≤ k.id_info_size)
    (hbuf : 4 + min k.id_info_size s.payload_length ≤ s.inb.buf.length)
    (h32 : s.inb.buf.length < 4294967296) :
    ∃ r, dispatch_identify k s = some r := by
  unfold dispatch_identify
  obtain ⟨b, hc, hl⟩ := secure_memcpy_ok s.id_info 0 k.id_info_size s.inb.buf
    MESSAGE_HEADER_SIZE (sub32 s.inb.buf_size MESSAGE_HEADER_SIZE)
    (min k.id_info_size s.payload_length) (min_le_left _ _)
    (by
      unfold syna_tcm_buffer.buf_size MESSAGE_HEADER_SIZE
      rw [sub32_eq (by omega) h32]
      omega)
    (by unfold MESSAGE_HEADER_SIZE; omega)
    (by
      have := min_le_left k.id_info_size s.payload_length
      omega)
  simp only [hc, Option.bind_eq_bind, Option.some_bind, lt_self_iff_false, if_false]
  have e4 : le4_to_uint b k.id_build_id = some (b.getD k.id_build_id 0 +
      256 * b.getD (k.id_build_id + 1) 0 + 65536 * b.getD (k.id_build_id + 2) 0 +
      16777216 * b.getD (k.id_build_id + 3) 0) := by
    unfold le4_to_uint
    rw [if_pos (by omega)]
  have e2 : le2_to_uint b k.id_max_write_size = some (b.getD k.id_max_write_size 0 +
      256 * b.getD (k.id_max_write_size + 1) 0) := by
    unfold le2_to_uint
    rw [if_pos (by omega)]
  rw [e4]
  simp only [Option.some_bind]
  rw [e2]
  simp only [Option.some_bind]
  repeat' split
  all_goals exact ⟨_, rfl⟩

/-- The dispatch of a message is defined when no command is outstanding, the payload
lies within the inbound buffer and `id_info` has its declared size. -/
theorem dispatch_message_defined (k : tcm_defs) (env : Env D) (s : syna_tcm_hcd D)
    (hid : s.id_info.length = k.id_info_size)
    (hb : k.id_build_id + 4 ≤ k.id_info_size) (hm : k.id_max_write_size + 2 ≤ k.id_info_size)
    (hbuf : 4 + min k.id_info_size s.payload_length ≤ s.inb.buf.length)
    (h32 : s.inb.buf.length < 4294967296)
    (hcs : s.command_status ≠ CMD_BUSY) :
    ∃ s2, syna_tcm_dispatch_message k env s = some s2 := by
  unfold syna_tcm_dispatch_message
  simp only []
  split
  · rename_i hcode
    obtain ⟨r, hr⟩ := dispatch_identify_defined k s hid hb hm hbuf h32
    obtain ⟨⟨_, _, _, a4, _, _⟩, _⟩ := dispatch_identify_same k s r hr
    rw [hr]
    simp only [Option.bind_eq_bind, Option.some_bind]
    split
    · exact ⟨_, rfl⟩
    · rw [if_pos (by rw [a4, hcode])]
      exact ⟨_, rfl⟩
  · simp only [Option.bind_eq_bind, Option.some_bind, Bool.false_eq_true, if_false]
    split
    · exact ⟨_, rfl⟩
    · unfold syna_tcm_dispatch_response
      simp only []
      rw [if_pos (by simpa [syna_tcm_hcd.log] using hcs)]
      exact ⟨_, rfl⟩

/-- The reassembly (lines 898 to 927) leaves the command context alone, grows the inbound
buffer to at most `total_length + 1` bytes, and issues bus reads only in the continued
read: those of its `ceil(remaining_length / chunk_space)` chunks. -/
theorem read_message_reassemble_path (k : tcm_defs) (env : Env D) (s : syna_tcm_hcd D)
    (total_length : Nat) (s1 : syna_tcm_hcd D)
    (h : read_message_reassemble k env s = some (receive_result.check_padding total_length s1)) :
    command_context s1 = command_context s ∧
      s1.inb.buf.length ≤ max s.inb.buf.length
        (add32 (add32 (add32 MESSAGE_HEADER_SIZE s.payload_length) 1) 1) ∧
      (¬ add32 (add32 MESSAGE_HEADER_SIZE s.payload_length) 1 ≤ s.read_length →
        sub32 (add32 (add32 MESSAGE_HEADER_SIZE s.payload_length) 1) 1 ≠ s.read_length →
        ∃ chunks,
          ceil_div (sub32 (add32 (add32 MESSAGE_HEADER_SIZE s.payload_length) 1) s.read_length)
            (if s.rd_chunk_size = 0 then
              sub32 (add32 (add32 MESSAGE_HEADER_SIZE s.payload_length) 1) s.read_length
            else sub32 s.rd_chunk_size 2) = some chunks ∧
          bus_reads s1.trace = bus_reads s.trace ++
            chunk_reads
              (if s.rd_chunk_size = 0 then
                sub32 (add32 (add32 MESSAGE_HEADER_SIZE s.payload_length) 1) s.read_length
              else sub32 s.rd_chunk_size 2)
              (if chunks = 0 then 1 else chunks)
              (sub32 (add32 (add32 MESSAGE_HEADER_SIZE s.payload_length) 1) s.read_length)) := by
  unfold read_message_reassemble at h
  simp only [] at h
  split at h
  · rename_i hfit
    simp only [Option.some.injEq, receive_result.check_padding.injEq] at h
    obtain ⟨_, h2⟩ := h
    subst h2
    exact ⟨rfl, le_max_left _ _, fun hn => absurd hfit hn⟩
  · split at h
    · rename_i hone
      obtain ⟨b, hb, h⟩ := Option.bind_eq_some.mp h
      simp only [Option.some.injEq, receive_result.check_padding.injEq] at h
      obtain ⟨_, h2⟩ := h
      subst h2
      refine ⟨rfl, ?_, fun _ hn => absurd hone hn⟩
      show b.length ≤ _
      rw [buf_set_length _ _ _ _ hb]
      exact le_max_left _ _
    · obtain ⟨c, hc, h⟩ := Option.bind_eq_some.mp h
      obtain ⟨c1, c2, c3⟩ := continued_read_path k env s c.1 c.2 hc
      split at h
      · simp at h
      · rename_i hnn
        obtain ⟨b0, hb0, h⟩ := Option.bind_eq_some.mp h
        obtain ⟨b1, hb1, h⟩ := Option.bind_eq_some.mp h
        obtain ⟨b2, hb2, h⟩ := Option.bind_eq_some.mp h
        obtain ⟨b3, hb3, h⟩ := Option.bind_eq_some.mp h
        simp only [Option.some.injEq, receive_result.check_padding.injEq] at h
        obtain ⟨_, h2⟩ := h
        subst h2
        refine ⟨c1, ?_, fun _ _ => c2 (not_lt.mp hnn)⟩
        show b3.length ≤ _
        rw [buf_set_length _ _ _ _ hb3, buf_set_length _ _ _ _ hb2, buf_set_length _ _ _ _ hb1,
          buf_set_length _ _ _ _ hb0]
        exact c3

/-- C4. Scenario B: a message with marker `0xA5`, code `0x10` and six payload bytes, read
with `rd_chunk_size = 6` (chunk space 4) and `read_length = 6` by a detected device:
`syna_tcm_read_message` returns 0; the 5 remaining bytes make `ceil(5 / 4) = 2` chunks, of
which the first is read from the bus with its two header bytes and the second, one byte
long, is the padding byte stored without a bus read; `in.buf[4 .. 10)` holds the six
payload bytes in order and `in.buf[10]` the padding byte. -/
theorem scenario_B_reassembles (p0 p1 p2 p3 p4 p5 : Nat) :
    ∃ s1, syna_tcm_read_message tcm (msg_env tcm)
        (scenario_B_state [p0, p1, p2, p3, p4, p5]) none 0 = some (0, s1, none) ∧
      ceil_div (sub32 (add32 (add32 MESSAGE_HEADER_SIZE 6) 1) 6) (sub32 6 2) = some 2 ∧
      bus_reads s1.trace = [6, 6] ∧
      (s1.inb.buf.drop 4).take 6 = [p0, p1, p2, p3, p4, p5] ∧
      s1.inb.buf.getD 10 0 = MESSAGE_PADDING := by
  obtain ⟨s1, hp1, hre, hpl, hb1, hpay, hpl1, hsc1⟩ := read_message_passes_msg tcm
    (scenario_B_state [p0, p1, p2, p3, p4, p5]) 0x10 [p0, p1, p2, p3, p4, p5] rfl
    (by simp) (by show (6 : Nat) = 0 ∨ 4 ≤ 6; decide) (by show (6 : Nat) < 4294967296; decide)
    (by show 4 ≤ 6; decide) (by show 6 + 1 ≤ 10; decide)
    (by show (10 : Nat) < 4294967296; decide) (by show (0 : Nat) < 4294967296; decide)
    (by decide)
  have e6 : ([p0, p1, p2, p3, p4, p5] : List Nat).length = 6 := rfl
  rw [e6] at hp1 hre hpl hb1 hpay hpl1
  obtain ⟨q1, q2, q3⟩ := read_message_reassemble_path tcm (msg_env tcm) _ _ _ hre
  obtain ⟨_, r1, r2, _, _, r5, _⟩ := read_message_reassemble_total tcm (msg_env tcm) _ _ _ hre
  replace r1 : s1.read_length = 6 := r1
  replace r2 : s1.rd_chunk_size = 6 := r2
  replace r5 : s1.is_detected = true := r5
  have hrl : (header_state (msg_env tcm) (scenario_B_state [p0, p1, p2, p3, p4, p5])).read_length =
      6 := rfl
  have hrc : (header_state (msg_env tcm)
      (scenario_B_state [p0, p1, p2, p3, p4, p5])).rd_chunk_size = 6 := rfl
  have hil : (header_state (msg_env tcm)
      (scenario_B_state [p0, p1, p2, p3, p4, p5])).inb.buf.length = 10 := by
    rw [(header_state_fields _ _).2.2.1]
    exact first_read_length _ _ (by show 6 ≤ 10; decide)
  have htr : bus_reads (header_state (msg_env tcm)
      (scenario_B_state [p0, p1, p2, p3, p4, p5])).trace = [6] := by
    rw [(header_state_fields _ _).2.2.2.1]
    rfl
  simp only [hpl, hil] at q2
  simp only [hpl, hrl, hrc, htr] at q3
  have hctx : command_context s1 =
      command_context (scenario_B_state [p0, p1, p2, p3, p4, p5]) := q1
  simp only [command_context, Prod.mk.injEq] at hctx
  obtain ⟨_, _, _, x4, _, _, x7, _⟩ := hctx
  replace x4 : s1.command_status = CMD_IDLE := x4
  replace x7 : s1.id_info = List.replicate 24 0 := x7
  obtain ⟨chunks, hch, hreads⟩ := q3 (by decide) (by decide)
  have hch2 : chunks = 2 := by
    have : ceil_div (sub32 (add32 (add32 MESSAGE_HEADER_SIZE 6) 1) 6) (sub32 6 2) = some 2 := by
      decide
    have hc' : ceil_div (sub32 (add32 (add32 MESSAGE_HEADER_SIZE 6) 1) 6) (sub32 6 2) =
        some chunks := hch
    rw [this] at hc'
    exact (Option.some.inj hc').symm
  subst hch2
  have hreads' : bus_reads s1.trace = [6, 6] := by
    rw [hreads]
    decide
  have hlen : 11 ≤ s1.inb.buf.length := by
    have := congrArg List.length hb1
    rw [List.length_take, message_length] at this
    simp only [List.length_cons, List.length_nil] at this
    omega
  have hlen2 : s1.inb.buf.length ≤ 12 := by
    have e : max 10 (add32 (add32 (add32 MESSAGE_HEADER_SIZE 6) 1) 1) = 12 := by decide
    rw [e] at q2
    exact q2
  have hlast : s1.inb.buf.getD 10 0 = MESSAGE_PADDING := by
    have h1 : s1.inb.buf.take 11 = (message 0x10 [p0, p1, p2, p3, p4, p5]).take 11 := by
      rw [hb1, List.take_of_length_le (by rw [message_length]; simp)]
    rw [getD_of_take_eq _ _ _ _ h1 (by omega)]
    have := message_last 0x10 [p0, p1, p2, p3, p4, p5]
    rw [message_length] at this
    exact this
  have hpad : buf_get s1.inb.buf (sub32 11 1) = some MESSAGE_PADDING := by
    have e : sub32 11 1 = 10 := by decide
    rw [e, buf_get_eq _ _ (by omega), hlast]
  obtain ⟨s2, hd⟩ := dispatch_message_defined tcm (msg_env tcm)
    { s1 with read_length :=
      if s1.rd_chunk_size = 0 then max 11 MIN_READ_LENGTH
      else min (max 11 MIN_READ_LENGTH) s1.rd_chunk_size }
    (by show s1.id_info.length = 24; rw [x7]; simp) (by decide) (by decide)
    (by
      show 4 + min 24 s1.payload_length ≤ s1.inb.buf.length
      rw [hpl1]
      have : min 24 6 = 6 := by decide
      omega)
    (by show s1.inb.buf.length < 4294967296; omega)
    (by show s1.command_status ≠ CMD_BUSY; rw [x4]; decide)
  obtain ⟨_, d2⟩ := dispatch_message_same tcm (msg_env tcm) _ s2 hd
  have d3 := dispatch_message_reads tcm (msg_env tcm) _ s2 hd
  have hcp : read_message_check_padding tcm (msg_env tcm) 11 s1 = some (0, s2) := by
    unfold read_message_check_padding
    rw [hpad]
    have hd1 := hd
    simp only [r5] at hd1
    simp only [Option.bind_eq_bind, Option.some_bind, ne_eq, not_true_eq_false, if_false, r5,
      if_true, hd1]
  refine ⟨s2, ?_, by decide, ?_, ?_, ?_⟩
  · rw [read_message_eq tcm (msg_env tcm) _ 0 rfl, hp1]
    simp only [Option.some_bind, hcp]
    rfl
  · rw [d3]
    exact hreads'
  · rw [d2]
    exact hpay
  · rw [d2]
    exact hlast

/-! ## `wr_chunk_size = 2`: the chunk loop leaves the payload array -/

/-- A copy whose source range ends beyond the source array is undefined, whatever the
sizes passed to `secure_memcpy` say. -/
theorem secure_memcpy_source_overrun (dest : List Nat) (doff dest_size : Nat) (src : List Nat)
    (soff src_size count : Nat) (h0 : count ≠ 0) (h1 : count ≤ dest_size)
    (h2 : count ≤ src_size) (h3 : src.length < soff + count) :
    secure_memcpy dest doff dest_size (some src) soff src_size count = none := by
  unfold secure_memcpy
  rw [if_neg (by simp), if_neg (by omega), if_neg h0]
  show (if soff + count ≤ src.length ∧ doff + count ≤ dest.length then _ else none) = none
  rw [if_neg (by omega)]

/-- With a chunk space of one byte, the continuation chunk at index 1 copies from
`&payload[idx * chunk_space - 2]`, the unsigned index `0xffffffff`: the copy leaves the
payload array whatever the payload is. -/
theorem write_message_chunk_underflow (k : tcm_defs) (env : Env D)
    (ha : ∀ i n, env.kmalloc_ok i n = true) (command : Nat) (p : List Nat)
    (chunks rem : Nat) (s : syna_tcm_hcd D) (hrem : 0 < rem) (hL : p.length ≤ 65535)
    (hout32 : s.out.buf.length < 4294967296) :
    write_message_chunk k env command (some p) p.length chunks 1 1 rem s = none := by
  have hX : chunk_xfer_length rem 1 = 1 := by
    unfold chunk_xfer_length
    split <;> omega
  unfold write_message_chunk
  simp only [hX]
  have h2 : add32 1 1 = 2 := rfl
  rw [h2]
  obtain ⟨_, _, _, ko, _⟩ := kmalloc_fields env s s.out.buf_size 2
  have kok := kmalloc_ok_of env ha s s.out.buf_size 2
  generalize kmalloc env s s.out.buf_size 2 = a at ko kok
  rw [kok, ko, alloc_mem_ok]
  simp only [lt_self_iff_false, if_false]
  have hzl : (List.replicate (max 2 s.out.buf_size) 0).length = max 2 s.out.buf_size :=
    List.length_replicate _ _
  have hz32 : max 2 s.out.buf_size < 4294967296 := by
    unfold syna_tcm_buffer.buf_size
    exact max_lt (by omega) hout32
  have hz2 : 2 ≤ max 2 s.out.buf_size := le_max_left _ _
  have hfill : write_message_fill k command (some p) p.length 1 1 rem
      (List.replicate (max 2 s.out.buf_size) 0) = none := by
    unfold write_message_fill
    simp only [hX]
    rw [if_neg (by decide), buf_set_eq _ _ _ (by rw [hzl]; omega)]
    rw [Option.bind_eq_bind, Option.some_bind]
    have hsl : ((List.replicate (max 2 s.out.buf_size) 0).set 0 k.CMD_CONTINUE_WRITE).length =
        max 2 s.out.buf_size := by
      rw [List.length_set, hzl]
    have hoff : sub32 (mul32 1 1) 2 = 4294967295 := rfl
    exact secure_memcpy_source_overrun _ _ _ _ _ _ _ (by decide)
      (by rw [hsl, sub32_eq (by omega) hz32]; omega) hrem (by rw [hoff]; omega)
  rw [hfill]
  rfl

/-- With a chunk space of one byte, the first chunk either is undefined (the store of
`out.buf[2]` leaves a two-byte buffer) or completes, when the allocator and the bus do
not fail. -/
theorem write_message_chunk_first_of_one (k : tcm_defs) (env : Env D)
    (ha : ∀ i n, env.kmalloc_ok i n = true) (hw : ∀ d b, 0 ≤ (env.bus_write d b).1)
    (command : Nat) (p : List Nat) (chunks rem : Nat) (s : syna_tcm_hcd D) (hrem : 0 < rem)
    (hout32 : s.out.buf.length < 4294967296) (r : loop_exit × Int × syna_tcm_hcd D)
    (h : write_message_chunk k env command (some p) p.length chunks 1 0 rem s = some r) :
    r.1 = loop_exit.completed ∧ r.2.2.out.buf.length < 4294967296 := by
  have hX : chunk_xfer_length rem 1 = 1 := by
    unfold chunk_xfer_length
    split <;> omega
  unfold write_message_chunk at h
  simp only [hX] at h
  have h2 : add32 1 1 = 2 := rfl
  rw [h2] at h
  obtain ⟨_, _, _, ko, _⟩ := kmalloc_fields env s s.out.buf_size 2
  have kok := kmalloc_ok_of env ha s s.out.buf_size 2
  generalize kmalloc env s s.out.buf_size 2 = a at h ko kok
  rw [kok, ko, alloc_mem_ok] at h
  simp only [lt_self_iff_false, if_false] at h
  have hzl : (List.replicate (max 2 s.out.buf_size) 0).length = max 2 s.out.buf_size :=
    List.length_replicate _ _
  have hz32 : max 2 s.out.buf_size < 4294967296 := by
    unfold syna_tcm_buffer.buf_size
    exact max_lt (by omega) hout32
  have hz2 : 2 ≤ max 2 s.out.buf_size := le_max_left _ _
  obtain ⟨c, hc, h⟩ := Option.bind_eq_some.mp h
  have hcf : c.1 = 0 ∧ c.2.length = max 2 s.out.buf_size := by
    unfold write_message_fill at hc
    simp only [hX] at hc
    obtain ⟨b0, hb0, hc⟩ := Option.bind_eq_some.mp hc
    obtain ⟨b1, hb1, hc⟩ := Option.bind_eq_some.mp hc
    obtain ⟨b2, hb2, hc⟩ := Option.bind_eq_some.mp hc
    rw [if_neg (by decide)] at hc
    simp only [Option.some.injEq] at hc
    subst hc
    refine ⟨rfl, ?_⟩
    show b2.length = _
    rw [buf_set_length _ _ _ _ hb2, buf_set_length _ _ _ _ hb1, buf_set_length _ _ _ _ hb0, hzl]
  obtain ⟨c1, c2⟩ := hcf
  simp only [c1, lt_self_iff_false, if_false] at h
  rw [syna_tcm_write_ok env _ c.2 2 (by rw [c2]; exact hz2)] at h
  simp only [Option.bind_eq_bind, Option.some_bind] at h
  rw [if_neg (not_lt.mpr (hw _ _))] at h
  simp only [Option.some.injEq] at h
  subst h
  refine ⟨rfl, ?_⟩
  split
  · show c.2.length < 4294967296
    rw [c2]; exact hz32
  · show c.2.length < 4294967296
    rw [c2]; exact hz32

/-- C1. The chunking contract fails at `wr_chunk_size = 2` (`chunk_space = 1`), a value the
claim covers: for every command other than `CMD_ROMBOOT_DOWNLOAD` and every payload of at
most 65535 bytes, with a response requested and an allocator and a bus that never fail,
the call has no defined result. The second chunk copies from
`&payload[idx * chunk_space - 2]`, the unsigned index `0xffffffff`, outside the payload;
and when `out` holds fewer than three bytes the first chunk already stores `out.buf[2]`
past its `xfer_length + 1 = 2` bytes. -/
theorem write_message_chunk_size_2_undefined (k : tcm_defs) (env : Env D)
    (s : syna_tcm_hcd D) (command : Nat) (p : List Nat) (rb : List Nat) (resp_length : Nat)
    (response_code : Option Nat) (polling_delay_ms : Nat) (in_isr : Bool)
    (ha : ∀ i n, env.kmalloc_ok i n = true) (hw : ∀ d b, 0 ≤ (env.bus_write d b).1)
    (hp : s.pwr_off = false) (hi : ¬ (s.do_polling = false ∧ in_isr = true))
    (hcmd : command ≠ k.CMD_ROMBOOT_DOWNLOAD) (hL : p.length ≤ 65535)
    (hW : s.wr_chunk_size = 2) (hout32 : s.out.buf_size < 4294967296) :
    syna_tcm_write_message k env s command (some p) p.length (some rb) resp_length
      response_code polling_delay_ms in_isr = none := by
  rw [write_message_resp_eq k env s command (some p) p.length rb resp_length response_code
    polling_delay_ms in_isr hp hi]
  have hcs : write_message_chunk_space k s.wr_chunk_size command p.length = 1 := by
    rw [chunk_space_of_ne k _ command p.length hcmd, hW, if_neg (by decide)]
    rfl
  have hch : write_message_chunks k s.wr_chunk_size command p.length = some (p.length + 2) := by
    unfold write_message_chunks ceil_div
    rw [hcs, add32_eq (by omega), if_neg (by decide)]
    simp only [Option.map_some', Option.some.injEq]
    rw [Nat.add_sub_cancel, Nat.div_one, if_neg (by omega)]
  have hsend : write_message_send k env s command (some p) p.length rb polling_delay_ms =
      none := by
    unfold write_message_send
    rw [hch, hcs, add32_eq (by omega)]
    simp only [Option.bind_eq_bind, Option.some_bind]
    have hbo : (write_message_begin s command rb polling_delay_ms).out = s.out := by
      unfold write_message_begin
      simp only []
      split <;> rfl
    show write_message_loop k env command (some p) p.length (p.length + 2) 1
      (p.length + 1 + 1) 0 (p.length + 2) 0 _ = none
    simp only [write_message_loop]
    cases hc0 : write_message_chunk k env command (some p) p.length (p.length + 2) 1 0
        (p.length + 2) (write_message_begin s command rb polling_delay_ms) with
    | none => rfl
    | some r =>
      obtain ⟨r1, r2⟩ := write_message_chunk_first_of_one k env ha hw command p _ _ _
        (by omega) (by rw [hbo]; exact hout32) r hc0
      simp only [Option.bind_eq_bind, Option.some_bind, r1, ne_eq, not_true_eq_false, if_false]
      have hX : chunk_xfer_length (p.length + 2) 1 = 1 := by
        unfold chunk_xfer_length
        split <;> omega
      rw [hX, sub32_eq (by omega) (by omega)]
      rw [write_message_chunk_underflow k env ha command p _ _ r.2.2 (by omega) hL r2]
      rfl
  rw [hsend]
  rfl

theorem write_message_chunk_size_2_undefined_witness :
    syna_tcm_write_message tcm quiet_env
        { probe_state tcm () with wr_chunk_size := 2, out := ⟨[0, 0, 0, 0, 0, 0, 0, 0], 0⟩ }
        0x22 (some [7]) 1 (some []) 0 none 0 false = none :=
  write_message_chunk_size_2_undefined tcm quiet_env
    { probe_state tcm () with wr_chunk_size := 2, out := ⟨[0, 0, 0, 0, 0, 0, 0, 0], 0⟩ }
    0x22 [7] [] 0 none 0 false (fun _ _ => rfl) (fun _ _ => Int.le_refl 0) rfl (by decide)
    (by decide) (by decide) rfl (by decide)

/-! ## The dispatch of a response -/

/-- A copy within the arrays and within the two sizes passed to `secure_memcpy` returns 0
and replaces `count` bytes of the destination by those of the source. -/
theorem secure_memcpy_copy (dest : List Nat) (doff dest_size : Nat) (src : List Nat)
    (soff src_size count : Nat) (h1 : count ≤ dest_size) (h2 : count ≤ src_size)
    (h3 : soff + count ≤ src.length) (h4 : doff + count ≤ dest.length) :
    secure_memcpy dest doff dest_size (some src) soff src_size count =
      some (0, splice dest doff ((src.drop soff).take count)) := by
  unfold secure_memcpy
  rw [if_neg (by simp), if_neg (by omega)]
  by_cases h0 : count = 0
  · rw [if_pos h0]
    subst h0
    simp [splice]
  · rw [if_neg h0]
    simp only []
    rw [if_pos ⟨h3, h4⟩]

/-- A copy of more bytes than one of the two sizes passed to `secure_memcpy` fails. -/
theorem secure_memcpy_too_long (dest : List Nat) (doff dest_size : Nat) (src : List Nat)
    (soff src_size count : Nat) (h : dest_size < count ∨ src_size < count) :
    secure_memcpy dest doff dest_size (some src) soff src_size count = some (-EINVAL, dest) := by
  unfold secure_memcpy
  rw [if_neg (by simp), if_pos h]

theorem count_complete_append (t : List Event) (e : Event) :
    (t ++ [e]).count Event.complete =
      t.count Event.complete + (if e = Event.complete then 1 else 0) := by
  rw [List.count_append]
  by_cases h : e = Event.complete
  · subst h
    simp
  · rw [if_neg h]
    simp [List.count_cons, h]

/-- C12. A message with a code below `REPORT_IDENTIFY` goes to
`syna_tcm_dispatch_response`; with a command outstanding (`CMD_BUSY`) the function stores
the code in `response_code` and signals the completion exactly once. With
`payload_length = 0` the response slot is left as it is (its `data_length` stays 0),
nothing is allocated or copied, and `command_status` becomes `CMD_IDLE`. With
`payload_length = P > 0`, when the allocation succeeds and the payload lies within the
inbound buffer (so that the copy succeeds), the first `P` bytes of `resp.buf` are
`in.buf[4 .. 4+P)`, `data_length = P` and `command_status` becomes `CMD_IDLE`; when the
allocation or the copy fails, `command_status` becomes `CMD_ERROR`. -/
theorem dispatch_response_outcome (k : tcm_defs) (env : Env D) (s : syna_tcm_hcd D)
    (hb : s.command_status = CMD_BUSY) (hin : MESSAGE_HEADER_SIZE ≤ s.inb.buf_size)
    (h32 : s.inb.buf_size < 4294967296) :
    (s.status_report_code < k.REPORT_IDENTIFY →
      syna_tcm_dispatch_message k env s = syna_tcm_dispatch_response env s) ∧
    ∃ s1, syna_tcm_dispatch_response env s = some s1 ∧
      s1.response_code = s.status_report_code ∧
      s1.completion_done = s.completion_done + 1 ∧
      s1.trace.count Event.complete = s.trace.count Event.complete + 1 ∧
      (s.payload_length = 0 →
        s1.resp = s.resp ∧ s1.kmallocs = s.kmallocs ∧ s1.command_status = CMD_IDLE) ∧
      (0 < s.payload_length →
        (s.payload_length ≤ s.resp.buf_size ∨
          env.kmalloc_ok s.kmallocs s.payload_length = true) →
        MESSAGE_HEADER_SIZE + s.payload_length ≤ s.inb.buf_size →
        s1.resp.buf.take s.payload_length =
            (s.inb.buf.drop MESSAGE_HEADER_SIZE).take s.payload_length ∧
          s1.resp.data_length = s.payload_length ∧ s1.command_status = CMD_IDLE) ∧
      (0 < s.payload_length →
        (¬ (s.payload_length ≤ s.resp.buf_size ∨
            env.kmalloc_ok s.kmallocs s.payload_length = true) ∨
          s.inb.buf_size < MESSAGE_HEADER_SIZE + s.payload_length) →
        s1.command_status = CMD_ERROR) := by
  unfold MESSAGE_HEADER_SIZE at hin ⊢
  unfold syna_tcm_buffer.buf_size at hin h32 ⊢
  refine ⟨?_, ?_⟩
  · intro hlt
    unfold syna_tcm_dispatch_message
    simp only []
    rw [if_neg (by omega)]
    simp only [Option.bind_eq_bind, Option.some_bind, Bool.false_eq_true, if_false]
    rw [if_neg (by omega)]
  unfold syna_tcm_dispatch_response
  simp only [syna_tcm_hcd.log, hb, ne_eq, not_true_eq_false, if_false]
  by_cases hP : s.payload_length = 0
  · rw [if_pos hP]
    refine ⟨_, rfl, rfl, rfl, ?_, fun _ => ⟨rfl, rfl, rfl⟩, fun h => ?_, fun h => ?_⟩
    · simp [syna_tcm_hcd.set_status, syna_tcm_hcd.complete, count_complete_append]
    · omega
    · omega
  · rw [if_neg hP]
    have hpos : 0 < s.payload_length := Nat.pos_of_ne_zero hP
    unfold kmalloc syna_tcm_buffer.buf_size
    simp only [MESSAGE_HEADER_SIZE]
    by_cases hfit : s.payload_length ≤ s.resp.buf.length
    · rw [if_neg (show ¬ s.payload_length > s.resp.buf.length by omega)]
      simp only [alloc_mem_ok, lt_self_iff_false, if_false]
      have hdl : (List.replicate (max s.payload_length s.resp.buf.length) 0).length =
          max s.payload_length s.resp.buf.length := List.length_replicate _ _
      by_cases hsrc : 4 + s.payload_length ≤ s.inb.buf.length
      · have hcopy := secure_memcpy_copy
          (List.replicate (max s.payload_length s.resp.buf.length) 0) 0
          (List.replicate (max s.payload_length s.resp.buf.length) 0).length s.inb.buf 4
          (sub32 s.inb.buf.length 4) s.payload_length
          (by rw [hdl]; exact le_max_left _ _)
          (by rw [sub32_eq (by omega) h32]; omega) (by omega)
          (by rw [hdl]; have := le_max_left s.payload_length s.resp.buf.length; omega)
        simp only [syna_tcm_buffer.buf_size, hcopy, Option.bind_eq_bind, Option.some_bind,
          lt_self_iff_false, if_false]
        refine ⟨_, rfl, rfl, rfl, ?_, fun h => absurd h hP, fun _ _ _ => ⟨?_, rfl, rfl⟩,
          fun _ h => ?_⟩
        · simp [syna_tcm_hcd.set_status, syna_tcm_hcd.complete, count_complete_append]
        · show (splice _ 0 _).take s.payload_length = _
          have hl : ((s.inb.buf.drop 4).take s.payload_length).length = s.payload_length := by
            simp only [List.length_take, List.length_drop]
            omega
          have := splice_take (List.replicate (max s.payload_length s.resp.buf.length) 0) 0
            ((s.inb.buf.drop 4).take s.payload_length)
            (by rw [hl, hdl]; have := le_max_left s.payload_length s.resp.buf.length; omega)
          rw [hl, Nat.zero_add] at this
          rw [this]
          simp
        · rcases h with h | h
          · exact absurd (Or.inl hfit) h
          · omega
      · have hcopy := secure_memcpy_too_long
          (List.replicate (max s.payload_length s.resp.buf.length) 0) 0
          (List.replicate (max s.payload_length s.resp.buf.length) 0).length s.inb.buf 4
          (sub32 s.inb.buf.length 4) s.payload_length
          (Or.inr (by rw [sub32_eq (by omega) h32]; omega))
        simp only [syna_tcm_buffer.buf_size, hcopy, Option.bind_eq_bind, Option.some_bind]
        rw [if_pos (by decide)]
        refine ⟨_, rfl, rfl, rfl, ?_, fun h => absurd h hP, fun _ _ h => ?_, fun _ _ => rfl⟩
        · simp [syna_tcm_hcd.set_status, syna_tcm_hcd.complete, count_complete_append]
        · omega
    · rw [if_pos (show s.payload_length > s.resp.buf.length by omega)]
      simp only []
      by_cases hk : env.kmalloc_ok s.kmallocs s.payload_length = true
      · simp only [hk, alloc_mem_ok, lt_self_iff_false, if_false]
        have hdl : (List.replicate (max s.payload_length s.resp.buf.length) 0).length =
            max s.payload_length s.resp.buf.length := List.length_replicate _ _
        by_cases hsrc : 4 + s.payload_length ≤ s.inb.buf.length
        · have hcopy := secure_memcpy_copy
            (List.replicate (max s.payload_length s.resp.buf.length) 0) 0
            (List.replicate (max s.payload_length s.resp.buf.length) 0).length s.inb.buf 4
            (sub32 s.inb.buf.length 4) s.payload_length
            (by rw [hdl]; exact le_max_left _ _)
            (by rw [sub32_eq (by omega) h32]; omega) (by omega)
            (by rw [hdl]; have := le_max_left s.payload_length s.resp.buf.length; omega)
          simp only [syna_tcm_buffer.buf_size, hcopy, Option.bind_eq_bind, Option.some_bind,
            lt_self_iff_false, if_false]
          refine ⟨_, rfl, rfl, rfl, ?_, fun h => absurd h hP, fun _ _ _ => ⟨?_, rfl, rfl⟩,
            fun _ h => ?_⟩
          · simp [syna_tcm_hcd.set_status, syna_tcm_hcd.complete, count_complete_append]
          · show (splice _ 0 _).take s.payload_length = _
            have hl : ((s.inb.buf.drop 4).take s.payload_length).length = s.payload_length := by
              simp only [List.length_take, List.length_drop]
              omega
            have := splice_take (List.replicate (max s.payload_length s.resp.buf.length) 0) 0
              ((s.inb.buf.drop 4).take s.payload_length)
              (by rw [hl, hdl]; have := le_max_left s.payload_length s.resp.buf.length; omega)
            rw [hl, Nat.zero_add] at this
            rw [this]
            simp
          · rcases h with h | h
            · exact absurd (Or.inr trivial) h
            · omega
        · have hcopy := secure_memcpy_too_long
            (List.replicate (max s.payload_length s.resp.buf.length) 0) 0
            (List.replicate (max s.payload_length s.resp.buf.length) 0).length s.inb.buf 4
            (sub32 s.inb.buf.length 4) s.payload_length
            (Or.inr (by rw [sub32_eq (by omega) h32]; omega))
          simp only [syna_tcm_buffer.buf_size, hcopy, Option.bind_eq_bind, Option.some_bind]
          rw [if_pos (by decide)]
          refine ⟨_, rfl, rfl, rfl, ?_, fun h => absurd h hP, fun _ _ h => ?_, fun _ _ => rfl⟩
          · simp [syna_tcm_hcd.set_status, syna_tcm_hcd.complete, count_complete_append]
          · omega
      · have hk' : env.kmalloc_ok s.kmallocs s.payload_length = false := by
          cases h : env.kmalloc_ok s.kmallocs s.payload_length
          · rfl
          · exact absurd h hk
        have hall : syna_tcm_alloc_mem false s.resp s.payload_length = (-ENOMEM, ⟨[], 0⟩) := by
          unfold syna_tcm_alloc_mem syna_tcm_buffer.buf_size
          rw [if_pos (by omega)]
          rfl
        simp only [hk', hall]
        rw [if_pos (by decide)]
        refine ⟨_, rfl, rfl, rfl, ?_, fun h => absurd h hP, fun _ h _ => ?_, fun _ _ => rfl⟩
        · simp [syna_tcm_hcd.set_status, syna_tcm_hcd.complete, count_complete_append]
        · rcases h with h | h
          · exact absurd h hfit
          · exact absurd h (by decide)
theorem dispatch_response_outcome_witness :
    ∃ s1, syna_tcm_dispatch_message tcm quiet_env scenario_A_state = some s1 ∧
      s1.response_code = tcm.STATUS_OK ∧ s1.resp.data_length = 0 ∧
      s1.command_status = CMD_IDLE ∧ s1.completion_done = 1 := by
  obtain ⟨h0, s1, h1, h2, h3, _, h5, _, _⟩ := dispatch_response_outcome tcm quiet_env
    scenario_A_state rfl (by decide) (by decide)
  obtain ⟨r1, _, r3⟩ := h5 rfl
  exact ⟨s1, by rw [h0 (by decide), h1], h2, by rw [r1]; rfl, r3, h3⟩

/-! ## The handling of an identify report -/

theorem splice_getD (dest : List Nat) (data : List Nat) (i : Nat) (h : i < data.length) :
    (splice dest 0 data).getD i 0 = data.getD i 0 := by
  unfold splice
  simp only [List.take_zero, List.nil_append, Nat.zero_add]
  rw [List.getD_eq_getElem?_getD, List.getD_eq_getElem?_getD, List.getElem?_append_left h]

/-- The report dispatch leaves the command, its status and the completion alone. -/
theorem dispatch_report_command (k : tcm_defs) (s : syna_tcm_hcd D) :
    (syna_tcm_dispatch_report k s).command_status = s.command_status ∧
      (syna_tcm_dispatch_report k s).response_code = s.response_code ∧
      (syna_tcm_dispatch_report k s).completion_done = s.completion_done ∧
      (syna_tcm_dispatch_report k s).trace.count Event.complete =
        s.trace.count Event.complete := by
  have hsync : ∀ (l : List syna_tcm_module_handler) (pos : Nat),
      (dispatch_syncbox l pos).count Event.complete = 0 := by
    intro l
    induction l with
    | nil => intro pos; rfl
    | cons h t ih =>
      intro pos
      simp only [dispatch_syncbox]
      split
      · rw [List.count_cons, ih]
        rfl
      · exact ih _
  unfold syna_tcm_dispatch_report
  simp only []
  split
  · split <;> simp [syna_tcm_hcd.log, count_complete_append]
  · split
    · split <;> simp [syna_tcm_hcd.log, count_complete_append, List.count_append, hsync]
    · simp [syna_tcm_hcd.log, count_complete_append, List.count_append, hsync]

/-- The identify handling with the payload inside the inbound buffer, written out: the
identification bytes are copied, the build number and the write chunk size are taken from
them, and the branch is chosen by the command status. -/
theorem dispatch_identify_eq (k : tcm_defs) (s : syna_tcm_hcd D)
    (hid : s.id_info.length = k.id_info_size)
    (hb : k.id_build_id + 4 ≤ k.id_info_size) (hm : k.id_max_write_size + 2 ≤ k.id_info_size)
    (hbuf : MESSAGE_HEADER_SIZE + min k.id_info_size s.payload_length ≤ s.inb.buf_size)
    (h32 : s.inb.buf_size < 4294967296) :
    ∃ (info : List Nat) (pn mws : Nat),
      info = splice s.id_info 0
        ((s.inb.buf.drop MESSAGE_HEADER_SIZE).take (min k.id_info_size s.payload_length)) ∧
      dispatch_identify k s =
        (if s.command_status = CMD_BUSY then
          (if s.host_downloading then
            some (true,
              if s.command = k.CMD_RESET ∨ s.command = k.CMD_RUN_BOOTLOADER_FIRMWARE ∨
                  s.command = k.CMD_RUN_APPLICATION_FIRMWARE ∨
                  s.command = k.CMD_ENTER_PRODUCTION_TEST_MODE ∨
                  s.command = k.CMD_ROMBOOT_RUN_BOOTLOADER_FIRMWARE then
                (({ s with id_info := info, packrat_number := pn,
                           wr_chunk_size := if min mws k.WR_CHUNK_SIZE = 0 then mws
                             else min mws k.WR_CHUNK_SIZE,
                           response_code := k.STATUS_OK }).set_status CMD_IDLE).complete
              else
                (({ s with id_info := info, packrat_number := pn,
                           wr_chunk_size := if min mws k.WR_CHUNK_SIZE = 0 then mws
                             else min mws k.WR_CHUNK_SIZE }).set_status CMD_ERROR).complete)
          else
            some (false,
              if s.command = k.CMD_RESET ∨ s.command = k.CMD_RUN_BOOTLOADER_FIRMWARE ∨
                  s.command = k.CMD_RUN_APPLICATION_FIRMWARE ∨
                  s.command = k.CMD_ENTER_PRODUCTION_TEST_MODE ∨
                  s.command = k.CMD_ROMBOOT_RUN_BOOTLOADER_FIRMWARE then
                (({ s with id_info := info, packrat_number := pn,
                           wr_chunk_size := if min mws k.WR_CHUNK_SIZE = 0 then mws
                             else min mws k.WR_CHUNK_SIZE,
                           response_code := k.STATUS_OK }).set_status CMD_IDLE).complete
              else
                (({ s with id_info := info, packrat_number := pn,
                           wr_chunk_size := if min mws k.WR_CHUNK_SIZE = 0 then mws
                             else min mws k.WR_CHUNK_SIZE }).set_status CMD_ERROR).complete))
        else if info.getD k.id_mode 0 = k.MODE_ROMBOOTLOADER ∧ s.in_hdl_mode = true then
          (if s.helper_task = HELP_NONE then
            some (true,
              ({ s with id_info := info, packrat_number := pn,
                        wr_chunk_size := if min mws k.WR_CHUNK_SIZE = 0 then mws
                          else min mws k.WR_CHUNK_SIZE,
                        helper_task := HELP_SEND_ROMBOOT_HDL }).log Event.queue_helper_work)
          else
            some (true,
              { s with id_info := info, packrat_number := pn,
                       wr_chunk_size := if min mws k.WR_CHUNK_SIZE = 0 then mws
                         else min mws k.WR_CHUNK_SIZE }))
        else if s.host_downloading then
          some (true,
            { s with id_info := info, packrat_number := pn,
                     wr_chunk_size := if min mws k.WR_CHUNK_SIZE = 0 then mws
                       else min mws k.WR_CHUNK_SIZE })
        else
          some (false,
            { s with id_info := info, packrat_number := pn,
                     wr_chunk_size := if min mws k.WR_CHUNK_SIZE = 0 then mws
                       else min mws k.WR_CHUNK_SIZE })) := by
  unfold syna_tcm_buffer.buf_size MESSAGE_HEADER_SIZE at hbuf
  unfold syna_tcm_buffer.buf_size at h32
  have hmin := min_le_left k.id_info_size s.payload_length
  have hcopy := secure_memcpy_copy s.id_info 0 k.id_info_size s.inb.buf
    MESSAGE_HEADER_SIZE (sub32 s.inb.buf_size MESSAGE_HEADER_SIZE)
    (min k.id_info_size s.payload_length) hmin
    (by
      unfold syna_tcm_buffer.buf_size MESSAGE_HEADER_SIZE
      rw [sub32_eq (by omega) h32]
      omega)
    (by unfold MESSAGE_HEADER_SIZE; omega)
    (by omega)
  have hlen : (splice s.id_info 0 ((s.inb.buf.drop MESSAGE_HEADER_SIZE).take
      (min k.id_info_size s.payload_length))).length = k.id_info_size := by
    rw [splice_length _ _ _ (by
      simp only [List.length_take, List.length_drop, MESSAGE_HEADER_SIZE]
      omega), hid]
  obtain ⟨info, hinfo⟩ : ∃ info, info = splice s.id_info 0
      ((s.inb.buf.drop MESSAGE_HEADER_SIZE).take (min k.id_info_size s.payload_length)) :=
    ⟨_, rfl⟩
  rw [← hinfo] at hcopy hlen
  have e4 : le4_to_uint info k.id_build_id = some (info.getD k.id_build_id 0 +
      256 * info.getD (k.id_build_id + 1) 0 + 65536 * info.getD (k.id_build_id + 2) 0 +
      16777216 * info.getD (k.id_build_id + 3) 0) := by
    unfold le4_to_uint
    rw [if_pos (by omega)]
  have e2 : le2_to_uint info k.id_max_write_size = some (info.getD k.id_max_write_size 0 +
      256 * info.getD (k.id_max_write_size + 1) 0) := by
    unfold le2_to_uint
    rw [if_pos (by omega)]
  refine ⟨info, info.getD k.id_build_id 0 +
      256 * info.getD (k.id_build_id + 1) 0 + 65536 * info.getD (k.id_build_id + 2) 0 +
      16777216 * info.getD (k.id_build_id + 3) 0, info.getD k.id_max_write_size 0 +
      256 * info.getD (k.id_max_write_size + 1) 0, hinfo, ?_⟩
  unfold dispatch_identify
  simp only [hcopy, Option.bind_eq_bind, Option.some_bind, lt_self_iff_false, if_false, e4, e2]
  by_cases hbusy : s.command_status = CMD_BUSY
  · simp only [hbusy, if_true]
    by_cases hhd : s.host_downloading = true
    · by_cases h5 : s.command = k.CMD_RESET ∨ s.command = k.CMD_RUN_BOOTLOADER_FIRMWARE ∨
          s.command = k.CMD_RUN_APPLICATION_FIRMWARE ∨
          s.command = k.CMD_ENTER_PRODUCTION_TEST_MODE ∨
          s.command = k.CMD_ROMBOOT_RUN_BOOTLOADER_FIRMWARE
      · simp [h5, hhd, syna_tcm_hcd.set_status, syna_tcm_hcd.complete]
      · simp [h5, hhd, syna_tcm_hcd.set_status, syna_tcm_hcd.complete]
    · by_cases h5 : s.command = k.CMD_RESET ∨ s.command = k.CMD_RUN_BOOTLOADER_FIRMWARE ∨
          s.command = k.CMD_RUN_APPLICATION_FIRMWARE ∨
          s.command = k.CMD_ENTER_PRODUCTION_TEST_MODE ∨
          s.command = k.CMD_ROMBOOT_RUN_BOOTLOADER_FIRMWARE
      · simp [h5, hhd, syna_tcm_hcd.set_status, syna_tcm_hcd.complete]
      · simp [h5, hhd, syna_tcm_hcd.set_status, syna_tcm_hcd.complete]
  · simp only [hbusy, if_false]

/-- C13. An identify report dispatched while a command is outstanding (`CMD_BUSY`), with
its payload inside the inbound buffer: when the command is `CMD_RESET`,
`CMD_RUN_BOOTLOADER_FIRMWARE`, `CMD_RUN_APPLICATION_FIRMWARE`,
`CMD_ENTER_PRODUCTION_TEST_MODE` or `CMD_ROMBOOT_RUN_BOOTLOADER_FIRMWARE`, `response_code`
becomes `STATUS_OK` and `command_status` `CMD_IDLE`; for every other command
`command_status` becomes `CMD_ERROR`. In both cases the completion is signalled, once. -/
theorem identify_completes_command (k : tcm_defs) (env : Env D) (s : syna_tcm_hcd D)
    (hcode : s.status_report_code = k.REPORT_IDENTIFY) (hbusy : s.command_status = CMD_BUSY)
    (hid : s.id_info.length = k.id_info_size)
    (hb : k.id_build_id + 4 ≤ k.id_info_size) (hm : k.id_max_write_size + 2 ≤ k.id_info_size)
    (hbuf : MESSAGE_HEADER_SIZE + min k.id_info_size s.payload_length ≤ s.inb.buf_size)
    (h32 : s.inb.buf_size < 4294967296) :
    ∃ s1, syna_tcm_dispatch_message k env s = some s1 ∧
      s1.completion_done = s.completion_done + 1 ∧
      s1.trace.count Event.complete = s.trace.count Event.complete + 1 ∧
      ((s.command = k.CMD_RESET ∨ s.command = k.CMD_RUN_BOOTLOADER_FIRMWARE ∨
          s.command = k.CMD_RUN_APPLICATION_FIRMWARE ∨
          s.command = k.CMD_ENTER_PRODUCTION_TEST_MODE ∨
          s.command = k.CMD_ROMBOOT_RUN_BOOTLOADER_FIRMWARE) →
        s1.response_code = k.STATUS_OK ∧ s1.command_status = CMD_IDLE) ∧
      (¬ (s.command = k.CMD_RESET ∨ s.command = k.CMD_RUN_BOOTLOADER_FIRMWARE ∨
          s.command = k.CMD_RUN_APPLICATION_FIRMWARE ∨
          s.command = k.CMD_ENTER_PRODUCTION_TEST_MODE ∨
          s.command = k.CMD_ROMBOOT_RUN_BOOTLOADER_FIRMWARE) →
        s1.command_status = CMD_ERROR ∧ s1.response_code = s.response_code) := by
  obtain ⟨info, pn, mws, _, heq⟩ := dispatch_identify_eq k s hid hb hm hbuf h32
  rw [if_pos hbusy] at heq
  have key : ∃ r, dispatch_identify k s = some r ∧
      r.2.status_report_code = s.status_report_code ∧
      r.2.completion_done = s.completion_done + 1 ∧
      r.2.trace.count Event.complete = s.trace.count Event.complete + 1 ∧
      ((s.command = k.CMD_RESET ∨ s.command = k.CMD_RUN_BOOTLOADER_FIRMWARE ∨
          s.command = k.CMD_RUN_APPLICATION_FIRMWARE ∨
          s.command = k.CMD_ENTER_PRODUCTION_TEST_MODE ∨
          s.command = k.CMD_ROMBOOT_RUN_BOOTLOADER_FIRMWARE) →
        r.2.response_code = k.STATUS_OK ∧ r.2.command_status = CMD_IDLE) ∧
      (¬ (s.command = k.CMD_RESET ∨ s.command = k.CMD_RUN_BOOTLOADER_FIRMWARE ∨
          s.command = k.CMD_RUN_APPLICATION_FIRMWARE ∨
          s.command = k.CMD_ENTER_PRODUCTION_TEST_MODE ∨
          s.command = k.CMD_ROMBOOT_RUN_BOOTLOADER_FIRMWARE) →
        r.2.command_status = CMD_ERROR ∧ r.2.response_code = s.response_code) := by
    rw [heq]
    by_cases hhd : s.host_downloading = true
    · rw [if_pos hhd]
      by_cases h5 : s.command = k.CMD_RESET ∨ s.command = k.CMD_RUN_BOOTLOADER_FIRMWARE ∨
          s.command = k.CMD_RUN_APPLICATION_FIRMWARE ∨
          s.command = k.CMD_ENTER_PRODUCTION_TEST_MODE ∨
          s.command = k.CMD_ROMBOOT_RUN_BOOTLOADER_FIRMWARE
      · rw [if_pos h5]
        refine ⟨_, rfl, rfl, rfl, ?_, fun _ => ⟨rfl, rfl⟩, fun h => absurd h5 h⟩
        simp [syna_tcm_hcd.set_status, syna_tcm_hcd.complete, count_complete_append]
      · rw [if_neg h5]
        refine ⟨_, rfl, rfl, rfl, ?_, fun h => absurd h h5, fun _ => ⟨rfl, rfl⟩⟩
        simp [syna_tcm_hcd.set_status, syna_tcm_hcd.complete, count_complete_append]
    · rw [if_neg hhd]
      by_cases h5 : s.command = k.CMD_RESET ∨ s.command = k.CMD_RUN_BOOTLOADER_FIRMWARE ∨
          s.command = k.CMD_RUN_APPLICATION_FIRMWARE ∨
          s.command = k.CMD_ENTER_PRODUCTION_TEST_MODE ∨
          s.command = k.CMD_ROMBOOT_RUN_BOOTLOADER_FIRMWARE
      · rw [if_pos h5]
        refine ⟨_, rfl, rfl, rfl, ?_, fun _ => ⟨rfl, rfl⟩, fun h => absurd h5 h⟩
        simp [syna_tcm_hcd.set_status, syna_tcm_hcd.complete, count_complete_append]
      · rw [if_neg h5]
        refine ⟨_, rfl, rfl, rfl, ?_, fun h => absurd h h5, fun _ => ⟨rfl, rfl⟩⟩
        simp [syna_tcm_hcd.set_status, syna_tcm_hcd.complete, count_complete_append]
  clear heq
  obtain ⟨r, hr, k1, k2, k3, k4, k5⟩ := key
  unfold syna_tcm_dispatch_message
  simp only []
  rw [if_pos hcode, hr]
  simp only [Option.bind_eq_bind, Option.some_bind]
  by_cases hsup : r.1 = true
  · rw [if_pos hsup]
    exact ⟨r.2, rfl, k2, k3, k4, k5⟩
  · rw [if_neg hsup, if_pos (by rw [k1, hcode])]
    obtain ⟨r1, r2, r3, r4⟩ := dispatch_report_command k r.2
    refine ⟨_, rfl, by rw [r3, k2], by rw [r4, k3], fun h => ?_, fun h => ?_⟩
    · rw [r2, r1]
      exact k4 h
    · rw [r1, r2]
      exact k5 h

/-- C20. An identify report dispatched while no command is outstanding, reporting the
mode `MODE_ROMBOOTLOADER` while `in_hdl_mode` is set: `syna_tcm_dispatch_message` returns
without entering the report or the response dispatch; the helper task becomes
`HELP_SEND_ROMBOOT_HDL` and the helper work is queued (once) exactly when the helper task
was `HELP_NONE`, and a pending helper task is left unchanged with nothing queued. -/
theorem identify_schedules_romboot_hdl (k : tcm_defs) (env : Env D) (s : syna_tcm_hcd D)
    (hcode : s.status_report_code = k.REPORT_IDENTIFY) (hidle : s.command_status ≠ CMD_BUSY)
    (hhdl : s.in_hdl_mode = true)
    (hid : s.id_info.length = k.id_info_size)
    (hb : k.id_build_id + 4 ≤ k.id_info_size) (hm : k.id_max_write_size + 2 ≤ k.id_info_size)
    (hbuf : MESSAGE_HEADER_SIZE + min k.id_info_size s.payload_length ≤ s.inb.buf_size)
    (h32 : s.inb.buf_size < 4294967296)
    (hfield : k.id_mode < min k.id_info_size s.payload_length)
    (hmode : s.inb.buf.getD (MESSAGE_HEADER_SIZE + k.id_mode) 0 = k.MODE_ROMBOOTLOADER) :
    ∃ s1, syna_tcm_dispatch_message k env s = some s1 ∧
      s1.trace = s.trace ++
        (if s.helper_task = HELP_NONE then [Event.queue_helper_work] else []) ∧
      s1.helper_task =
        (if s.helper_task = HELP_NONE then HELP_SEND_ROMBOOT_HDL else s.helper_task) ∧
      s1.command_status = s.command_status ∧ s1.response_code = s.response_code ∧
      s1.report_id = s.report_id ∧ s1.async_report_id = s.async_report_id ∧
      s1.resp = s.resp ∧ s1.completion_done = s.completion_done := by
  obtain ⟨info, pn, mws, hinfo, heq⟩ := dispatch_identify_eq k s hid hb hm hbuf h32
  have hmd : info.getD k.id_mode 0 = k.MODE_ROMBOOTLOADER := by
    unfold syna_tcm_buffer.buf_size MESSAGE_HEADER_SIZE at hbuf
    unfold MESSAGE_HEADER_SIZE at hmode hinfo
    have hl : ((s.inb.buf.drop 4).take (min k.id_info_size s.payload_length)).length =
        min k.id_info_size s.payload_length := by
      simp only [List.length_take, List.length_drop]
      omega
    rw [hinfo, splice_getD _ _ _ (by rw [hl]; exact hfield),
      getD_take _ _ _ hfield, ← hmode]
    simp only [List.getD_eq_getElem?_getD, List.getElem?_drop]
  rw [if_neg hidle, if_pos ⟨hmd, hhdl⟩] at heq
  have key : ∃ r, dispatch_identify k s = some r ∧ r.1 = true ∧
      r.2.trace = s.trace ++
        (if s.helper_task = HELP_NONE then [Event.queue_helper_work] else []) ∧
      r.2.helper_task =
        (if s.helper_task = HELP_NONE then HELP_SEND_ROMBOOT_HDL else s.helper_task) ∧
      r.2.command_status = s.command_status ∧ r.2.response_code = s.response_code ∧
      r.2.report_id = s.report_id ∧ r.2.async_report_id = s.async_report_id ∧
      r.2.resp = s.resp ∧ r.2.completion_done = s.completion_done := by
    rw [heq]
    by_cases hn : s.helper_task = HELP_NONE
    · rw [if_pos hn, if_pos hn, if_pos hn]
      exact ⟨_, rfl, rfl, rfl, rfl, rfl, rfl, rfl, rfl, rfl, rfl⟩
    · rw [if_neg hn, if_neg hn, if_neg hn]
      exact ⟨_, rfl, rfl, by simp, rfl, rfl, rfl, rfl, rfl, rfl, rfl⟩
  clear heq
  obtain ⟨r, hr, k1, k2⟩ := key
  unfold syna_tcm_dispatch_message
  simp only []
  rw [if_pos hcode, hr]
  simp only [Option.bind_eq_bind, Option.some_bind]
  rw [if_pos k1]
  exact ⟨r.2, rfl, k2⟩

theorem identify_completes_command_witness :
    ∃ s1, syna_tcm_dispatch_message tcm quiet_env scenario_C_state = some s1 ∧
      s1.response_code = tcm.STATUS_OK ∧ s1.command_status = CMD_IDLE ∧
      s1.completion_done = 1 := by
  obtain ⟨s1, h1, h2, _, h4, _⟩ := identify_completes_command tcm quiet_env scenario_C_state
    rfl rfl (by decide) (by decide) (by decide) (by decide) (by decide)
  obtain ⟨r1, r2⟩ := h4 (Or.inl rfl)
  exact ⟨s1, h1, r1, r2, h2⟩

theorem identify_schedules_romboot_hdl_witness :
    ∃ s1, syna_tcm_dispatch_message tcm quiet_env romboot_identify_state = some s1 ∧
      s1.trace = [Event.queue_helper_work] ∧ s1.helper_task = HELP_SEND_ROMBOOT_HDL := by
  obtain ⟨s1, h1, h2, h3, _⟩ := identify_schedules_romboot_hdl tcm quiet_env
    romboot_identify_state rfl (by decide) rfl (by decide) (by decide) (by decide) (by decide)
    (by decide) (by decide) (by decide)
  exact ⟨s1, h1, h2, h3⟩

/-! ## Routing by `syna_tcm_dispatch_message` -/

theorem report_dispatches_append (a b : List Event) :
    report_dispatches (a ++ b) = report_dispatches a + report_dispatches b := by
  induction a with
  | nil => simp [report_dispatches]
  | cons e t ih =>
    cases e <;> simp [report_dispatches, ih]
    omega

theorem response_dispatches_append (a b : List Event) :
    response_dispatches (a ++ b) = response_dispatches a + response_dispatches b := by
  induction a with
  | nil => simp [response_dispatches]
  | cons e t ih =>
    cases e <;> simp [response_dispatches, ih]
    omega

theorem dispatch_syncbox_dispatches (l : List syna_tcm_module_handler) :
    ∀ pos, report_dispatches (dispatch_syncbox l pos) = 0 ∧
      response_dispatches (dispatch_syncbox l pos) = 0 := by
  induction l with
  | nil => intro pos; exact ⟨rfl, rfl⟩
  | cons h t ih =>
    intro pos
    simp only [dispatch_syncbox]
    split
    · simp only [report_dispatches, response_dispatches]
      exact ih _
    · exact ih _

/-- The report dispatch is entered once and the response dispatch is not. -/
theorem dispatch_report_dispatches (k : tcm_defs) (s : syna_tcm_hcd D) :
    report_dispatches (syna_tcm_dispatch_report k s).trace = report_dispatches s.trace + 1 ∧
      response_dispatches (syna_tcm_dispatch_report k s).trace =
        response_dispatches s.trace := by
  have h1 := fun pos => (dispatch_syncbox_dispatches s.mod_pool pos).1
  have h2 := fun pos => (dispatch_syncbox_dispatches s.mod_pool pos).2
  unfold syna_tcm_dispatch_report
  simp only []
  split
  · split <;>
      simp [syna_tcm_hcd.log, report_dispatches_append, response_dispatches_append,
        report_dispatches, response_dispatches]
  · split
    · split <;>
        simp [syna_tcm_hcd.log, report_dispatches_append, response_dispatches_append,
          report_dispatches, response_dispatches, h1, h2]
    · simp [syna_tcm_hcd.log, report_dispatches_append, response_dispatches_append,
        report_dispatches, response_dispatches, h1, h2]

/-- The response dispatch is entered once and the report dispatch is not. -/
theorem dispatch_response_dispatches (env : Env D) (s s1 : syna_tcm_hcd D)
    (h : syna_tcm_dispatch_response env s = some s1) :
    response_dispatches s1.trace = response_dispatches s.trace + 1 ∧
      report_dispatches s1.trace = report_dispatches s.trace := by
  unfold syna_tcm_dispatch_response at h
  simp only [] at h
  obtain ⟨_, kt, _⟩ := kmalloc_context env
    { s.log Event.dispatch_response with
      response_code := (s.log Event.dispatch_response).status_report_code }
    ({ s.log Event.dispatch_response with
      response_code := (s.log Event.dispatch_response).status_report_code }).resp.buf_size
    (s.log Event.dispatch_response).payload_length
  generalize kmalloc env _ _ _ = a at h kt
  simp only [syna_tcm_hcd.log] at kt
  split at h
  · simp only [Option.some.injEq] at h
    subst h
    simp [syna_tcm_hcd.log, report_dispatches_append, response_dispatches_append,
      report_dispatches, response_dispatches]
  · split at h
    · simp only [Option.some.injEq] at h
      subst h
      simp [syna_tcm_hcd.log, syna_tcm_hcd.set_status, syna_tcm_hcd.complete,
        report_dispatches_append, response_dispatches_append, report_dispatches,
        response_dispatches]
    · split at h
      · simp only [Option.some.injEq] at h
        subst h
        simp [syna_tcm_hcd.set_status, syna_tcm_hcd.complete, report_dispatches_append,
          response_dispatches_append, report_dispatches, response_dispatches, kt]
      · obtain ⟨c, _, h⟩ := Option.bind_eq_some.mp h
        split at h <;>
        · simp only [Option.some.injEq] at h
          subst h
          simp [syna_tcm_hcd.set_status, syna_tcm_hcd.complete, report_dispatches_append,
            response_dispatches_append, report_dispatches, response_dispatches, kt]

/-- The identify handling enters neither dispatch routine. -/
theorem dispatch_identify_dispatches (k : tcm_defs) (s : syna_tcm_hcd D)
    (r : Bool × syna_tcm_hcd D) (h : dispatch_identify k s = some r) :
    report_dispatches r.2.trace = report_dispatches s.trace ∧
      response_dispatches r.2.trace = response_dispatches s.trace := by
  unfold dispatch_identify at h
  simp only [Option.bind_eq_bind, Option.bind_eq_some] at h
  obtain ⟨c, _, h⟩ := h
  split at h
  · simp only [Option.some.injEq] at h
    subst h
    exact ⟨rfl, rfl⟩
  · simp only [Option.bind_eq_some] at h
    obtain ⟨pn, _, mws, _, h⟩ := h
    repeat' split at h
    all_goals
      simp only [Option.some.injEq] at h
      subst h
      simp [syna_tcm_hcd.log, syna_tcm_hcd.set_status, syna_tcm_hcd.complete,
        report_dispatches_append, response_dispatches_append, report_dispatches,
        response_dispatches]

/-- C14. The routing of `syna_tcm_dispatch_message` depends on the code alone. A code
below `REPORT_IDENTIFY` is handled by `syna_tcm_dispatch_response` and the report dispatch
is not entered; a code above `REPORT_IDENTIFY` is handled by `syna_tcm_dispatch_report`
and the response dispatch is not entered; the code `REPORT_IDENTIFY` first gets the
identify handling, which either suppresses the message (no dispatch routine is entered) or
passes it on to `syna_tcm_dispatch_report`, never to the response dispatch. -/
theorem dispatch_message_routing (k : tcm_defs) (env : Env D) (s : syna_tcm_hcd D) :
    (s.status_report_code < k.REPORT_IDENTIFY →
      syna_tcm_dispatch_message k env s = syna_tcm_dispatch_response env s ∧
      ∀ s1, syna_tcm_dispatch_message k env s = some s1 →
        response_dispatches s1.trace = response_dispatches s.trace + 1 ∧
          report_dispatches s1.trace = report_dispatches s.trace) ∧
    (k.REPORT_IDENTIFY < s.status_report_code →
      syna_tcm_dispatch_message k env s = some (syna_tcm_dispatch_report k s) ∧
      report_dispatches (syna_tcm_dispatch_report k s).trace = report_dispatches s.trace + 1 ∧
      response_dispatches (syna_tcm_dispatch_report k s).trace =
        response_dispatches s.trace) ∧
    (s.status_report_code = k.REPORT_IDENTIFY →
      ∀ s1, syna_tcm_dispatch_message k env s = some s1 →
        ∃ r, dispatch_identify k s = some r ∧
          response_dispatches s1.trace = response_dispatches s.trace ∧
          (r.1 = true → s1 = r.2 ∧ report_dispatches s1.trace = report_dispatches s.trace) ∧
          (r.1 = false → s1 = syna_tcm_dispatch_report k r.2 ∧
            report_dispatches s1.trace = report_dispatches s.trace + 1)) := by
  refine ⟨fun hlt => ?_, fun hgt => ?_, fun heq s1 h => ?_⟩
  · have e : syna_tcm_dispatch_message k env s = syna_tcm_dispatch_response env s := by
      unfold syna_tcm_dispatch_message
      simp only []
      rw [if_neg (by omega)]
      simp only [Option.bind_eq_bind, Option.some_bind, Bool.false_eq_true, if_false]
      rw [if_neg (by omega)]
    refine ⟨e, fun s1 h => ?_⟩
    rw [e] at h
    exact dispatch_response_dispatches env s s1 h
  · refine ⟨?_, dispatch_report_dispatches k s⟩
    unfold syna_tcm_dispatch_message
    simp only []
    rw [if_neg (by omega)]
    simp only [Option.bind_eq_bind, Option.some_bind, Bool.false_eq_true, if_false]
    rw [if_pos (by omega)]
  · unfold syna_tcm_dispatch_message at h
    simp only [] at h
    rw [if_pos heq] at h
    obtain ⟨r, hr, h⟩ := Option.bind_eq_some.mp h
    obtain ⟨d1, d2⟩ := dispatch_identify_dispatches k s r hr
    obtain ⟨⟨_, _, _, a4, _, _⟩, _⟩ := dispatch_identify_same k s r hr
    refine ⟨r, hr, ?_⟩
    by_cases hsup : r.1 = true
    · rw [if_pos hsup] at h
      simp only [Option.some.injEq] at h
      subst h
      exact ⟨d2, fun _ => ⟨rfl, d1⟩, fun hf => by rw [hsup] at hf; cases hf⟩
    · rw [if_neg hsup, if_pos (by rw [a4, heq])] at h
      simp only [Option.some.injEq] at h
      subst h
      obtain ⟨e1, e2⟩ := dispatch_report_dispatches k r.2
      exact ⟨by rw [e2, d2], fun ht => absurd ht hsup, fun _ => ⟨rfl, by rw [e1, d1]⟩⟩

theorem dispatch_message_routing_witness :
    syna_tcm_dispatch_message tcm quiet_env scenario_A_state =
        syna_tcm_dispatch_response quiet_env scenario_A_state ∧
      (∃ s1, syna_tcm_dispatch_message tcm quiet_env scenario_A_state = some s1 ∧
        response_dispatches s1.trace = 1 ∧ report_dispatches s1.trace = 0) := by
  obtain ⟨h1, h2⟩ := (dispatch_message_routing tcm quiet_env scenario_A_state).1 (by decide)
  refine ⟨h1, (syna_tcm_dispatch_message tcm quiet_env scenario_A_state).get (by decide),
    by simp, ?_⟩
  exact h2 _ (by simp)

/-! ## The padding check and the header of `syna_tcm_read_message` -/

theorem read_message_exit_dispatches (retval : Int) (s : syna_tcm_hcd D) :
    report_dispatches (read_message_exit retval s).trace = report_dispatches s.trace ∧
      response_dispatches (read_message_exit retval s).trace = response_dispatches s.trace ∧
      (read_message_exit retval s).read_length = s.read_length ∧
      (read_message_exit retval s).inb = s.inb := by
  unfold read_message_exit
  split
  · split
    · simp [syna_tcm_hcd.set_status, syna_tcm_hcd.complete, report_dispatches_append,
        response_dispatches_append, report_dispatches, response_dispatches]
    · exact ⟨rfl, rfl, rfl, rfl⟩
  · exact ⟨rfl, rfl, rfl, rfl⟩

/-- C16. For a message that reaches the padding check of `syna_tcm_read_message` with
`total_length`: when `in.buf[total_length - 1]` differs from `MESSAGE_PADDING` the call
returns `- EIO` through the label `exit:`, without entering a dispatch routine and with
`read_length` as it was before the call; so the call returns 0 (and dispatches) only if
that byte is `MESSAGE_PADDING`. -/
theorem read_message_padding_check (k : tcm_defs) (env : Env D) (s : syna_tcm_hcd D)
    (length total_length : Nat) (s1 : syna_tcm_hcd D) (hp : s.pwr_off = false)
    (hrecv : read_message_passes k env s =
      some (receive_result.check_padding total_length s1)) :
    (∀ b, buf_get s1.inb.buf (sub32 total_length 1) = some b → b ≠ MESSAGE_PADDING →
      syna_tcm_read_message k env s none length =
        some (- EIO, read_message_exit (- EIO) s1, none) ∧
      (read_message_exit (- EIO) s1).read_length = s.read_length ∧
      report_dispatches (read_message_exit (- EIO) s1).trace = report_dispatches s1.trace ∧
      response_dispatches (read_message_exit (- EIO) s1).trace =
        response_dispatches s1.trace) ∧
    (∀ r, syna_tcm_read_message k env s none length = some r →
      (r.1 = 0 ∨ r.1 = - EIO) ∧
      (r.1 = 0 → buf_get s1.inb.buf (sub32 total_length 1) = some MESSAGE_PADDING) ∧
      ((report_dispatches r.2.1.trace ≠ report_dispatches s1.trace ∨
          response_dispatches r.2.1.trace ≠ response_dispatches s1.trace) →
        buf_get s1.inb.buf (sub32 total_length 1) = some MESSAGE_PADDING)) := by
  obtain ⟨_, _, r3, _⟩ := read_message_passes_reaches k env s total_length s1 hrecv
  obtain ⟨x1, x2, x3, _⟩ := read_message_exit_dispatches (- EIO) s1
  have hbad : ∀ b, buf_get s1.inb.buf (sub32 total_length 1) = some b → b ≠ MESSAGE_PADDING →
      syna_tcm_read_message k env s none length =
        some (- EIO, read_message_exit (- EIO) s1, none) := by
    intro b hb hne
    rw [read_message_eq k env s length hp, hrecv]
    simp only [Option.some_bind]
    unfold read_message_check_padding
    rw [hb]
    simp only [Option.bind_eq_bind, Option.some_bind, ne_eq, hne, not_false_eq_true, if_true]
  refine ⟨fun b hb hne => ⟨hbad b hb hne, by rw [x3, r3], x1, x2⟩, fun r hr => ?_⟩
  cases hb : buf_get s1.inb.buf (sub32 total_length 1) with
  | none =>
    rw [read_message_eq k env s length hp, hrecv] at hr
    simp only [Option.some_bind] at hr
    unfold read_message_check_padding at hr
    rw [hb] at hr
    simp at hr
  | some b =>
    by_cases hne : b = MESSAGE_PADDING
    · subst hne
      refine ⟨?_, fun _ => rfl, fun _ => rfl⟩
      rw [read_message_eq k env s length hp, hrecv] at hr
      simp only [Option.some_bind] at hr
      obtain ⟨e, he, hr⟩ := Option.bind_eq_some.mp hr
      simp only [Option.some.injEq] at hr
      subst hr
      unfold read_message_check_padding at he
      rw [hb] at he
      simp only [Option.bind_eq_bind, Option.some_bind, ne_eq, not_true_eq_false, if_false] at he
      split at he
      · obtain ⟨s2, _, he⟩ := Option.bind_eq_some.mp he
        simp only [Option.some.injEq] at he
        subst he
        exact Or.inl rfl
      · simp only [Option.some.injEq] at he
        subst he
        exact Or.inl rfl
    · have := hbad b hb hne
      rw [this] at hr
      simp only [Option.some.injEq] at hr
      subst hr
      refine ⟨Or.inr rfl, fun h0 => ?_, fun h => ?_⟩
      · exact absurd h0 (by show ¬ (- EIO : Int) = 0; decide)
      · rcases h with h | h
        · exact absurd x1 h
        · exact absurd x2 h

theorem read_message_padding_check_witness :
    syna_tcm_read_message tcm (msg_env tcm) bad_padding_state none 0 =
        some (- EIO, read_message_exit (- EIO)
          ((read_message_passes tcm (msg_env tcm) bad_padding_state).get (by decide)).state,
          none) ∧
      (read_message_exit (- EIO)
        ((read_message_passes tcm (msg_env tcm) bad_padding_state).get
          (by decide)).state).read_length = MIN_READ_LENGTH := by
  have hrecv : read_message_passes tcm (msg_env tcm) bad_padding_state =
      some (receive_result.check_padding 5
        ((read_message_passes tcm (msg_env tcm) bad_padding_state).get (by decide)).state) := by
    decide
  obtain ⟨h1, h2, _⟩ := (read_message_padding_check tcm (msg_env tcm) bad_padding_state 0 5 _
    rfl hrecv).1 0x33 (by decide) (by decide)
  exact ⟨h1, h2⟩

theorem count_wait_append (t : List Event) (e : Event) :
    (t ++ [e]).count Event.wait_for_completion =
      t.count Event.wait_for_completion +
        (if e = Event.wait_for_completion then 1 else 0) := by
  rw [List.count_append]
  by_cases h : e = Event.wait_for_completion
  · subst h
    simp
  · rw [if_neg h]
    simp [List.count_cons, h]

theorem bus_writes_getLast (t : List Event) (d : List Nat) :
    (bus_writes (t ++ [Event.bus_write d])).getLast? = some d := by
  rw [bus_writes_append]
  simp [bus_writes]

/-- One iteration of the chunk loop of `syna_tcm_write_message` never waits for the
completion; when it completes, `retval` is the non-negative value returned by its bus
write, the last bus write so far. -/
theorem write_message_chunk_result (k : tcm_defs) (env : Env D) (command : Nat)
    (payload : Option (List Nat)) (length chunks chunk_space idx remaining_length : Nat)
    (s : syna_tcm_hcd D) (e : loop_exit) (rv : Int) (s1 : syna_tcm_hcd D)
    (h : write_message_chunk k env command payload length chunks chunk_space idx
      remaining_length s = some (e, rv, s1)) :
    s1.trace.count Event.wait_for_completion = s.trace.count Event.wait_for_completion ∧
      (e = loop_exit.completed →
        0 ≤ rv ∧ ∃ dev d, rv = (env.bus_write dev d).1 ∧
          (bus_writes s1.trace).getLast? = some d) := by
  unfold write_message_chunk at h
  simp only [] at h
  obtain ⟨ht, _, _⟩ := kmalloc_trace env s s.out.buf_size
    (add32 (chunk_xfer_length remaining_length chunk_space) 1)
  generalize kmalloc env s s.out.buf_size
    (add32 (chunk_xfer_length remaining_length chunk_space) 1) = a at h ht
  generalize syna_tcm_alloc_mem a.1 a.2.out
    (add32 (chunk_xfer_length remaining_length chunk_space) 1) = m at h
  split at h
  · simp only [Option.some.injEq, Prod.mk.injEq] at h
    obtain ⟨he, hrv, hs⟩ := h
    subst he hrv hs
    exact ⟨by rw [← ht], fun h' => by simp at h'⟩
  · obtain ⟨c, _, h⟩ := Option.bind_eq_some.mp h
    split at h
    · simp only [Option.some.injEq, Prod.mk.injEq] at h
      obtain ⟨he, hrv, hs⟩ := h
      subst he hrv hs
      exact ⟨by rw [← ht], fun h' => by simp at h'⟩
    · obtain ⟨w, hw, h⟩ := Option.bind_eq_some.mp h
      have hwv : ∃ dev d, w.1 = (env.bus_write dev d).1 ∧
          w.2.trace = a.2.trace ++ [Event.bus_write d] := by
        unfold syna_tcm_write at hw
        split at hw
        · simp only [Option.some.injEq] at hw
          rw [← hw]
          exact ⟨_, _, rfl, rfl⟩
        · simp at hw
      obtain ⟨dev, d, hv, hwt⟩ := hwv
      have hcnt : w.2.trace.count Event.wait_for_completion =
          s.trace.count Event.wait_for_completion := by
        rw [hwt, count_wait_append, ht, if_neg (by simp)]
        rfl
      split at h
      · simp only [Option.some.injEq, Prod.mk.injEq] at h
        obtain ⟨he, hrv, hs⟩ := h
        subst he hrv hs
        exact ⟨hcnt, fun h' => by simp at h'⟩
      · rename_i hnn
        simp only [Option.some.injEq, Prod.mk.injEq] at h
        obtain ⟨he, hrv, hs⟩ := h
        subst he hrv hs
        refine ⟨?_, fun _ => ⟨not_lt.mp hnn, dev, d, hv, ?_⟩⟩
        · split
          · simp only [syna_tcm_hcd.log]
            rw [count_wait_append, hcnt, if_neg (by simp)]
            rfl
          · exact hcnt
        · split
          · simp only [syna_tcm_hcd.log]
            rw [hwt, bus_writes_append, bus_writes_append]
            simp [bus_writes]
          · rw [hwt]
            exact bus_writes_getLast _ _

/-- The chunk loop of `syna_tcm_write_message` never waits for the completion; when it
completes after at least one iteration, `retval` is the non-negative value returned by
the last bus write. -/
theorem write_message_loop_result (k : tcm_defs) (env : Env D) (command : Nat)
    (payload : Option (List Nat)) (length chunks chunk_space : Nat) :
    ∀ (n idx remaining_length : Nat) (rv0 : Int) (s : syna_tcm_hcd D) (e : loop_exit) (rv : Int)
      (s1 : syna_tcm_hcd D),
      write_message_loop k env command payload length chunks chunk_space n idx remaining_length
        rv0 s = some (e, rv, s1) →
      s1.trace.count Event.wait_for_completion = s.trace.count Event.wait_for_completion ∧
        (e = loop_exit.completed → n ≠ 0 →
          0 ≤ rv ∧ ∃ dev d, rv = (env.bus_write dev d).1 ∧
            (bus_writes s1.trace).getLast? = some d) := by
  intro n
  induction n with
  | zero =>
    intro idx rem rv0 s e rv s1 h
    simp only [write_message_loop, Option.some.injEq, Prod.mk.injEq] at h
    obtain ⟨_, _, hs⟩ := h
    subst hs
    exact ⟨rfl, fun _ h0 => absurd rfl h0⟩
  | succ n ih =>
    intro idx rem rv0 s e rv s1 h
    simp only [write_message_loop] at h
    obtain ⟨c, hc, h⟩ := Option.bind_eq_some.mp h
    obtain ⟨c1, c2⟩ := write_message_chunk_result k env command payload length chunks
      chunk_space idx rem s c.1 c.2.1 c.2.2 hc
    split at h
    · rename_i hne
      simp only [Option.some.injEq] at h
      subst h
      exact ⟨c1, fun he => absurd he hne⟩
    · rename_i hcomp
      have hcomp' : c.1 = loop_exit.completed := by
        by_contra hx
        exact hcomp hx
      obtain ⟨d1, d2⟩ := ih _ _ _ _ _ _ _ h
      refine ⟨by rw [d1, c1], fun he _ => ?_⟩
      by_cases hn : n = 0
      · subst hn
        simp only [write_message_loop, Option.some.injEq, Prod.mk.injEq] at h
        obtain ⟨_, hrv, hs⟩ := h
        subst hrv hs
        exact c2 hcomp'
      · exact d2 he hn

/-- C19. `syna_tcm_write_message` called with `CMD_RESET` and a response buffer while
`in_hdl_mode` is set, when all chunk writes succeed: the call returns right after the
chunk loop, through the label `exit:`. Its return value is the non-negative value
returned by the last bus write, no wait for the completion takes place, and the outputs
`*resp_buf`, `*resp_buf_size` and `*resp_length` are as the caller passed them;
`*response_code`, if given, holds `STATUS_INVALID`. -/
theorem write_message_hdl_reset (k : tcm_defs) (env : Env D) (s : syna_tcm_hcd D)
    (payload : Option (List Nat)) (length : Nat) (rb : List Nat) (resp_length : Nat)
    (response_code : Option Nat) (polling_delay_ms : Nat) (in_isr : Bool)
    (rv : Int) (s1 : syna_tcm_hcd D)
    (hp : s.pwr_off = false) (hi : ¬ (s.do_polling = false ∧ in_isr = true))
    (hhdl : s.in_hdl_mode = true)
    (hsend : write_message_send k env s k.CMD_RESET payload length rb polling_delay_ms =
      some (loop_exit.completed, rv, s1)) :
    syna_tcm_write_message k env s k.CMD_RESET payload length (some rb) resp_length
        response_code polling_delay_ms in_isr =
      some (rv, write_message_exit k s1,
        ⟨some rb, resp_length, response_code.map (fun _ => k.STATUS_INVALID)⟩) ∧
    0 ≤ rv ∧
    (∃ dev d, rv = (env.bus_write dev d).1 ∧
      (bus_writes (write_message_exit k s1).trace).getLast? = some d) ∧
    (write_message_exit k s1).trace.count Event.wait_for_completion =
      s.trace.count Event.wait_for_completion := by
  have hcall : syna_tcm_write_message k env s k.CMD_RESET payload length (some rb) resp_length
      response_code polling_delay_ms in_isr =
      some (rv, write_message_exit k s1,
        ⟨some rb, resp_length, response_code.map (fun _ => k.STATUS_INVALID)⟩) := by
    rw [write_message_resp_eq k env s k.CMD_RESET payload length rb resp_length response_code
      polling_delay_ms in_isr hp hi, hsend]
    simp only [Option.some_bind, ne_eq, not_true_eq_false, false_or, hhdl, and_self, if_true]
  unfold write_message_send at hsend
  obtain ⟨chunks, hch, hloop⟩ := Option.bind_eq_some.mp hsend
  have hpos : chunks ≠ 0 := by
    unfold write_message_chunks at hch
    obtain ⟨c, _, hc⟩ := Option.map_eq_some'.mp hch
    rw [← hc]
    split <;> omega
  obtain ⟨l1, l2⟩ := write_message_loop_result k env k.CMD_RESET payload length chunks _ _ _ _
    _ _ _ _ _ hloop
  obtain ⟨r1, dev, d, r2, r3⟩ := l2 rfl hpos
  have hbegin : (write_message_begin s k.CMD_RESET rb polling_delay_ms).trace.count
      Event.wait_for_completion = s.trace.count Event.wait_for_completion := by
    unfold write_message_begin
    simp only []
    split <;>
      simp [syna_tcm_hcd.log, syna_tcm_hcd.set_status, count_wait_append]
  refine ⟨hcall, r1, ⟨dev, d, r2, ?_⟩, ?_⟩
  · rw [write_message_exit_trace, bus_writes_append]
    have : bus_writes [Event.set_command_status CMD_IDLE] = [] := rfl
    rw [this, List.append_nil]
    exact r3
  · rw [write_message_exit_trace, count_wait_append, l1, hbegin, if_neg (by simp)]
    rfl
theorem write_message_hdl_reset_witness :
    (syna_tcm_write_message tcm quiet_env hdl_state tcm.CMD_RESET none 0 (some []) 0 (some 0)
        0 false).map (fun r => (r.1, r.2.2, bus_writes r.2.1.trace)) =
      some (0, ⟨some [], 0, some tcm.STATUS_INVALID⟩, [[tcm.CMD_RESET, 0, 0]]) := by
  have hsend : write_message_send tcm quiet_env hdl_state tcm.CMD_RESET none 0 [] 0 =
      some (loop_exit.completed, 0,
        ((write_message_send tcm quiet_env hdl_state tcm.CMD_RESET none 0 [] 0).get
          (by decide)).2.2) := by
    decide
  obtain ⟨h1, _⟩ := write_message_hdl_reset tcm quiet_env hdl_state none 0 [] 0 (some 0) 0
    false 0 _ rfl (by decide) rfl hsend
  rw [h1]
  decide

/-! ## The raw write mode of `syna_tcm_write_message` -/

/-- The filling of the outbound buffer for one chunk of `syna_tcm_raw_write`: when the
chunk space is at least 1 and the buffer has room, no copy fails and the buffer starts
with the opcode followed by the data of the chunk. -/
theorem raw_write_fill_frame (k : tcm_defs) (command : Nat) (data : Option (List Nat))
    (p : List Nat) (cs idx rem : Nat) (out : List Nat) (hd : data = some p ∨ p = [])
    (hL : p.length < 4294967296) (hm : idx * cs + rem = p.length)
    (hout : chunk_xfer_length rem cs + 1 ≤ out.length) (hout32 : out.length < 4294967296) :
    ∃ b, raw_write_fill k command data cs idx rem out = some (0, b) ∧
      b.length = out.length ∧
      b.take (chunk_xfer_length rem cs + 1) =
        (if idx = 0 then command else k.CMD_CONTINUE_WRITE) ::
          (p.drop (idx * cs)).take (chunk_xfer_length rem cs) := by
  have hX : chunk_xfer_length rem cs ≤ rem := by
    unfold chunk_xfer_length
    split <;> omega
  generalize hXd : chunk_xfer_length rem cs = X at hX hout
  generalize hop : (if idx = 0 then command else k.CMD_CONTINUE_WRITE) = op
  unfold raw_write_fill
  simp only [hXd, hop]
  rw [buf_set_eq _ _ _ (by omega)]
  simp only [Option.bind_eq_bind, Option.some_bind]
  have hb0l : (out.set 0 op).length = out.length := by simp
  by_cases hx0 : X = 0
  · rw [if_neg (by rw [hx0]; simp)]
    refine ⟨_, rfl, hb0l, ?_⟩
    rw [hx0, set_take_one _ _ (by omega)]
    simp
  · rw [if_pos hx0]
    have hp : data = some p := by
      rcases hd with h | h
      · exact h
      · rw [h] at hm
        simp only [List.length_nil] at hm
        omega
    have hmul : mul32 idx cs = idx * cs := mul32_eq (by omega)
    rw [hp, hmul]
    have hcopy := secure_memcpy_copy (out.set 0 op) 1 (sub32 (out.set 0 op).length 1) p
      (idx * cs) rem X (by rw [hb0l, sub32_eq (by omega) hout32]; omega) hX (by omega)
      (by rw [hb0l]; omega)
    rw [hcopy]
    have hDl : ((p.drop (idx * cs)).take X).length = X := by
      rw [List.length_take, List.length_drop]; omega
    refine ⟨_, rfl, ?_, ?_⟩
    · rw [splice_length _ _ _ (by rw [hDl, hb0l]; omega), hb0l]
    · have := splice_take (out.set 0 op) 1 ((p.drop (idx * cs)).take X)
        (by rw [hDl, hb0l]; omega)
      rw [hDl] at this
      have e : 1 + X = X + 1 := by omega
      rw [e] at this
      rw [this, set_take_one _ _ (by omega)]
      rfl

/-- One iteration of the chunk loop of `syna_tcm_raw_write` with an allocator and a bus
that do not fail: the iteration completes and its only action is one bus write, the
opcode followed by the data of the chunk. -/
theorem raw_write_chunk_ok (k : tcm_defs) (env : Env D)
    (ha : ∀ i n, env.kmalloc_ok i n = true) (hw : ∀ d b, 0 ≤ (env.bus_write d b).1)
    (command : Nat) (data : Option (List Nat)) (p : List Nat) (cs idx rem : Nat)
    (s : syna_tcm_hcd D) (hd : data = some p ∨ p = [])
    (hL : p.length < 4294967296) (hcs32 : cs < 4294967295) (hm : idx * cs + rem = p.length)
    (hout32 : s.out.buf.length < 4294967296) :
    ∃ rv s1, raw_write_chunk k env command data cs idx rem s =
        some (loop_exit.completed, rv, s1) ∧
      s1.out.buf.length < 4294967296 ∧
      s1.trace = s.trace ++
        [Event.bus_write ((if idx = 0 then command else k.CMD_CONTINUE_WRITE) ::
          (p.drop (idx * cs)).take (chunk_xfer_length rem cs))] := by
  have hX : chunk_xfer_length rem cs ≤ cs := by
    unfold chunk_xfer_length
    split <;> omega
  unfold raw_write_chunk
  simp only []
  have hsz : add32 (chunk_xfer_length rem cs) 1 = chunk_xfer_length rem cs + 1 :=
    add32_eq (by omega)
  rw [hsz]
  obtain ⟨_, _, _, ko, ktr⟩ := kmalloc_fields env s s.out.buf_size (chunk_xfer_length rem cs + 1)
  have kok := kmalloc_ok_of env ha s s.out.buf_size (chunk_xfer_length rem cs + 1)
  generalize kmalloc env s s.out.buf_size (chunk_xfer_length rem cs + 1) = a at ko ktr kok
  rw [kok, ko, alloc_mem_ok]
  simp only [lt_self_iff_false, if_false]
  have hzl : (List.replicate (max (chunk_xfer_length rem cs + 1) s.out.buf_size) 0).length =
      max (chunk_xfer_length rem cs + 1) s.out.buf_size := List.length_replicate _ _
  have hz32 : max (chunk_xfer_length rem cs + 1) s.out.buf_size < 4294967296 := by
    unfold syna_tcm_buffer.buf_size
    exact max_lt (by omega) hout32
  obtain ⟨b, hfill, hbl, hbt⟩ := raw_write_fill_frame k command data p cs idx rem
    (List.replicate (max (chunk_xfer_length rem cs + 1) s.out.buf_size) 0) hd hL hm
    (by rw [hzl]; exact le_max_left _ _) (by rw [hzl]; exact hz32)
  rw [hfill]
  simp only [Option.bind_eq_bind, Option.some_bind, lt_self_iff_false, if_false]
  rw [syna_tcm_write_ok env _ b _ (by rw [hbl, hzl]; exact le_max_left _ _)]
  simp only [Option.some_bind]
  rw [if_neg (not_lt.mpr (hw _ _))]
  refine ⟨_, _, rfl, ?_, ?_⟩
  · show b.length < 4294967296
    rw [hbl, hzl]
    exact hz32
  · show a.2.trace ++ [Event.bus_write (b.take (chunk_xfer_length rem cs + 1))] = _
    rw [ktr, hbt]

/-- The chunk loop of `syna_tcm_raw_write` for `ceil(remaining_length / chunk_space)`
iterations with an allocator and a bus that do not fail: it completes and its actions
are the bus writes of the frames, in order. -/
theorem raw_write_loop_frames (k : tcm_defs) (env : Env D)
    (ha : ∀ i n, env.kmalloc_ok i n = true) (hw : ∀ d b, 0 ≤ (env.bus_write d b).1)
    (command : Nat) (data : Option (List Nat)) (p : List Nat) (cs : Nat)
    (hd : data = some p ∨ p = []) (hcs : 1 ≤ cs) (hcs32 : cs < 4294967295)
    (hL : p.length < 4294967296) :
    ∀ (n idx rem : Nat) (rv0 : Int) (s : syna_tcm_hcd D),
      idx * cs + rem = p.length → n = (rem + cs - 1) / cs →
      s.out.buf.length < 4294967296 →
      ∃ rv s1, raw_write_loop k env command data cs n idx rem rv0 s =
          some (loop_exit.completed, rv, s1) ∧
        s1.trace = s.trace ++
          (wire_frames command k.CMD_CONTINUE_WRITE cs p idx n).map Event.bus_write := by
  intro n
  induction n with
  | zero =>
    intro idx rem rv0 s _ _ _
    exact ⟨rv0, s, rfl, by simp [wire_frames]⟩
  | succ n ih =>
    intro idx rem rv0 s hm hn hout32
    have hrem0 : 0 < rem := by
      by_contra hne
      have h0 : rem = 0 := by omega
      rw [h0, ceil_none cs (by omega)] at hn
      omega
    obtain ⟨rv1, s1, hchunk, ho1, hb1⟩ := raw_write_chunk_ok k env ha hw command data p cs
      idx rem s hd hL hcs32 hm hout32
    simp only [raw_write_loop, Option.bind_eq_bind, hchunk, Option.some_bind, ne_eq,
      not_true_eq_false, if_false]
    have htake : (p.drop (idx * cs)).take (chunk_xfer_length rem cs) =
        (p.drop (idx * cs)).take cs := by
      unfold chunk_xfer_length
      split
      · rfl
      · rw [List.take_of_length_le (by rw [List.length_drop]; omega),
          List.take_of_length_le (by rw [List.length_drop]; omega)]
    by_cases hgt : cs < rem
    · have hX : chunk_xfer_length rem cs = cs := by
        unfold chunk_xfer_length
        rw [if_pos hgt]
      rw [hX, sub32_eq (by omega) (by omega)]
      obtain ⟨rv2, s2, hloop, hb2⟩ := ih (idx + 1) (rem - cs) rv1 s1
        (by rw [Nat.add_mul, Nat.one_mul]; omega)
        (by
          have := ceil_step rem cs (by omega) hgt
          omega) ho1
      refine ⟨rv2, s2, hloop, ?_⟩
      rw [hb2, hb1, htake, List.append_assoc]
      rfl
    · have hX : chunk_xfer_length rem cs = rem := by
        unfold chunk_xfer_length
        rw [if_neg hgt]
      have hn0 : n = 0 := by
        have := ceil_last rem cs hrem0 (by omega)
        omega
      subst hn0
      refine ⟨rv1, s1, by simp [raw_write_loop], ?_⟩
      rw [hb1, htake]
      rfl

theorem wire_frames_tail_length (c w cs : Nat) (stream : List Nat) :
    ∀ (n idx : Nat), ∀ f ∈ wire_frames c w cs stream idx n, f.tail.length ≤ cs := by
  intro n
  induction n with
  | zero => intro idx f hf; simp [wire_frames] at hf
  | succ n ih =>
    intro idx f hf
    simp only [wire_frames, List.mem_cons] at hf
    rcases hf with hf | hf
    · rw [hf, List.tail_cons, List.length_take]
      exact Nat.min_le_left _ _
    · exact ih (idx + 1) f hf

/-- The function `syna_tcm_raw_write` with `wr_chunk_size ≥ 2` and an allocator and a bus
that do not fail: it returns 0 and its actions are the bus writes of
`max(1, ceil(L / (wr_chunk_size - 1)))` frames, each an opcode followed by the next
`wr_chunk_size - 1` data bytes. -/
theorem raw_write_frames (k : tcm_defs) (env : Env D) (s : syna_tcm_hcd D)
    (command : Nat) (data : Option (List Nat)) (p : List Nat)
    (ha : ∀ i n, env.kmalloc_ok i n = true) (hw : ∀ d b, 0 ≤ (env.bus_write d b).1)
    (hd : data = some p ∨ p = []) (hL : p.length < 4294967296)
    (hW : 2 ≤ s.wr_chunk_size) (hW32 : s.wr_chunk_size < 4294967296)
    (hout32 : s.out.buf_size < 4294967296) :
    ∃ s1, syna_tcm_raw_write k env s command data p.length = some (0, s1) ∧
      s1.trace = s.trace ++
        (wire_frames command k.CMD_CONTINUE_WRITE (s.wr_chunk_size - 1) p 0
          (max 1 ((p.length + (s.wr_chunk_size - 1) - 1) / (s.wr_chunk_size - 1)))).map
            Event.bus_write := by
  unfold syna_tcm_raw_write
  simp only []
  rw [if_neg (by omega), sub32_eq (by omega) hW32]
  generalize hcsd : s.wr_chunk_size - 1 = cs
  have hcs : 1 ≤ cs := by omega
  have hcs32 : cs < 4294967295 := by omega
  unfold ceil_div
  rw [if_neg (by omega)]
  simp only [Option.bind_eq_bind, Option.some_bind]
  by_cases hp0 : p.length = 0
  · have hc0 : (p.length + cs - 1) / cs = 0 := by
      rw [hp0, Nat.zero_add]
      exact Nat.div_eq_of_lt (by omega)
    rw [hc0]
    simp only [if_true, Nat.max_eq_left (Nat.zero_le 1)]
    obtain ⟨rv1, s1, hchunk, _, hb1⟩ := raw_write_chunk_ok k env ha hw command data p cs 0
      p.length s hd hL hcs32 (by omega) hout32
    simp only [raw_write_loop, Option.bind_eq_bind, hchunk, Option.some_bind, ne_eq,
      not_true_eq_false, if_false, if_true]
    refine ⟨s1, rfl, ?_⟩
    rw [hb1]
    have hnil : p = [] := List.length_eq_zero.mp hp0
    subst hnil
    simp [wire_frames, chunk_xfer_length]
  · have hone : 1 ≤ (p.length + cs - 1) / cs := by
      rw [Nat.le_div_iff_mul_le (by omega)]
      omega
    have hpos : (p.length + cs - 1) / cs ≠ 0 := by omega
    rw [if_neg hpos, Nat.max_eq_right hone]
    obtain ⟨rv, s1, hloop, hb⟩ := raw_write_loop_frames k env ha hw command data p cs hd hcs
      hcs32 hL ((p.length + cs - 1) / cs) 0 p.length 0 s (by omega) rfl hout32
    rw [hloop]
    exact ⟨s1, rfl, hb⟩

/-- C18. With no response buffer `syna_tcm_write_message` is `syna_tcm_raw_write` followed
by the label `exit:`, and nothing else: no wait for the completion. For every data length
`L` (0 included) and every `wr_chunk_size = W ≥ 2`, with an allocator and a bus that do
not fail, the call returns the 0 of the raw write and its bus writes are
`max(1, ceil(L / (W - 1)))` chunks: the first starts with the command byte, every later
one with `CMD_CONTINUE_WRITE`, each carries at most `W - 1` data bytes, and the bytes
after the opcodes, concatenated in order, are the input data: no length bytes. -/
theorem write_message_raw_mode (k : tcm_defs) (env : Env D) (s : syna_tcm_hcd D)
    (command : Nat) (data : Option (List Nat)) (p : List Nat) (resp_length : Nat)
    (response_code : Option Nat) (polling_delay_ms : Nat) (in_isr : Bool)
    (ha : ∀ i n, env.kmalloc_ok i n = true) (hw : ∀ d b, 0 ≤ (env.bus_write d b).1)
    (hd : data = some p ∨ p = []) (hL : p.length < 4294967296)
    (hp : s.pwr_off = false) (hi : ¬ (s.do_polling = false ∧ in_isr = true))
    (hW : 2 ≤ s.wr_chunk_size) (hW32 : s.wr_chunk_size < 4294967296)
    (hout32 : s.out.buf_size < 4294967296) :
    ∃ s1 first rest,
      syna_tcm_raw_write k env s command data p.length = some (0, s1) ∧
      syna_tcm_write_message k env s command data p.length none resp_length response_code
          polling_delay_ms in_isr =
        some (0, write_message_exit k s1,
          ⟨none, resp_length, response_code.map (fun _ => k.STATUS_INVALID)⟩) ∧
      (write_message_exit k s1).trace = s.trace ++ (first :: rest).map Event.bus_write ++
        [Event.set_command_status CMD_IDLE] ∧
      (first :: rest).length =
        max 1 ((p.length + (s.wr_chunk_size - 1) - 1) / (s.wr_chunk_size - 1)) ∧
      first.head? = some command ∧
      (∀ f ∈ rest, f.head? = some k.CMD_CONTINUE_WRITE) ∧
      (∀ f ∈ first :: rest, f.tail.length ≤ s.wr_chunk_size - 1) ∧
      ((first :: rest).map List.tail).flatten = p := by
  obtain ⟨s1, hraw, htr⟩ := raw_write_frames k env s command data p ha hw hd hL hW hW32 hout32
  have hi2 : (!s.do_polling && in_isr) = false := by
    cases hd : s.do_polling <;> cases hc : in_isr <;> simp_all
  have hcall : syna_tcm_write_message k env s command data p.length none resp_length
      response_code polling_delay_ms in_isr =
      some (0, write_message_exit k s1,
        ⟨none, resp_length, response_code.map (fun _ => k.STATUS_INVALID)⟩) := by
    unfold syna_tcm_write_message
    simp only [hp, hi2, Bool.false_eq_true, if_false, hraw, Option.bind_eq_bind,
      Option.some_bind]
  generalize hcsd : s.wr_chunk_size - 1 = cs at htr ⊢
  have hcs : 1 ≤ cs := by omega
  obtain ⟨n, hn⟩ : ∃ n, max 1 ((p.length + cs - 1) / cs) = n + 1 :=
    ⟨max 1 ((p.length + cs - 1) / cs) - 1, by have := le_max_left 1 ((p.length + cs - 1) / cs); omega⟩
  have hfl := wire_frames_join command k.CMD_CONTINUE_WRITE cs p (n + 1) 0
  have hlen := wire_frames_length command k.CMD_CONTINUE_WRITE cs p (n + 1) 0
  have htl := wire_frames_tail_length command k.CMD_CONTINUE_WRITE cs p (n + 1) 0
  rw [hn] at htr ⊢
  simp only [wire_frames] at htr hfl hlen htl
  refine ⟨s1, _, _, hraw, hcall, ?_, hlen, rfl, ?_, htl, ?_⟩
  · rw [write_message_exit_trace, htr]
  · exact wire_frames_later_heads command k.CMD_CONTINUE_WRITE cs _ n 1 (by decide)
  · rw [hfl]
    have hcover : p.length ≤ (n + 1) * cs := by
      rw [← hn]
      have h1 := Nat.lt_div_mul_add (show 0 < cs by omega) (a := p.length + cs - 1)
      have h2 := le_max_right 1 ((p.length + cs - 1) / cs)
      have h3 : (p.length + cs - 1) / cs * cs ≤ max 1 ((p.length + cs - 1) / cs) * cs :=
        Nat.mul_le_mul_right cs h2
      omega
    rw [Nat.zero_mul, List.drop_zero, List.take_of_length_le hcover]

theorem write_message_raw_mode_witness :
    (syna_tcm_write_message tcm quiet_env { probe_state tcm () with wr_chunk_size := 2 } 0x22
        (some [7, 8, 9]) 3 none 0 none 0 false).map (fun r => (r.1, r.2.1.trace)) =
      some (0, [Event.bus_write [0x22, 7], Event.bus_write [tcm.CMD_CONTINUE_WRITE, 8],
        Event.bus_write [tcm.CMD_CONTINUE_WRITE, 9], Event.set_command_status CMD_IDLE]) := by
  obtain ⟨s1, first, rest, _, h2, _⟩ := write_message_raw_mode tcm quiet_env
    { probe_state tcm () with wr_chunk_size := 2 } 0x22 (some [7, 8, 9]) [7, 8, 9] 0 none 0
    false (fun _ _ => rfl) (fun _ _ => Int.le_refl 0) (Or.inl rfl) (by decide) rfl
    (by decide) (by decide) (by decide) (by decide)
  decide

/-- The chunk count of the four chunking routines, `ceil_div(remaining_length,
chunk_space)` raised to 1 when it is 0, for a non-zero `chunk_space`: it is the one `n`
with `(n - 1) * chunk_space < remaining_length ≤ n * chunk_space` when
`remaining_length > 0`, and it is 1 when `remaining_length = 0`. -/
theorem ceil_div_count (rem cs n : Nat) (hcs : cs ≠ 0)
    (hn : if rem = 0 then n = 1 else (n - 1) * cs < rem ∧ rem ≤ n * cs) :
    (ceil_div rem cs).bind (fun c => some (if c = 0 then 1 else c)) = some n := by
  unfold ceil_div
  rw [if_neg hcs, Option.some_bind]
  have hpos : 0 < cs := Nat.pos_of_ne_zero hcs
  by_cases h0 : rem = 0
  · rw [if_pos h0] at hn
    rw [h0, Nat.zero_add, Nat.div_eq_of_lt (by omega), if_pos rfl, hn]
  · rw [if_neg h0] at hn
    have hq : (rem + cs - 1) / cs = n := by
      apply Nat.div_eq_of_lt_le
      · have h1 : 1 ≤ n := by
          rcases Nat.eq_zero_or_pos n with h | h
          · rw [h, Nat.zero_mul] at hn; omega
          · exact h
        have h2 : (n - 1) * cs + cs = n * cs := by
          rw [← Nat.succ_mul, Nat.succ_eq_add_one, Nat.sub_add_cancel h1]
        omega
      · have h3 : (n + 1) * cs = n * cs + cs := by rw [Nat.add_mul, Nat.one_mul]
        omega
    rw [hq]
    have hn0 : n ≠ 0 := by
      intro h
      rw [h, Nat.zero_mul] at hn
      omega
    rw [if_neg hn0]

/-- The chunk count of `syna_tcm_raw_write` for a non-zero `chunk_space`: the loop is
entered with `n` iterations, `n` the ceiling of `length / chunk_space`, or 1 when
`length = 0`. -/
theorem raw_write_chunk_count (k : tcm_defs) (env : Env D) (s : syna_tcm_hcd D)
    (command : Nat) (data : Option (List Nat)) (length cs n : Nat)
    (hcsd : cs = if s.wr_chunk_size = 0 then length else sub32 s.wr_chunk_size 1)
    (hcs : cs ≠ 0)
    (hn : if length = 0 then n = 1 else (n - 1) * cs < length ∧ length ≤ n * cs) :
    syna_tcm_raw_write k env s command data length =
      (raw_write_loop k env command data cs n 0 length 0 s).bind
        (fun r => if r.1 = loop_exit.completed then some (0, r.2.2) else some (r.2.1, r.2.2)) := by
  have hc := ceil_div_count length cs n hcs hn
  obtain ⟨c, hc1, hc2⟩ := Option.bind_eq_some.mp hc
  unfold syna_tcm_raw_write
  simp only [← hcsd, hc1, Option.bind_eq_bind, Option.some_bind]
  rw [Option.some.inj hc2]

/-- The chunk count of `syna_tcm_raw_read` for a non-zero `chunk_space`. -/
theorem raw_read_chunk_count (k : tcm_defs) (env : Env D) (s : syna_tcm_hcd D)
    (in_buf : List Nat) (length rem cs n : Nat) (hl : 2 ≤ length)
    (hrem : rem = sub32 length 2)
    (hcsd : cs = if s.rd_chunk_size = 0 then rem else sub32 s.rd_chunk_size 2)
    (hcs : cs ≠ 0)
    (hn : if rem = 0 then n = 1 else (n - 1) * cs < rem ∧ rem ≤ n * cs) :
    syna_tcm_raw_read k env s in_buf length =
      (raw_read_loop k env length cs n 0 0 rem in_buf s).bind
        (fun r => some (r.2.1, r.2.2.1, r.2.2.2)) := by
  have hc := ceil_div_count rem cs n hcs hn
  obtain ⟨c, hc1, hc2⟩ := Option.bind_eq_some.mp hc
  unfold syna_tcm_raw_read
  rw [if_neg (by omega)]
  simp only [← hrem, ← hcsd, hc1, Option.bind_eq_bind, Option.some_bind]
  rw [Option.some.inj hc2]

/-- The chunk count of `syna_tcm_write_message` for a non-zero `chunk_space`. -/
theorem write_message_chunk_count (k : tcm_defs) (W command length n : Nat)
    (hcs : write_message_chunk_space k W command length ≠ 0)
    (hn : if add32 length 2 = 0 then n = 1
      else (n - 1) * write_message_chunk_space k W command length < add32 length 2 ∧
        add32 length 2 ≤ n * write_message_chunk_space k W command length) :
    write_message_chunks k W command length = some n := by
  have hc := ceil_div_count (add32 length 2) _ n hcs hn
  obtain ⟨c, hc1, hc2⟩ := Option.bind_eq_some.mp hc
  unfold write_message_chunks
  rw [hc1, Option.map_some', Option.some.inj hc2]

/-- The chunk count of `syna_tcm_continued_read` for a non-zero `chunk_space`, when the
reallocation of `in.buf` succeeds: the loop is entered with `n` iterations. -/
theorem continued_read_chunk_count (k : tcm_defs) (env : Env D) (s : syna_tcm_hcd D)
    (rem cs n : Nat)
    (hrem : rem = sub32 (add32 (add32 MESSAGE_HEADER_SIZE s.payload_length) 1) s.read_length)
    (hcsd : cs = if s.rd_chunk_size = 0 then rem else sub32 s.rd_chunk_size 2)
    (hcs : cs ≠ 0)
    (hn : if rem = 0 then n = 1 else (n - 1) * cs < rem ∧ rem ≤ n * cs)
    (hm : ¬ (syna_tcm_realloc_mem
      (kmalloc env s s.inb.buf_size
        (add32 (add32 (add32 MESSAGE_HEADER_SIZE s.payload_length) 1) 1)).1
      (kmalloc env s s.inb.buf_size
        (add32 (add32 (add32 MESSAGE_HEADER_SIZE s.payload_length) 1) 1)).2.inb
      (add32 (add32 (add32 MESSAGE_HEADER_SIZE s.payload_length) 1) 1)).1 < 0) :
    ∃ s1, s1.trace = s.trace ∧
      syna_tcm_continued_read k env s =
        (continued_read_loop k env cs n s.read_length rem s1).bind
          (fun r => some (r.2.1, r.2.2)) := by
  have hc := ceil_div_count rem cs n hcs hn
  obtain ⟨c, hc1, hc2⟩ := Option.bind_eq_some.mp hc
  have hk : ∀ cap size, (kmalloc env s cap size).2.rd_chunk_size = s.rd_chunk_size ∧
      (kmalloc env s cap size).2.read_length = s.read_length ∧
      (kmalloc env s cap size).2.trace = s.trace := by
    intro cap size
    unfold kmalloc
    split <;> simp
  unfold syna_tcm_continued_read
  simp only [] at hm ⊢
  rw [if_neg hm]
  simp only [(hk _ _).1, (hk _ _).2.1, ← hrem, ← hcsd, hc1, Option.bind_eq_bind,
    Option.some_bind]
  rw [Option.some.inj hc2]
  refine ⟨_, ?_, rfl⟩
  exact (hk _ _).2.2

/-- C11. The chunk count is `ceil_div(remaining_length, chunk_space)`, raised to 1 when
it is 0, and `chunk_space` is `remaining_length` itself when the chunk size is 0
(unbounded). So in the case `remaining_length = 0` of an unbounded chunk size the divisor
is 0 and no chunk count is computed: `syna_tcm_raw_write` with `wr_chunk_size = 0` and
`length = 0`, and `syna_tcm_raw_read` with `rd_chunk_size = 0` and `length = 2`, divide
by zero before the loop, for every state, command, data and caller array. -/
theorem chunk_count_zero_chunk_space (k : tcm_defs) (env : Env D) (s : syna_tcm_hcd D)
    (command : Nat) (data : Option (List Nat)) (in_buf : List Nat) :
    syna_tcm_raw_write k env { s with wr_chunk_size := 0 } command data 0 = none ∧
      syna_tcm_raw_read k env { s with rd_chunk_size := 0 } in_buf 2 = none := by
  constructor
  · unfold syna_tcm_raw_write ceil_div
    simp
  · unfold syna_tcm_raw_read ceil_div
    simp [sub32]

/-! ## A continuation chunk with a wrong marker or code -/

theorem kmalloc_completion (env : Env D) (s : syna_tcm_hcd D) (cap size : Nat) :
    (kmalloc env s cap size).2.completion_done = s.completion_done ∧
      (kmalloc env s cap size).2.rd_chunk_size = s.rd_chunk_size ∧
      (kmalloc env s cap size).2.read_length = s.read_length := by
  unfold kmalloc
  split <;> simp

/-- A chunk of `syna_tcm_continued_read` that is read from the bus and does not start
with `MESSAGE_MARKER`, `STATUS_CONTINUED_READ`: the iteration leaves the function with
`- EIO` after the one bus read of the chunk, and nothing is copied into `in.buf`. -/
theorem continued_read_chunk_bad (k : tcm_defs) (env : Env D)
    (ha : ∀ i n, env.kmalloc_ok i n = true) (cs offset rem : Nat) (s : syna_tcm_hcd D)
    (hx : chunk_xfer_length rem cs ≠ 1) (h32 : chunk_xfer_length rem cs + 2 < 4294967296)
    (hr : 0 ≤ (env.bus_read s.dev (chunk_xfer_length rem cs + 2)).1)
    (hbad : (env.bus_read s.dev (chunk_xfer_length rem cs + 2)).2.1.getD 0 0 ≠ MESSAGE_MARKER ∨
      (env.bus_read s.dev (chunk_xfer_length rem cs + 2)).2.1.getD 1 0 ≠
        k.STATUS_CONTINUED_READ) :
    ∃ s2, continued_read_chunk k env cs offset rem s = some (loop_exit.bad_chunk, - EIO, s2) ∧
      s2.trace = s.trace ++ [Event.bus_read (chunk_xfer_length rem cs + 2)] ∧
      s2.inb = s.inb ∧ s2.completion_done = s.completion_done := by
  unfold continued_read_chunk
  simp only []
  rw [if_neg hx, add32_eq h32]
  obtain ⟨kd, ki, kt, _, ktr⟩ := kmalloc_fields env s s.temp.buf_size
    (chunk_xfer_length rem cs + 2)
  obtain ⟨kc, _, _⟩ := kmalloc_completion env s s.temp.buf_size (chunk_xfer_length rem cs + 2)
  have kok := kmalloc_ok_of env ha s s.temp.buf_size (chunk_xfer_length rem cs + 2)
  generalize kmalloc env s s.temp.buf_size (chunk_xfer_length rem cs + 2) = a
    at kd ki kt ktr kc kok
  rw [kok, alloc_mem_ok]
  simp only [lt_self_iff_false, if_false]
  unfold syna_tcm_read
  simp only [kd]
  rw [if_neg (not_lt.mpr hr), if_pos (by rw [List.length_replicate]; exact le_max_left _ _)]
  simp only [Option.bind_eq_bind, Option.some_bind]
  rw [if_neg (not_lt.mpr hr)]
  have hlen : 2 ≤ (fill (env.bus_read s.dev (chunk_xfer_length rem cs + 2)).2.1
      (chunk_xfer_length rem cs + 2)).length := by
    rw [fill_length]
    omega
  have g0 : buf_get (fill (env.bus_read s.dev (chunk_xfer_length rem cs + 2)).2.1
        (chunk_xfer_length rem cs + 2) ++
      (List.replicate (max (chunk_xfer_length rem cs + 2) a.2.temp.buf_size) 0).drop
        (chunk_xfer_length rem cs + 2)) 0 =
      some ((env.bus_read s.dev (chunk_xfer_length rem cs + 2)).2.1.getD 0 0) := by
    rw [buf_get_eq _ _ (by rw [List.length_append]; omega), List.getD_eq_getElem?_getD,
      List.getElem?_append_left (by omega), ← List.getD_eq_getElem?_getD,
      fill_getD _ _ _ (by omega)]
  have g1 : buf_get (fill (env.bus_read s.dev (chunk_xfer_length rem cs + 2)).2.1
        (chunk_xfer_length rem cs + 2) ++
      (List.replicate (max (chunk_xfer_length rem cs + 2) a.2.temp.buf_size) 0).drop
        (chunk_xfer_length rem cs + 2)) 1 =
      some ((env.bus_read s.dev (chunk_xfer_length rem cs + 2)).2.1.getD 1 0) := by
    rw [buf_get_eq _ _ (by rw [List.length_append]; omega), List.getD_eq_getElem?_getD,
      List.getElem?_append_left (by omega), ← List.getD_eq_getElem?_getD,
      fill_getD _ _ _ (by omega)]
  rw [g0, g1]
  simp only [Option.some_bind]
  by_cases hm : (env.bus_read s.dev (chunk_xfer_length rem cs + 2)).2.1.getD 0 0 =
      MESSAGE_MARKER
  · have hc := hbad.resolve_left (not_not.mpr hm)
    rw [if_neg (not_not.mpr hm), if_pos hc]
    exact ⟨_, rfl, by simp [ktr], ki, kc⟩
  · rw [if_pos hm]
    exact ⟨_, rfl, by simp [ktr], ki, kc⟩

theorem continued_read_loop_succ (k : tcm_defs) (env : Env D) (cs n offset rem : Nat)
    (s : syna_tcm_hcd D) :
    continued_read_loop k env cs (n + 1) offset rem s =
      (continued_read_chunk k env cs offset rem s).bind (fun r =>
        if r.1 ≠ loop_exit.completed then some r
        else continued_read_loop k env cs n (add32 offset (chunk_xfer_length rem cs))
          (sub32 rem (chunk_xfer_length rem cs)) r.2.2) := rfl

/-- The chunk loop of `syna_tcm_continued_read` after `i` iterations that ran to their
end goes on from the state they left, with the offset and the remaining length they
left. -/
theorem continued_read_loop_split (k : tcm_defs) (env : Env D) (cs m : Nat) :
    ∀ (i offset rem : Nat) (s : syna_tcm_hcd D) (rv : Int) (si : syna_tcm_hcd D),
      continued_read_loop k env cs i offset rem s = some (loop_exit.completed, rv, si) →
      continued_read_loop k env cs (i + (m + 1)) offset rem s =
        continued_read_loop k env cs (m + 1) (offset_after cs i offset rem)
          (remaining_after cs i rem) si := by
  intro i
  induction i with
  | zero =>
    intro offset rem s rv si h
    simp only [continued_read_loop, Option.some.injEq, Prod.mk.injEq] at h
    obtain ⟨_, _, hs⟩ := h
    subst hs
    rw [Nat.zero_add]
    rfl
  | succ i ih =>
    intro offset rem s rv si h
    rw [show i + 1 + (m + 1) = (i + (m + 1)) + 1 by omega, continued_read_loop_succ]
    rw [continued_read_loop_succ] at h
    obtain ⟨c, hc, h⟩ := Option.bind_eq_some.mp h
    rw [hc, Option.some_bind]
    by_cases hcomp : c.1 = loop_exit.completed
    · rw [if_neg (not_not.mpr hcomp)] at h ⊢
      rw [ih _ _ _ _ _ h]
      rfl
    · rw [if_pos hcomp] at h
      simp only [Option.some.injEq] at h
      rw [h] at hcomp
      exact absurd rfl hcomp

theorem continued_read_eq (k : tcm_defs) (env : Env D) (s : syna_tcm_hcd D)
    (ha : ∀ i n, env.kmalloc_ok i n = true) (rem cs c : Nat)
    (hrem : rem = sub32 (add32 (add32 MESSAGE_HEADER_SIZE s.payload_length) 1) s.read_length)
    (hcs : cs = if s.rd_chunk_size = 0 then rem else sub32 s.rd_chunk_size 2)
    (hc : ceil_div rem cs = some c) :
    syna_tcm_continued_read k env s =
      (continued_read_loop k env cs (if c = 0 then 1 else c) s.read_length rem
        (continued_read_entry env s)).bind (fun r => some (r.2.1, r.2.2)) := by
  obtain ⟨_, kr, kl⟩ := kmalloc_completion env s s.inb.buf_size
    (add32 (add32 (add32 MESSAGE_HEADER_SIZE s.payload_length) 1) 1)
  have kok := kmalloc_ok_of env ha s s.inb.buf_size
    (add32 (add32 (add32 MESSAGE_HEADER_SIZE s.payload_length) 1) 1)
  unfold syna_tcm_continued_read continued_read_entry
  simp only []
  generalize kmalloc env s s.inb.buf_size
    (add32 (add32 (add32 MESSAGE_HEADER_SIZE s.payload_length) 1) 1) = a at kr kl kok
  rw [kok, realloc_mem_ok]
  simp only [lt_self_iff_false, if_false, kr, kl, ← hrem, ← hcs, hc, Option.bind_eq_bind,
    Option.some_bind]


/-- C15. A chunk of `syna_tcm_continued_read` that is read from the bus must start with
`MESSAGE_MARKER`, `STATUS_CONTINUED_READ`. When the first `i` chunks ran to their end and
the next chunk read from the bus violates one of the two, the function returns `- EIO`
right after that one bus read, whatever the number `m` of chunks still planned: no retry,
no further bus read, nothing copied. `syna_tcm_read_message` then returns that `- EIO`
through the label `exit:`, which dispatches nothing and, when a command is outstanding
(`CMD_BUSY`), sets `CMD_ERROR` and signals the completion. -/
theorem continued_read_bad_chunk (k : tcm_defs) (env : Env D) (s : syna_tcm_hcd D)
    (ha : ∀ i n, env.kmalloc_ok i n = true) (rem cs c i m : Nat) (rvi : Int)
    (si : syna_tcm_hcd D)
    (hrem : rem = sub32 (add32 (add32 MESSAGE_HEADER_SIZE s.payload_length) 1) s.read_length)
    (hcs : cs = if s.rd_chunk_size = 0 then rem else sub32 s.rd_chunk_size 2)
    (hc : ceil_div rem cs = some c) (hn : (if c = 0 then 1 else c) = i + (m + 1))
    (hi : continued_read_loop k env cs i s.read_length rem (continued_read_entry env s) =
      some (loop_exit.completed, rvi, si))
    (hx : chunk_xfer_length (remaining_after cs i rem) cs ≠ 1)
    (h32 : chunk_xfer_length (remaining_after cs i rem) cs + 2 < 4294967296)
    (hr : 0 ≤ (env.bus_read si.dev (chunk_xfer_length (remaining_after cs i rem) cs + 2)).1)
    (hbad :
      (env.bus_read si.dev (chunk_xfer_length (remaining_after cs i rem) cs + 2)).2.1.getD 0 0 ≠
          MESSAGE_MARKER ∨
        (env.bus_read si.dev (chunk_xfer_length (remaining_after cs i rem) cs + 2)).2.1.getD 1 0 ≠
          k.STATUS_CONTINUED_READ) :
    ∃ s2, syna_tcm_continued_read k env s = some (- EIO, s2) ∧
      s2.trace = si.trace ++
        [Event.bus_read (chunk_xfer_length (remaining_after cs i rem) cs + 2)] ∧
      s2.inb = si.inb ∧
      (∀ s0 length, s0.pwr_off = false →
        read_message_passes k env s0 = read_message_reassemble k env s →
        ¬ add32 (add32 MESSAGE_HEADER_SIZE s.payload_length) 1 ≤ s.read_length →
        sub32 (add32 (add32 MESSAGE_HEADER_SIZE s.payload_length) 1) 1 ≠ s.read_length →
        syna_tcm_read_message k env s0 none length =
          some (- EIO, read_message_exit (- EIO) s2, none)) ∧
      (read_message_exit (- EIO) s2).trace = s2.trace ++
        (if s.command_status = CMD_BUSY then
          [Event.set_command_status CMD_ERROR, Event.complete] else []) ∧
      (s.command_status = CMD_BUSY →
        (read_message_exit (- EIO) s2).command_status = CMD_ERROR ∧
        (read_message_exit (- EIO) s2).completion_done = s2.completion_done + 1) := by
  obtain ⟨s2, hchunk, htr, hinb, _⟩ := continued_read_chunk_bad k env ha cs
    (offset_after cs i s.read_length rem) (remaining_after cs i rem) si hx h32 hr hbad
  have hloop : continued_read_loop k env cs (i + (m + 1)) s.read_length rem
      (continued_read_entry env s) = some (loop_exit.bad_chunk, - EIO, s2) := by
    rw [continued_read_loop_split k env cs m i _ _ _ _ _ hi, continued_read_loop_succ, hchunk,
      Option.some_bind, if_pos (show loop_exit.bad_chunk ≠ loop_exit.completed by decide)]
  have hcr : syna_tcm_continued_read k env s = some (- EIO, s2) := by
    rw [continued_read_eq k env s ha rem cs c hrem hcs hc, hn, hloop]
    rfl
  have hctx := (continued_read_path k env s _ _ hcr).1
  have hstat : s2.command_status = s.command_status := by
    have := congrArg (fun x => x.2.2.2.1) hctx
    exact this
  have hneg : (- EIO : Int) < 0 := by decide
  refine ⟨s2, hcr, htr, hinb, ?_, ?_, ?_⟩
  · intro s0 length hp hpass h1 h2
    rw [read_message_eq k env s0 length hp, hpass]
    unfold read_message_reassemble
    simp only []
    rw [if_neg h1, if_neg h2, hcr]
    simp only [Option.bind_eq_bind, Option.some_bind, hneg, if_true]
  · unfold read_message_exit
    rw [if_pos hneg, hstat]
    split
    · simp [syna_tcm_hcd.set_status, syna_tcm_hcd.complete]
    · simp
  · intro hb
    unfold read_message_exit
    rw [if_pos hneg, if_pos (by rw [hstat]; exact hb)]
    exact ⟨rfl, rfl⟩

theorem continued_read_bad_chunk_witness :
    (∃ s2, syna_tcm_read_message tcm glitch_env glitch_state none 0 =
        some (- EIO, read_message_exit (- EIO) s2, none) ∧
      (read_message_exit (- EIO) s2).command_status = CMD_ERROR ∧
      (read_message_exit (- EIO) s2).completion_done = s2.completion_done + 1) ∧
    (syna_tcm_read_message tcm glitch_env glitch_state none 0).map
        (fun r => (r.1, r.2.1.command_status, r.2.1.completion_done, bus_reads r.2.1.trace,
          report_dispatches r.2.1.trace, response_dispatches r.2.1.trace)) =
      some (- EIO, CMD_ERROR, 1, [6, 6, 6], 0, 0) := by
  obtain ⟨s2, _, _, _, h4, _, h6⟩ := continued_read_bad_chunk tcm glitch_env
    (header_state glitch_env glitch_state) (fun _ _ => rfl) 11 4 3 1 1 0
    ((continued_read_loop tcm glitch_env 4 1 6 11
      (continued_read_entry glitch_env (header_state glitch_env glitch_state))).get
        (by decide)).2.2
    (by decide) (by decide) (by decide) (by decide) (by decide) (by decide) (by decide)
    (by decide) (by decide)
  exact ⟨⟨s2, h4 glitch_state 0 rfl (by decide) (by decide) (by decide), h6 (by decide)⟩,
    by decide⟩

/-! ## Unbounded writes: one frame -/

/-- C22. With `wr_chunk_size = 0`, a command other than `CMD_ROMBOOT_DOWNLOAD`, a
response requested, an allocator and a bus that do not fail and other contexts that do
not write to the bus: for every payload of `L ≤ 65535` bytes the call issues exactly one
bus write, of `L + 3` bytes, equal to `[command, L & 0xff, L >> 8]` followed by the whole
payload. -/
theorem write_message_unbounded_single_write (k : tcm_defs) (env : Env D)
    (s : syna_tcm_hcd D) (command : Nat) (p : List Nat) (rb : List Nat) (resp_length : Nat)
    (response_code : Option Nat) (polling_delay_ms : Nat) (in_isr : Bool)
    (ha : ∀ i n, env.kmalloc_ok i n = true) (hw : ∀ d b, 0 ≤ (env.bus_write d b).1)
    (hconc : ∀ s0, bus_writes (env.concurrent s0).trace = bus_writes s0.trace)
    (hp : s.pwr_off = false) (hi : ¬ (s.do_polling = false ∧ in_isr = true))
    (hcmd : command ≠ k.CMD_ROMBOOT_DOWNLOAD) (hL : p.length ≤ 65535)
    (hW : s.wr_chunk_size = 0) (hout32 : s.out.buf_size < 4294967296) :
    ∃ r, syna_tcm_write_message k env s command (some p) p.length (some rb) resp_length
        response_code polling_delay_ms in_isr = some r ∧
      bus_writes r.2.1.trace = bus_writes s.trace ++
        [command :: p.length % 256 :: p.length / 256 :: p] ∧
      (command :: p.length % 256 :: p.length / 256 :: p).length = p.length + 3 := by
  obtain ⟨r, hr, hb⟩ := write_message_frames k env s command p rb resp_length response_code
    polling_delay_ms in_isr ha hw hconc hp hi hcmd hL (Or.inl hW) (by rw [hW]; decide) hout32
  refine ⟨r, hr, ?_, by simp⟩
  rw [hb, hW]
  simp only [if_true]
  have hone : (p.length + 2 + (p.length + 2) - 1) / (p.length + 2) = 1 := by
    apply Nat.div_eq_of_lt_le <;> omega
  rw [hone]
  have hlen : (command_stream p.length p).length = p.length + 2 := by
    simp [command_stream]
  simp only [wire_frames, if_true, Nat.zero_mul, List.drop_zero]
  rw [List.take_of_length_le (by rw [hlen])]
  unfold command_stream u8
  have : p.length / 256 % 256 = p.length / 256 := Nat.mod_eq_of_lt (by omega)
  rw [this]
  rfl

theorem write_message_unbounded_single_write_witness :
    (syna_tcm_write_message tcm quiet_env { probe_state tcm () with wr_chunk_size := 0 } 0x22
        (some [7, 8, 9]) 3 (some []) 0 none 0 false).map (fun r => bus_writes r.2.1.trace) =
      some [[0x22, 3, 0, 7, 8, 9]] := by
  obtain ⟨r, hr, hb, _⟩ := write_message_unbounded_single_write tcm quiet_env
    { probe_state tcm () with wr_chunk_size := 0 } 0x22 [7, 8, 9] [] 0 none 0 false
    (fun _ _ => rfl) (fun _ _ => Int.le_refl 0) (fun _ => rfl) rfl (by decide) (by decide)
    (by decide) rfl (by decide)
  have e : ([7, 8, 9] : List Nat).length = 3 := rfl
  rw [e] at hr
  rw [hr, Option.map_some', hb]
  rfl

/-! ## The return value 0 of `syna_tcm_write_message` -/

/-- C30 (counterexample). The host-download reset (`CMD_RESET` while `in_hdl_mode` is
set) with a response requested returns 0 although no completion arrived: the call does
not wait, nothing signalled the completion, and the outputs are not written. -/
theorem write_message_zero_without_completion :
    (syna_tcm_write_message tcm quiet_env hdl_state tcm.CMD_RESET none 0 (some []) 0 (some 0)
        0 false).map
      (fun r => (r.1, r.2.1.completion_done, r.2.1.trace.count Event.complete,
        r.2.1.trace.count Event.wait_for_completion, r.2.2)) =
      some (0, 0, 0, 0, ⟨some [], 0, some tcm.STATUS_INVALID⟩) := by
  decide

/-- C30 (as amended). For a command that is not the host-download reset,
`syna_tcm_write_message` with a response requested returns 0 only if all chunks were
written, the completion arrived, `command_status` was `CMD_IDLE` after the wait and the
response code of the slot equals `STATUS_OK`. When the completion arrived with
`CMD_IDLE` and the response code is any other value, the call returns `- EIO` and still
hands the response buffer (with its size), its data length and the response code to the
caller. -/
theorem write_message_zero_return (k : tcm_defs) (env : Env D) (s : syna_tcm_hcd D)
    (command : Nat) (payload : Option (List Nat)) (length : Nat) (rb : List Nat)
    (resp_length : Nat) (response_code : Option Nat) (polling_delay_ms : Nat) (in_isr : Bool)
    (r : Int × syna_tcm_hcd D × wm_outputs)
    (hr : ¬ (command = k.CMD_RESET ∧ s.in_hdl_mode = true))
    (h : syna_tcm_write_message k env s command payload length (some rb) resp_length
      response_code polling_delay_ms in_isr = some r) :
    (r.1 = 0 → ∃ rv0 s1,
      write_message_send k env s command payload length rb polling_delay_ms =
        some (loop_exit.completed, rv0, s1) ∧
      (wait_state env s1 polling_delay_ms).completion_done ≠ 0 ∧
      (wait_state env s1 polling_delay_ms).command_status = CMD_IDLE ∧
      (wait_state env s1 polling_delay_ms).response_code = k.STATUS_OK) ∧
    (s.pwr_off = false → ¬ (s.do_polling = false ∧ in_isr = true) → ∀ rv0 s1,
      write_message_send k env s command payload length rb polling_delay_ms =
        some (loop_exit.completed, rv0, s1) →
      (wait_state env s1 polling_delay_ms).completion_done ≠ 0 →
      (wait_state env s1 polling_delay_ms).command_status = CMD_IDLE →
      (wait_state env s1 polling_delay_ms).response_code ≠ k.STATUS_OK →
      r.1 = - EIO ∧
      r.2.2 = ⟨some (wait_state env s1 polling_delay_ms).resp.buf,
        (wait_state env s1 polling_delay_ms).resp.data_length,
        response_code.map (fun _ => (wait_state env s1 polling_delay_ms).response_code)⟩) := by
  have hEIO : ¬ (- EIO : Int) = 0 := by decide
  have hEINVAL : ¬ (-EINVAL : Int) = 0 := by decide
  have hETIME : ¬ (-ETIME : Int) = 0 := by decide
  constructor
  · intro h0
    by_cases hp : s.pwr_off = true
    · unfold syna_tcm_write_message at h
      simp only [hp, if_true, Option.some.injEq] at h
      rw [← h] at h0
      exact absurd h0 hEIO
    · have hp' : s.pwr_off = false := by simpa using hp
      by_cases hi : s.do_polling = false ∧ in_isr = true
      · unfold syna_tcm_write_message at h
        simp only [hp', hi.1, hi.2, Bool.false_eq_true, if_false, Bool.not_false, Bool.and_self,
          if_true, Option.some.injEq] at h
        rw [← h] at h0
        exact absurd h0 hEINVAL
      · rw [write_message_resp_eq k env s command payload length rb resp_length response_code
          polling_delay_ms in_isr hp' hi] at h
        obtain ⟨c, hc, h⟩ := Option.bind_eq_some.mp h
        obtain ⟨e, rv0, s1⟩ := c
        by_cases he : e = loop_exit.completed
        · subst he
          simp only [ne_eq, not_true_eq_false, hr, or_self, if_false, Option.some.injEq] at h
          refine ⟨rv0, s1, hc, ?_⟩
          by_cases hd : (wait_state env s1 polling_delay_ms).completion_done = 0
          · rw [write_message_wait_timeout k env s1 polling_delay_ms _ hd] at h
            rw [← h] at h0
            exact absurd h0 hETIME
          · by_cases hs : (wait_state env s1 polling_delay_ms).command_status = CMD_IDLE
            · rw [write_message_wait_response k env s1 polling_delay_ms _ hd hs] at h
              rw [← h] at h0
              refine ⟨hd, hs, ?_⟩
              by_contra hne
              simp only [ne_eq, hne, not_false_eq_true, if_true] at h0
              exact absurd h0 hEIO
            · rw [write_message_wait_error k env s1 polling_delay_ms _ hd hs] at h
              rw [← h] at h0
              exact absurd h0 hEIO
        · simp only [ne_eq, he, not_false_eq_true, true_or, if_true, Option.some.injEq] at h
          rw [← h] at h0
          unfold write_message_send at hc
          obtain ⟨chunks, _, hloop⟩ := Option.bind_eq_some.mp hc
          obtain ⟨_, _, _, f4, _, _⟩ := write_message_loop_frame k env command payload length
            chunks _ _ _ _ _ _ _ _ _ hloop
          have := f4 he
          simp only [] at h0
          omega
  · intro hp hi rv0 s1 hsend hd hs hne
    rw [write_message_resp_eq k env s command payload length rb resp_length response_code
      polling_delay_ms in_isr hp hi, hsend] at h
    simp only [Option.some_bind, ne_eq, not_true_eq_false, hr, or_self, if_false,
      Option.some.injEq] at h
    rw [write_message_wait_response k env s1 polling_delay_ms _ hd hs] at h
    rw [← h]
    refine ⟨if_pos hne, ?_⟩
    cases response_code <;> rfl


theorem write_message_zero_return_witness :
    (syna_tcm_write_message tcm reader_env refusing_state 0x22 none 0 (some []) 0 (some 0) 0
        false).map (fun r => (r.1, r.2.2)) =
      some (- EIO, ⟨some [], 0, some tcm.STATUS_ERROR⟩) := by
  have hcall : syna_tcm_write_message tcm reader_env refusing_state 0x22 none 0 (some []) 0
      (some 0) 0 false =
      some ((syna_tcm_write_message tcm reader_env refusing_state 0x22 none 0 (some []) 0
        (some 0) 0 false).get (by decide)) := by
    decide
  obtain ⟨h1, h2⟩ := (write_message_zero_return tcm reader_env refusing_state 0x22 none 0 []
    0 (some 0) 0 false _ (by decide) hcall).2 rfl (by decide) 0
    ((write_message_send tcm reader_env refusing_state 0x22 none 0 [] 0).get (by decide)).2.2
    (by decide) (by decide) (by decide) (by decide)
  rw [hcall, Option.map_some', h1, h2]
  decide

/-! ## An identify report while a command is outstanding -/

/-- C29. An identify report dispatched while a command is outstanding (`CMD_BUSY`), with
its payload inside the inbound buffer: the identify handling completes the command
(`command_status` becomes `CMD_IDLE` or `CMD_ERROR`, the completion is signalled once),
and the same `syna_tcm_dispatch_message` call then passes the report on to
`syna_tcm_dispatch_report`, in the state the completion left, unless `host_downloading`
is set, in which case the call ends after the completion without a report dispatch. -/
theorem identify_report_after_completion (k : tcm_defs) (env : Env D) (s : syna_tcm_hcd D)
    (hcode : s.status_report_code = k.REPORT_IDENTIFY) (hbusy : s.command_status = CMD_BUSY)
    (hid : s.id_info.length = k.id_info_size)
    (hb : k.id_build_id + 4 ≤ k.id_info_size) (hm : k.id_max_write_size + 2 ≤ k.id_info_size)
    (hbuf : MESSAGE_HEADER_SIZE + min k.id_info_size s.payload_length ≤ s.inb.buf_size)
    (h32 : s.inb.buf_size < 4294967296) :
    ∃ s1, dispatch_identify k s = some (s.host_downloading, s1) ∧
      s1.completion_done = s.completion_done + 1 ∧
      s1.trace = s.trace ++ [Event.set_command_status s1.command_status, Event.complete] ∧
      (s1.command_status = CMD_IDLE ∨ s1.command_status = CMD_ERROR) ∧
      (s.host_downloading = false →
        syna_tcm_dispatch_message k env s = some (syna_tcm_dispatch_report k s1) ∧
        (syna_tcm_dispatch_report k s1).trace.take (s.trace.length + 3) =
          s.trace ++ [Event.set_command_status s1.command_status, Event.complete,
            Event.dispatch_report k.REPORT_IDENTIFY
              ((s.inb.buf.drop MESSAGE_HEADER_SIZE).take s.payload_length)] ∧
        report_dispatches (syna_tcm_dispatch_report k s1).trace =
          report_dispatches s.trace + 1) ∧
      (s.host_downloading = true →
        syna_tcm_dispatch_message k env s = some s1 ∧
        report_dispatches s1.trace = report_dispatches s.trace) := by
  obtain ⟨info, pn, mws, _, heq⟩ := dispatch_identify_eq k s hid hb hm hbuf h32
  rw [if_pos hbusy] at heq
  have key : ∃ s1, dispatch_identify k s = some (s.host_downloading, s1) ∧
      s1.completion_done = s.completion_done + 1 ∧
      s1.trace = s.trace ++ [Event.set_command_status s1.command_status, Event.complete] ∧
      (s1.command_status = CMD_IDLE ∨ s1.command_status = CMD_ERROR) ∧
      s1.status_report_code = s.status_report_code ∧ s1.inb = s.inb ∧
      s1.payload_length = s.payload_length := by
    cases hh : s.host_downloading
    · rw [hh] at heq
      simp only [Bool.false_eq_true, if_false] at heq
      split at heq
      · exact ⟨_, heq, rfl, by simp [syna_tcm_hcd.set_status, syna_tcm_hcd.complete],
          Or.inl rfl, rfl, rfl, rfl⟩
      · exact ⟨_, heq, rfl, by simp [syna_tcm_hcd.set_status, syna_tcm_hcd.complete],
          Or.inr rfl, rfl, rfl, rfl⟩
    · rw [hh] at heq
      simp only [if_true] at heq
      split at heq
      · exact ⟨_, heq, rfl, by simp [syna_tcm_hcd.set_status, syna_tcm_hcd.complete],
          Or.inl rfl, rfl, rfl, rfl⟩
      · exact ⟨_, heq, rfl, by simp [syna_tcm_hcd.set_status, syna_tcm_hcd.complete],
          Or.inr rfl, rfl, rfl, rfl⟩
  obtain ⟨s1, hd, hc, htr, hst, hsc, hinb, hpl⟩ := key
  have hrd := dispatch_identify_dispatches k s _ hd
  refine ⟨s1, hd, hc, htr, hst, fun hh => ?_, fun hh => ?_⟩
  · have hmsg : syna_tcm_dispatch_message k env s = some (syna_tcm_dispatch_report k s1) := by
      unfold syna_tcm_dispatch_message
      rw [if_pos hcode, hd, hh]
      simp only [Option.bind_eq_bind, Option.some_bind, Bool.false_eq_true, if_false]
      rw [if_pos (by rw [hsc, hcode])]
    refine ⟨hmsg, ?_, ?_⟩
    · have hpre : ∃ rest, (syna_tcm_dispatch_report k s1).trace =
          s1.trace ++ [Event.dispatch_report s1.status_report_code
            ((s1.inb.buf.drop MESSAGE_HEADER_SIZE).take s1.payload_length)] ++ rest := by
        unfold syna_tcm_dispatch_report
        simp only [syna_tcm_hcd.log]
        split
        · split
          · exact ⟨[Event.report_touch], rfl⟩
          · exact ⟨[], by simp⟩
        · split
          · split
            · exact ⟨_, by simp only [List.append_assoc]; rfl⟩
            · exact ⟨_, rfl⟩
          · exact ⟨_, rfl⟩
      obtain ⟨rest, hrest⟩ := hpre
      rw [hrest, htr, hsc, hcode, hinb, hpl]
      simp only [List.append_assoc, List.singleton_append, List.cons_append, List.nil_append]
      rw [show s.trace.length + 3 = s.trace.length + (3 + 0) by rfl, List.take_append]
      rfl
    · rw [(dispatch_report_dispatches k s1).1, hrd.1]
  · refine ⟨?_, hrd.1⟩
    unfold syna_tcm_dispatch_message
    rw [if_pos hcode, hd, hh]
    simp only [Option.bind_eq_bind, Option.some_bind, if_true]

theorem identify_report_after_completion_witness :
    (∃ s1, syna_tcm_dispatch_message tcm quiet_env scenario_C_state =
        some (syna_tcm_dispatch_report tcm s1) ∧
      s1.completion_done = 1 ∧
      report_dispatches (syna_tcm_dispatch_report tcm s1).trace = 1) ∧
    (syna_tcm_dispatch_message tcm quiet_env scenario_C_state).map (fun s1 => s1.trace) =
      some [Event.set_command_status CMD_IDLE, Event.complete,
        Event.dispatch_report tcm.REPORT_IDENTIFY
          (identify_payload 1 [0x31, 0xd4, 0, 0] [0, 1]),
        Event.queue_helper_work] := by
  obtain ⟨s1, _, h2, _, _, h5, _⟩ := identify_report_after_completion tcm quiet_env
    scenario_C_state rfl rfl (by decide) (by decide) (by decide) (by decide) (by decide)
  exact ⟨⟨s1, (h5 rfl).1, h2, (h5 rfl).2.2⟩, by decide⟩

/-! ## The report dispatch -/

/-- The walk over the module list calls the `syncbox` of the entries that are neither
pending insertion nor detached and have one, by position, in list order. -/
theorem dispatch_syncbox_eq (l : List syna_tcm_module_handler) :
    ∀ pos, dispatch_syncbox l pos =
      ((l.enumFrom pos).filter (fun p => !p.2.insert && !p.2.detach && p.2.syncbox)).map
        (fun p => Event.syncbox p.1) := by
  induction l with
  | nil => intro pos; rfl
  | cons h t ih =>
    intro pos
    simp only [dispatch_syncbox, List.enumFrom_cons, List.filter_cons]
    split
    · rw [List.map_cons, ih]
    · rw [ih]

/-- C27. `syna_tcm_dispatch_report` presents the report as `report.id =
status_report_code` with the payload view `in.buf[4 .. 4 + payload_length)`. For
`REPORT_TOUCH` the only action is the touch callback (when it is set): no `syncbox` is
called and the helper task is left alone. For every other report the `syncbox` of every
entry of the module list that is neither pending insertion nor detached and has one is
called, in list order, after the helper task was set to `HELP_TOUCH_REINIT` (and its work
queued) exactly when the report is an identify report, the stored mode is a firmware
mode and the helper task was `HELP_NONE`. -/
theorem dispatch_report_contract (k : tcm_defs) (s : syna_tcm_hcd D) :
    (syna_tcm_dispatch_report k s).report_id = s.status_report_code ∧
    (s.status_report_code = k.REPORT_TOUCH →
      (syna_tcm_dispatch_report k s).trace = s.trace ++
        Event.dispatch_report s.status_report_code
          ((s.inb.buf.drop MESSAGE_HEADER_SIZE).take s.payload_length) ::
        (if s.has_report_touch then [Event.report_touch] else []) ∧
      (syna_tcm_dispatch_report k s).helper_task = s.helper_task) ∧
    (s.status_report_code ≠ k.REPORT_TOUCH →
      (syna_tcm_dispatch_report k s).trace = s.trace ++
        Event.dispatch_report s.status_report_code
          ((s.inb.buf.drop MESSAGE_HEADER_SIZE).take s.payload_length) ::
        ((if s.status_report_code = k.REPORT_IDENTIFY ∧
            k.IS_FW_MODE (s.id_info.getD k.id_mode 0) = true ∧ s.helper_task = HELP_NONE
          then [Event.queue_helper_work] else []) ++
        ((s.mod_pool.enum.filter (fun p => !p.2.insert && !p.2.detach && p.2.syncbox)).map
          (fun p => Event.syncbox p.1))) ∧
      (syna_tcm_dispatch_report k s).helper_task =
        (if s.status_report_code = k.REPORT_IDENTIFY ∧
            k.IS_FW_MODE (s.id_info.getD k.id_mode 0) = true ∧ s.helper_task = HELP_NONE
          then HELP_TOUCH_REINIT else s.helper_task)) := by
  refine ⟨?_, fun ht => ?_, fun ht => ?_⟩
  · unfold syna_tcm_dispatch_report
    simp only [syna_tcm_hcd.log]
    repeat' split
    all_goals rfl
  · unfold syna_tcm_dispatch_report
    simp only [syna_tcm_hcd.log, ht, if_true]
    split
    · exact ⟨by simp, rfl⟩
    · exact ⟨by simp, rfl⟩
  · unfold syna_tcm_dispatch_report
    simp only [syna_tcm_hcd.log, dispatch_syncbox_eq, List.enum]
    rw [if_neg ht]
    by_cases hi : s.status_report_code = k.REPORT_IDENTIFY ∧
        k.IS_FW_MODE (s.id_info.getD k.id_mode 0) = true
    · by_cases hh : s.helper_task = HELP_NONE
      · rw [if_pos hi, if_pos hh, if_pos ⟨hi.1, hi.2, hh⟩, if_pos ⟨hi.1, hi.2, hh⟩]
        refine ⟨?_, rfl⟩
        simp only [List.append_assoc, List.singleton_append, List.cons_append, List.nil_append]
      · rw [if_pos hi, if_neg hh, if_neg (fun h => hh h.2.2), if_neg (fun h => hh h.2.2)]
        refine ⟨?_, rfl⟩
        simp only [List.append_assoc, List.singleton_append, List.cons_append, List.nil_append]
    · rw [if_neg hi, if_neg (fun h => hi ⟨h.1, h.2.1⟩), if_neg (fun h => hi ⟨h.1, h.2.1⟩)]
      refine ⟨?_, rfl⟩
      simp only [List.append_assoc, List.singleton_append, List.cons_append, List.nil_append]

theorem dispatch_report_contract_witness :
    (syna_tcm_dispatch_report tcm
      { probe_state tcm () with
        status_report_code := 0x12, payload_length := 2,
        inb := ⟨message 0x12 [7, 8] ++ [0, 0, 0], 0⟩,
        mod_pool := [⟨false, false, true⟩, ⟨true, false, true⟩, ⟨false, false, false⟩,
          ⟨false, true, true⟩, ⟨false, false, true⟩] }).trace =
      [Event.dispatch_report 0x12 [7, 8], Event.syncbox 0, Event.syncbox 4] ∧
    (syna_tcm_dispatch_report tcm
      { probe_state tcm () with
        status_report_code := tcm.REPORT_TOUCH, has_report_touch := true,
        mod_pool := [⟨false, false, true⟩] }).trace =
      [Event.dispatch_report tcm.REPORT_TOUCH [], Event.report_touch] := by
  constructor
  · rw [((dispatch_report_contract tcm _).2.2 (by decide)).1]
    decide
  · rw [((dispatch_report_contract tcm _).2.1 (by decide)).1]
    decide

/-! ## The predictive shortcut of `syna_tcm_read_message` -/

theorem buf_set_getD (b : List Nat) (i v : Nat) (b1 : List Nat) (h : buf_set b i v = some b1) :
    b1.length = b.length ∧ b1.getD i 0 = v ∧ ∀ j, j ≠ i → b1.getD j 0 = b.getD j 0 := by
  unfold buf_set at h
  split at h
  · rename_i hi
    simp only [Option.some.injEq] at h
    subst h
    refine ⟨List.length_set _ _ _, ?_, fun j hj => ?_⟩
    · rw [List.getD_eq_getElem?_getD, List.getElem?_set_self hi]
      rfl
    · rw [List.getD_eq_getElem?_getD, List.getD_eq_getElem?_getD,
        List.getElem?_set_ne (fun e => hj e.symm)]
  · simp at h

theorem total_length_eq (s : syna_tcm_hcd D) (hP : s.payload_length ≤ 65535) :
    add32 (add32 MESSAGE_HEADER_SIZE s.payload_length) 1 =
        MESSAGE_HEADER_SIZE + s.payload_length + 1 ∧
      sub32 (MESSAGE_HEADER_SIZE + s.payload_length + 1) 1 =
        MESSAGE_HEADER_SIZE + s.payload_length := by
  unfold MESSAGE_HEADER_SIZE
  have e1 : add32 4 s.payload_length = 4 + s.payload_length := add32_eq (by omega)
  rw [e1, add32_eq (by omega), sub32_eq (by omega) (by omega)]
  exact ⟨rfl, by omega⟩

/-- The padding synthesis of `syna_tcm_read_message` (line 906): with `total_length =
read_length + 1` the reassembly is the single store `in.buf[read_length] =
MESSAGE_PADDING`. -/
theorem read_message_reassemble_synthesis (k : tcm_defs) (env : Env D) (s : syna_tcm_hcd D)
    (hP : s.payload_length ≤ 65535)
    (h : MESSAGE_HEADER_SIZE + s.payload_length + 1 = s.read_length + 1) :
    read_message_reassemble k env s =
      (buf_set s.inb.buf s.read_length MESSAGE_PADDING).map (fun b =>
        receive_result.check_padding (MESSAGE_HEADER_SIZE + s.payload_length + 1)
          { s with inb := { s.inb with buf := b } }) := by
  obtain ⟨ht, ht1⟩ := total_length_eq s hP
  unfold read_message_reassemble
  simp only [ht, ht1]
  rw [if_neg (by omega), if_pos (by omega)]
  have e : MESSAGE_HEADER_SIZE + s.payload_length = s.read_length := by omega
  rw [e]
  cases buf_set s.inb.buf s.read_length MESSAGE_PADDING <;> rfl

/-- The continued read of `syna_tcm_read_message` (lines 916 to 927): with `total_length
> read_length + 1` the reassembly is `syna_tcm_continued_read` followed, when it does not
fail, by the four stores of the header. -/
theorem read_message_reassemble_continued (k : tcm_defs) (env : Env D) (s : syna_tcm_hcd D)
    (hP : s.payload_length ≤ 65535)
    (h : s.read_length + 1 < MESSAGE_HEADER_SIZE + s.payload_length + 1) :
    read_message_reassemble k env s =
      (syna_tcm_continued_read k env s).bind (fun c =>
        if c.1 < 0 then some (receive_result.exit c.1 c.2)
        else
          (buf_set c.2.inb.buf 0 MESSAGE_MARKER).bind (fun b0 =>
          (buf_set b0 1 c.2.status_report_code).bind (fun b1 =>
          (buf_set b1 2 (u8 c.2.payload_length)).bind (fun b2 =>
          (buf_set b2 3 (u8 (c.2.payload_length / 256))).bind (fun b3 =>
            some (receive_result.check_padding
              (MESSAGE_HEADER_SIZE + s.payload_length + 1)
              { c.2 with inb := { c.2.inb with buf := b3 } })))))) := by
  obtain ⟨ht, ht1⟩ := total_length_eq s hP
  unfold read_message_reassemble
  simp only [ht, ht1]
  rw [if_neg (by omega), if_neg (by omega)]
  rfl

/-- C24. The lines 898 to 927 of `syna_tcm_read_message`, reached after a header was
accepted and not short-circuited, with `total_length = MESSAGE_HEADER_SIZE +
payload_length + 1`. When `total_length ≤ read_length` the padding check is reached with
the state untouched: no byte of `in.buf` is modified and nothing is read. When
`total_length = read_length + 1` the only change is `in.buf[total_length - 1] =
MESSAGE_PADDING`: no bus read. `syna_tcm_continued_read` is called exactly in the
remaining case `total_length > read_length + 1`, and its result decides how the pass
goes on. -/
theorem reassemble_predictive_shortcut (k : tcm_defs) (env : Env D) (s : syna_tcm_hcd D)
    (hP : s.payload_length ≤ 65535) :
    (MESSAGE_HEADER_SIZE + s.payload_length + 1 ≤ s.read_length →
      read_message_reassemble k env s =
        some (receive_result.check_padding (MESSAGE_HEADER_SIZE + s.payload_length + 1) s)) ∧
    (MESSAGE_HEADER_SIZE + s.payload_length + 1 = s.read_length + 1 →
      read_message_reassemble k env s =
        (buf_set s.inb.buf s.read_length MESSAGE_PADDING).map (fun b =>
          receive_result.check_padding (MESSAGE_HEADER_SIZE + s.payload_length + 1)
            { s with inb := { s.inb with buf := b } }) ∧
      ∀ b, buf_set s.inb.buf s.read_length MESSAGE_PADDING = some b →
        b.length = s.inb.buf.length ∧ b.getD s.read_length 0 = MESSAGE_PADDING ∧
        ∀ j, j ≠ s.read_length → b.getD j 0 = s.inb.buf.getD j 0) ∧
    (s.read_length + 1 < MESSAGE_HEADER_SIZE + s.payload_length + 1 →
      read_message_reassemble k env s =
        (syna_tcm_continued_read k env s).bind (fun c =>
          if c.1 < 0 then some (receive_result.exit c.1 c.2)
          else
            (buf_set c.2.inb.buf 0 MESSAGE_MARKER).bind (fun b0 =>
            (buf_set b0 1 c.2.status_report_code).bind (fun b1 =>
            (buf_set b1 2 (u8 c.2.payload_length)).bind (fun b2 =>
            (buf_set b2 3 (u8 (c.2.payload_length / 256))).bind (fun b3 =>
              some (receive_result.check_padding
                (MESSAGE_HEADER_SIZE + s.payload_length + 1)
                { c.2 with inb := { c.2.inb with buf := b3 } }))))))) := by
  obtain ⟨ht, _⟩ := total_length_eq s hP
  refine ⟨fun h => ?_, fun h => ⟨read_message_reassemble_synthesis k env s hP h,
    fun b hb => buf_set_getD _ _ _ _ hb⟩, read_message_reassemble_continued k env s hP⟩
  unfold read_message_reassemble
  simp only [ht]
  rw [if_pos h]

theorem reassemble_predictive_shortcut_witness :
    read_message_reassemble tcm (msg_env tcm) (header_state (msg_env tcm) ok_payload_state) =
      some (receive_result.check_padding 10
        { header_state (msg_env tcm) ok_payload_state with
          inb := ⟨[165, 1, 5, 0, 1, 2, 3, 4, 5, MESSAGE_PADDING], 0⟩ }) := by
  rw [((reassemble_predictive_shortcut tcm (msg_env tcm)
    (header_state (msg_env tcm) ok_payload_state) (by decide)).2.1 (by decide)).1]
  decide

/-! ## The header written after a continued read -/

theorem take_four (l : List Nat) (h : 4 ≤ l.length) :
    l.take 4 = [l.getD 0 0, l.getD 1 0, l.getD 2 0, l.getD 3 0] := by
  rw [take_succ_getD l 3 (by omega), take_succ_getD l 2 (by omega),
    take_succ_getD l 1 (by omega), take_succ_getD l 0 (by omega)]
  rfl

/-- C25. When the reassembly of `syna_tcm_read_message` goes through a successful
continued read (`total_length > read_length + 1`) and reaches the padding check, the
first four bytes of `in.buf` are `[MESSAGE_MARKER, status_report_code, payload_length &
0xff, payload_length >> 8]` for the stored code and length, which are those of the
header that was parsed; so the header parse applied to the buffer again (`in.buf[1]` and
the little-endian number in `in.buf[2..3]`) yields the stored `status_report_code` and
`payload_length`. -/
theorem reassembled_header (k : tcm_defs) (env : Env D) (s : syna_tcm_hcd D)
    (total_length : Nat) (s1 : syna_tcm_hcd D) (hP : s.payload_length ≤ 65535)
    (hgt : s.read_length + 1 < MESSAGE_HEADER_SIZE + s.payload_length + 1)
    (h : read_message_reassemble k env s =
      some (receive_result.check_padding total_length s1)) :
    s1.status_report_code = s.status_report_code ∧ s1.payload_length = s.payload_length ∧
      s1.inb.buf.take 4 =
        [MESSAGE_MARKER, s1.status_report_code, s1.payload_length % 256,
          s1.payload_length / 256] ∧
      buf_get s1.inb.buf 0 = some MESSAGE_MARKER ∧
      buf_get s1.inb.buf 1 = some s1.status_report_code ∧
      le2_to_uint s1.inb.buf 2 = some s1.payload_length := by
  rw [read_message_reassemble_continued k env s hP hgt] at h
  obtain ⟨c, hc, h⟩ := Option.bind_eq_some.mp h
  obtain ⟨_, _, sp, sc, _, _⟩ := continued_read_same k env s c hc
  split at h
  · simp at h
  · obtain ⟨b0, h0, h⟩ := Option.bind_eq_some.mp h
    obtain ⟨b1, h1, h⟩ := Option.bind_eq_some.mp h
    obtain ⟨b2, h2, h⟩ := Option.bind_eq_some.mp h
    obtain ⟨b3, h3, h⟩ := Option.bind_eq_some.mp h
    simp only [Option.some.injEq, receive_result.check_padding.injEq] at h
    obtain ⟨_, hs⟩ := h
    subst hs
    obtain ⟨l0, g0, _⟩ := buf_set_getD _ _ _ _ h0
    obtain ⟨l1, g1, o1⟩ := buf_set_getD _ _ _ _ h1
    obtain ⟨l2, g2, o2⟩ := buf_set_getD _ _ _ _ h2
    obtain ⟨l3, g3, o3⟩ := buf_set_getD _ _ _ _ h3
    have hlen : 4 ≤ b3.length := by
      unfold buf_set at h3
      split at h3
      · omega
      · simp at h3
    have e0 : b3.getD 0 0 = MESSAGE_MARKER := by
      rw [o3 0 (by decide), o2 0 (by decide), o1 0 (by decide), g0]
    have e1 : b3.getD 1 0 = c.2.status_report_code := by
      rw [o3 1 (by decide), o2 1 (by decide), g1]
    have e2 : b3.getD 2 0 = c.2.payload_length % 256 := by
      rw [o3 2 (by decide), g2]
      rfl
    have e3 : b3.getD 3 0 = c.2.payload_length / 256 := by
      rw [g3]
      unfold u8
      exact Nat.mod_eq_of_lt (by omega)
    refine ⟨sc, sp, ?_, ?_, ?_, ?_⟩
    · show b3.take 4 = _
      rw [take_four b3 hlen, e0, e1, e2, e3]
    · show buf_get b3 0 = _
      rw [buf_get_eq _ _ (by omega), e0]
    · show buf_get b3 1 = _
      rw [buf_get_eq _ _ (by omega), e1]
    · show le2_to_uint b3 2 = _
      unfold le2_to_uint
      rw [if_pos (by omega), e2, e3]
      congr 1
      show c.2.payload_length % 256 + 256 * (c.2.payload_length / 256) = c.2.payload_length
      omega

theorem reassembled_header_witness :
    buf_get ((read_message_reassemble tcm (msg_env tcm)
        (header_state (msg_env tcm) (scenario_B_state [1, 2, 3, 4, 5, 6]))).get
          (by decide)).state.inb.buf 1 = some 0x10 ∧
      le2_to_uint ((read_message_reassemble tcm (msg_env tcm)
        (header_state (msg_env tcm) (scenario_B_state [1, 2, 3, 4, 5, 6]))).get
          (by decide)).state.inb.buf 2 = some 6 := by
  have hre : read_message_reassemble tcm (msg_env tcm)
      (header_state (msg_env tcm) (scenario_B_state [1, 2, 3, 4, 5, 6])) =
      some (receive_result.check_padding 11
        ((read_message_reassemble tcm (msg_env tcm)
          (header_state (msg_env tcm) (scenario_B_state [1, 2, 3, 4, 5, 6]))).get
            (by decide)).state) := by
    decide
  obtain ⟨a1, a2, _, _, a5, a6⟩ := reassembled_header tcm (msg_env tcm)
    (header_state (msg_env tcm) (scenario_B_state [1, 2, 3, 4, 5, 6])) 11 _ (by decide)
    (by decide) hre
  exact ⟨a5.trans (by rw [a1]; decide), a6.trans (by rw [a2]; decide)⟩

/-! ## The divisor of `ceil_div` -/

/-- The call `ceil_div(remaining_length, chunk_space)` of `syna_tcm_raw_write`: with a
zero divisor the function has no defined result. -/
theorem raw_write_zero_divisor (k : tcm_defs) (env : Env D) (s : syna_tcm_hcd D)
    (command : Nat) (data : Option (List Nat)) (length : Nat)
    (h : raw_write_chunk_space s.wr_chunk_size length = 0) :
    syna_tcm_raw_write k env s command data length = none := by
  unfold raw_write_chunk_space at h
  unfold syna_tcm_raw_write ceil_div
  simp only [h, if_true, Option.bind_eq_bind, Option.none_bind]

/-- The call `ceil_div(remaining_length, chunk_space)` of `syna_tcm_raw_read`: with a zero
divisor the function has no defined result. -/
theorem raw_read_zero_divisor (k : tcm_defs) (env : Env D) (s : syna_tcm_hcd D)
    (in_buf : List Nat) (length : Nat) (hl : 2 ≤ length)
    (h : raw_read_chunk_space s.rd_chunk_size length = 0) :
    syna_tcm_raw_read k env s in_buf length = none := by
  unfold raw_read_chunk_space at h
  unfold syna_tcm_raw_read ceil_div
  rw [if_neg (by omega)]
  simp only [h, if_true, Option.bind_eq_bind, Option.none_bind]

/-- The call `ceil_div(remaining_length, chunk_space)` of `syna_tcm_write_message`: with a
zero divisor the chunk phase has no defined result. -/
theorem write_message_zero_divisor (k : tcm_defs) (env : Env D) (s : syna_tcm_hcd D)
    (command : Nat) (payload : Option (List Nat)) (length : Nat) (rb : List Nat)
    (polling_delay_ms : Nat)
    (h : write_message_chunk_space k s.wr_chunk_size command length = 0) :
    write_message_send k env s command payload length rb polling_delay_ms = none := by
  unfold write_message_send write_message_chunks ceil_div
  simp only [h, if_true, Option.map_none', Option.bind_eq_bind, Option.none_bind]

/-- The divisor of `syna_tcm_continued_read` as `syna_tcm_read_message` calls it
(`total_length > read_length + 1`) with `rd_chunk_size` 0 or at least 3 is not zero. -/
theorem continued_read_divisor_reachable (s : syna_tcm_hcd D) (hP : s.payload_length ≤ 65535)
    (hgt : s.read_length + 1 < MESSAGE_HEADER_SIZE + s.payload_length + 1)
    (hrd : s.rd_chunk_size = 0 ∨ 3 ≤ s.rd_chunk_size) (hrd32 : s.rd_chunk_size < 4294967296) :
    continued_read_chunk_space s.rd_chunk_size
      (sub32 (add32 (add32 MESSAGE_HEADER_SIZE s.payload_length) 1) s.read_length) ≠ 0 := by
  unfold MESSAGE_HEADER_SIZE at hgt ⊢
  have e1 : add32 4 s.payload_length = 4 + s.payload_length := add32_eq (by omega)
  have e2 : add32 (4 + s.payload_length) 1 = 4 + s.payload_length + 1 := add32_eq (by omega)
  have e3 : sub32 (4 + s.payload_length + 1) s.read_length =
      4 + s.payload_length + 1 - s.read_length := sub32_eq (by omega) (by omega)
  rw [e1, e2, e3]
  unfold continued_read_chunk_space
  split
  · omega
  · rw [sub32_eq (by omega) hrd32]
    omega

/-- C28. When the divisor `chunk_space` passed to `ceil_div` is zero, for chunk sizes and
lengths that fit an `unsigned int`. In `syna_tcm_raw_write`: exactly when `wr_chunk_size
= 0` and `length = 0`, or `wr_chunk_size = 1`. In `syna_tcm_raw_read` (`length ≥ 2`):
exactly when `rd_chunk_size = 0` and `length = 2`, or `rd_chunk_size = 2`. In
`syna_tcm_continued_read`: exactly when `rd_chunk_size = 0` and `remaining_length = 0`, or
`rd_chunk_size = 2`. In `syna_tcm_write_message` (command other than
`CMD_ROMBOOT_DOWNLOAD`): exactly when `wr_chunk_size = 0` and `length + 2` wraps to 0
(`length = 0xfffffffe`), or `wr_chunk_size = 1`. So the divisor is zero for the unbounded raw write of no data and
for the unbounded raw read of two bytes. -/
theorem chunk_space_zero_iff (k : tcm_defs) (chunk_size length command : Nat)
    (hc : chunk_size < 4294967296) (hl : length < 4294967296) :
    (raw_write_chunk_space chunk_size length = 0 ↔
      (chunk_size = 0 ∧ length = 0) ∨ chunk_size = 1) ∧
    (2 ≤ length → (raw_read_chunk_space chunk_size length = 0 ↔
      (chunk_size = 0 ∧ length = 2) ∨ chunk_size = 2)) ∧
    (continued_read_chunk_space chunk_size length = 0 ↔
      (chunk_size = 0 ∧ length = 0) ∨ chunk_size = 2) ∧
    (command ≠ k.CMD_ROMBOOT_DOWNLOAD →
      (write_message_chunk_space k chunk_size command length = 0 ↔
        (chunk_size = 0 ∧ length = 4294967294) ∨ chunk_size = 1)) := by
  refine ⟨?_, fun h2 => ?_, ?_, fun hcmd => ?_⟩
  · unfold raw_write_chunk_space sub32
    split <;> omega
  · unfold raw_read_chunk_space sub32
    split <;> omega
  · unfold continued_read_chunk_space sub32
    split <;> omega
  · rw [chunk_space_of_ne k chunk_size command length hcmd]
    unfold add32 sub32
    split <;> omega

theorem chunk_space_zero_iff_witness :
    raw_read_chunk_space 0 2 = 0 ∧ write_message_chunk_space tcm 0 0x22 0 ≠ 0 := by
  obtain ⟨_, h2, _, h4⟩ := chunk_space_zero_iff tcm 0 2 0x22 (by decide) (by decide)
  obtain ⟨_, _, _, h4'⟩ := chunk_space_zero_iff tcm 0 0 0x22 (by decide) (by decide)
  refine ⟨(h2 (by decide)).mpr (Or.inl ⟨rfl, rfl⟩), fun h => ?_⟩
  rcases (h4' (by decide)).mp h with h | h
  · exact absurd h.2 (by decide)
  · exact absurd h (by decide)

/-! ## The command status on the reader path -/

theorem command_view_log (s : syna_tcm_hcd D) (e : Event)
    (h1 : ∀ v, e ≠ Event.set_command_status v) (h2 : e ≠ Event.complete) :
    command_view (s.log e) = command_view s := by
  unfold command_view syna_tcm_hcd.log
  simp only [status_sets_append, count_complete_append, if_neg h2, Nat.add_zero]
  cases e <;> first
    | exact absurd rfl (h1 _)
    | simp [status_sets]

theorem kmalloc_view (env : Env D) (s : syna_tcm_hcd D) (cap size : Nat) :
    command_view (kmalloc env s cap size).2 = command_view s := by
  unfold kmalloc
  split <;> rfl

theorem syna_tcm_read_view (env : Env D) (s : syna_tcm_hcd D) (dst : List Nat) (n : Nat)
    (r : Int × List Nat × syna_tcm_hcd D) (h : syna_tcm_read env s dst n = some r) :
    command_view r.2.2 = command_view s := by
  have hl := command_view_log s (Event.bus_read n) (fun _ => by simp) (by simp)
  unfold syna_tcm_read at h
  simp only [] at h
  repeat' split at h
  all_goals
    first
    | (simp only [Option.some.injEq] at h
       subst h
       exact hl)
    | simp at h

theorem continued_read_chunk_view (k : tcm_defs) (env : Env D)
    (chunk_space offset remaining_length : Nat) (s : syna_tcm_hcd D)
    (r : loop_exit × Int × syna_tcm_hcd D)
    (h : continued_read_chunk k env chunk_space offset remaining_length s = some r) :
    command_view r.2.2 = command_view s := by
  unfold continued_read_chunk at h
  simp only [] at h
  split at h
  · simp only [Option.bind_eq_bind, Option.bind_eq_some, Option.some.injEq] at h
    obtain ⟨b, _, h⟩ := h
    subst h
    rfl
  · have ka := kmalloc_view env s s.temp.buf_size
      (add32 (chunk_xfer_length remaining_length chunk_space) 2)
    generalize kmalloc env s s.temp.buf_size
      (add32 (chunk_xfer_length remaining_length chunk_space) 2) = a at h ka
    generalize syna_tcm_alloc_mem a.1 a.2.temp
      (add32 (chunk_xfer_length remaining_length chunk_space) 2) = m at h
    split at h
    · simp only [Option.some.injEq] at h
      subst h
      exact ka
    · simp only [Option.bind_eq_bind, Option.bind_eq_some] at h
      obtain ⟨rd, hrd, h⟩ := h
      have hb : command_view rd.2.2 = command_view s :=
        (syna_tcm_read_view env _ _ _ rd hrd).trans ka
      split at h
      · simp only [Option.some.injEq] at h
        subst h
        exact hb
      · simp only [Option.bind_eq_some] at h
        obtain ⟨mk, _, cd, _, h⟩ := h
        split at h
        · simp only [Option.some.injEq] at h
          subst h
          exact hb
        · split at h
          · simp only [Option.some.injEq] at h
            subst h
            exact hb
          · simp only [Option.bind_eq_some] at h
            obtain ⟨c, _, h⟩ := h
            split at h <;>
            · simp only [Option.some.injEq] at h
              subst h
              exact hb

theorem continued_read_loop_view (k : tcm_defs) (env : Env D) (chunk_space : Nat) :
    ∀ (n offset remaining_length : Nat) (s : syna_tcm_hcd D)
      (r : loop_exit × Int × syna_tcm_hcd D),
      continued_read_loop k env chunk_space n offset remaining_length s = some r →
      command_view r.2.2 = command_view s := by
  intro n
  induction n with
  | zero =>
    intro offset rem s r h
    simp only [continued_read_loop, Option.some.injEq] at h
    subst h
    rfl
  | succ n ih =>
    intro offset rem s r h
    simp only [continued_read_loop, Option.bind_eq_bind, Option.bind_eq_some] at h
    obtain ⟨c, hc, h⟩ := h
    have hs := continued_read_chunk_view k env chunk_space offset rem s c hc
    split at h
    · simp only [Option.some.injEq] at h
      subst h
      exact hs
    · exact (ih _ _ _ _ h).trans hs

theorem continued_read_view (k : tcm_defs) (env : Env D) (s : syna_tcm_hcd D)
    (r : Int × syna_tcm_hcd D) (h : syna_tcm_continued_read k env s = some r) :
    command_view r.2 = command_view s := by
  unfold syna_tcm_continued_read at h
  simp only [] at h
  have ka := kmalloc_view env s s.inb.buf_size
    (add32 (add32 (add32 MESSAGE_HEADER_SIZE s.payload_length) 1) 1)
  generalize kmalloc env s s.inb.buf_size
    (add32 (add32 (add32 MESSAGE_HEADER_SIZE s.payload_length) 1) 1) = a at h ka
  generalize syna_tcm_realloc_mem a.1 a.2.inb
    (add32 (add32 (add32 MESSAGE_HEADER_SIZE s.payload_length) 1) 1) = m at h
  split at h
  · simp only [Option.some.injEq] at h
    subst h
    exact ka
  · simp only [Option.bind_eq_bind, Option.bind_eq_some, Option.some.injEq] at h
    obtain ⟨chunks, _, lr, hl, h⟩ := h
    subst h
    exact (continued_read_loop_view k env _ _ _ _ _ lr hl).trans ka

theorem read_message_reassemble_view (k : tcm_defs) (env : Env D) (s : syna_tcm_hcd D)
    (r : receive_result D) (h : read_message_reassemble k env s = some r) :
    command_view r.state = command_view s := by
  unfold read_message_reassemble at h
  simp only [] at h
  split at h
  · simp only [Option.some.injEq] at h
    subst h
    rfl
  · split at h
    · simp only [Option.bind_eq_bind, Option.bind_eq_some, Option.some.injEq] at h
      obtain ⟨b, _, h⟩ := h
      subst h
      rfl
    · simp only [Option.bind_eq_bind, Option.bind_eq_some] at h
      obtain ⟨c, hc, h⟩ := h
      have hs := continued_read_view k env s c hc
      split at h
      · simp only [Option.some.injEq] at h
        subst h
        exact hs
      · simp only [Option.bind_eq_some, Option.some.injEq] at h
        obtain ⟨b0, _, b1, _, b2, _, b3, _, h⟩ := h
        subst h
        exact hs


theorem read_message_receive_view (k : tcm_defs) (env : Env D) (retry : Bool)
    (again : Bool → syna_tcm_hcd D → Option (receive_result D))
    (hagain : ∀ hd sa r, again hd sa = some r → command_view r.state = command_view sa)
    (held : Bool) (s : syna_tcm_hcd D) (r : receive_result D)
    (h : read_message_receive k env retry again held s = some r) :
    command_view r.state = command_view s := by
  unfold read_message_receive at h
  obtain ⟨_, _, h⟩ := Option.bind_eq_some.mp h
  obtain ⟨rd, hrd, h⟩ := Option.bind_eq_some.mp h
  have hb := syna_tcm_read_view env s s.inb.buf s.read_length rd hrd
  simp only [] at h
  have viaAgain : ∀ (hd : Bool) (sa : syna_tcm_hcd D), command_view sa = command_view s →
      again hd sa = some r → command_view r.state = command_view s :=
    fun hd sa e hsa => (hagain hd sa r hsa).trans e
  have viaRe : ∀ sa : syna_tcm_hcd D, command_view sa = command_view s →
      read_message_reassemble k env sa = some r → command_view r.state = command_view s :=
    fun sa e hsa => (read_message_reassemble_view k env sa r hsa).trans e
  have hlog : ∀ sa : syna_tcm_hcd D, command_view sa = command_view s →
      command_view (sa.log (Event.usleep_range READ_RETRY_US_MIN READ_RETRY_US_MAX)) =
        command_view s :=
    fun sa e => (command_view_log sa _ (fun _ => by simp) (by simp)).trans e
  split at h
  · split at h
    · refine viaAgain _ _ ?_ h
      exact hlog _ hb
    · simp only [Option.some.injEq] at h
      subst h
      exact hb
  · obtain ⟨marker, _, h⟩ := Option.bind_eq_some.mp h
    split at h
    · split at h
      · refine viaAgain _ _ ?_ h
        exact hlog _ hb
      · simp only [Option.some.injEq] at h
        subst h
        exact hb
    · obtain ⟨code, _, h⟩ := Option.bind_eq_some.mp h
      obtain ⟨len, _, h⟩ := Option.bind_eq_some.mp h
      repeat' split at h
      all_goals
        first
        | (refine viaRe _ ?_ h
           exact hb)
        | (refine viaAgain _ _ ?_ h
           exact hlog _ hb)
        | (simp only [Option.some.injEq] at h
           subst h
           exact hb)

theorem read_message_passes_view (k : tcm_defs) (env : Env D) (s : syna_tcm_hcd D)
    (r : receive_result D) (h : read_message_passes k env s = some r) :
    command_view r.state = command_view s := by
  unfold read_message_passes at h
  refine read_message_receive_view k env true _ ?_ false s r h
  intro hd sa r2 h2
  exact read_message_receive_view k env false _ (fun _ _ _ h3 => by simp at h3) hd sa r2 h2

theorem raw_read_chunk_view (k : tcm_defs) (env : Env D)
    (length chunk_space idx offset remaining_length : Nat) (in_buf : List Nat)
    (s : syna_tcm_hcd D) (r : loop_exit × Int × Nat × List Nat × syna_tcm_hcd D)
    (h : raw_read_chunk k env length chunk_space idx offset remaining_length in_buf s =
      some r) :
    command_view r.2.2.2.2 = command_view s := by
  unfold raw_read_chunk at h
  simp only [] at h
  split at h
  · simp only [Option.bind_eq_bind, Option.bind_eq_some, Option.some.injEq] at h
    obtain ⟨b, _, h⟩ := h
    subst h
    rfl
  · have ka := kmalloc_view env s s.temp.buf_size
      (add32 (chunk_xfer_length remaining_length chunk_space) 2)
    generalize kmalloc env s s.temp.buf_size
      (add32 (chunk_xfer_length remaining_length chunk_space) 2) = a at h ka
    generalize syna_tcm_alloc_mem a.1 a.2.temp
      (add32 (chunk_xfer_length remaining_length chunk_space) 2) = m at h
    split at h
    · simp only [Option.some.injEq] at h
      subst h
      exact ka
    · simp only [Option.bind_eq_bind, Option.bind_eq_some] at h
      obtain ⟨rd, hrd, h⟩ := h
      have hb : command_view rd.2.2 = command_view s :=
        (syna_tcm_read_view env _ _ _ rd hrd).trans ka
      split at h
      · simp only [Option.some.injEq] at h
        subst h
        exact hb
      · simp only [Option.bind_eq_some] at h
        obtain ⟨cd, _, h⟩ := h
        split at h
        · simp only [Option.some.injEq] at h
          subst h
          exact hb
        · split at h <;>
          · obtain ⟨c, _, h⟩ := Option.bind_eq_some.mp h
            split at h <;>
            · simp only [Option.some.injEq] at h
              subst h
              exact hb

theorem raw_read_loop_view (k : tcm_defs) (env : Env D) (length chunk_space : Nat) :
    ∀ (n idx offset remaining_length : Nat) (in_buf : List Nat) (s : syna_tcm_hcd D)
      (r : loop_exit × Int × List Nat × syna_tcm_hcd D),
      raw_read_loop k env length chunk_space n idx offset remaining_length in_buf s = some r →
      command_view r.2.2.2 = command_view s := by
  intro n
  induction n with
  | zero =>
    intro idx offset rem in_buf s r h
    simp only [raw_read_loop, Option.some.injEq] at h
    subst h
    rfl
  | succ n ih =>
    intro idx offset rem in_buf s r h
    simp only [raw_read_loop, Option.bind_eq_bind, Option.bind_eq_some] at h
    obtain ⟨c, hc, h⟩ := h
    have hs := raw_read_chunk_view k env length chunk_space idx offset rem in_buf s c hc
    split at h
    · simp only [Option.some.injEq] at h
      subst h
      exact hs
    · exact (ih _ _ _ _ _ _ h).trans hs

theorem raw_read_view (k : tcm_defs) (env : Env D) (s : syna_tcm_hcd D) (in_buf : List Nat)
    (length : Nat) (r : Int × List Nat × syna_tcm_hcd D)
    (h : syna_tcm_raw_read k env s in_buf length = some r) :
    command_view r.2.2 = command_view s := by
  unfold syna_tcm_raw_read at h
  split at h
  · simp only [Option.some.injEq] at h
    subst h
    rfl
  · simp only [Option.bind_eq_bind, Option.bind_eq_some, Option.some.injEq] at h
    obtain ⟨chunks, _, lr, hl, h⟩ := h
    subst h
    exact raw_read_loop_view k env _ _ _ _ _ _ _ _ lr hl

theorem command_step_trans {s s1 s2 : syna_tcm_hcd D}
    (h1 : command_view s1 = command_view s ∨ command_completed s s1)
    (h2 : command_view s2 = command_view s1 ∨ command_completed s1 s2) :
    command_view s2 = command_view s ∨ command_completed s s2 := by
  rcases h1 with h1 | h1
  · rcases h2 with h2 | h2
    · exact Or.inl (h2.trans h1)
    · right
      simp only [command_view, Prod.mk.injEq] at h1
      obtain ⟨a1, _, _, a4, a5, a6⟩ := h1
      obtain ⟨b1, b2, b3, b4, b5⟩ := h2
      exact ⟨by rw [← a1]; exact b1, b2, by rw [b3, a5], by rw [b4, a4], by rw [b5, a6]⟩
  · rcases h2 with h2 | h2
    · right
      simp only [command_view, Prod.mk.injEq] at h2
      obtain ⟨a1, _, _, a4, a5, a6⟩ := h2
      obtain ⟨b1, b2, b3, b4, b5⟩ := h1
      exact ⟨b1, by rw [a1]; exact b2, by rw [a5, a1, b3], by rw [a4, b4], by rw [a6, b5]⟩
    · obtain ⟨_, b2, _⟩ := h1
      obtain ⟨c1, _⟩ := h2
      rw [c1] at b2
      rcases b2 with b2 | b2 <;> exact absurd b2 (by decide)

theorem dispatch_syncbox_view (l : List syna_tcm_module_handler) :
    ∀ pos, status_sets (dispatch_syncbox l pos) = [] ∧
      (dispatch_syncbox l pos).count Event.complete = 0 := by
  induction l with
  | nil => intro pos; exact ⟨rfl, rfl⟩
  | cons h t ih =>
    intro pos
    simp only [dispatch_syncbox]
    split
    · simp [status_sets, ih]
    · exact ih _

theorem dispatch_report_view (k : tcm_defs) (s : syna_tcm_hcd D) :
    command_view (syna_tcm_dispatch_report k s) = command_view s := by
  obtain ⟨y1, y2⟩ := dispatch_syncbox_view s.mod_pool 0
  unfold syna_tcm_dispatch_report command_view
  simp only [syna_tcm_hcd.log]
  repeat' split
  all_goals
    simp [status_sets_append, status_sets, List.count_append, y1, y2]

theorem dispatch_response_step (env : Env D) (s s1 : syna_tcm_hcd D)
    (h : syna_tcm_dispatch_response env s = some s1) :
    command_view s1 = command_view s ∨ command_completed s s1 := by
  unfold syna_tcm_dispatch_response at h
  simp only [] at h
  have ka := kmalloc_view env
    { s.log Event.dispatch_response with
      response_code := (s.log Event.dispatch_response).status_report_code }
    ({ s.log Event.dispatch_response with
      response_code := (s.log Event.dispatch_response).status_report_code }).resp.buf_size
    (s.log Event.dispatch_response).payload_length
  generalize kmalloc env _ _ _ = a at h ka
  simp only [command_view, syna_tcm_hcd.log, Prod.mk.injEq] at ka
  obtain ⟨_, _, _, a4, a5, a6⟩ := ka
  simp only [status_sets_append, status_sets, List.append_nil, count_complete_append,
    List.count_append] at a5 a6
  have a6' : a.2.trace.count Event.complete = s.trace.count Event.complete := by
    simpa using a6
  split at h
  · rename_i hnb
    simp only [Option.some.injEq] at h
    subst h
    left
    exact command_view_log s _ (fun _ => by simp) (by simp)
  · rename_i hb
    have hbusy : s.command_status = CMD_BUSY := by
      simpa [syna_tcm_hcd.log] using hb
    right
    split at h
    · simp only [Option.some.injEq] at h
      subst h
      refine ⟨hbusy, Or.inl rfl, ?_, rfl, ?_⟩
      · simp [syna_tcm_hcd.log, syna_tcm_hcd.set_status, syna_tcm_hcd.complete,
          status_sets_append, status_sets]
      · simp [syna_tcm_hcd.log, syna_tcm_hcd.set_status, syna_tcm_hcd.complete,
          List.count_append]
    · split at h
      · simp only [Option.some.injEq] at h
        subst h
        refine ⟨hbusy, Or.inr rfl, ?_, ?_, ?_⟩
        · simp [syna_tcm_hcd.set_status, syna_tcm_hcd.complete, status_sets_append,
            status_sets, a5]
        · simp [syna_tcm_hcd.set_status, syna_tcm_hcd.complete, a4]
        · simp [syna_tcm_hcd.set_status, syna_tcm_hcd.complete, List.count_append, a6']
      · simp only [Option.bind_eq_bind, Option.bind_eq_some] at h
        obtain ⟨c, _, h⟩ := h
        split at h
        · simp only [Option.some.injEq] at h
          subst h
          refine ⟨hbusy, Or.inr rfl, ?_, ?_, ?_⟩
          · simp [syna_tcm_hcd.set_status, syna_tcm_hcd.complete, status_sets_append,
              status_sets, a5]
          · simp [syna_tcm_hcd.set_status, syna_tcm_hcd.complete, a4]
          · simp [syna_tcm_hcd.set_status, syna_tcm_hcd.complete, List.count_append, a6']
        · simp only [Option.some.injEq] at h
          subst h
          refine ⟨hbusy, Or.inl rfl, ?_, ?_, ?_⟩
          · simp [syna_tcm_hcd.set_status, syna_tcm_hcd.complete, status_sets_append,
              status_sets, a5]
          · simp [syna_tcm_hcd.set_status, syna_tcm_hcd.complete, a4]
          · simp [syna_tcm_hcd.set_status, syna_tcm_hcd.complete, List.count_append, a6']


theorem dispatch_identify_step (k : tcm_defs) (s : syna_tcm_hcd D) (r : Bool × syna_tcm_hcd D)
    (h : dispatch_identify k s = some r) :
    command_view r.2 = command_view s ∨ command_completed s r.2 := by
  unfold dispatch_identify at h
  simp only [Option.bind_eq_bind, Option.bind_eq_some] at h
  obtain ⟨c, _, h⟩ := h
  split at h
  · simp only [Option.some.injEq] at h
    subst h
    exact Or.inl rfl
  · simp only [Option.bind_eq_some] at h
    obtain ⟨pn, _, mws, _, h⟩ := h
    split at h
    · rename_i hbusy
      have hb : s.command_status = CMD_BUSY := hbusy
      right
      repeat' split at h
      all_goals
        simp only [Option.some.injEq] at h
        subst h
        first
        | (refine ⟨hb, Or.inl rfl, ?_, rfl, ?_⟩
           · simp [syna_tcm_hcd.set_status, syna_tcm_hcd.complete, status_sets_append,
               status_sets]
           · simp [syna_tcm_hcd.set_status, syna_tcm_hcd.complete, List.count_append])
        | (refine ⟨hb, Or.inr rfl, ?_, rfl, ?_⟩
           · simp [syna_tcm_hcd.set_status, syna_tcm_hcd.complete, status_sets_append,
               status_sets]
           · simp [syna_tcm_hcd.set_status, syna_tcm_hcd.complete, List.count_append])
    · left
      repeat' split at h
      all_goals
        simp only [Option.some.injEq] at h
        subst h
        simp [command_view, syna_tcm_hcd.log, status_sets_append, status_sets,
          List.count_append]

/-- The dispatch of a message either leaves the command in flight alone or completes
it. -/
theorem dispatch_message_step (k : tcm_defs) (env : Env D) (s s1 : syna_tcm_hcd D)
    (h : syna_tcm_dispatch_message k env s = some s1) :
    command_view s1 = command_view s ∨ command_completed s s1 := by
  unfold syna_tcm_dispatch_message at h
  have key : ∃ r : Bool × syna_tcm_hcd D,
      (command_view r.2 = command_view s ∨ command_completed s r.2) ∧
      (if r.1 = true then some r.2
        else if r.2.status_report_code ≥ k.REPORT_IDENTIFY then
          some (syna_tcm_dispatch_report k r.2)
        else syna_tcm_dispatch_response env r.2) = some s1 := by
    simp only [] at h
    split at h
    · simp only [Option.bind_eq_bind, Option.bind_eq_some] at h
      obtain ⟨r, hr, h⟩ := h
      exact ⟨r, dispatch_identify_step k s r hr, h⟩
    · simp only [Option.bind_eq_bind, Option.some_bind] at h
      exact ⟨(false, s), Or.inl rfl, h⟩
  clear h
  obtain ⟨r, hr2, h⟩ := key
  split at h
  · simp only [Option.some.injEq] at h
    subst h
    exact hr2
  · split at h
    · simp only [Option.some.injEq] at h
      subst h
      exact command_step_trans hr2 (Or.inl (dispatch_report_view k r.2))
    · exact command_step_trans hr2 (dispatch_response_step env r.2 s1 h)

theorem read_message_exit_step (retval : Int) (s : syna_tcm_hcd D) :
    command_view (read_message_exit retval s) = command_view s ∨
      command_completed s (read_message_exit retval s) := by
  unfold read_message_exit
  split
  · split
    · rename_i hb
      right
      refine ⟨hb, Or.inr rfl, ?_, rfl, ?_⟩
      · simp [syna_tcm_hcd.set_status, syna_tcm_hcd.complete, status_sets_append, status_sets]
      · simp [syna_tcm_hcd.set_status, syna_tcm_hcd.complete, List.count_append]
    · exact Or.inl rfl
  · exact Or.inl rfl

theorem read_message_check_padding_step (k : tcm_defs) (env : Env D) (total_length : Nat)
    (s : syna_tcm_hcd D) (e : Int × syna_tcm_hcd D)
    (h : read_message_check_padding k env total_length s = some e) :
    command_view e.2 = command_view s ∨ command_completed s e.2 := by
  unfold read_message_check_padding at h
  obtain ⟨last, _, h⟩ := Option.bind_eq_some.mp h
  split at h
  · simp only [Option.some.injEq] at h
    subst h
    exact Or.inl rfl
  · simp only [] at h
    split at h
    · obtain ⟨s2, hs2, h⟩ := Option.bind_eq_some.mp h
      simp only [Option.some.injEq] at h
      subst h
      have := dispatch_message_step k env _ s2 hs2
      exact command_step_trans (Or.inl rfl) this
    · obtain ⟨s2, hs2, h⟩ := Option.bind_eq_some.mp h
      simp only [Option.some.injEq] at h hs2
      subst h hs2
      exact Or.inl rfl

/-- C26. The reader path and the command in flight. Every call of
`syna_tcm_read_message`, of `syna_tcm_dispatch_message` and of
`syna_tcm_dispatch_response` either leaves `command_status`, `response_code`, the
response slot and the completion as they are, with no assignment of `command_status` and
no `complete()`, or makes the one transition from `CMD_BUSY` to `CMD_IDLE` or `CMD_ERROR`,
by a single assignment, with the completion signalled exactly once. So with
`command_status` other than `CMD_BUSY` nothing of the command changes. `CMD_BUSY` is
assigned by `syna_tcm_write_message` when the command is issued, and never on the reader
path. -/
theorem reader_command_status (k : tcm_defs) (env : Env D) (s : syna_tcm_hcd D) :
    (∀ in_buf length r, syna_tcm_read_message k env s in_buf length = some r →
      command_view r.2.1 = command_view s ∨ command_completed s r.2.1) ∧
    (∀ s1, syna_tcm_dispatch_message k env s = some s1 →
      command_view s1 = command_view s ∨ command_completed s s1) ∧
    (∀ s1, syna_tcm_dispatch_response env s = some s1 →
      command_view s1 = command_view s ∨ command_completed s s1) ∧
    (∀ s1, s.command_status ≠ CMD_BUSY → command_completed s s1 → False) ∧
    (∀ command rb d,
      status_sets (write_message_begin s command rb d).trace =
        status_sets s.trace ++ [CMD_BUSY]) := by
  refine ⟨fun in_buf length r h => ?_, fun s1 h => dispatch_message_step k env s s1 h,
    fun s1 h => dispatch_response_step env s s1 h, fun s1 hn hc => hn hc.1,
    fun command rb d => (write_message_begin_trace s command rb d).1⟩
  cases hp : s.pwr_off
  · cases in_buf with
    | none =>
      rw [read_message_eq k env s length hp] at h
      obtain ⟨rr, hrr, h⟩ := Option.bind_eq_some.mp h
      obtain ⟨e, he, h⟩ := Option.bind_eq_some.mp h
      simp only [Option.some.injEq] at h
      subst h
      have hv := read_message_passes_view k env s rr hrr
      refine command_step_trans ?_ (read_message_exit_step _ _)
      cases rr with
      | exit retval s1 =>
        simp only [Option.some.injEq] at he
        subst he
        exact Or.inl hv
      | check_padding t s1 =>
        exact command_step_trans (Or.inl hv) (read_message_check_padding_step k env t s1 e he)
    | some b =>
      unfold syna_tcm_read_message at h
      simp only [hp, Bool.false_eq_true, if_false] at h
      obtain ⟨rr, hrr, h⟩ := Option.bind_eq_some.mp h
      simp only [Option.some.injEq] at h
      subst h
      exact command_step_trans (Or.inl (raw_read_view k env s _ _ rr hrr))
        (read_message_exit_step _ _)
  · unfold syna_tcm_read_message at h
    simp only [hp, if_true, Option.some.injEq] at h
    subst h
    exact Or.inl rfl

theorem reader_command_status_witness :
    (command_completed bad_padding_state
        ((syna_tcm_read_message tcm (msg_env tcm) bad_padding_state none 0).get
          (by decide)).2.1 ∧
      ((syna_tcm_read_message tcm (msg_env tcm) bad_padding_state none 0).get
        (by decide)).2.1.command_status = CMD_ERROR) ∧
    command_view ((syna_tcm_read_message tcm (msg_env tcm) ok_payload_state none 0).get
      (by decide)).2.1 = command_view ok_payload_state := by
  have h1 := (reader_command_status tcm (msg_env tcm) bad_padding_state).1 none 0 _
    (Option.some_get (by decide)).symm
  have h2 := (reader_command_status tcm (msg_env tcm) ok_payload_state).1 none 0 _
    (Option.some_get (by decide)).symm
  have n2 := (reader_command_status tcm (msg_env tcm) ok_payload_state).2.2.2.1
  refine ⟨⟨?_, by decide⟩, ?_⟩
  · rcases h1 with h1 | h1
    · exact absurd (congrArg (fun v => v.1) h1) (by decide)
    · exact h1
  · rcases h2 with h2 | h2
    · exact h2
    · exact absurd h2 (n2 _ (by decide))

/-! ## The capacity of the inbound buffer -/

/-- The padding synthesis of `syna_tcm_read_message` (`total_length = read_length + 1`)
writes `in.buf[read_length]`: when the capacity of `in.buf` is not above `read_length`
the write is outside the buffer. -/
theorem padding_synthesis_past_capacity (k : tcm_defs) (env : Env D) (s : syna_tcm_hcd D)
    (hP : s.payload_length ≤ 65535)
    (ht : MESSAGE_HEADER_SIZE + s.payload_length + 1 = s.read_length + 1)
    (hcap : s.inb.buf_size ≤ s.read_length) :
    read_message_reassemble k env s = none := by
  rw [read_message_reassemble_synthesis k env s hP ht]
  unfold buf_set
  rw [if_neg (by unfold syna_tcm_buffer.buf_size at hcap; omega)]
  rfl

theorem syna_tcm_read_length (env : Env D) (s : syna_tcm_hcd D) (dst : List Nat) (n : Nat)
    (r : Int × List Nat × syna_tcm_hcd D) (h : syna_tcm_read env s dst n = some r) :
    r.2.1.length = dst.length := by
  unfold syna_tcm_read at h
  simp only [] at h
  split at h
  · simp only [Option.some.injEq] at h
    subst h
    rfl
  · split at h
    · rename_i hn
      simp only [Option.some.injEq] at h
      subst h
      simp only [List.length_append, fill_length, List.length_drop]
      omega
    · simp at h

theorem continued_read_capacity (k : tcm_defs) (env : Env D) (s : syna_tcm_hcd D)
    (ha : ∀ i n, env.kmalloc_ok i n = true) (r : Int × syna_tcm_hcd D)
    (h : syna_tcm_continued_read k env s = some r) :
    s.inb.buf.length ≤ r.2.inb.buf.length := by
  cases hc : ceil_div
      (sub32 (add32 (add32 MESSAGE_HEADER_SIZE s.payload_length) 1) s.read_length)
      (if s.rd_chunk_size = 0 then
        sub32 (add32 (add32 MESSAGE_HEADER_SIZE s.payload_length) 1) s.read_length
      else sub32 s.rd_chunk_size 2) with
  | none =>
    obtain ⟨_, kr, kl⟩ := kmalloc_completion env s s.inb.buf_size
      (add32 (add32 (add32 MESSAGE_HEADER_SIZE s.payload_length) 1) 1)
    have kok := kmalloc_ok_of env ha s s.inb.buf_size
      (add32 (add32 (add32 MESSAGE_HEADER_SIZE s.payload_length) 1) 1)
    unfold syna_tcm_continued_read at h
    simp only [] at h
    generalize kmalloc env s s.inb.buf_size
      (add32 (add32 (add32 MESSAGE_HEADER_SIZE s.payload_length) 1) 1) = a at h kr kl kok
    rw [kok, realloc_mem_ok] at h
    simp only [lt_self_iff_false, if_false, kr, kl, hc, Option.bind_eq_bind,
      Option.none_bind] at h
    simp at h
  | some c =>
    rw [continued_read_eq k env s ha _ _ c rfl rfl hc] at h
    obtain ⟨lr, hl, h⟩ := Option.bind_eq_some.mp h
    simp only [Option.some.injEq] at h
    subst h
    obtain ⟨_, _, _, hlen⟩ := continued_read_loop_path k env _ _ _ _ _ lr.1 lr.2.1 lr.2.2 hl
    rw [hlen]
    obtain ⟨_, ki, _⟩ := kmalloc_fields env s s.inb.buf_size
      (add32 (add32 (add32 MESSAGE_HEADER_SIZE s.payload_length) 1) 1)
    have kok := kmalloc_ok_of env ha s s.inb.buf_size
      (add32 (add32 (add32 MESSAGE_HEADER_SIZE s.payload_length) 1) 1)
    unfold continued_read_entry
    simp only []
    generalize kmalloc env s s.inb.buf_size
      (add32 (add32 (add32 MESSAGE_HEADER_SIZE s.payload_length) 1) 1) = a at ki kok
    rw [kok, realloc_mem_ok, ki]
    simp only [List.length_append]
    omega

theorem read_message_reassemble_capacity (k : tcm_defs) (env : Env D) (s : syna_tcm_hcd D)
    (ha : ∀ i n, env.kmalloc_ok i n = true) (r : receive_result D)
    (h : read_message_reassemble k env s = some r) :
    s.inb.buf.length ≤ r.state.inb.buf.length := by
  unfold read_message_reassemble at h
  simp only [] at h
  split at h
  · simp only [Option.some.injEq] at h
    subst h
    exact Nat.le_refl _
  · split at h
    · obtain ⟨b, hb, h⟩ := Option.bind_eq_some.mp h
      simp only [Option.some.injEq] at h
      subst h
      exact Nat.le_of_eq (buf_set_length _ _ _ _ hb).symm
    · obtain ⟨c, hc, h⟩ := Option.bind_eq_some.mp h
      have hs := continued_read_capacity k env s ha c hc
      split at h
      · simp only [Option.some.injEq] at h
        subst h
        exact hs
      · obtain ⟨b0, h0, h⟩ := Option.bind_eq_some.mp h
        obtain ⟨b1, h1, h⟩ := Option.bind_eq_some.mp h
        obtain ⟨b2, h2, h⟩ := Option.bind_eq_some.mp h
        obtain ⟨b3, h3, h⟩ := Option.bind_eq_some.mp h
        simp only [Option.some.injEq] at h
        subst h
        show s.inb.buf.length ≤ b3.length
        rw [buf_set_length _ _ _ _ h3, buf_set_length _ _ _ _ h2, buf_set_length _ _ _ _ h1,
          buf_set_length _ _ _ _ h0]
        exact hs

theorem read_message_receive_capacity (k : tcm_defs) (env : Env D)
    (ha : ∀ i n, env.kmalloc_ok i n = true) (retry : Bool)
    (again : Bool → syna_tcm_hcd D → Option (receive_result D))
    (hagain : ∀ hd sa r, again hd sa = some r → sa.inb.buf.length ≤ r.state.inb.buf.length)
    (held : Bool) (s : syna_tcm_hcd D) (r : receive_result D)
    (h : read_message_receive k env retry again held s = some r) :
    s.inb.buf.length ≤ r.state.inb.buf.length := by
  unfold read_message_receive at h
  obtain ⟨_, _, h⟩ := Option.bind_eq_some.mp h
  obtain ⟨rd, hrd, h⟩ := Option.bind_eq_some.mp h
  have hb : rd.2.1.length = s.inb.buf.length :=
    syna_tcm_read_length env s s.inb.buf s.read_length rd hrd
  simp only [] at h
  have viaAgain : ∀ (hd : Bool) (sa : syna_tcm_hcd D), sa.inb.buf.length = s.inb.buf.length →
      again hd sa = some r → s.inb.buf.length ≤ r.state.inb.buf.length :=
    fun hd sa e hsa => e ▸ hagain hd sa r hsa
  have viaRe : ∀ sa : syna_tcm_hcd D, sa.inb.buf.length = s.inb.buf.length →
      read_message_reassemble k env sa = some r →
      s.inb.buf.length ≤ r.state.inb.buf.length :=
    fun sa e hsa => e ▸ read_message_reassemble_capacity k env sa ha r hsa
  split at h
  · split at h
    · refine viaAgain _ _ ?_ h
      exact hb
    · simp only [Option.some.injEq] at h
      subst h
      exact Nat.le_of_eq hb.symm
  · obtain ⟨marker, _, h⟩ := Option.bind_eq_some.mp h
    split at h
    · split at h
      · refine viaAgain _ _ ?_ h
        exact hb
      · simp only [Option.some.injEq] at h
        subst h
        exact Nat.le_of_eq hb.symm
    · obtain ⟨code, _, h⟩ := Option.bind_eq_some.mp h
      obtain ⟨len, _, h⟩ := Option.bind_eq_some.mp h
      repeat' split at h
      all_goals
        first
        | (refine viaRe _ ?_ h
           exact hb)
        | (refine viaAgain _ _ ?_ h
           exact hb)
        | (simp only [Option.some.injEq] at h
           subst h
           exact Nat.le_of_eq hb.symm)

/-- The part of C23 that holds: with an allocator that does not fail, a call of
`syna_tcm_read_message` in message mode never decreases the capacity of `in.buf`. -/
theorem read_message_capacity (k : tcm_defs) (env : Env D) (s : syna_tcm_hcd D)
    (ha : ∀ i n, env.kmalloc_ok i n = true) (length : Nat)
    (r : Int × syna_tcm_hcd D × Option (List Nat))
    (h : syna_tcm_read_message k env s none length = some r) :
    s.inb.buf_size ≤ r.2.1.inb.buf_size := by
  unfold syna_tcm_buffer.buf_size
  cases hp : s.pwr_off
  · rw [read_message_eq k env s length hp] at h
    obtain ⟨rr, hrr, h⟩ := Option.bind_eq_some.mp h
    obtain ⟨e, he, h⟩ := Option.bind_eq_some.mp h
    simp only [Option.some.injEq] at h
    subst h
    have hv : s.inb.buf.length ≤ rr.state.inb.buf.length := by
      unfold read_message_passes at hrr
      refine read_message_receive_capacity k env ha true _ ?_ false s rr hrr
      intro hd sa r2 h2
      exact read_message_receive_capacity k env ha false _ (fun _ _ _ h3 => by simp at h3) hd
        sa r2 h2
    rw [(read_message_exit_dispatches e.1 e.2).2.2.2]
    cases rr with
    | exit retval s1 =>
      simp only [Option.some.injEq] at he
      subst he
      exact hv
    | check_padding t s1 =>
      unfold read_message_check_padding at he
      obtain ⟨last, _, he⟩ := Option.bind_eq_some.mp he
      split at he
      · simp only [Option.some.injEq] at he
        subst he
        exact hv
      · simp only [] at he
        split at he
        · obtain ⟨s2, hs2, he⟩ := Option.bind_eq_some.mp he
          simp only [Option.some.injEq] at he
          subst he
          rw [(dispatch_message_same k env _ s2 hs2).2]
          exact hv
        · obtain ⟨s2, hs2, he⟩ := Option.bind_eq_some.mp he
          simp only [Option.some.injEq] at he hs2
          subst he hs2
          exact hv
  · unfold syna_tcm_read_message at h
    simp only [hp, if_true, Option.some.injEq] at h
    subst h
    exact Nat.le_refl _

/-- A first read of `syna_tcm_read_message` that succeeds with a valid marker and a code
that is not short-circuited: the pass goes on to the reassembly with the parsed header. -/
theorem read_message_passes_header (k : tcm_defs) (env : Env D) (s : syna_tcm_hcd D)
    (h0 : 0 ≤ (env.bus_read s.dev s.read_length).1)
    (h4 : 4 ≤ s.read_length) (hn : s.read_length ≤ s.inb.buf_size)
    (hm : (env.bus_read s.dev s.read_length).2.1.getD 0 0 = MESSAGE_MARKER)
    (hcode : (env.bus_read s.dev s.read_length).2.1.getD 1 0 ≠ k.STATUS_CONTINUED_READ ∧
      (env.bus_read s.dev s.read_length).2.1.getD 1 0 ≠ k.STATUS_IDLE ∧
      (env.bus_read s.dev s.read_length).2.1.getD 1 0 ≠ k.STATUS_BUSY ∧
      (env.bus_read s.dev s.read_length).2.1.getD 1 0 ≠ k.STATUS_INVALID) :
    read_message_passes k env s = read_message_reassemble k env (header_state env s) := by
  obtain ⟨c1, c2, c3, c4⟩ := hcode
  obtain ⟨_, _, _, _, f5, _⟩ := header_state_fields env s
  have pass1 := read_message_receive_header k env true
    (read_message_receive k env false (fun _ _ => none)) s h0 h4 hn hm
  rw [f5] at pass1
  unfold read_message_passes
  rw [pass1]
  by_cases hA : (env.bus_read s.dev s.read_length).2.1.getD 1 0 ≤ k.STATUS_ERROR ∨
      (env.bus_read s.dev s.read_length).2.1.getD 1 0 = k.STATUS_INVALID
  · rw [if_pos hA]
    by_cases hok : (env.bus_read s.dev s.read_length).2.1.getD 1 0 = k.STATUS_OK
    · rw [if_pos hok]
    · rw [if_neg hok, if_neg (by rintro (h | h | h); exacts [c1 h, c2 h, c3 h]), if_neg c4]
  · rw [if_neg hA]

/-- C23. The inbound buffer index that the padding synthesis touches is not always below
the capacity. When `read_length` has reached the capacity of `in.buf` (the read-length
update after a message does not reallocate) and the next message has `total_length =
read_length + 1`, that is a header announcing `read_length - 4` payload bytes, the first
read fills the whole buffer and the shortcut stores `MESSAGE_PADDING` at
`in.buf[total_length - 1] = in.buf[read_length]`, one byte past the capacity: the call
has no defined result. -/
theorem inbound_write_past_capacity (k : tcm_defs) (env : Env D) (s : syna_tcm_hcd D)
    (length : Nat) (hp : s.pwr_off = false)
    (h0 : 0 ≤ (env.bus_read s.dev s.read_length).1)
    (h4 : 4 ≤ s.read_length) (hcap : s.inb.buf_size = s.read_length)
    (hm : (env.bus_read s.dev s.read_length).2.1.getD 0 0 = MESSAGE_MARKER)
    (hcode : (env.bus_read s.dev s.read_length).2.1.getD 1 0 ≠ k.STATUS_CONTINUED_READ ∧
      (env.bus_read s.dev s.read_length).2.1.getD 1 0 ≠ k.STATUS_IDLE ∧
      (env.bus_read s.dev s.read_length).2.1.getD 1 0 ≠ k.STATUS_BUSY ∧
      (env.bus_read s.dev s.read_length).2.1.getD 1 0 ≠ k.STATUS_INVALID)
    (hP : (header_state env s).payload_length ≤ 65535)
    (ht : MESSAGE_HEADER_SIZE + (header_state env s).payload_length + 1 = s.read_length + 1) :
    (header_state env s).inb.buf_size = s.inb.buf_size ∧
      buf_set (header_state env s).inb.buf
        (MESSAGE_HEADER_SIZE + (header_state env s).payload_length + 1 - 1)
        MESSAGE_PADDING = none ∧
      syna_tcm_read_message k env s none length = none := by
  obtain ⟨_, f2, f3, _, _, _⟩ := header_state_fields env s
  have hlen : (header_state env s).inb.buf.length = s.inb.buf.length := by
    rw [f3]
    exact first_read_length env s (Nat.le_of_eq hcap.symm)
  have hcap2 : (header_state env s).inb.buf_size ≤ (header_state env s).read_length := by
    unfold syna_tcm_buffer.buf_size at hcap ⊢
    rw [hlen, f2, hcap]
  refine ⟨hlen, ?_, ?_⟩
  · unfold buf_set
    rw [if_neg]
    unfold syna_tcm_buffer.buf_size at hcap
    rw [hlen, hcap, ht]
    omega
  · rw [read_message_eq k env s length hp,
      read_message_passes_header k env s h0 h4 (Nat.le_of_eq hcap.symm) hm hcode,
      padding_synthesis_past_capacity k env (header_state env s) hP (by rw [f2]; exact ht)
        hcap2]
    rfl

theorem inbound_write_past_capacity_witness :
    (probe_state tcm 0).read_length = 9 ∧ (probe_state tcm 0).inb.buf_size = 10 ∧
    (syna_tcm_read_message tcm two_report_env (probe_state tcm 0) none 0).map
        (fun r => (r.1, r.2.1.read_length, r.2.1.inb.buf_size, r.2.1.payload_length)) =
      some (0, 10, 10, 5) ∧
    syna_tcm_read_message tcm two_report_env
      ((syna_tcm_read_message tcm two_report_env (probe_state tcm 0) none 0).get
        (by decide)).2.1 none 0 = none :=
  ⟨by decide, by decide, by decide,
    (inbound_write_past_capacity tcm two_report_env
      ((syna_tcm_read_message tcm two_report_env (probe_state tcm 0) none 0).get
        (by decide)).2.1 0 (by decide) (by decide) (by decide) (by decide) (by decide)
      (by decide) (by decide) (by decide)).2.2⟩

end SynaTcm
